import Mathlib

/-! Real-time averaging (`RtAve`, rtave.cpp): a shallow embedding.

The worker loop of `RtAve::run`, stimulus detection, the sliding history of
raw buffers and the two epoch assemblers `assemblePreStimulus` /
`assemblePostStimulus` are rendered as Lean functions.

Conventions of the embedding
* `double` samples are exact rationals (no rounding, no NaN).
* `qint32` / `quint32` quantities are `Int` / `Nat`. The two 32-bit operations
  that decide what the worker does with a block keep their machine semantics:
  the window test of `run` is `unsigned` arithmetic, computed modulo `2^32`
  (`wrap32`, `windowReady`), and `cast<int>()` yields a 32-bit `int`
  (`castInt`). The `qint32` counters of the assemblers range between minus a
  block width and the epoch length; they are `Int` without reduction, which is
  their value for epoch lengths and block widths below `2^31`.
* A failed `Q_ASSERT` of `QList::operator[]` and a failed `eigen_assert` of a
  block, row or reduction are faults (`Fault`); a fault stops the worker.
* For the worker loop the blocking buffer is abstracted by the list of blocks
  that `pop()` returns. For `append` and `stop` the buffer itself is modelled:
  `CircularMatrixBuffer` is declared outside these sources, its operations
  follow the contract of the ingestion buffer in the specification.
* `junk` stands for the content of storage that Eigen leaves uninitialised.
* Three observers are added to the program state and never read by it: the
  trace of confirmed events, the list of emitted signals, and, in every epoch
  vector, the list of all matrices appended to it.
-/

namespace RTINVLIB

/-! ## The embedding of rtave.cpp -/

/-- Faults that stop the worker: an index outside a `QList`, a violated Eigen
precondition, or an exhausted iteration budget of a loop model. -/
inductive Fault where
  | listIndex
  | eigenAssert
  | fuel
  deriving DecidableEq, Repr

/-- Dense matrix of samples (`Eigen::MatrixXd`): dimensions and coefficients.
Coefficients outside the dimensions are never inspected. -/
structure MatrixXd where
  rows : Nat
  cols : Nat
  coeff : Nat → Nat → ℚ

/-- Storage of a freshly constructed `MatrixXd(rows, cols)`: Eigen does not
initialise it, so its content is whatever `junk` happens to be. -/
def MatrixXd.uninit (rows cols : Nat) (junk : Nat → Nat → ℚ) : MatrixXd :=
  { rows := rows, cols := cols, coeff := junk }

/-- Block assignment `dst.block(0, dstCol, nrows, width) = src.block(0, srcCol, nrows, width)`.
Both blocks must lie inside their matrices, otherwise Eigen asserts. -/
def MatrixXd.assignBlock (dst : MatrixXd) (dstCol : Int) (nrows : Nat) (width : Int)
    (src : MatrixXd) (srcCol : Int) : Except Fault MatrixXd :=
  if 0 ≤ dstCol ∧ 0 ≤ width ∧ 0 ≤ srcCol ∧ dstCol + width ≤ dst.cols ∧ nrows ≤ dst.rows
      ∧ srcCol + width ≤ src.cols ∧ nrows ≤ src.rows then
    .ok { dst with
          coeff := fun r c =>
            if r < nrows ∧ dstCol.toNat ≤ c ∧ c < dstCol.toNat + width.toNat then
              src.coeff r (srcCol.toNat + (c - dstCol.toNat))
            else dst.coeff r c }
  else .error .eigenAssert

/-- Scan of Eigen's max visitor over entries `0..last` of a row: the running
best position is replaced only by a strictly greater value. -/
def maxVisitor (row : Nat → ℚ) : Nat → Nat
  | 0 => 0
  | i + 1 => if row (maxVisitor row i) < row (i + 1) then i + 1 else maxVisitor row i

/-- Position written by `m.row(rowIdx).maxCoeff(&pos)`. -/
def MatrixXd.rowMaxPos (m : MatrixXd) (rowIdx : Nat) : Except Fault Nat :=
  if rowIdx < m.rows ∧ 0 < m.cols then .ok (maxVisitor (m.coeff rowIdx) (m.cols - 1))
  else .error .eigenAssert

/-- An element of the history: the stimuli detected in a raw buffer and the
buffer itself (`QPair<QList<qint32>, MatrixXd>`). -/
abbrev RawMatBuf := List Nat × MatrixXd

/-- Indexing `list[i]` of a `QList` with a signed index. -/
def qAt {α : Type} (l : List α) (i : Int) : Except Fault α :=
  if 0 ≤ i then
    match l[i.toNat]? with
    | some x => .ok x
    | none => .error .listIndex
  else .error .listIndex

/-- A destination column range written by one block assignment: first column
and number of columns. -/
structure ColRange where
  start : Int
  width : Int
  deriving DecidableEq, Repr

/-- The `while(nSampleCount < m_iPostStimSamples)` loop of
`assemblePostStimulus`, with the ranges written so far. -/
def postStimLoop (post : Nat) (nrows ncols : Nat) (hist : List RawMatBuf) :
    Nat → Int → Int → MatrixXd → List ColRange → Except Fault (MatrixXd × List ColRange)
  | 0, _, _, _, _ => .error .fuel
  | fuel + 1, nSampleCount, t_curBufIdx, mat, written =>
    if nSampleCount < post then
      let t_iSize : Int := post - nSampleCount
      if (ncols : Int) ≤ t_iSize then
        match qAt hist t_curBufIdx with
        | .error e => .error e
        | .ok buf =>
          match mat.assignBlock nSampleCount nrows ncols buf.2 0 with
          | .error e => .error e
          | .ok mat1 =>
            postStimLoop post nrows ncols hist fuel (nSampleCount + ncols) (t_curBufIdx + 1) mat1
              (written ++ [⟨nSampleCount, ncols⟩])
      else
        match qAt hist t_curBufIdx with
        | .error e => .error e
        | .ok buf =>
          match mat.assignBlock nSampleCount nrows t_iSize buf.2 0 with
          | .error e => .error e
          | .ok mat1 =>
            postStimLoop post nrows ncols hist fuel post (t_curBufIdx + 1) mat1
              (written ++ [⟨nSampleCount, t_iSize⟩])
    else .ok (mat, written)

/-- Body of `assemblePostStimulus` up to the store: the post-stimulus matrix
and the destination ranges written, in order. -/
def postStimMatrix (post : Nat) (stimChannelIdcs : List Nat) (junk : Nat → Nat → ℚ)
    (p_qListRawMatBuf : List RawMatBuf) (p_iStimIdx : Nat) :
    Except Fault (MatrixXd × List ColRange) :=
  let t_iMidIdx : Nat := p_qListRawMatBuf.length / 2
  match qAt p_qListRawMatBuf t_iMidIdx with
  | .error e => .error e
  | .ok mid =>
    let nrows := mid.2.rows
    let ncols := mid.2.cols
    match qAt stimChannelIdcs p_iStimIdx with
    | .error e => .error e
    | .ok t_iRowIdx =>
      let t_matPostStim := MatrixXd.uninit nrows post junk
      match mid.2.rowMaxPos t_iRowIdx with
      | .error e => .error e
      | .ok pos =>
        if 0 < pos then
          let t_iSize : Int := (ncols : Int) - pos
          if t_iSize ≤ post then
            match t_matPostStim.assignBlock 0 nrows t_iSize mid.2 pos with
            | .error e => .error e
            | .ok mat1 =>
              postStimLoop post nrows ncols p_qListRawMatBuf (p_qListRawMatBuf.length + 1)
                t_iSize (t_iMidIdx + 1) mat1 [⟨0, t_iSize⟩]
          else
            match t_matPostStim.assignBlock 0 nrows post mid.2 pos with
            | .error e => .error e
            | .ok mat1 =>
              postStimLoop post nrows ncols p_qListRawMatBuf (p_qListRawMatBuf.length + 1)
                post (t_iMidIdx + 1) mat1 [⟨0, post⟩]
        else
          postStimLoop post nrows ncols p_qListRawMatBuf (p_qListRawMatBuf.length + 1)
            0 t_iMidIdx t_matPostStim []

/-- The `while(nSampleCount > 0)` loop of `assemblePreStimulus`, with the
ranges written so far. -/
def preStimLoop (nrows ncols : Nat) (hist : List RawMatBuf) :
    Nat → Int → Int → MatrixXd → List ColRange → Except Fault (MatrixXd × List ColRange)
  | 0, _, _, _, _ => .error .fuel
  | fuel + 1, nSampleCount, t_curBufIdx, mat, written =>
    if 0 < nSampleCount then
      let t_iStart : Int := nSampleCount - ncols
      if 0 ≤ t_iStart then
        match qAt hist t_curBufIdx with
        | .error e => .error e
        | .ok buf =>
          match mat.assignBlock t_iStart nrows ncols buf.2 0 with
          | .error e => .error e
          | .ok mat1 =>
            preStimLoop nrows ncols hist fuel (nSampleCount - ncols) (t_curBufIdx - 1) mat1
              (written ++ [⟨t_iStart, ncols⟩])
      else
        match qAt hist t_curBufIdx with
        | .error e => .error e
        | .ok buf =>
          match mat.assignBlock 0 nrows nSampleCount buf.2 (-t_iStart) with
          | .error e => .error e
          | .ok mat1 =>
            preStimLoop nrows ncols hist fuel 0 (t_curBufIdx - 1) mat1
              (written ++ [⟨0, nSampleCount⟩])
    else .ok (mat, written)

/-- Body of `assemblePreStimulus` up to the store: the pre-stimulus matrix and
the destination ranges written, in order. -/
def preStimMatrix (pre : Nat) (stimChannelIdcs : List Nat) (junk : Nat → Nat → ℚ)
    (p_qListRawMatBuf : List RawMatBuf) (p_iStimIdx : Nat) :
    Except Fault (MatrixXd × List ColRange) :=
  let t_iMidIdx : Nat := p_qListRawMatBuf.length / 2
  match qAt p_qListRawMatBuf t_iMidIdx with
  | .error e => .error e
  | .ok mid =>
    let nrows := mid.2.rows
    let ncols := mid.2.cols
    match qAt stimChannelIdcs p_iStimIdx with
    | .error e => .error e
    | .ok t_iRowIdx =>
      let t_matPreStim := MatrixXd.uninit nrows pre junk
      match mid.2.rowMaxPos t_iRowIdx with
      | .error e => .error e
      | .ok pos =>
        if 0 < pos then
          let t_iStart : Int := (pre : Int) - pos
          if 0 ≤ t_iStart then
            match t_matPreStim.assignBlock t_iStart nrows pos mid.2 0 with
            | .error e => .error e
            | .ok mat1 =>
              preStimLoop nrows ncols p_qListRawMatBuf (p_qListRawMatBuf.length + 1)
                ((pre : Int) - pos) ((t_iMidIdx : Int) - 1) mat1 [⟨t_iStart, pos⟩]
          else
            match t_matPreStim.assignBlock 0 nrows pre mid.2 (-t_iStart) with
            | .error e => .error e
            | .ok mat1 =>
              preStimLoop nrows ncols p_qListRawMatBuf (p_qListRawMatBuf.length + 1)
                0 ((t_iMidIdx : Int) - 1) mat1 [⟨0, pre⟩]
        else
          preStimLoop nrows ncols p_qListRawMatBuf (p_qListRawMatBuf.length + 1)
            pre t_iMidIdx t_matPreStim []

/-- Channel description (`FiffChInfo`): only the fields the worker reads. -/
structure FiffChInfo where
  kind : Int
  ch_name : String

/-- Measurement description (`FiffInfo`): only the fields the worker reads. -/
structure FiffInfo where
  nchan : Int
  chs : List FiffChInfo

/-- Modelled from the spec: the channel kind that marks a trigger channel
(`FIFFV_STIM_CH`; the header defining the constant is not among the sources).
The value is the one of the FIFF standard. -/
def FIFFV_STIM_CH : Int := 3

/-- A vector of epochs (`QVector<MatrixXd>`): the matrices it holds, oldest
first. The second field is a history variable that is not part of the program
state: every matrix appended to the vector since it was created, in order. -/
structure EpochVector where
  items : List MatrixXd
  appended : List MatrixXd

/-- The empty vector `t_qVecMat`. -/
def EpochVector.empty : EpochVector := { items := [], appended := [] }

/-- Call `v.append(m)`. -/
def EpochVector.append (v : EpochVector) (m : MatrixXd) : EpochVector :=
  { items := v.items ++ [m], appended := v.appended ++ [m] }

/-- Call `v.size()`. -/
def EpochVector.size (v : EpochVector) : Nat := v.items.length

/-- Call `v.pop_front()`. -/
def EpochVector.pop_front (v : EpochVector) : EpochVector :=
  { v with items := v.items.tail }

/-- Members of `RtAve` used by the worker. -/
structure RtAve where
  m_iNumAverages : Nat
  m_iPreStimSamples : Nat
  m_iPostStimSamples : Nat
  m_pFiffInfo : FiffInfo
  m_bIsRunning : Bool
  m_bAutoAspect : Bool
  m_qListStimChannelIdcs : List Nat
  m_qListQVectorPreStimAve : List EpochVector
  m_qListQVectorPostStimAve : List EpochVector

/-- Constructor `RtAve::RtAve(p_iPreStimSamples, p_iPostStimSamples, p_pFiffInfo)`. -/
def RtAve.new (p_iPreStimSamples p_iPostStimSamples : Nat) (p_pFiffInfo : FiffInfo) : RtAve :=
  { m_iNumAverages := 4
    m_iPreStimSamples := p_iPreStimSamples
    m_iPostStimSamples := p_iPostStimSamples
    m_pFiffInfo := p_pFiffInfo
    m_bIsRunning := false
    m_bAutoAspect := true
    m_qListStimChannelIdcs := []
    m_qListQVectorPreStimAve := []
    m_qListQVectorPostStimAve := [] }

/-- Statement `stores[i].append(m)` on a list of epoch vectors. -/
def storeAppend (stores : List EpochVector) (i : Nat) (m : MatrixXd) :
    Except Fault (List EpochVector) :=
  match stores[i]? with
  | some v => .ok (stores.set i (v.append m))
  | none => .error .listIndex

/-- Statement `if(stores[i].size() > numAverages) stores[i].pop_front();`. -/
def storeEvict (numAverages : Nat) (stores : List EpochVector) (i : Nat) :
    Except Fault (List EpochVector) :=
  match stores[i]? with
  | some v => .ok (if numAverages < v.size then stores.set i v.pop_front else stores)
  | none => .error .listIndex

/-- Method `RtAve::assemblePostStimulus`. -/
def RtAve.assemblePostStimulus (self : RtAve) (junk : Nat → Nat → ℚ)
    (p_qListRawMatBuf : List RawMatBuf) (p_iStimIdx : Nat) : Except Fault RtAve :=
  if 0 < self.m_iPreStimSamples then
    match postStimMatrix self.m_iPostStimSamples self.m_qListStimChannelIdcs junk
        p_qListRawMatBuf p_iStimIdx with
    | .error e => .error e
    | .ok res =>
      match storeAppend self.m_qListQVectorPostStimAve p_iStimIdx res.1 with
      | .error e => .error e
      | .ok stores => .ok { self with m_qListQVectorPostStimAve := stores }
  else .ok self

/-- Method `RtAve::assemblePreStimulus`. -/
def RtAve.assemblePreStimulus (self : RtAve) (junk : Nat → Nat → ℚ)
    (p_qListRawMatBuf : List RawMatBuf) (p_iStimIdx : Nat) : Except Fault RtAve :=
  if 0 < self.m_iPreStimSamples then
    match preStimMatrix self.m_iPreStimSamples self.m_qListStimChannelIdcs junk
        p_qListRawMatBuf p_iStimIdx with
    | .error e => .error e
    | .ok res =>
      match storeAppend self.m_qListQVectorPreStimAve p_iStimIdx res.1 with
      | .error e => .error e
      | .ok stores => .ok { self with m_qListQVectorPreStimAve := stores }
  else .ok self

/-- Conversion `double → int` of `cast<int>()`: truncation toward zero when
the truncated value is a 32-bit `int`. For any other value the conversion
instruction delivers the pattern `0x80000000`, which is `INT_MIN`. -/
def castInt (x : ℚ) : Int :=
  let t : Int := if 0 ≤ x then ⌊x⌋ else ⌈x⌉
  if -2147483648 ≤ t ∧ t ≤ 2147483647 then t else -2147483648

/-- Running maximum of `maxCoeff()` over entries `0..last` of an integer row. -/
def intRowMax (row : Nat → Int) : Nat → Int
  | 0 => row 0
  | i + 1 => max (intRowMax row i) (row (i + 1))

/-- Expression `rawSegment.row(idx).cast<int>().maxCoeff()`. -/
def stimSegmentMax (rawSegment : MatrixXd) (idx : Nat) : Except Fault Int :=
  if idx < rawSegment.rows ∧ 0 < rawSegment.cols then
    .ok (intRowMax (fun c => castInt (rawSegment.coeff idx c)) (rawSegment.cols - 1))
  else .error .eigenAssert

/-- The detection loop of `run` from loop index `i` on, over the remaining
stimulus channels. -/
def detectFrom (rawSegment : MatrixXd) : List Nat → Nat → List Nat → Except Fault (List Nat)
  | [], _, t_qListStimuli => .ok t_qListStimuli
  | idx :: rest, i, t_qListStimuli =>
    match stimSegmentMax rawSegment idx with
    | .error e => .error e
    | .ok iMax =>
      detectFrom rawSegment rest (i + 1)
        (if 0 < iMax then t_qListStimuli ++ [i] else t_qListStimuli)

/-- Section "Detect Stimuli" of `run`: the list `t_qListStimuli` of a raw segment. -/
def detectStimuli (stimChannelIdcs : List Nat) (rawSegment : MatrixXd) :
    Except Fault (List Nat) :=
  detectFrom rawSegment stimChannelIdcs 0 []

/-- Trace entry for one execution of the body guarded by the duplicate test
of `run`: the values of `count`, of the history size, of `t_iMidIdx` and of
`t_iStimIndex` at that moment. -/
structure ConfirmedEvent where
  count : Nat
  size : Nat
  mid : Nat
  stim : Nat
  deriving DecidableEq, Repr

/-- Arrival number (0-based) of the raw buffer in the middle of the history
when the event was confirmed. -/
def ConfirmedEvent.block (e : ConfirmedEvent) : Nat := e.count - e.size + e.mid

/-- Members and locals of the worker loop, and three observers of the run:
`confirmed` is the trace of the events confirmed so far, `emitted` the
`evokedCalculated` signals emitted so far (as stimulus index and data; the only
`emit` of `run` is commented out in the source, so nothing appends to it), and
`fault` the fault that stopped the worker, if any. -/
structure RunState where
  self : RtAve
  t_nSamplesPerBuf : Nat
  t_qListRawMatBuf : List RawMatBuf
  count : Nat
  confirmed : List ConfirmedEvent
  emitted : List (Nat × MatrixXd)
  fault : Option Fault

/-- Body of the `for` loop of the section "Average" of `run` for one entry
`stim` of the middle buffer's stimuli, `prev` being the stimuli of the buffer
before it. -/
def confirmStep (junk : Nat → Nat → ℚ) (prev : List Nat) (st : RunState) (stim : Nat) :
    RunState :=
  if st.fault.isSome then st
  else if !prev.contains stim then
    let hist := st.t_qListRawMatBuf
    let st1 := { st with
      confirmed := st.confirmed ++
        [ConfirmedEvent.mk st.count hist.length (hist.length / 2) stim] }
    match st1.self.assemblePreStimulus junk hist stim with
    | .error e => { st1 with fault := some e }
    | .ok self1 =>
      match self1.assemblePostStimulus junk hist stim with
      | .error e => { st1 with self := self1, fault := some e }
      | .ok self2 =>
        match storeEvict self2.m_iNumAverages self2.m_qListQVectorPreStimAve stim with
        | .error e => { st1 with self := self2, fault := some e }
        | .ok preStores =>
          let self3 := { self2 with m_qListQVectorPreStimAve := preStores }
          match storeEvict self3.m_iNumAverages self3.m_qListQVectorPostStimAve stim with
          | .error e => { st1 with self := self3, fault := some e }
          | .ok postStores =>
            { st1 with self := { self3 with m_qListQVectorPostStimAve := postStores } }
  else st

/-- Section "Average" of `run`, executed when the window test succeeds. -/
def average (junk : Nat → Nat → ℚ) (st : RunState) : RunState :=
  let hist := st.t_qListRawMatBuf
  let t_iMidIdx : Nat := hist.length / 2
  if 0 < t_iMidIdx then
    match qAt hist t_iMidIdx with
    | .error e => { st with fault := some e }
    | .ok mid =>
      if mid.1.length ≠ 0 then
        match qAt hist ((t_iMidIdx : Int) - 1) with
        | .error e => { st with fault := some e }
        | .ok prev => mid.1.foldl (confirmStep junk prev.1) st
      else st
  else st

/-- Value of an `unsigned` 32-bit expression whose exact value is `n`. -/
def wrap32 (n : Nat) : Nat := n % 4294967296

/-- The window test of `run`,
`t_nSamplesPerBuf*size() > (m_iPreStimSamples+m_iPostStimSamples + (2 * t_nSamplesPerBuf))`:
both sides are `quint32` expressions, so each is taken modulo `2^32`. -/
def windowReady (t_nSamplesPerBuf size pre post : Nat) : Bool :=
  decide (wrap32 (t_nSamplesPerBuf * size) > wrap32 (pre + post + 2 * t_nSamplesPerBuf))

/-- One iteration of the main loop of `run` for the raw segment returned by
`pop()`. -/
def runStep (junk : Nat → Nat → ℚ) (st : RunState) (rawSegment : MatrixXd) : RunState :=
  if st.fault.isSome then st
  else
    let t_nSamplesPerBuf :=
      if st.t_nSamplesPerBuf = 0 then rawSegment.cols else st.t_nSamplesPerBuf
    let st0 := { st with t_nSamplesPerBuf := t_nSamplesPerBuf, count := st.count + 1 }
    match detectStimuli st.self.m_qListStimChannelIdcs rawSegment with
    | .error e => { st0 with fault := some e }
    | .ok t_qListStimuli =>
      let st1 := { st0 with
        t_qListRawMatBuf := st.t_qListRawMatBuf ++ [(t_qListStimuli, rawSegment)] }
      if windowReady t_nSamplesPerBuf st1.t_qListRawMatBuf.length
          st.self.m_iPreStimSamples st.self.m_iPostStimSamples then
        let st2 := average junk st1
        if st2.fault.isSome then st2
        else { st2 with t_qListRawMatBuf := st2.t_qListRawMatBuf.tail }
      else st1

/-- The loop of `run` that derives the stimulus channels, from channel `i` on
for `n` more channels. -/
def stimChannelLoop (info : FiffInfo) : Nat → Nat → RtAve → Except Fault RtAve
  | 0, _, self => .ok self
  | n + 1, i, self =>
    match qAt info.chs i with
    | .error e => .error e
    | .ok ch =>
      stimChannelLoop info n (i + 1)
        (if ch.kind = FIFFV_STIM_CH ∧ ch.ch_name ≠ "STI 014" then
          { self with
            m_qListStimChannelIdcs := self.m_qListStimChannelIdcs ++ [i]
            m_qListQVectorPreStimAve := self.m_qListQVectorPreStimAve ++ [EpochVector.empty]
            m_qListQVectorPostStimAve := self.m_qListQVectorPostStimAve ++ [EpochVector.empty] }
        else self)

/-- Start of `run`: the three lists are cleared and rebuilt from the channel
description. -/
def RtAve.start (self : RtAve) : Except Fault RtAve :=
  stimChannelLoop self.m_pFiffInfo self.m_pFiffInfo.nchan.toNat 0
    { self with
      m_bIsRunning := true
      m_qListStimChannelIdcs := []
      m_qListQVectorPreStimAve := []
      m_qListQVectorPostStimAve := [] }

/-- State of the worker when it enters the main loop. -/
def RunState.enter (self : RtAve) : RunState :=
  { self := self, t_nSamplesPerBuf := 0, t_qListRawMatBuf := [], count := 0,
    confirmed := [], emitted := [], fault := none }

/-- Method `RtAve::run` on the sequence of raw segments returned by `pop()`
while the worker is running. -/
def RtAve.run (self : RtAve) (junk : Nat → Nat → ℚ) (segments : List MatrixXd) : RunState :=
  match self.start with
  | .error e => { RunState.enter self with fault := some e }
  | .ok self1 => segments.foldl (runStep junk) (RunState.enter self1)

/-- Modelled from the spec: the error `ShapeMismatch` of the ingestion buffer. -/
inductive BufferFault where
  | shapeMismatch
  deriving DecidableEq, Repr

/-- Modelled from the spec: the ingestion buffer (`CircularMatrixBuffer<double>`,
declared outside these sources). Its shape is fixed when it is created, `queue`
holds the blocks pushed and not yet popped, oldest first, and `released` is set
by its release operation. The capacity only makes `push` wait and is carried
along without further effect. -/
structure CircularMatrixBuffer where
  capacity : Nat
  rows : Nat
  cols : Nat
  queue : List MatrixXd
  released : Bool

/-- Modelled from the spec: constructor `CircularMatrixBuffer(capacity, rows, cols)`,
an empty buffer of the given shape. -/
def CircularMatrixBuffer.new (capacity rows cols : Nat) : CircularMatrixBuffer :=
  { capacity := capacity, rows := rows, cols := cols, queue := [], released := false }

/-- Modelled from the spec: `push(block)` enqueues a block of the shape of the
buffer and raises `ShapeMismatch` for a block of any other shape. -/
def CircularMatrixBuffer.push (buf : CircularMatrixBuffer) (m : MatrixXd) :
    Except BufferFault CircularMatrixBuffer :=
  if m.rows = buf.rows ∧ m.cols = buf.cols then .ok { buf with queue := buf.queue ++ [m] }
  else .error .shapeMismatch

/-- Modelled from the spec: outcome of a call of `pop()`, which is a block with
the remaining buffer, the "no data" sentinel, or the caller staying suspended
inside the call. -/
inductive PopResult where
  | block (m : MatrixXd) (rest : CircularMatrixBuffer)
  | sentinel
  | suspended

/-- Modelled from the spec: `pop()` dequeues the oldest block; on an empty
buffer it returns the sentinel if the buffer has been released and otherwise
suspends the caller. -/
def CircularMatrixBuffer.pop (buf : CircularMatrixBuffer) : PopResult :=
  match buf.queue with
  | m :: rest => .block m { buf with queue := rest }
  | [] => if buf.released then .sentinel else .suspended

/-- Method `RtAve::append`, on the member `m_pRawMatrixBuffer`: the buffer is
created with the shape of the segment if there is none, then the segment is
pushed. The result is the buffer the member points to afterwards; a fault of
`push` passes through to the caller. -/
def RtAve.append (m_pRawMatrixBuffer : Option CircularMatrixBuffer) (p_DataSegment : MatrixXd) :
    Except BufferFault CircularMatrixBuffer :=
  match m_pRawMatrixBuffer with
  | none =>
    (CircularMatrixBuffer.new 128 p_DataSegment.rows p_DataSegment.cols).push p_DataSegment
  | some buf => buf.push p_DataSegment

/-- Calls of `append` for a sequence of segments, stopping at the first fault. -/
def appendAll : Option CircularMatrixBuffer → List MatrixXd →
    Except BufferFault (Option CircularMatrixBuffer)
  | buf, [] => .ok buf
  | buf, m :: rest =>
    match RtAve.append buf m with
    | .error e => .error e
    | .ok buf1 => appendAll (some buf1) rest

/-- Position of the worker thread in `run`: at the head of the main loop,
inside the call of `pop()`, or returned from `run`. -/
inductive WorkerPos where
  | loopHead
  | inPop
  | finished
  deriving DecidableEq, Repr

/-- The members shared by the thread that calls `stop` and the worker thread,
together with the position of the worker. -/
structure Shared where
  m_bIsRunning : Bool
  m_pRawMatrixBuffer : Option CircularMatrixBuffer
  worker : WorkerPos

/-- One step of the worker thread in the main loop of `run`
(`while(m_bIsRunning) { if(m_pRawMatrixBuffer) { ... pop() ... } }`), the
processing of a popped segment left out; `none` when the worker cannot move:
it has returned, or it is suspended in `pop()`. -/
def workerStep (s : Shared) : Option Shared :=
  match s.worker with
  | .loopHead =>
    if s.m_bIsRunning then
      match s.m_pRawMatrixBuffer with
      | some _ => some { s with worker := .inPop }
      | none => some s
    else some { s with worker := .finished }
  | .inPop =>
    match s.m_pRawMatrixBuffer with
    | some buf =>
      match buf.pop with
      | .block _ rest => some { s with m_pRawMatrixBuffer := some rest, worker := .loopHead }
      | .sentinel => some { s with worker := .loopHead }
      | .suspended => none
    | none => none
  | .finished => none

/-- Outcome of a call that waits for the worker: it returns in a state, it
never returns because the worker is suspended for good, or the iteration
budget of the model is used up. -/
inductive WaitResult where
  | returned (s : Shared)
  | never (s : Shared)
  | pending

/-- Call `QThread::wait()` while no other thread touches the shared members:
the caller is held until the worker has returned from `run`. -/
def waitWorker : Nat → Shared → WaitResult
  | 0, _ => .pending
  | fuel + 1, s =>
    if s.worker = .finished then .returned s
    else
      match workerStep s with
      | some s1 => waitWorker fuel s1
      | none => .never s

/-- Method `RtAve::stop`: `m_bIsRunning = false; QThread::wait(); return true;`. -/
def RtAve.stop (fuel : Nat) (s : Shared) : WaitResult :=
  waitWorker fuel { s with m_bIsRunning := false }
/-! ## Vocabulary of the statements and example inputs -/

/-- Coefficient in row `r` at global column `g` of the blocks of a history
laid side by side in arrival order. -/
def concatCoeff : List RawMatBuf → Nat → Nat → ℚ
  | [], _, _ => 0
  | e :: rest, r, g => if g < e.2.cols then e.2.coeff r g else concatCoeff rest r (g - e.2.cols)

/-- The ranges of `w`, in order, are laid end to end from column `a` to
column `b`. -/
def Tiles : List ColRange → Int → Int → Prop
  | [], a, b => a = b
  | rg :: rest, a, b => rg.start = a ∧ 0 ≤ rg.width ∧ Tiles rest (a + rg.width) b

/-- Two column ranges have no column in common. -/
def ColRange.Apart (x y : ColRange) : Prop :=
  x.start + x.width ≤ y.start ∨ y.start + y.width ≤ x.start

/-- Example raw buffer number `j` of a stream of two-channel buffers with `L`
samples each: channel 0 carries the running sample number, channel 1 is a
trigger line that is 1 at column `spike` of buffer `hit` and 0 elsewhere. -/
def rampBuf (L hit spike j : Nat) : MatrixXd :=
  { rows := 2, cols := L,
    coeff := fun r c =>
      if r = 0 then ((L * j + c : Nat) : ℚ) else if j = hit ∧ c = spike then 1 else 0 }

/-- Example history: buffers `0..n-1` of the example stream, each with the
stimuli detected in it. -/
def exampleHist (L hit spike n : Nat) : List RawMatBuf :=
  (List.range n).map (fun j => (if j = hit then [0] else [], rampBuf L hit spike j))

/-- Example channel description: a data channel and one trigger channel. -/
def exampleInfo : FiffInfo :=
  { nchan := 2, chs := [⟨1, "MEG 0111"⟩, ⟨FIFFV_STIM_CH, "STI 001"⟩] }

/-- Example engine as it enters the main loop: trigger channel 1 is stimulus 0. -/
def exampleEngine (pre post : Nat) : RtAve :=
  { RtAve.new pre post exampleInfo with
    m_bIsRunning := true
    m_qListStimChannelIdcs := [1]
    m_qListQVectorPreStimAve := [EpochVector.empty]
    m_qListQVectorPostStimAve := [EpochVector.empty] }

/-- Example content of uninitialised storage. -/
def exampleJunk : Nat → Nat → ℚ := fun _ _ => 0

/-- Coefficient `(r, c)` of the matrix of an assembly result, if there is one. -/
def resultCoeff (res : Except Fault (MatrixXd × List ColRange)) (r c : Nat) : Option ℚ :=
  match res with
  | .ok p => some (p.1.coeff r c)
  | .error _ => none

/-- What one confirmed event does to the engine when no fault occurs. -/
def EventEffect (junk : Nat → Nat → ℚ) (hist : List RawMatBuf) (s : Nat) (a b : RtAve) : Prop :=
  b.m_iNumAverages = a.m_iNumAverages ∧ b.m_iPreStimSamples = a.m_iPreStimSamples
  ∧ b.m_iPostStimSamples = a.m_iPostStimSamples
  ∧ b.m_qListStimChannelIdcs = a.m_qListStimChannelIdcs
  ∧ ∃ vPre vPost, a.m_qListQVectorPreStimAve[s]? = some vPre
    ∧ a.m_qListQVectorPostStimAve[s]? = some vPost
    ∧ ((a.m_iPreStimSamples = 0
        ∧ b.m_qListQVectorPreStimAve = a.m_qListQVectorPreStimAve.set s
            (if a.m_iNumAverages < vPre.size then vPre.pop_front else vPre)
        ∧ b.m_qListQVectorPostStimAve = a.m_qListQVectorPostStimAve.set s
            (if a.m_iNumAverages < vPost.size then vPost.pop_front else vPost))
      ∨ (0 < a.m_iPreStimSamples ∧ ∃ mPre wPre mPost wPost,
          preStimMatrix a.m_iPreStimSamples a.m_qListStimChannelIdcs junk hist s
            = .ok (mPre, wPre)
          ∧ postStimMatrix a.m_iPostStimSamples a.m_qListStimChannelIdcs junk hist s
            = .ok (mPost, wPost)
          ∧ b.m_qListQVectorPreStimAve = a.m_qListQVectorPreStimAve.set s
              (if a.m_iNumAverages < (vPre.append mPre).size then (vPre.append mPre).pop_front
               else vPre.append mPre)
          ∧ b.m_qListQVectorPostStimAve = a.m_qListQVectorPostStimAve.set s
              (if a.m_iNumAverages < (vPost.append mPost).size then
                (vPost.append mPost).pop_front
               else vPost.append mPost)))

/-- The events expected from one pass of the confirmation loop: one per entry
of `cur` that is not in `prev`, in the order of `cur`, stamped with the loop
variables `count`, the history size and the middle index. -/
def eventsOf (count size : Nat) (prev cur : List Nat) : List ConfirmedEvent :=
  (cur.filter (fun s => !prev.contains s)).map
    (fun s => ConfirmedEvent.mk count size (size / 2) s)

/-- The events expected from the section "Average" for a history `hist`
(taken after the new buffer was appended): those of the middle entry against
the entry before it, if the middle index is positive. -/
def stepEvents (count : Nat) (hist : List RawMatBuf) : List ConfirmedEvent :=
  if 0 < hist.length / 2 then
    match hist[hist.length / 2]?, hist[hist.length / 2 - 1]? with
    | some mid, some prev => eventsOf count hist.length prev.1 mid.1
    | _, _ => []
  else []

/-- The stimuli detected in a raw buffer (empty if detection faults). -/
def activeSet (stimChannelIdcs : List Nat) (rawSegment : MatrixXd) : List Nat :=
  match detectStimuli stimChannelIdcs rawSegment with
  | .ok l => l
  | .error _ => []

/-- The history entries of a stream of raw buffers, in arrival order. -/
def entries (stimChannelIdcs : List Nat) (segments : List MatrixXd) : List RawMatBuf :=
  segments.map (fun b => (activeSet stimChannelIdcs b, b))

/-- Number of history entries at which the window test first succeeds for
blocks of `L` samples: `floor((pre + post) / L) + 3`. -/
def windowSize (pre post L : Nat) : Nat := (pre + post) / L + 3

/-- The stimulus channel list derived when the worker starts (empty if the
derivation faults). -/
def RtAve.stimChannels (self : RtAve) : List Nat :=
  match self.start with
  | .ok self1 => self1.m_qListStimChannelIdcs
  | .error _ => []

/-- An epoch vector holds the most recent `n` of the matrices appended to it,
in the order they were appended. -/
def EpochVector.HoldsLast (n : Nat) (v : EpochVector) : Prop :=
  v.items = v.appended.drop (v.appended.length - n)

/-- Example raw buffer number `j` with trigger pulses: as `rampBuf`, with the
trigger line at 1 at column `spike` of every buffer whose number is in `hits`. -/
def pulseBuf (L : Nat) (hits : List Nat) (spike j : Nat) : MatrixXd :=
  { rows := 2, cols := L,
    coeff := fun r c =>
      if r = 0 then ((L * j + c : Nat) : ℚ) else if j ∈ hits ∧ c = spike then 1 else 0 }

/-- Example stream: buffers `0..n-1` with trigger pulses. -/
def pulseStream (L : Nat) (hits : List Nat) (spike n : Nat) : List MatrixXd :=
  (List.range n).map (pulseBuf L hits spike)

/-- Order of the trace of confirmed events: by the value of `count`, and for
equal `count` by stimulus index. -/
def ConfirmedEvent.Before (e1 e2 : ConfirmedEvent) : Prop :=
  e1.count < e2.count ∨ (e1.count = e2.count ∧ e1.stim < e2.stim)

/-- The event `e` of a run over `segs` (blocks of width `L`, window size `K`)
was confirmed at a ready step with block number `e.block` in the middle, its
stimulus is detected in that block and not in the block before it. -/
def ConfirmedEvent.Sound (idcs : List Nat) (K : Nat) (segs : List MatrixXd)
    (e : ConfirmedEvent) : Prop :=
  e.size = K ∧ e.mid = K / 2 ∧ K ≤ e.count ∧ e.count ≤ segs.length
  ∧ ∃ bj bp, segs[e.block]? = some bj ∧ 1 ≤ e.block ∧ segs[e.block - 1]? = some bp
      ∧ e.stim ∈ activeSet idcs bj ∧ e.stim ∉ activeSet idcs bp

/-- Example engine as constructed, with one pre- and one post-stimulus sample. -/
def exEngine : RtAve := RtAve.new 1 1 exampleInfo

/-- Example engine keeping two epochs per stimulus. -/
def exEngineTwo : RtAve := { RtAve.new 1 1 exampleInfo with m_iNumAverages := 2 }

/-- Example stream prefix: blocks 0, 1, 2 of two samples, trigger in block 2. -/
def exSegs : List MatrixXd := pulseStream 2 [2] 1 3

/-- Example next block: block 3 of the same stream. -/
def exBlock : MatrixXd := pulseBuf 2 [2] 1 3

/-- Example block with samples between 0 and 1 (row 0), negative samples
(row 1) and the samples 0, 1 (row 2). -/
def fractionBuf : MatrixXd :=
  { rows := 3, cols := 2,
    coeff := fun r c => if r = 0 then 1 / 2 else if r = 1 then -2 else (c : ℚ) }

/-- Channel `i` of a channel description is a stimulus channel for the worker:
it exists, its kind is the trigger kind and its name is not `STI 014`. -/
def FiffInfo.isStim (info : FiffInfo) (i : Nat) : Bool :=
  match info.chs[i]? with
  | some ch => decide (ch.kind = FIFFV_STIM_CH ∧ ch.ch_name ≠ "STI 014")
  | none => false

/-- Example channel description with the reserved channel: a data channel, the
raw digital trigger channel `STI 014`, a trigger channel, a second data
channel and a second trigger channel. -/
def mixedInfo : FiffInfo :=
  { nchan := 5,
    chs := [⟨1, "MEG 0111"⟩, ⟨FIFFV_STIM_CH, "STI 014"⟩, ⟨FIFFV_STIM_CH, "STI 001"⟩,
      ⟨2, "EEG 001"⟩, ⟨FIFFV_STIM_CH, "STI 002"⟩] }

/-- Block `j` of the example scenario of the specification: `R` channels of
10 samples, the stimulus channel `ch` zero everywhere except for the value `v`
at offset 4 of block 3, and arbitrary samples `data j r c` on the other
channels. -/
def scenarioBuf (R ch : Nat) (v : ℚ) (data : Nat → Nat → Nat → ℚ) (j : Nat) : MatrixXd :=
  { rows := R, cols := 10,
    coeff := fun r c => if r = ch then (if j = 3 ∧ c = 4 then v else 0) else data j r c }

/-- The first `n` blocks of the example scenario. -/
def scenarioStream (R ch : Nat) (v : ℚ) (data : Nat → Nat → Nat → ℚ) (n : Nat) :
    List MatrixXd :=
  (List.range n).map (scenarioBuf R ch v data)

/-- History entry of block `j` of the example scenario. -/
def scenarioEntry (R ch : Nat) (v : ℚ) (data : Nat → Nat → Nat → ℚ) (j : Nat) : RawMatBuf :=
  (if j = 3 then [0] else [], scenarioBuf R ch v data j)

/-- Sample `g` of channel `r` of the example scenario, counted from the start
of the stream. -/
def scenarioSample (R ch : Nat) (v : ℚ) (data : Nat → Nat → Nat → ℚ) (r g : Nat) : ℚ :=
  (scenarioBuf R ch v data (g / 10)).coeff r (g % 10)

/-- Example data of the scenario: the running sample number on every channel
other than the stimulus channel. -/
def scenarioRamp : Nat → Nat → Nat → ℚ := fun j _ c => ((10 * j + c : Nat) : ℚ)

/-- Example state of the worker loop at the moment the window is examined:
the example engine, a history of the buffers `0..n-1` of the example stream,
no event confirmed yet and no fault. -/
def exampleState (pre post L hit spike n : Nat) : RunState :=
  { self := exampleEngine pre post, t_nSamplesPerBuf := L,
    t_qListRawMatBuf := exampleHist L hit spike n, count := n, confirmed := [],
    emitted := [], fault := none }

/-- Example block of five-block history number `j`: channel 0 carries the
running sample number; the trigger channel 1 of block 2 holds the samples
-5, 1, 0, 0 and is zero in the other blocks. -/
def signedBuf (j : Nat) : MatrixXd :=
  { rows := 2, cols := 4,
    coeff := fun r c =>
      if r = 0 then ((4 * j + c : Nat) : ℚ)
      else if j = 2 then (if c = 0 then -5 else if c = 1 then 1 else 0) else 0 }

/-- Example history of five blocks with the signed trigger row in the middle. -/
def signedHist : List RawMatBuf :=
  (List.range 5).map (fun j => (if j = 2 then [0] else [], signedBuf j))

/-- Example of shared state: the worker is running and suspended in `pop()` on
an empty buffer that has not been released. -/
def suspendedWorker : Shared :=
  { m_bIsRunning := true, m_pRawMatrixBuffer := some (CircularMatrixBuffer.new 128 2 4),
    worker := .inPop }

/-- Example block of the given shape with all samples zero. -/
def zeroBuf (rows cols : Nat) : MatrixXd :=
  { rows := rows, cols := cols, coeff := fun _ _ => 0 }

/-- Example channel description without a stimulus channel: a data channel and
the trigger channel with the reserved name `STI 014`. -/
def plainInfo : FiffInfo :=
  { nchan := 2, chs := [⟨1, "MEG 0111"⟩, ⟨FIFFV_STIM_CH, "STI 014"⟩] }

/-- The engine over `plainInfo` as it enters the main loop. -/
def plainStarted : RtAve := { RtAve.new 1 1 plainInfo with m_bIsRunning := true }

/-- The engine `b` has the stimulus channel list, the configuration and the
numbers of pre- and post-stimulus sequences of the engine `a`. -/
def RtAve.SameLists (a b : RtAve) : Prop :=
  b.m_qListStimChannelIdcs = a.m_qListStimChannelIdcs
  ∧ b.m_qListQVectorPreStimAve.length = a.m_qListQVectorPreStimAve.length
  ∧ b.m_qListQVectorPostStimAve.length = a.m_qListQVectorPostStimAve.length
  ∧ b.m_iNumAverages = a.m_iNumAverages ∧ b.m_iPreStimSamples = a.m_iPreStimSamples
  ∧ b.m_iPostStimSamples = a.m_iPostStimSamples

/-- Example block with one row: the sample 3000000000, which is beyond the
range of a 32-bit `int`, followed by the sample 0. -/
def largeBuf : MatrixXd :=
  { rows := 1, cols := 2, coeff := fun _ c => if c = 0 then 3000000000 else 0 }

/-- The columns of the range `rg` of the matrix `m` hold, in the rows
`0 .. nrows-1`, a copy of `rg.width` consecutive columns (from column `s0` on)
of one block of the history. -/
def ColRange.CopiedFrom (hist : List RawMatBuf) (nrows : Nat) (m : MatrixXd)
    (rg : ColRange) : Prop :=
  ∃ (k : Nat) (buf : RawMatBuf) (s0 : Nat), hist[k]? = some buf ∧ nrows ≤ buf.2.rows
    ∧ (s0 : Int) + rg.width ≤ buf.2.cols
    ∧ ∀ r j : Nat, r < nrows → (j : Int) < rg.width →
        m.coeff r (rg.start.toNat + j) = buf.2.coeff r (s0 + j)

/-! ## Proofs -/

theorem qAt_natCast {α : Type} (l : List α) (i : Nat) (x : α) (h : l[i]? = some x) :
    qAt l (i : Int) = .ok x := by
  simp [qAt, h]

theorem maxVisitor_le (row : Nat → ℚ) (k : Nat) : maxVisitor row k ≤ k := by
  induction k with
  | zero => simp [maxVisitor]
  | succ k ih =>
    simp only [maxVisitor]
    split
    · exact le_rfl
    · exact Nat.le_succ_of_le ih

theorem concatCoeff_block (L : Nat) (hist : List RawMatBuf) (hw : ∀ e ∈ hist, e.2.cols = L)
    (k : Nat) (e : RawMatBuf) (hk : hist[k]? = some e) (r x : Nat) (hx : x < L) :
    concatCoeff hist r (k * L + x) = e.2.coeff r x := by
  induction hist generalizing k with
  | nil => simp at hk
  | cons a rest ih =>
    have ha : a.2.cols = L := hw a (List.mem_cons_self _ _)
    cases k with
    | zero =>
      simp at hk
      subst hk
      simp [concatCoeff, ha, hx]
    | succ k =>
      simp at hk
      have hge : ¬ ((k + 1) * L + x < L) := by
        have : (k + 1) * L = k * L + L := Nat.succ_mul k L
        omega
      have hsub : (k + 1) * L + x - L = k * L + x := by
        have : (k + 1) * L = k * L + L := Nat.succ_mul k L
        omega
      simp only [concatCoeff, ha, hge, if_false, hsub]
      exact ih (fun e he => hw e (List.mem_cons_of_mem _ he)) k (by simpa using hk)



theorem assignBlock_ok (dst : MatrixXd) (d nrows w : Nat) (src : MatrixXd) (s : Nat)
    (h1 : d + w ≤ dst.cols) (h2 : nrows ≤ dst.rows) (h3 : s + w ≤ src.cols)
    (h4 : nrows ≤ src.rows) :
    dst.assignBlock (d : Int) nrows (w : Int) src (s : Int) =
      .ok { dst with
            coeff := fun r c =>
              if r < nrows ∧ d ≤ c ∧ c < d + w then src.coeff r (s + (c - d))
              else dst.coeff r c } := by
  unfold MatrixXd.assignBlock
  have hc : (0 : Int) ≤ (d : Int) ∧ (0 : Int) ≤ (w : Int) ∧ (0 : Int) ≤ (s : Int)
      ∧ (d : Int) + (w : Int) ≤ (dst.cols : Int) ∧ nrows ≤ dst.rows
      ∧ (s : Int) + (w : Int) ≤ (src.cols : Int) ∧ nrows ≤ src.rows := by
    refine ⟨?_, ?_, ?_, ?_, h2, ?_, h4⟩ <;> omega
  rw [if_pos hc]
  simp

theorem postStimLoop_spec (post R L : Nat) (hist : List RawMatBuf) (g0 : Nat)
    (hw : ∀ e ∈ hist, e.2.cols = L) (hr : ∀ e ∈ hist, R ≤ e.2.rows)
    (hroom : g0 + post ≤ hist.length * L) :
    ∀ (fuel n cur : Nat) (mat : MatrixXd) (w : List ColRange),
      hist.length + 1 ≤ fuel + cur → cur ≤ hist.length →
      n ≤ post → (n < post → g0 + n = cur * L) →
      mat.rows = R → mat.cols = post →
      (∀ r c, r < R → c < n → mat.coeff r c = concatCoeff hist r (g0 + c)) →
      ∃ m w', postStimLoop post R L hist fuel (n : Int) (cur : Int) mat w = .ok (m, w')
        ∧ m.rows = R ∧ m.cols = post
        ∧ ∀ r c, r < R → c < post → m.coeff r c = concatCoeff hist r (g0 + c) := by
  intro fuel
  induction fuel with
  | zero =>
    intro n cur mat w hf hcl hn hg hmr hmc hco
    omega
  | succ fuel ih =>
    intro n cur mat w hf hcl hn hg hmr hmc hco
    rw [postStimLoop]
    by_cases hlt : n < post
    · have hlt' : (n : Int) < (post : Int) := by exact_mod_cast hlt
      rw [if_pos hlt']
      have h1 := hg hlt
      have h2 : cur * L < hist.length * L := by omega
      have h3 : cur < hist.length := Nat.lt_of_mul_lt_mul_right h2
      obtain ⟨buf, hbuf⟩ : ∃ buf, hist[cur]? = some buf := ⟨hist[cur], by simp [h3]⟩
      have hmem : buf ∈ hist := List.getElem?_mem hbuf
      have hbc := hw buf hmem
      have hbr := hr buf hmem
      rw [qAt_natCast hist cur buf hbuf]
      have hsucc : (cur + 1) * L = cur * L + L := Nat.succ_mul cur L
      by_cases hfull : (L : Int) ≤ (post : Int) - (n : Int)
      · simp only [hfull, if_true]
        have hfull' : n + L ≤ post := by omega
        have ha := assignBlock_ok mat n R L buf.2 0 (by omega) (by omega) (by omega) hbr
        simp only [Nat.cast_zero] at ha
        rw [ha]
        have := ih (n + L) (cur + 1)
          { mat with
            coeff := fun r c =>
              if r < R ∧ n ≤ c ∧ c < n + L then buf.2.coeff r (0 + (c - n)) else mat.coeff r c }
          (w ++ [⟨(n : Int), (L : Int)⟩]) (by omega) (by omega) hfull'
          (by intro _; omega) hmr hmc (by
            intro r c hrR hc
            by_cases hcn : c < n
            · have : ¬ (r < R ∧ n ≤ c ∧ c < n + L) := by omega
              simp only [this, if_false]
              exact hco r c hrR hcn
            · have hin : r < R ∧ n ≤ c ∧ c < n + L := by omega
              simp only [hin, and_self, if_true]
              have hx : c - n < L := by omega
              have := concatCoeff_block L hist hw cur buf hbuf r (c - n) hx
              rw [Nat.zero_add, ← this]
              congr 1
              omega)
        simpa using this
      · simp only [hfull, if_false]
        have hpart : post - n < L := by omega
        have ha := assignBlock_ok mat n R (post - n) buf.2 0 (by omega) (by omega) (by omega) hbr
        have hcast : ((post - n : Nat) : Int) = (post : Int) - (n : Int) := by omega
        simp only [Nat.cast_zero, hcast] at ha
        rw [ha]
        have := ih post (cur + 1)
          { mat with
            coeff := fun r c =>
              if r < R ∧ n ≤ c ∧ c < n + (post - n) then buf.2.coeff r (0 + (c - n))
              else mat.coeff r c }
          (w ++ [⟨(n : Int), (post : Int) - (n : Int)⟩]) (by omega) (by omega)
          le_rfl (by intro h; omega) hmr hmc (by
            intro r c hrR hc
            by_cases hcn : c < n
            · have : ¬ (r < R ∧ n ≤ c ∧ c < n + (post - n)) := by omega
              simp only [this, if_false]
              exact hco r c hrR hcn
            · have hin : r < R ∧ n ≤ c ∧ c < n + (post - n) := by omega
              simp only [hin, and_self, if_true]
              have hx : c - n < L := by omega
              have := concatCoeff_block L hist hw cur buf hbuf r (c - n) hx
              rw [Nat.zero_add, ← this]
              congr 1
              omega)
        simpa using this
    · have hlt' : ¬ ((n : Int) < (post : Int)) := by exact_mod_cast hlt
      rw [if_neg hlt']
      have hn' : n = post := by omega
      subst hn'
      exact ⟨mat, w, rfl, hmr, hmc, hco⟩



theorem rowMaxPos_ok (m : MatrixXd) (rowIdx : Nat) (h1 : rowIdx < m.rows) (h2 : 0 < m.cols) :
    m.rowMaxPos rowIdx = .ok (maxVisitor (m.coeff rowIdx) (m.cols - 1)) := by
  simp [MatrixXd.rowMaxPos, h1, h2]

theorem postStimMatrix_spec (post : Nat) (idcs : List Nat) (junk : Nat → Nat → ℚ)
    (hist : List RawMatBuf) (stim L R rowIdx : Nat) (mid : RawMatBuf)
    (hL : 1 ≤ L) (hw : ∀ e ∈ hist, e.2.cols = L) (hr : ∀ e ∈ hist, e.2.rows = R)
    (hmid : hist[hist.length / 2]? = some mid) (hrow : idcs[stim]? = some rowIdx)
    (hrowlt : rowIdx < R) (hroom : post ≤ (hist.length - 1 - hist.length / 2) * L) :
    ∃ m w, postStimMatrix post idcs junk hist stim = .ok (m, w) ∧ m.rows = R ∧ m.cols = post
      ∧ ∀ r c, r < R → c < post →
          m.coeff r c = concatCoeff hist r
            (hist.length / 2 * L + maxVisitor (mid.2.coeff rowIdx) (L - 1) + c) := by
  have hmem : mid ∈ hist := List.getElem?_mem hmid
  have hmc : mid.2.cols = L := hw mid hmem
  have hmr : mid.2.rows = R := hr mid hmem
  have hr' : ∀ e ∈ hist, R ≤ e.2.rows := fun e he => le_of_eq (hr e he).symm
  have hlen : hist.length / 2 < hist.length := by
    rcases Nat.lt_or_ge (hist.length / 2) hist.length with h | h
    · exact h
    · rw [List.getElem?_eq_none h] at hmid
      cases hmid
  obtain ⟨pos, hposdef⟩ : ∃ pos, pos = maxVisitor (mid.2.coeff rowIdx) (L - 1) := ⟨_, rfl⟩
  have hposle : pos ≤ L - 1 := hposdef ▸ maxVisitor_le _ _
  rw [← hposdef]
  have hmul : (hist.length - 1 - hist.length / 2) * L + (hist.length / 2 + 1) * L
      = hist.length * L := by
    rw [← Nat.add_mul]
    congr 1
    omega
  have hsucc : (hist.length / 2 + 1) * L = hist.length / 2 * L + L := Nat.succ_mul _ L
  have hg : hist.length / 2 * L + pos + post ≤ hist.length * L := by omega
  unfold postStimMatrix
  simp only [qAt_natCast hist _ mid hmid, qAt_natCast idcs stim rowIdx hrow]
  rw [rowMaxPos_ok mid.2 rowIdx (by omega) (by omega), hmc, hmr, ← hposdef]
  dsimp only
  by_cases hp : 0 < pos
  · rw [if_pos hp]
    have hcast : (L : Int) - (pos : Int) = ((L - pos : Nat) : Int) := by omega
    by_cases hsz : (L : Int) - (pos : Int) ≤ (post : Int)
    · simp only [hsz, if_true]
      have ha := assignBlock_ok (MatrixXd.uninit R post junk) 0 R (L - pos) mid.2 pos
        (by simp [MatrixXd.uninit]; omega) (by simp [MatrixXd.uninit]) (by omega) (by omega)
      simp only [Nat.cast_zero, ← hcast] at ha
      rw [ha]
      have hloop := postStimLoop_spec post R L hist (hist.length / 2 * L + pos) hw hr' hg
        (hist.length + 1) (L - pos) (hist.length / 2 + 1)
        { MatrixXd.uninit R post junk with
          coeff := fun r c =>
            if r < R ∧ 0 ≤ c ∧ c < 0 + (L - pos) then mid.2.coeff r (pos + (c - 0))
            else (MatrixXd.uninit R post junk).coeff r c }
        [⟨0, (L : Int) - (pos : Int)⟩] (by omega) (by omega) (by omega) (by intro _; omega)
        rfl rfl (by
          intro r c hrR hc
          have hin : r < R ∧ 0 ≤ c ∧ c < 0 + (L - pos) := by omega
          simp only [hin, and_self, if_true]
          have hx : pos + c < L := by omega
          have := concatCoeff_block L hist hw (hist.length / 2) mid hmid r (pos + c) hx
          rw [Nat.sub_zero, ← this]
          congr 1
          omega)
      simpa [hcast] using hloop
    · simp only [hsz, if_false]
      have ha := assignBlock_ok (MatrixXd.uninit R post junk) 0 R post mid.2 pos
        (by simp [MatrixXd.uninit]) (by simp [MatrixXd.uninit]) (by omega) (by omega)
      simp only [Nat.cast_zero] at ha
      rw [ha]
      have hloop := postStimLoop_spec post R L hist (hist.length / 2 * L + pos) hw hr' hg
        (hist.length + 1) post (hist.length / 2 + 1)
        { MatrixXd.uninit R post junk with
          coeff := fun r c =>
            if r < R ∧ 0 ≤ c ∧ c < 0 + post then mid.2.coeff r (pos + (c - 0))
            else (MatrixXd.uninit R post junk).coeff r c }
        [⟨0, (post : Int)⟩] (by omega) (by omega) le_rfl (by intro h; omega)
        rfl rfl (by
          intro r c hrR hc
          have hin : r < R ∧ 0 ≤ c ∧ c < 0 + post := by omega
          simp only [hin, and_self, if_true]
          have hx : pos + c < L := by omega
          have := concatCoeff_block L hist hw (hist.length / 2) mid hmid r (pos + c) hx
          rw [Nat.sub_zero, ← this]
          congr 1
          omega)
      simpa using hloop
  · rw [if_neg hp]
    have hp0 : pos = 0 := by omega
    have hloop := postStimLoop_spec post R L hist (hist.length / 2 * L + pos) hw hr' hg
      (hist.length + 1) 0 (hist.length / 2) (MatrixXd.uninit R post junk) []
      (by omega) (by omega) (by omega) (by intro _; omega) rfl rfl
      (by intro r c _ hc; omega)
    simpa using hloop


theorem tiles_le : ∀ (w : List ColRange) (a b : Int), Tiles w a b → a ≤ b
  | [], a, b, h => by simp [Tiles] at h; omega
  | rg :: rest, a, b, h => by
    obtain ⟨_, h2, h3⟩ := h
    have := tiles_le rest _ _ h3
    omega

theorem tiles_append : ∀ (w : List ColRange) (a b : Int) (rg : ColRange),
    Tiles w a b → rg.start = b → 0 ≤ rg.width → Tiles (w ++ [rg]) a (b + rg.width)
  | [], a, b, rg, h, h1, h2 => by
    simp only [Tiles] at h
    subst h
    exact ⟨h1, h2, rfl⟩
  | x :: rest, a, b, rg, h, h1, h2 => by
    obtain ⟨hx1, hx2, hx3⟩ := h
    exact ⟨hx1, hx2, tiles_append rest _ _ rg hx3 h1 h2⟩

theorem tiles_cover : ∀ (w : List ColRange) (a b : Int), Tiles w a b →
    ∀ c : Int, (∃ rg ∈ w, rg.start ≤ c ∧ c < rg.start + rg.width) ↔ (a ≤ c ∧ c < b)
  | [], a, b, h, c => by
    simp only [Tiles] at h
    subst h
    constructor
    · rintro ⟨rg, hrg, _⟩
      cases hrg
    · intro hc
      omega
  | x :: rest, a, b, h, c => by
    obtain ⟨hx1, hx2, hx3⟩ := h
    have ih := tiles_cover rest _ _ hx3 c
    have hle := tiles_le rest _ _ hx3
    constructor
    · rintro ⟨rg, hrg, hc1, hc2⟩
      rcases List.mem_cons.mp hrg with h | h
      · subst h
        omega
      · have := ih.mp ⟨rg, h, hc1, hc2⟩
        omega
    · intro hc
      by_cases hcx : c < a + x.width
      · exact ⟨x, List.mem_cons_self _ _, by omega, by omega⟩
      · obtain ⟨rg, hrg, h1, h2⟩ := ih.mpr ⟨by omega, hc.2⟩
        exact ⟨rg, List.mem_cons_of_mem _ hrg, h1, h2⟩

theorem tiles_pairwise : ∀ (w : List ColRange) (a b : Int), Tiles w a b →
    w.Pairwise (fun x y => x.start + x.width ≤ y.start)
  | [], _, _, _ => List.Pairwise.nil
  | x :: rest, a, b, h => by
    obtain ⟨hx1, hx2, hx3⟩ := h
    refine List.Pairwise.cons ?_ (tiles_pairwise rest _ _ hx3)
    intro y hy
    have hcov := tiles_cover rest _ _ hx3
    have hpw := tiles_pairwise rest _ _ hx3
    -- every later range starts at or after the end of `x`
    have : ∀ (l : List ColRange) (s e : Int), Tiles l s e → ∀ y ∈ l, s ≤ y.start := by
      intro l
      induction l with
      | nil => intro s e _ y hy; cases hy
      | cons z l ihl =>
        intro s e ht y hy
        obtain ⟨hz1, hz2, hz3⟩ := ht
        rcases List.mem_cons.mp hy with h | h
        · subst h; omega
        · have := ihl _ _ hz3 y h
          omega
    have := this rest _ _ hx3 y hy
    omega

theorem tiles_apart (w : List ColRange) (a b : Int) (h : Tiles w a b) :
    w.Pairwise ColRange.Apart :=
  (tiles_pairwise w a b h).imp (fun hxy => Or.inl hxy)

theorem tiles_reverse_apart (w : List ColRange) (a b : Int) (h : Tiles w.reverse a b) :
    w.Pairwise ColRange.Apart := by
  have := tiles_pairwise w.reverse a b h
  rw [List.pairwise_reverse] at this
  exact this.imp (fun hxy => Or.inr hxy)

theorem tiles_reverse_cover (w : List ColRange) (a b : Int) (h : Tiles w.reverse a b) (c : Int) :
    (∃ rg ∈ w, rg.start ≤ c ∧ c < rg.start + rg.width) ↔ (a ≤ c ∧ c < b) := by
  rw [← tiles_cover w.reverse a b h c]
  simp

theorem assignBlock_dims (dst : MatrixXd) (d : Int) (nrows : Nat) (wd : Int) (src : MatrixXd)
    (s : Int) (m : MatrixXd) (h : dst.assignBlock d nrows wd src s = .ok m) :
    m.rows = dst.rows ∧ m.cols = dst.cols ∧ 0 ≤ d ∧ 0 ≤ wd ∧ d + wd ≤ dst.cols := by
  unfold MatrixXd.assignBlock at h
  split at h
  · rename_i hc
    cases h
    exact ⟨rfl, rfl, hc.1, hc.2.1, hc.2.2.2.1⟩
  · cases h

theorem postStimLoop_written (post R L : Nat) (hist : List RawMatBuf) :
    ∀ (fuel : Nat) (n cur : Int) (mat : MatrixXd) (w : List ColRange) (m : MatrixXd)
      (w' : List ColRange),
      postStimLoop post R L hist fuel n cur mat w = .ok (m, w') →
      Tiles w 0 n → n ≤ post → mat.rows = R → mat.cols = post →
      Tiles w' 0 post ∧ m.rows = R ∧ m.cols = post := by
  intro fuel
  induction fuel with
  | zero => intro n cur mat w m w' h; simp [postStimLoop] at h
  | succ fuel ih =>
    intro n cur mat w m w' h ht hn hmr hmc
    rw [postStimLoop] at h
    split at h
    · rename_i hlt
      dsimp only at h
      split at h
      · split at h
        · cases h
        · split at h
          · cases h
          · rename_i buf _ mat1 ha
            obtain ⟨d1, d2, d3, d4, d5⟩ := assignBlock_dims _ _ _ _ _ _ _ ha
            exact ih _ _ _ _ _ _ h (tiles_append w 0 n ⟨n, L⟩ ht rfl d4) (by rw [hmc] at d5; omega)
              (by omega) (by omega)
      · split at h
        · cases h
        · split at h
          · cases h
          · rename_i buf _ mat1 ha
            obtain ⟨d1, d2, d3, d4, d5⟩ := assignBlock_dims _ _ _ _ _ _ _ ha
            have := tiles_append w 0 n ⟨n, (post : Int) - n⟩ ht rfl d4
            simp only [add_sub_cancel] at this
            exact ih _ _ _ _ _ _ h this le_rfl (by omega) (by omega)
    · rename_i hlt
      cases h
      have : n = post := by omega
      subst this
      exact ⟨ht, hmr, hmc⟩

theorem preStimLoop_written (pre R L : Nat) (hist : List RawMatBuf) :
    ∀ (fuel : Nat) (n cur : Int) (mat : MatrixXd) (w : List ColRange) (m : MatrixXd)
      (w' : List ColRange),
      preStimLoop R L hist fuel n cur mat w = .ok (m, w') →
      Tiles w.reverse n pre → 0 ≤ n → mat.rows = R → mat.cols = pre →
      Tiles w'.reverse 0 pre ∧ m.rows = R ∧ m.cols = pre := by
  intro fuel
  induction fuel with
  | zero => intro n cur mat w m w' h; simp [preStimLoop] at h
  | succ fuel ih =>
    intro n cur mat w m w' h ht hn hmr hmc
    rw [preStimLoop] at h
    split at h
    · rename_i hlt
      dsimp only at h
      split at h
      · rename_i hge
        split at h
        · cases h
        · split at h
          · cases h
          · rename_i buf _ mat1 ha
            obtain ⟨d1, d2, d3, d4, d5⟩ := assignBlock_dims _ _ _ _ _ _ _ ha
            refine ih _ _ _ _ _ _ h ?_ (by omega) (by omega) (by omega)
            rw [List.reverse_append]
            exact ⟨rfl, d4, by simpa using ht⟩
      · split at h
        · cases h
        · split at h
          · cases h
          · rename_i buf _ mat1 ha
            obtain ⟨d1, d2, d3, d4, d5⟩ := assignBlock_dims _ _ _ _ _ _ _ ha
            refine ih _ _ _ _ _ _ h ?_ le_rfl (by omega) (by omega)
            rw [List.reverse_append]
            exact ⟨rfl, d4, by simpa using ht⟩
    · rename_i hlt
      cases h
      have : n = 0 := by omega
      subst this
      exact ⟨ht, hmr, hmc⟩


theorem qAt_natCast_ok {α : Type} (l : List α) (i : Nat) (x : α) (h : qAt l (i : Int) = .ok x) :
    l[i]? = some x := by
  unfold qAt at h
  simp only [Int.toNat_ofNat, Int.ofNat_zero_le, if_true] at h
  split at h
  · rename_i y hy
    cases h
    exact hy
  · cases h

theorem postStimMatrix_written (post : Nat) (idcs : List Nat) (junk : Nat → Nat → ℚ)
    (hist : List RawMatBuf) (stim : Nat) (m : MatrixXd) (w : List ColRange)
    (h : postStimMatrix post idcs junk hist stim = .ok (m, w)) :
    ∃ mid, hist[hist.length / 2]? = some mid ∧ Tiles w 0 post ∧ m.rows = mid.2.rows
      ∧ m.cols = post := by
  unfold postStimMatrix at h
  dsimp only at h
  split at h
  · cases h
  · rename_i mid hmid
    refine ⟨mid, qAt_natCast_ok _ _ _ hmid, ?_⟩
    split at h
    · cases h
    · split at h
      · cases h
      · rename_i pos hpos
        split at h
        · split at h
          · split at h
            · cases h
            · rename_i mat1 ha
              obtain ⟨d1, d2, d3, d4, d5⟩ := assignBlock_dims _ _ _ _ _ _ _ ha
              simp only [MatrixXd.uninit] at d1 d2 d5
              exact postStimLoop_written post _ _ hist _ _ _ _ _ _ _ h
                ⟨rfl, d4, by simp [Tiles]⟩ (by omega) d1 d2
          · split at h
            · cases h
            · rename_i mat1 ha
              obtain ⟨d1, d2, d3, d4, d5⟩ := assignBlock_dims _ _ _ _ _ _ _ ha
              simp only [MatrixXd.uninit] at d1 d2 d5
              exact postStimLoop_written post _ _ hist _ _ _ _ _ _ _ h
                ⟨rfl, d4, by simp [Tiles]⟩ le_rfl d1 d2
        · exact postStimLoop_written post _ _ hist _ _ _ _ _ _ _ h
            (by simp [Tiles]) (by omega) rfl rfl

theorem preStimMatrix_written (pre : Nat) (idcs : List Nat) (junk : Nat → Nat → ℚ)
    (hist : List RawMatBuf) (stim : Nat) (m : MatrixXd) (w : List ColRange)
    (h : preStimMatrix pre idcs junk hist stim = .ok (m, w)) :
    ∃ mid, hist[hist.length / 2]? = some mid ∧ Tiles w.reverse 0 pre ∧ m.rows = mid.2.rows
      ∧ m.cols = pre := by
  unfold preStimMatrix at h
  dsimp only at h
  split at h
  · cases h
  · rename_i mid hmid
    refine ⟨mid, qAt_natCast_ok _ _ _ hmid, ?_⟩
    split at h
    · cases h
    · split at h
      · cases h
      · rename_i pos hpos
        split at h
        · split at h
          · split at h
            · cases h
            · rename_i mat1 ha
              obtain ⟨d1, d2, d3, d4, d5⟩ := assignBlock_dims _ _ _ _ _ _ _ ha
              simp only [MatrixXd.uninit] at d1 d2 d5
              exact preStimLoop_written pre _ _ hist _ _ _ _ _ _ _ h
                ⟨rfl, d4, by simp [Tiles]⟩ (by omega) d1 d2
          · split at h
            · cases h
            · rename_i mat1 ha
              obtain ⟨d1, d2, d3, d4, d5⟩ := assignBlock_dims _ _ _ _ _ _ _ ha
              simp only [MatrixXd.uninit] at d1 d2 d5
              exact preStimLoop_written pre _ _ hist _ _ _ _ _ _ _ h
                ⟨rfl, d4, by simp [Tiles]⟩ le_rfl d1 d2
        · exact preStimLoop_written pre _ _ hist _ _ _ _ _ _ _ h
            (by simp [Tiles]) (by omega) rfl rfl


theorem qAt_ok_get {α : Type} (l : List α) (i : Int) (x : α) (h : qAt l i = .ok x) :
    l[i.toNat]? = some x := by
  unfold qAt at h
  split at h
  · split at h
    · rename_i y hy
      cases h
      exact hy
    · cases h
  · cases h

theorem assignBlock_coeff (dst : MatrixXd) (d : Int) (nrows : Nat) (wd : Int) (src : MatrixXd)
    (s : Int) (m : MatrixXd) (h : dst.assignBlock d nrows wd src s = .ok m) :
    0 ≤ d ∧ 0 ≤ wd ∧ 0 ≤ s ∧ s + wd ≤ src.cols ∧ nrows ≤ src.rows
    ∧ ∀ r c, m.coeff r c
        = if r < nrows ∧ d.toNat ≤ c ∧ c < d.toNat + wd.toNat then
            src.coeff r (s.toNat + (c - d.toNat))
          else dst.coeff r c := by
  unfold MatrixXd.assignBlock at h
  split at h
  · rename_i hc
    cases h
    exact ⟨hc.1, hc.2.1, hc.2.2.1, hc.2.2.2.2.2.1, hc.2.2.2.2.2.2, fun _ _ => rfl⟩
  · cases h

theorem tiles_bounds : ∀ (w : List ColRange) (a b : Int), Tiles w a b →
    ∀ rg ∈ w, a ≤ rg.start ∧ rg.start + rg.width ≤ b ∧ 0 ≤ rg.width
  | [], _, _, _ => fun rg h => by cases h
  | x :: rest, a, b, h => by
    obtain ⟨hx1, hx2, hx3⟩ := h
    have hle := tiles_le rest _ _ hx3
    intro rg hrg
    rcases List.mem_cons.mp hrg with h | h
    · subst h
      exact ⟨by omega, by omega, hx2⟩
    · obtain ⟨h1, h2, h3⟩ := tiles_bounds rest _ _ hx3 rg h
      exact ⟨by omega, h2, h3⟩

/-- The range written by a block assignment holds a copy of the source
columns. -/
theorem copied_new (hist : List RawMatBuf) (dst : MatrixXd) (d : Int) (nrows : Nat) (wd : Int)
    (buf : RawMatBuf) (s cur : Int) (m : MatrixXd)
    (hq : qAt hist cur = .ok buf)
    (h : dst.assignBlock d nrows wd buf.2 s = .ok m) :
    ColRange.CopiedFrom hist nrows m ⟨d, wd⟩ := by
  obtain ⟨h1, h2, h3, h4, h5, hco⟩ := assignBlock_coeff _ _ _ _ _ _ _ h
  unfold ColRange.CopiedFrom
  dsimp only
  refine ⟨cur.toNat, buf, s.toNat, qAt_ok_get _ _ _ hq, h5, by omega, ?_⟩
  intro r j hr hj
  rw [hco r (d.toNat + j), if_pos ⟨hr, by omega, by omega⟩]
  congr 1
  omega

/-- A range that does not meet the range of a block assignment keeps its
content. -/
theorem copied_keep (hist : List RawMatBuf) (dst : MatrixXd) (d : Int) (nrows : Nat) (wd : Int)
    (src : MatrixXd) (s : Int) (m : MatrixXd) (rg : ColRange)
    (h : dst.assignBlock d nrows wd src s = .ok m) (h0 : 0 ≤ rg.start)
    (hap : rg.start + rg.width ≤ d ∨ d + wd ≤ rg.start)
    (hc : ColRange.CopiedFrom hist nrows dst rg) : ColRange.CopiedFrom hist nrows m rg := by
  obtain ⟨h1, h2, _, _, _, hco⟩ := assignBlock_coeff _ _ _ _ _ _ _ h
  obtain ⟨k, buf, s0, c1, c2, c3, c4⟩ := hc
  refine ⟨k, buf, s0, c1, c2, c3, ?_⟩
  intro r j hr hj
  rw [hco r (rg.start.toNat + j), if_neg (by omega)]
  exact c4 r j hr hj

theorem postStimLoop_copied (post R L : Nat) (hist : List RawMatBuf) :
    ∀ (fuel : Nat) (n cur : Int) (mat : MatrixXd) (w : List ColRange) (m : MatrixXd)
      (w' : List ColRange),
      postStimLoop post R L hist fuel n cur mat w = .ok (m, w') →
      Tiles w 0 n → (∀ rg ∈ w, ColRange.CopiedFrom hist R mat rg) →
      ∀ rg ∈ w', ColRange.CopiedFrom hist R m rg := by
  intro fuel
  induction fuel with
  | zero => intro n cur mat w m w' h; simp [postStimLoop] at h
  | succ fuel ih =>
    intro n cur mat w m w' h ht hcp
    rw [postStimLoop] at h
    split at h
    · rename_i hlt
      dsimp only at h
      split at h
      · split at h
        · cases h
        · rename_i buf hq
          split at h
          · cases h
          · rename_i mat1 ha
            obtain ⟨d1, d2, d3, d4, d5⟩ := assignBlock_dims _ _ _ _ _ _ _ ha
            refine ih _ _ _ _ _ _ h (tiles_append w 0 n ⟨n, L⟩ ht rfl d4) ?_
            intro rg hrg
            rcases List.mem_append.mp hrg with hrg | hrg
            · obtain ⟨b1, b2, b3⟩ := tiles_bounds w 0 n ht rg hrg
              exact copied_keep hist _ _ _ _ _ _ _ rg ha b1 (Or.inl b2) (hcp rg hrg)
            · rw [List.mem_singleton.mp hrg]
              exact copied_new hist _ _ _ _ buf _ _ _ hq ha
      · split at h
        · cases h
        · rename_i buf hq
          split at h
          · cases h
          · rename_i mat1 ha
            obtain ⟨d1, d2, d3, d4, d5⟩ := assignBlock_dims _ _ _ _ _ _ _ ha
            have htl := tiles_append w 0 n ⟨n, (post : Int) - n⟩ ht rfl d4
            simp only [add_sub_cancel] at htl
            refine ih _ _ _ _ _ _ h htl ?_
            intro rg hrg
            rcases List.mem_append.mp hrg with hrg | hrg
            · obtain ⟨b1, b2, b3⟩ := tiles_bounds w 0 n ht rg hrg
              exact copied_keep hist _ _ _ _ _ _ _ rg ha b1 (Or.inl b2) (hcp rg hrg)
            · rw [List.mem_singleton.mp hrg]
              exact copied_new hist _ _ _ _ buf _ _ _ hq ha
    · cases h
      exact hcp

theorem preStimLoop_copied (pre R L : Nat) (hist : List RawMatBuf) :
    ∀ (fuel : Nat) (n cur : Int) (mat : MatrixXd) (w : List ColRange) (m : MatrixXd)
      (w' : List ColRange),
      preStimLoop R L hist fuel n cur mat w = .ok (m, w') →
      Tiles w.reverse n pre → (∀ rg ∈ w, ColRange.CopiedFrom hist R mat rg) →
      ∀ rg ∈ w', ColRange.CopiedFrom hist R m rg := by
  intro fuel
  induction fuel with
  | zero => intro n cur mat w m w' h; simp [preStimLoop] at h
  | succ fuel ih =>
    intro n cur mat w m w' h ht hcp
    rw [preStimLoop] at h
    split at h
    · rename_i hlt
      dsimp only at h
      split at h
      · rename_i hge
        split at h
        · cases h
        · rename_i buf hq
          split at h
          · cases h
          · rename_i mat1 ha
            obtain ⟨d1, d2, d3, d4, d5⟩ := assignBlock_dims _ _ _ _ _ _ _ ha
            refine ih _ _ _ _ _ _ h ?_ ?_
            · rw [List.reverse_append]
              exact ⟨rfl, d4, by simpa using ht⟩
            · intro rg hrg
              rcases List.mem_append.mp hrg with hrg | hrg
              · obtain ⟨b1, b2, b3⟩ := tiles_bounds w.reverse n pre ht rg
                  (List.mem_reverse.mpr hrg)
                exact copied_keep hist _ _ _ _ _ _ _ rg ha (by omega) (Or.inr (by omega))
                  (hcp rg hrg)
              · rw [List.mem_singleton.mp hrg]
                exact copied_new hist _ _ _ _ buf _ _ _ hq ha
      · split at h
        · cases h
        · rename_i buf hq
          split at h
          · cases h
          · rename_i mat1 ha
            obtain ⟨d1, d2, d3, d4, d5⟩ := assignBlock_dims _ _ _ _ _ _ _ ha
            refine ih _ _ _ _ _ _ h ?_ ?_
            · rw [List.reverse_append]
              exact ⟨rfl, d4, by simpa using ht⟩
            · intro rg hrg
              rcases List.mem_append.mp hrg with hrg | hrg
              · obtain ⟨b1, b2, b3⟩ := tiles_bounds w.reverse n pre ht rg
                  (List.mem_reverse.mpr hrg)
                exact copied_keep hist _ _ _ _ _ _ _ rg ha (by omega) (Or.inr (by omega))
                  (hcp rg hrg)
              · rw [List.mem_singleton.mp hrg]
                exact copied_new hist _ _ _ _ buf _ _ _ hq ha
    · cases h
      exact hcp

/-- Every range written by `assemblePostStimulus` holds, in all rows of the
matrix built, a copy of consecutive columns of one history block. -/
theorem postStimMatrix_copied (post : Nat) (idcs : List Nat) (junk : Nat → Nat → ℚ)
    (hist : List RawMatBuf) (stim : Nat) (m : MatrixXd) (w : List ColRange)
    (h : postStimMatrix post idcs junk hist stim = .ok (m, w)) :
    ∀ rg ∈ w, ColRange.CopiedFrom hist m.rows m rg := by
  obtain ⟨mid0, hmid0, _, hrows, _⟩ := postStimMatrix_written post idcs junk hist stim m w h
  unfold postStimMatrix at h
  dsimp only at h
  split at h
  · cases h
  · rename_i mid hmid
    have hmm : mid0 = mid := by
      have := qAt_natCast_ok _ _ _ hmid
      rw [hmid0] at this
      exact Option.some.inj this
    rw [hrows, hmm]
    split at h
    · cases h
    · split at h
      · cases h
      · rename_i pos hpos
        split at h
        · split at h
          · split at h
            · cases h
            · rename_i mat1 ha
              obtain ⟨d1, d2, d3, d4, d5⟩ := assignBlock_dims _ _ _ _ _ _ _ ha
              refine postStimLoop_copied post _ _ hist _ _ _ _ _ _ _ h
                ⟨rfl, d4, by simp [Tiles]⟩ ?_
              intro rg hrg
              rw [List.mem_singleton.mp hrg]
              exact copied_new hist _ _ _ _ mid _ _ _ hmid ha
          · split at h
            · cases h
            · rename_i mat1 ha
              obtain ⟨d1, d2, d3, d4, d5⟩ := assignBlock_dims _ _ _ _ _ _ _ ha
              refine postStimLoop_copied post _ _ hist _ _ _ _ _ _ _ h
                ⟨rfl, d4, by simp [Tiles]⟩ ?_
              intro rg hrg
              rw [List.mem_singleton.mp hrg]
              exact copied_new hist _ _ _ _ mid _ _ _ hmid ha
        · exact postStimLoop_copied post _ _ hist _ _ _ _ _ _ _ h
            (by simp [Tiles]) (fun rg hrg => by cases hrg)

/-- Every range written by `assemblePreStimulus` holds, in all rows of the
matrix built, a copy of consecutive columns of one history block. -/
theorem preStimMatrix_copied (pre : Nat) (idcs : List Nat) (junk : Nat → Nat → ℚ)
    (hist : List RawMatBuf) (stim : Nat) (m : MatrixXd) (w : List ColRange)
    (h : preStimMatrix pre idcs junk hist stim = .ok (m, w)) :
    ∀ rg ∈ w, ColRange.CopiedFrom hist m.rows m rg := by
  obtain ⟨mid0, hmid0, _, hrows, _⟩ := preStimMatrix_written pre idcs junk hist stim m w h
  unfold preStimMatrix at h
  dsimp only at h
  split at h
  · cases h
  · rename_i mid hmid
    have hmm : mid0 = mid := by
      have := qAt_natCast_ok _ _ _ hmid
      rw [hmid0] at this
      exact Option.some.inj this
    rw [hrows, hmm]
    split at h
    · cases h
    · split at h
      · cases h
      · rename_i pos hpos
        split at h
        · split at h
          · split at h
            · cases h
            · rename_i mat1 ha
              obtain ⟨d1, d2, d3, d4, d5⟩ := assignBlock_dims _ _ _ _ _ _ _ ha
              simp only [MatrixXd.uninit] at d5
              refine preStimLoop_copied pre _ _ hist _ _ _ _ _ _ _ h ?_ ?_
              · exact ⟨rfl, d4, by simp [Tiles]⟩
              · intro rg hrg
                rw [List.mem_singleton.mp hrg]
                exact copied_new hist _ _ _ _ mid _ _ _ hmid ha
          · split at h
            · cases h
            · rename_i mat1 ha
              obtain ⟨d1, d2, d3, d4, d5⟩ := assignBlock_dims _ _ _ _ _ _ _ ha
              refine preStimLoop_copied pre _ _ hist _ _ _ _ _ _ _ h ?_ ?_
              · exact ⟨rfl, d4, by simp [Tiles]⟩
              · intro rg hrg
                rw [List.mem_singleton.mp hrg]
                exact copied_new hist _ _ _ _ mid _ _ _ hmid ha
        · exact preStimLoop_copied pre _ _ hist _ _ _ _ _ _ _ h
            (by simp [Tiles]) (fun rg hrg => by cases hrg)

theorem rowMaxPos_eq (m : MatrixXd) (rowIdx pos : Nat) (h : m.rowMaxPos rowIdx = .ok pos) :
    rowIdx < m.rows ∧ 0 < m.cols ∧ pos = maxVisitor (m.coeff rowIdx) (m.cols - 1) := by
  unfold MatrixXd.rowMaxPos at h
  split at h
  · rename_i hc
    cases h
    exact ⟨hc.1, hc.2, rfl⟩
  · cases h

/-- C1. For a history of blocks of equal width `L` and equal height `R`, a
stimulus whose channel row has its arg-max at column `pos` of the middle block,
and `postStimSamples ≤ (historySize - 1 - midIndex) * L`, the matrix built by
`assemblePostStimulus` has `postStimSamples` columns and equals, column for
column, the columns of the concatenated history from global column
`midIndex * L + pos` on; its column 0 is column `pos` of the middle block; and
the method appends exactly this matrix to the post-stimulus store. The
position `pos` is arbitrary (zero or positive); `L ≥ 1` follows from `hpos`. -/
theorem assemblePostStimulus_epoch (self : RtAve) (junk : Nat → Nat → ℚ)
    (hist : List RawMatBuf) (stim L R rowIdx pos : Nat) (mid : RawMatBuf)
    (hw : ∀ e ∈ hist, e.2.cols = L) (hr : ∀ e ∈ hist, e.2.rows = R)
    (hmid : hist[hist.length / 2]? = some mid)
    (hrow : self.m_qListStimChannelIdcs[stim]? = some rowIdx)
    (hpos : mid.2.rowMaxPos rowIdx = .ok pos)
    (hroom : self.m_iPostStimSamples ≤ (hist.length - 1 - hist.length / 2) * L) :
    ∃ m w,
      postStimMatrix self.m_iPostStimSamples self.m_qListStimChannelIdcs junk hist stim
        = .ok (m, w)
      ∧ m.rows = R ∧ m.cols = self.m_iPostStimSamples
      ∧ (∀ r c, r < R → c < self.m_iPostStimSamples →
          m.coeff r c = concatCoeff hist r (hist.length / 2 * L + pos + c))
      ∧ (1 ≤ self.m_iPostStimSamples → ∀ r, r < R → m.coeff r 0 = mid.2.coeff r pos)
      ∧ (0 < self.m_iPreStimSamples → ∀ v, self.m_qListQVectorPostStimAve[stim]? = some v →
          self.assemblePostStimulus junk hist stim
            = .ok { self with
                    m_qListQVectorPostStimAve :=
                      self.m_qListQVectorPostStimAve.set stim (v.append m) }) := by
  have hmem : mid ∈ hist := List.getElem?_mem hmid
  obtain ⟨hp1, hp2, hp3⟩ := rowMaxPos_eq _ _ _ hpos
  rw [hw mid hmem] at hp2 hp3
  rw [hr mid hmem] at hp1
  obtain ⟨m, w, hm, hmr, hmc, hco⟩ := postStimMatrix_spec self.m_iPostStimSamples
    self.m_qListStimChannelIdcs junk hist stim L R rowIdx mid hp2 hw hr hmid hrow hp1 hroom
  rw [← hp3] at hco
  refine ⟨m, w, hm, hmr, hmc, hco, ?_, ?_⟩
  · intro h1 r hrR
    have hle : pos ≤ L - 1 := hp3 ▸ maxVisitor_le _ _
    have := hco r 0 hrR (by omega)
    rw [this, Nat.add_zero]
    exact concatCoeff_block L hist hw _ mid hmid r pos (by omega)
  · intro hpre v hv
    unfold RtAve.assemblePostStimulus
    rw [if_pos hpre, hm]
    simp [storeAppend, hv]

/-- C1, instance: five blocks of width 4, trigger at column 0 of the middle
block (block 2), six post-stimulus samples. -/
theorem assemblePostStimulus_epoch_witness :
    ∃ m w,
      postStimMatrix 6 [1] exampleJunk (exampleHist 4 2 0 5) 0 = .ok (m, w)
      ∧ m.rows = 2 ∧ m.cols = 6
      ∧ (∀ r c, r < 2 → c < 6 →
          m.coeff r c = concatCoeff (exampleHist 4 2 0 5) r
            ((exampleHist 4 2 0 5).length / 2 * 4 + 0 + c))
      ∧ (1 ≤ 6 → ∀ r, r < 2 → m.coeff r 0 = (rampBuf 4 2 0 2).coeff r 0)
      ∧ (0 < 3 → ∀ v, (exampleEngine 3 6).m_qListQVectorPostStimAve[0]? = some v →
          (exampleEngine 3 6).assemblePostStimulus exampleJunk (exampleHist 4 2 0 5) 0
            = .ok { exampleEngine 3 6 with
                    m_qListQVectorPostStimAve :=
                      (exampleEngine 3 6).m_qListQVectorPostStimAve.set 0 (v.append m) }) :=
  assemblePostStimulus_epoch (exampleEngine 3 6) exampleJunk (exampleHist 4 2 0 5) 0 4 2 1 0
    ([0], rampBuf 4 2 0 2) (by decide) (by decide) (by rfl) (by rfl) (by rfl) (by decide)

/-- C2, at the failing input: five blocks of width 4 whose trigger row has its
maximum at column 0 of the middle block (global sample 8), six pre-stimulus
samples. The last column of the matrix built by `assemblePreStimulus` is
sample 11, the last column of the middle block itself, whereas the sample
preceding the event, the last column of block 1, is sample 7. The worker run
on this stream (with two post-stimulus samples) confirms the event and stores
the samples 6..11 as its pre-stimulus epoch, next to the post-stimulus epoch
8, 9. -/
theorem assemblePreStimulus_offset_zero :
    (rampBuf 4 2 0 2).rowMaxPos 1 = .ok 0
    ∧ resultCoeff (preStimMatrix 6 [1] exampleJunk (exampleHist 4 2 0 5) 0) 0 5 = some 11
    ∧ (rampBuf 4 2 0 2).coeff 0 3 = 11
    ∧ (rampBuf 4 2 0 1).coeff 0 3 = 7
    ∧ concatCoeff (exampleHist 4 2 0 5) 0 (2 * 4 + 0 - 1) = 7
    ∧ ((RtAve.new 6 2 exampleInfo).run exampleJunk (pulseStream 4 [2] 0 5)).confirmed
        = [ConfirmedEvent.mk 5 5 2 0]
    ∧ ((RtAve.new 6 2 exampleInfo).run exampleJunk
          (pulseStream 4 [2] 0 5)).self.m_qListQVectorPreStimAve.map
            (fun v => v.items.map (fun m => (List.range 6).map (m.coeff 0)))
        = [[[6, 7, 8, 9, 10, 11]]]
    ∧ ((RtAve.new 6 2 exampleInfo).run exampleJunk
          (pulseStream 4 [2] 0 5)).self.m_qListQVectorPostStimAve.map
            (fun v => v.items.map (fun m => (List.range 2).map (m.coeff 0)))
        = [[[8, 9]]] := by
  refine ⟨by rfl, by decide, by decide, by decide, by decide, by decide, by decide, by decide⟩

theorem copied_column (hist : List RawMatBuf) (m : MatrixXd) (w : List ColRange) (a b : Int)
    (ha : 0 ≤ a)
    (hb : ∀ rg ∈ w, a ≤ rg.start ∧ rg.start + rg.width ≤ b ∧ 0 ≤ rg.width)
    (hcov : ∀ c : Int, (∃ rg ∈ w, rg.start ≤ c ∧ c < rg.start + rg.width) ↔ (a ≤ c ∧ c < b))
    (hcp : ∀ rg ∈ w, ColRange.CopiedFrom hist m.rows m rg) :
    ∀ c : Nat, a ≤ c → (c : Int) < b → ∃ buf ∈ hist, ∃ x, x < buf.2.cols
      ∧ ∀ r, r < m.rows → m.coeff r c = buf.2.coeff r x := by
  intro c hc1 hc2
  obtain ⟨rg, hrg, h1, h2⟩ := (hcov c).mpr ⟨hc1, hc2⟩
  obtain ⟨b1, _, _⟩ := hb rg hrg
  obtain ⟨k, buf, s0, c1, _, c3, c4⟩ := hcp rg hrg
  refine ⟨buf, List.getElem?_mem c1, s0 + (c - rg.start.toNat), by omega, ?_⟩
  intro r hr
  have := c4 r (c - rg.start.toNat) hr (by omega)
  rw [← this]
  congr 1
  omega

/-- C3. Whenever `assemblePreStimulus` (resp. `assemblePostStimulus`) completes,
the destination ranges it wrote are pairwise disjoint and cover exactly the
columns `0 .. preStimSamples-1` (resp. `0 .. postStimSamples-1`) of the matrix
built, which has that many columns and as many rows as the middle block; each
range holds, in all rows, a copy of consecutive columns of one history block,
so that every column of the epoch is a column of some block of the history. -/
theorem extraction_length_invariant (pre post : Nat) (idcs : List Nat) (junk : Nat → Nat → ℚ)
    (hist : List RawMatBuf) (stim : Nat) :
    (∀ m w, preStimMatrix pre idcs junk hist stim = .ok (m, w) →
      ∃ mid, hist[hist.length / 2]? = some mid ∧ m.rows = mid.2.rows ∧ m.cols = pre
        ∧ w.Pairwise ColRange.Apart
        ∧ (∀ c : Int, (∃ rg ∈ w, rg.start ≤ c ∧ c < rg.start + rg.width) ↔ (0 ≤ c ∧ c < pre))
        ∧ (∀ rg ∈ w, ColRange.CopiedFrom hist m.rows m rg)
        ∧ (∀ c : Nat, c < pre → ∃ buf ∈ hist, ∃ x, x < buf.2.cols
            ∧ ∀ r, r < m.rows → m.coeff r c = buf.2.coeff r x))
    ∧ (∀ m w, postStimMatrix post idcs junk hist stim = .ok (m, w) →
      ∃ mid, hist[hist.length / 2]? = some mid ∧ m.rows = mid.2.rows ∧ m.cols = post
        ∧ w.Pairwise ColRange.Apart
        ∧ (∀ c : Int, (∃ rg ∈ w, rg.start ≤ c ∧ c < rg.start + rg.width) ↔ (0 ≤ c ∧ c < post))
        ∧ (∀ rg ∈ w, ColRange.CopiedFrom hist m.rows m rg)
        ∧ (∀ c : Nat, c < post → ∃ buf ∈ hist, ∃ x, x < buf.2.cols
            ∧ ∀ r, r < m.rows → m.coeff r c = buf.2.coeff r x)) := by
  constructor
  · intro m w h
    obtain ⟨mid, h1, h2, h3, h4⟩ := preStimMatrix_written pre idcs junk hist stim m w h
    have hcp := preStimMatrix_copied pre idcs junk hist stim m w h
    have hb : ∀ rg ∈ w, (0 : Int) ≤ rg.start ∧ rg.start + rg.width ≤ pre ∧ 0 ≤ rg.width :=
      fun rg hrg => tiles_bounds w.reverse 0 pre h2 rg (List.mem_reverse.mpr hrg)
    refine ⟨mid, h1, h3, h4, tiles_reverse_apart w 0 pre h2, tiles_reverse_cover w 0 pre h2, hcp,
      fun c hc => copied_column hist m w 0 pre le_rfl hb (tiles_reverse_cover w 0 pre h2) hcp c
        (by omega) (by omega)⟩
  · intro m w h
    obtain ⟨mid, h1, h2, h3, h4⟩ := postStimMatrix_written post idcs junk hist stim m w h
    have hcp := postStimMatrix_copied post idcs junk hist stim m w h
    refine ⟨mid, h1, h3, h4, tiles_apart w 0 post h2, tiles_cover w 0 post h2, hcp,
      fun c hc => copied_column hist m w 0 post le_rfl (tiles_bounds w 0 post h2)
        (tiles_cover w 0 post h2) hcp c (by omega) (by omega)⟩

/-- C3, instance: five blocks of width 4, trigger at column 1 of the middle
block, seven samples on either side: the pre-stimulus matrix takes one column
of the middle block, a whole block and half a block; the post-stimulus matrix
takes three columns of the middle block and a whole block. -/
theorem extraction_length_invariant_witness :
    (∃ m w, preStimMatrix 7 [1] exampleJunk (exampleHist 4 2 1 5) 0 = .ok (m, w)
      ∧ w = [⟨6, 1⟩, ⟨2, 4⟩, ⟨0, 2⟩]
      ∧ ∃ mid, (exampleHist 4 2 1 5)[(exampleHist 4 2 1 5).length / 2]? = some mid
        ∧ m.rows = mid.2.rows ∧ m.cols = 7 ∧ w.Pairwise ColRange.Apart
        ∧ (∀ c : Int, (∃ rg ∈ w, rg.start ≤ c ∧ c < rg.start + rg.width)
            ↔ (0 ≤ c ∧ c < (7 : Nat)))
        ∧ (∀ rg ∈ w, ColRange.CopiedFrom (exampleHist 4 2 1 5) m.rows m rg)
        ∧ (∀ c : Nat, c < 7 → ∃ buf ∈ exampleHist 4 2 1 5, ∃ x, x < buf.2.cols
            ∧ ∀ r, r < m.rows → m.coeff r c = buf.2.coeff r x))
    ∧ (∃ m w, postStimMatrix 7 [1] exampleJunk (exampleHist 4 2 1 5) 0 = .ok (m, w)
      ∧ w = [⟨0, 3⟩, ⟨3, 4⟩]
      ∧ ∃ mid, (exampleHist 4 2 1 5)[(exampleHist 4 2 1 5).length / 2]? = some mid
        ∧ m.rows = mid.2.rows ∧ m.cols = 7 ∧ w.Pairwise ColRange.Apart
        ∧ (∀ c : Int, (∃ rg ∈ w, rg.start ≤ c ∧ c < rg.start + rg.width)
            ↔ (0 ≤ c ∧ c < (7 : Nat)))
        ∧ (∀ rg ∈ w, ColRange.CopiedFrom (exampleHist 4 2 1 5) m.rows m rg)
        ∧ (∀ c : Nat, c < 7 → ∃ buf ∈ exampleHist 4 2 1 5, ∃ x, x < buf.2.cols
            ∧ ∀ r, r < m.rows → m.coeff r c = buf.2.coeff r x)) := by
  have h := extraction_length_invariant 7 7 [1] exampleJunk (exampleHist 4 2 1 5) 0
  constructor
  · match hres : preStimMatrix 7 [1] exampleJunk (exampleHist 4 2 1 5) 0 with
    | .ok (m, w) =>
      have hw : (preStimMatrix 7 [1] exampleJunk (exampleHist 4 2 1 5) 0).toOption.map (·.2)
          = some [⟨6, 1⟩, ⟨2, 4⟩, ⟨0, 2⟩] := by decide
      rw [hres] at hw
      exact ⟨m, w, rfl, by simpa [Except.toOption] using hw, h.1 m w hres⟩
    | .error e =>
      have hok : (preStimMatrix 7 [1] exampleJunk (exampleHist 4 2 1 5) 0).isOk = true := by
        decide
      rw [hres] at hok
      cases hok
  · match hres : postStimMatrix 7 [1] exampleJunk (exampleHist 4 2 1 5) 0 with
    | .ok (m, w) =>
      have hw : (postStimMatrix 7 [1] exampleJunk (exampleHist 4 2 1 5) 0).toOption.map (·.2)
          = some [⟨0, 3⟩, ⟨3, 4⟩] := by decide
      rw [hres] at hw
      exact ⟨m, w, rfl, by simpa [Except.toOption] using hw, h.2 m w hres⟩
    | .error e =>
      have hok : (postStimMatrix 7 [1] exampleJunk (exampleHist 4 2 1 5) 0).isOk = true := by
        decide
      rw [hres] at hok
      cases hok

theorem qAt_fault {α : Type} (l : List α) (i : Int) (e : Fault) (h : qAt l i = .error e) :
    e = Fault.listIndex := by
  unfold qAt at h
  split at h
  · split at h
    · cases h
    · cases h; rfl
  · cases h; rfl

theorem qAt_ok_lt {α : Type} (l : List α) (i : Int) (x : α) (h : qAt l i = .ok x) :
    0 ≤ i ∧ i < l.length := by
  unfold qAt at h
  split at h
  · rename_i h0
    split at h
    · rename_i y hy
      have hlt : i.toNat < l.length := by
        rcases Nat.lt_or_ge i.toNat l.length with h1 | h1
        · exact h1
        · rw [List.getElem?_eq_none h1] at hy; cases hy
      exact ⟨h0, by omega⟩
    · cases h
  · cases h

theorem assignBlock_fault (dst : MatrixXd) (d : Int) (nrows : Nat) (wd : Int) (src : MatrixXd)
    (s : Int) (e : Fault) (h : dst.assignBlock d nrows wd src s = .error e) :
    e = Fault.eigenAssert := by
  unfold MatrixXd.assignBlock at h
  split at h
  · cases h
  · cases h; rfl

/-- The iteration budget of the post-stimulus loop is never exhausted: the
loop ends, or faults on an index or a block, before. -/
theorem postStimLoop_fuel (post R L : Nat) (hist : List RawMatBuf) :
    ∀ (fuel : Nat) (n cur : Int) (mat : MatrixXd) (w : List ColRange),
      1 ≤ fuel → (hist.length : Int) + 1 ≤ fuel + cur →
      postStimLoop post R L hist fuel n cur mat w ≠ .error .fuel := by
  intro fuel
  induction fuel with
  | zero => intro n cur mat w h; omega
  | succ fuel ih =>
    intro n cur mat w _ hf
    rw [postStimLoop]
    split
    · dsimp only
      split
      · split
        · rename_i e he
          rw [qAt_fault _ _ _ he]
          simp
        · rename_i buf hbuf
          obtain ⟨_, hlt⟩ := qAt_ok_lt _ _ _ hbuf
          split
          · rename_i e he
            rw [assignBlock_fault _ _ _ _ _ _ _ he]
            simp
          · exact ih _ _ _ _ (by omega) (by omega)
      · split
        · rename_i e he
          rw [qAt_fault _ _ _ he]
          simp
        · rename_i buf hbuf
          obtain ⟨_, hlt⟩ := qAt_ok_lt _ _ _ hbuf
          split
          · rename_i e he
            rw [assignBlock_fault _ _ _ _ _ _ _ he]
            simp
          · exact ih _ _ _ _ (by omega) (by omega)
    · simp

/-- The iteration budget of the pre-stimulus loop is never exhausted. -/
theorem preStimLoop_fuel (R L : Nat) (hist : List RawMatBuf) :
    ∀ (fuel : Nat) (n cur : Int) (mat : MatrixXd) (w : List ColRange),
      1 ≤ fuel → cur + 2 ≤ fuel →
      preStimLoop R L hist fuel n cur mat w ≠ .error .fuel := by
  intro fuel
  induction fuel with
  | zero => intro n cur mat w h; omega
  | succ fuel ih =>
    intro n cur mat w _ hf
    rw [preStimLoop]
    split
    · dsimp only
      split
      · split
        · rename_i e he
          rw [qAt_fault _ _ _ he]
          simp
        · rename_i buf hbuf
          obtain ⟨h0, _⟩ := qAt_ok_lt _ _ _ hbuf
          split
          · rename_i e he
            rw [assignBlock_fault _ _ _ _ _ _ _ he]
            simp
          · exact ih _ _ _ _ (by omega) (by omega)
      · split
        · rename_i e he
          rw [qAt_fault _ _ _ he]
          simp
        · rename_i buf hbuf
          obtain ⟨h0, _⟩ := qAt_ok_lt _ _ _ hbuf
          split
          · rename_i e he
            rw [assignBlock_fault _ _ _ _ _ _ _ he]
            simp
          · exact ih _ _ _ _ (by omega) (by omega)
    · simp

theorem rowMaxPos_fault (m : MatrixXd) (rowIdx : Nat) (e : Fault)
    (h : m.rowMaxPos rowIdx = .error e) : e = Fault.eigenAssert := by
  unfold MatrixXd.rowMaxPos at h
  split at h
  · cases h
  · cases h; rfl

/-- The budget given to the loop by `assemblePostStimulus` always suffices. -/
theorem postStimMatrix_fuel (post : Nat) (idcs : List Nat) (junk : Nat → Nat → ℚ)
    (hist : List RawMatBuf) (stim : Nat) :
    postStimMatrix post idcs junk hist stim ≠ .error .fuel := by
  unfold postStimMatrix
  dsimp only
  split
  · rename_i e he
    rw [qAt_fault _ _ _ he]; simp
  · split
    · rename_i e he
      rw [qAt_fault _ _ _ he]; simp
    · split
      · rename_i e he
        rw [rowMaxPos_fault _ _ _ he]; simp
      · split
        · split
          · split
            · rename_i e he
              rw [assignBlock_fault _ _ _ _ _ _ _ he]; simp
            · exact postStimLoop_fuel _ _ _ _ _ _ _ _ _ (by omega) (by push_cast; omega)
          · split
            · rename_i e he
              rw [assignBlock_fault _ _ _ _ _ _ _ he]; simp
            · exact postStimLoop_fuel _ _ _ _ _ _ _ _ _ (by omega) (by push_cast; omega)
        · exact postStimLoop_fuel _ _ _ _ _ _ _ _ _ (by omega) (by push_cast; omega)

/-- The budget given to the loop by `assemblePreStimulus` always suffices
whenever the history has a middle entry. -/
theorem preStimMatrix_fuel (pre : Nat) (idcs : List Nat) (junk : Nat → Nat → ℚ)
    (hist : List RawMatBuf) (stim : Nat) :
    preStimMatrix pre idcs junk hist stim ≠ .error .fuel := by
  unfold preStimMatrix
  dsimp only
  split
  · rename_i e he
    rw [qAt_fault _ _ _ he]; simp
  · rename_i mid hmid
    obtain ⟨_, hlt⟩ := qAt_ok_lt _ _ _ hmid
    split
    · rename_i e he
      rw [qAt_fault _ _ _ he]; simp
    · split
      · rename_i e he
        rw [rowMaxPos_fault _ _ _ he]; simp
      · split
        · split
          · split
            · rename_i e he
              rw [assignBlock_fault _ _ _ _ _ _ _ he]; simp
            · exact preStimLoop_fuel _ _ _ _ _ _ _ _ (by omega) (by push_cast; omega)
          · split
            · rename_i e he
              rw [assignBlock_fault _ _ _ _ _ _ _ he]; simp
            · exact preStimLoop_fuel _ _ _ _ _ _ _ _ (by omega) (by push_cast; omega)
        · exact preStimLoop_fuel _ _ _ _ _ _ _ _ (by omega) (by push_cast; omega)

/-- C1, a second instance evaluated: trigger at column 1 of the middle block
(global sample 9); the post-stimulus matrix starts with sample 9 and ends,
six columns later, with sample 14. -/
theorem assemblePostStimulus_epoch_example :
    (rampBuf 4 2 1 2).rowMaxPos 1 = .ok 1
    ∧ resultCoeff (postStimMatrix 6 [1] exampleJunk (exampleHist 4 2 1 5) 0) 0 0 = some 9
    ∧ resultCoeff (postStimMatrix 6 [1] exampleJunk (exampleHist 4 2 1 5) 0) 0 5 = some 14 := by
  refine ⟨by rfl, by decide, by decide⟩


theorem preStimLoop_spec (pre R L : Nat) (hist : List RawMatBuf) (g0 : Nat)
    (hw : ∀ e ∈ hist, e.2.cols = L) (hr : ∀ e ∈ hist, R ≤ e.2.rows) :
    ∀ (fuel n k : Nat) (mat : MatrixXd) (w : List ColRange),
      k + 1 ≤ fuel → k ≤ hist.length →
      n ≤ pre → (0 < n → g0 + n = k * L) →
      mat.rows = R → mat.cols = pre →
      (∀ r c, r < R → n ≤ c → c < pre → mat.coeff r c = concatCoeff hist r (g0 + c)) →
      ∃ m w', preStimLoop R L hist fuel (n : Int) ((k : Int) - 1) mat w = .ok (m, w')
        ∧ m.rows = R ∧ m.cols = pre
        ∧ ∀ r c, r < R → c < pre → m.coeff r c = concatCoeff hist r (g0 + c) := by
  intro fuel
  induction fuel with
  | zero =>
    intro n k mat w hf
    omega
  | succ fuel ih =>
    intro n k mat w hf hkl hn hg hmr hmc hco
    rw [preStimLoop]
    by_cases hpos : 0 < n
    · have hpos' : (0 : Int) < (n : Int) := by exact_mod_cast hpos
      rw [if_pos hpos']
      have h1 := hg hpos
      have hk1 : 1 ≤ k := by
        rcases Nat.eq_zero_or_pos k with h | h
        · subst h
          simp at h1
          omega
        · exact h
      have hlt : k - 1 < hist.length := by omega
      obtain ⟨buf, hbuf⟩ : ∃ buf, hist[k - 1]? = some buf := ⟨hist[k - 1], by simp [hlt]⟩
      have hmem : buf ∈ hist := List.getElem?_mem hbuf
      have hbc := hw buf hmem
      have hbr := hr buf hmem
      have hcur : (k : Int) - 1 = ((k - 1 : Nat) : Int) := by omega
      have hcur' : ((k - 1 : Nat) : Int) - 1 = (k : Int) - 1 - 1 := by omega
      rw [hcur, qAt_natCast hist (k - 1) buf hbuf]
      have hkL : k * L = (k - 1) * L + L := by
        have : k = (k - 1) + 1 := by omega
        calc k * L = ((k - 1) + 1) * L := by rw [← this]
          _ = (k - 1) * L + L := Nat.succ_mul _ _
      dsimp only
      by_cases hfull : (0 : Int) ≤ (n : Int) - (L : Int)
      · rw [if_pos hfull]
        have hfull' : L ≤ n := by omega
        have hcast : (n : Int) - (L : Int) = ((n - L : Nat) : Int) := by omega
        have ha := assignBlock_ok mat (n - L) R L buf.2 0 (by omega) (by omega) (by omega) hbr
        simp only [Nat.cast_zero, ← hcast] at ha
        rw [ha]
        have := ih (n - L) (k - 1)
          { mat with
            coeff := fun r c =>
              if r < R ∧ n - L ≤ c ∧ c < n - L + L then buf.2.coeff r (0 + (c - (n - L)))
              else mat.coeff r c }
          (w ++ [⟨(n : Int) - (L : Int), (L : Int)⟩]) (by omega) (by omega) (by omega)
          (by intro _; omega) hmr hmc (by
            intro r c hrR hc1 hc2
            by_cases hcn : n ≤ c
            · have : ¬ (r < R ∧ n - L ≤ c ∧ c < n - L + L) := by omega
              simp only [this, if_false]
              exact hco r c hrR hcn hc2
            · have hin : r < R ∧ n - L ≤ c ∧ c < n - L + L := by omega
              simp only [hin, and_self, if_true]
              have hx : c - (n - L) < L := by omega
              have := concatCoeff_block L hist hw (k - 1) buf hbuf r (c - (n - L)) hx
              rw [Nat.zero_add, ← this]
              congr 1
              omega)
        rw [hcur', hcast] at this ⊢
        exact this
      · rw [if_neg hfull]
        have hpart : n < L := by omega
        have hneg : -((n : Int) - (L : Int)) = ((L - n : Nat) : Int) := by omega
        have ha := assignBlock_ok mat 0 R n buf.2 (L - n) (by omega) (by omega) (by omega) hbr
        simp only [Nat.cast_zero, ← hneg] at ha
        rw [ha]
        have := ih 0 (k - 1)
          { mat with
            coeff := fun r c =>
              if r < R ∧ 0 ≤ c ∧ c < 0 + n then buf.2.coeff r (L - n + (c - 0))
              else mat.coeff r c }
          (w ++ [⟨0, (n : Int)⟩]) (by omega) (by omega) (by omega)
          (by intro h; omega) hmr hmc (by
            intro r c hrR hc1 hc2
            by_cases hcn : n ≤ c
            · have : ¬ (r < R ∧ 0 ≤ c ∧ c < 0 + n) := by omega
              simp only [this, if_false]
              exact hco r c hrR hcn hc2
            · have hin : r < R ∧ 0 ≤ c ∧ c < 0 + n := by omega
              simp only [hin, and_self, if_true]
              have hx : L - n + c < L := by omega
              have := concatCoeff_block L hist hw (k - 1) buf hbuf r (L - n + c) hx
              rw [Nat.sub_zero, ← this]
              congr 1
              omega)
        simpa using this
    · have hpos' : ¬ ((0 : Int) < (n : Int)) := by exact_mod_cast hpos
      rw [if_neg hpos']
      have hn0 : n = 0 := by omega
      subst hn0
      exact ⟨mat, w, rfl, hmr, hmc, fun r c hrR hc => hco r c hrR (Nat.zero_le c) hc⟩

/-- Content of the matrix built by `assemblePreStimulus` over blocks of equal
width and height: the `pre` columns of the concatenated history that end just
before global column `E`, where `E = midIndex * L + pos` if `pos > 0` and
`E = (midIndex + 1) * L` if `pos = 0`; it is built whenever `pre ≤ E`. -/
theorem preStimMatrix_spec (pre : Nat) (idcs : List Nat) (junk : Nat → Nat → ℚ)
    (hist : List RawMatBuf) (stim L R rowIdx pos : Nat) (mid : RawMatBuf)
    (hw : ∀ e ∈ hist, e.2.cols = L) (hr : ∀ e ∈ hist, e.2.rows = R)
    (hmid : hist[hist.length / 2]? = some mid) (hrow : idcs[stim]? = some rowIdx)
    (hpos : mid.2.rowMaxPos rowIdx = .ok pos)
    (hroom : pre ≤ (if 0 < pos then hist.length / 2 * L + pos else (hist.length / 2 + 1) * L)) :
    ∃ m w, preStimMatrix pre idcs junk hist stim = .ok (m, w) ∧ m.rows = R ∧ m.cols = pre
      ∧ ∀ r c, r < R → c < pre →
          m.coeff r c = concatCoeff hist r
            ((if 0 < pos then hist.length / 2 * L + pos else (hist.length / 2 + 1) * L)
              - pre + c) := by
  have hmem : mid ∈ hist := List.getElem?_mem hmid
  have hmc : mid.2.cols = L := hw mid hmem
  have hmr : mid.2.rows = R := hr mid hmem
  have hr' : ∀ e ∈ hist, R ≤ e.2.rows := fun e he => le_of_eq (hr e he).symm
  have hlen : hist.length / 2 < hist.length := by
    rcases Nat.lt_or_ge (hist.length / 2) hist.length with h | h
    · exact h
    · rw [List.getElem?_eq_none h] at hmid
      cases hmid
  obtain ⟨hp1, hp2, hp3⟩ := rowMaxPos_eq _ _ _ hpos
  rw [hmc] at hp2 hp3
  have hposle : pos ≤ L - 1 := hp3 ▸ maxVisitor_le _ _
  have hsucc : (hist.length / 2 + 1) * L = hist.length / 2 * L + L := Nat.succ_mul _ L
  unfold preStimMatrix
  simp only [qAt_natCast hist _ mid hmid, qAt_natCast idcs stim rowIdx hrow]
  rw [hpos, hmc, hmr]
  dsimp only
  by_cases hp : 0 < pos
  · rw [if_pos hp] at hroom ⊢
    rw [if_pos hp]
    by_cases hst : (0 : Int) ≤ (pre : Int) - (pos : Int)
    · rw [if_pos hst]
      have hcast : (pre : Int) - (pos : Int) = ((pre - pos : Nat) : Int) := by omega
      have ha := assignBlock_ok (MatrixXd.uninit R pre junk) (pre - pos) R pos mid.2 0
        (by simp [MatrixXd.uninit]; omega) (by simp [MatrixXd.uninit]) (by omega) (by omega)
      simp only [Nat.cast_zero, ← hcast] at ha
      rw [ha]
      have hloop := preStimLoop_spec pre R L hist (hist.length / 2 * L + pos - pre) hw hr'
        (hist.length + 1) (pre - pos) (hist.length / 2)
        { MatrixXd.uninit R pre junk with
          coeff := fun r c =>
            if r < R ∧ pre - pos ≤ c ∧ c < pre - pos + pos then
              mid.2.coeff r (0 + (c - (pre - pos)))
            else (MatrixXd.uninit R pre junk).coeff r c }
        [⟨(pre : Int) - (pos : Int), (pos : Int)⟩] (by omega) (by omega) (by omega)
        (by intro _; omega) rfl rfl (by
          intro r c hrR hc1 hc2
          have hin : r < R ∧ pre - pos ≤ c ∧ c < pre - pos + pos := by omega
          simp only [hin, and_self, if_true]
          have hx : c - (pre - pos) < L := by omega
          have := concatCoeff_block L hist hw (hist.length / 2) mid hmid r (c - (pre - pos)) hx
          rw [Nat.zero_add, ← this]
          congr 1
          omega)
      rw [hcast] at hloop ⊢
      exact hloop
    · rw [if_neg hst]
      have hneg : -((pre : Int) - (pos : Int)) = ((pos - pre : Nat) : Int) := by omega
      have ha := assignBlock_ok (MatrixXd.uninit R pre junk) 0 R pre mid.2 (pos - pre)
        (by simp [MatrixXd.uninit]) (by simp [MatrixXd.uninit]) (by omega) (by omega)
      simp only [Nat.cast_zero, ← hneg] at ha
      rw [ha]
      have hloop := preStimLoop_spec pre R L hist (hist.length / 2 * L + pos - pre) hw hr'
        (hist.length + 1) 0 (hist.length / 2)
        { MatrixXd.uninit R pre junk with
          coeff := fun r c =>
            if r < R ∧ 0 ≤ c ∧ c < 0 + pre then mid.2.coeff r (pos - pre + (c - 0))
            else (MatrixXd.uninit R pre junk).coeff r c }
        [⟨0, (pre : Int)⟩] (by omega) (by omega) (by omega)
        (by intro h; omega) rfl rfl (by
          intro r c hrR hc1 hc2
          have hin : r < R ∧ 0 ≤ c ∧ c < 0 + pre := by omega
          simp only [hin, and_self, if_true]
          have hx : pos - pre + c < L := by omega
          have := concatCoeff_block L hist hw (hist.length / 2) mid hmid r (pos - pre + c) hx
          rw [Nat.sub_zero, ← this]
          congr 1
          omega)
      simpa using hloop
  · rw [if_neg hp] at hroom ⊢
    rw [if_neg hp]
    have hloop := preStimLoop_spec pre R L hist ((hist.length / 2 + 1) * L - pre) hw hr'
      (hist.length + 1) pre (hist.length / 2 + 1) (MatrixXd.uninit R pre junk) []
      (by omega) (by omega) le_rfl (by intro _; omega) rfl rfl
      (by intro r c _ hc1 hc2; omega)
    simpa using hloop


theorem assemblePreStimulus_ok (self self1 : RtAve) (junk : Nat → Nat → ℚ)
    (hist : List RawMatBuf) (s : Nat) (h : self.assemblePreStimulus junk hist s = .ok self1) :
    (self.m_iPreStimSamples = 0 ∧ self1 = self) ∨
    (0 < self.m_iPreStimSamples ∧ ∃ m w v,
      preStimMatrix self.m_iPreStimSamples self.m_qListStimChannelIdcs junk hist s = .ok (m, w)
      ∧ self.m_qListQVectorPreStimAve[s]? = some v
      ∧ self1 = { self with
                  m_qListQVectorPreStimAve := self.m_qListQVectorPreStimAve.set s (v.append m) }) := by
  unfold RtAve.assemblePreStimulus at h
  split at h
  · rename_i hpre
    right
    refine ⟨hpre, ?_⟩
    split at h
    · cases h
    · rename_i res hres
      split at h
      · cases h
      · rename_i stores hst
        cases h
        unfold storeAppend at hst
        split at hst
        · rename_i v hv
          cases hst
          exact ⟨res.1, res.2, v, hres, hv, rfl⟩
        · cases hst
  · rename_i hpre
    cases h
    left
    exact ⟨by omega, rfl⟩

theorem assemblePostStimulus_ok (self self1 : RtAve) (junk : Nat → Nat → ℚ)
    (hist : List RawMatBuf) (s : Nat) (h : self.assemblePostStimulus junk hist s = .ok self1) :
    (self.m_iPreStimSamples = 0 ∧ self1 = self) ∨
    (0 < self.m_iPreStimSamples ∧ ∃ m w v,
      postStimMatrix self.m_iPostStimSamples self.m_qListStimChannelIdcs junk hist s = .ok (m, w)
      ∧ self.m_qListQVectorPostStimAve[s]? = some v
      ∧ self1 = { self with
                  m_qListQVectorPostStimAve :=
                    self.m_qListQVectorPostStimAve.set s (v.append m) }) := by
  unfold RtAve.assemblePostStimulus at h
  split at h
  · rename_i hpre
    right
    refine ⟨hpre, ?_⟩
    split at h
    · cases h
    · rename_i res hres
      split at h
      · cases h
      · rename_i stores hst
        cases h
        unfold storeAppend at hst
        split at hst
        · rename_i v hv
          cases hst
          exact ⟨res.1, res.2, v, hres, hv, rfl⟩
        · cases hst
  · rename_i hpre
    cases h
    left
    exact ⟨by omega, rfl⟩

theorem set_getElem?_same {α : Type} : ∀ (l : List α) (i : Nat) (x : α),
    l[i]? = some x → l.set i x = l
  | [], _, _, h => by simp at h
  | a :: l, 0, x, h => by
    simp at h
    simp [h]
  | a :: l, i + 1, x, h => by
    simp at h
    simp [set_getElem?_same l i x h]

theorem storeEvict_ok (N : Nat) (stores stores1 : List EpochVector) (i : Nat)
    (h : storeEvict N stores i = .ok stores1) :
    ∃ v, stores[i]? = some v
      ∧ stores1 = stores.set i (if N < v.size then v.pop_front else v) := by
  unfold storeEvict at h
  split at h
  · rename_i v hv
    cases h
    refine ⟨v, hv, ?_⟩
    split
    · rfl
    · exact (set_getElem?_same stores i v hv).symm
  · cases h

theorem confirmStep_of_fault (junk : Nat → Nat → ℚ) (prev : List Nat) (st : RunState) (s : Nat)
    (h : st.fault.isSome = true) : confirmStep junk prev st s = st := by
  simp [confirmStep, h]

theorem confirmStep_dup (junk : Nat → Nat → ℚ) (prev : List Nat) (st : RunState) (s : Nat)
    (hc : prev.contains s = true) : confirmStep junk prev st s = st := by
  unfold confirmStep
  split
  · rfl
  · rw [hc]
    simp

theorem confirmStep_new (junk : Nat → Nat → ℚ) (prev : List Nat) (st : RunState) (s : Nat)
    (hf : st.fault = none) (hc : prev.contains s = false) :
    (confirmStep junk prev st s).confirmed = st.confirmed ++
        [ConfirmedEvent.mk st.count st.t_qListRawMatBuf.length (st.t_qListRawMatBuf.length / 2) s]
    ∧ (confirmStep junk prev st s).t_qListRawMatBuf = st.t_qListRawMatBuf
    ∧ (confirmStep junk prev st s).count = st.count
    ∧ (confirmStep junk prev st s).t_nSamplesPerBuf = st.t_nSamplesPerBuf
    ∧ (confirmStep junk prev st s).emitted = st.emitted
    ∧ ((confirmStep junk prev st s).fault = none →
        EventEffect junk st.t_qListRawMatBuf s st.self (confirmStep junk prev st s).self) := by
  unfold confirmStep
  simp only [hf, Option.isSome_none, Bool.false_eq_true, if_false, hc, Bool.not_false, if_true]
  split
  · refine ⟨rfl, rfl, rfl, rfl, rfl, ?_⟩
    intro h; cases h
  · rename_i self1 h1
    split
    · refine ⟨rfl, rfl, rfl, rfl, rfl, ?_⟩
      intro h; cases h
    · rename_i self2 h2
      split
      · refine ⟨rfl, rfl, rfl, rfl, rfl, ?_⟩
        intro h; cases h
      · rename_i preStores h3
        split
        · refine ⟨rfl, rfl, rfl, rfl, rfl, ?_⟩
          intro h; cases h
        · rename_i postStores h4
          refine ⟨rfl, rfl, rfl, rfl, rfl, ?_⟩
          intro _
          obtain ⟨vPre, hvPre, hPre⟩ := storeEvict_ok _ _ _ _ h3
          obtain ⟨vPost, hvPost, hPost⟩ := storeEvict_ok _ _ _ _ h4
          dsimp only at hvPost hPost hvPre hPre ⊢
          rcases assemblePreStimulus_ok _ _ _ _ _ h1 with ⟨hp0, e1⟩ | ⟨hp, m1, w1, v1, hm1, hv1, e1⟩
          · subst e1
            rcases assemblePostStimulus_ok _ _ _ _ _ h2 with ⟨_, e2⟩ | ⟨hp', _⟩
            · subst e2
              exact ⟨rfl, rfl, rfl, rfl, vPre, vPost, hvPre, hvPost, Or.inl ⟨hp0, hPre, hPost⟩⟩
            · omega
          · rcases assemblePostStimulus_ok _ _ _ _ _ h2 with ⟨hp0, _⟩ | ⟨_, m2, w2, v2, hm2, hv2, e2⟩
            · subst e1
              simp only at hp0
              omega
            · subst e1
              subst e2
              simp only at hm2 hv2 hvPre hPre hvPost hPost ⊢
              have hs1 : s < st.self.m_qListQVectorPreStimAve.length := by
                rcases Nat.lt_or_ge s st.self.m_qListQVectorPreStimAve.length with h | h
                · exact h
                · rw [List.getElem?_eq_none h] at hv1; cases hv1
              have hs2 : s < st.self.m_qListQVectorPostStimAve.length := by
                rcases Nat.lt_or_ge s st.self.m_qListQVectorPostStimAve.length with h | h
                · exact h
                · rw [List.getElem?_eq_none h] at hv2; cases hv2
              rw [List.getElem?_set_self (by simpa using hs1)] at hvPre
              rw [List.getElem?_set_self (by simpa using hs2)] at hvPost
              cases hvPre
              cases hvPost
              rw [List.set_set] at hPre hPost
              exact ⟨rfl, rfl, rfl, rfl, v1, v2, hv1, hv2,
                Or.inr ⟨hp, m1, w1, m2, w2, hm1, hm2, hPre, hPost⟩⟩


theorem eventsOf_cons_new (count size : Nat) (prev : List Nat) (s : Nat) (l : List Nat)
    (h : prev.contains s = false) :
    eventsOf count size prev (s :: l) =
      ConfirmedEvent.mk count size (size / 2) s :: eventsOf count size prev l := by
  have hm : s ∉ prev := by simpa using h
  simp [eventsOf, List.filter_cons, hm]

theorem eventsOf_cons_dup (count size : Nat) (prev : List Nat) (s : Nat) (l : List Nat)
    (h : prev.contains s = true) :
    eventsOf count size prev (s :: l) = eventsOf count size prev l := by
  have hm : s ∈ prev := by simpa using h
  simp [eventsOf, List.filter_cons, hm]

theorem confirmLoop_of_fault (junk : Nat → Nat → ℚ) (prev : List Nat) :
    ∀ (l : List Nat) (st : RunState), st.fault.isSome = true →
      l.foldl (confirmStep junk prev) st = st
  | [], _, _ => rfl
  | s :: l, st, h => by
    rw [List.foldl_cons, confirmStep_of_fault junk prev st s h]
    exact confirmLoop_of_fault junk prev l st h

theorem confirmLoop_spec (junk : Nat → Nat → ℚ) (prev : List Nat) :
    ∀ (l : List Nat) (st : RunState),
      (l.foldl (confirmStep junk prev) st).t_qListRawMatBuf = st.t_qListRawMatBuf
      ∧ (l.foldl (confirmStep junk prev) st).count = st.count
      ∧ (l.foldl (confirmStep junk prev) st).t_nSamplesPerBuf = st.t_nSamplesPerBuf
      ∧ (l.foldl (confirmStep junk prev) st).emitted = st.emitted
      ∧ ((l.foldl (confirmStep junk prev) st).fault = none → st.fault = none)
      ∧ (st.fault = none → ∃ X, X <+: eventsOf st.count st.t_qListRawMatBuf.length prev l
          ∧ (l.foldl (confirmStep junk prev) st).confirmed = st.confirmed ++ X
          ∧ ((l.foldl (confirmStep junk prev) st).fault = none →
              X = eventsOf st.count st.t_qListRawMatBuf.length prev l))
  | [], st => by
    refine ⟨rfl, rfl, rfl, rfl, fun h => h, fun _ => ⟨[], ?_, by simp, fun _ => by simp [eventsOf]⟩⟩
    simp [eventsOf]
  | s :: l, st => by
    rw [List.foldl_cons]
    rcases Option.eq_none_or_eq_some st.fault with hf | ⟨e, hf⟩
    case inr =>
      have hs : st.fault.isSome = true := by simp [hf]
      rw [confirmStep_of_fault junk prev st s hs, confirmLoop_of_fault junk prev l st hs]
      refine ⟨rfl, rfl, rfl, rfl, fun h => h, fun h => ?_⟩
      rw [hf] at h
      cases h
    case inl =>
      obtain ⟨i1, i2, i3, i4, i5, i6⟩ := confirmLoop_spec junk prev l (confirmStep junk prev st s)
      cases hc : prev.contains s with
      | true =>
        rw [confirmStep_dup junk prev st s hc] at i1 i2 i3 i4 i5 i6 ⊢
        rw [eventsOf_cons_dup _ _ _ _ _ hc]
        exact ⟨i1, i2, i3, i4, fun _ => hf, fun _ => i6 hf⟩
      | false =>
        obtain ⟨c1, c2, c3, c4, c5, c6⟩ := confirmStep_new junk prev st s hf hc
        rw [eventsOf_cons_new _ _ _ _ _ hc]
        refine ⟨i1.trans c2, i2.trans c3, i3.trans c4, i4.trans c5, fun _ => hf, fun _ => ?_⟩
        rcases Option.eq_none_or_eq_some (confirmStep junk prev st s).fault with hf1 | ⟨e, hf1⟩
        rotate_left
        · have hs : (confirmStep junk prev st s).fault.isSome = true := by simp [hf1]
          rw [confirmLoop_of_fault junk prev l _ hs]
          refine ⟨[ConfirmedEvent.mk st.count st.t_qListRawMatBuf.length
            (st.t_qListRawMatBuf.length / 2) s], ?_, c1, ?_⟩
          · exact ⟨_, rfl⟩
          · intro h
            rw [hf1] at h
            cases h
        · obtain ⟨X, x1, x2, x3⟩ := i6 hf1
          rw [c2, c3] at x1 x3
          refine ⟨ConfirmedEvent.mk st.count st.t_qListRawMatBuf.length
            (st.t_qListRawMatBuf.length / 2) s :: X, ?_, ?_, ?_⟩
          · exact (List.prefix_cons_inj _).mpr x1
          · rw [x2, c1]
            simp
          · intro h
            rw [x3 h]


theorem eventEffect_config (junk : Nat → Nat → ℚ) (hist : List RawMatBuf) (s : Nat)
    (a b : RtAve) (h : EventEffect junk hist s a b) :
    b.m_iNumAverages = a.m_iNumAverages ∧ b.m_iPreStimSamples = a.m_iPreStimSamples
    ∧ b.m_iPostStimSamples = a.m_iPostStimSamples
    ∧ b.m_qListStimChannelIdcs = a.m_qListStimChannelIdcs :=
  ⟨h.1, h.2.1, h.2.2.1, h.2.2.2.1⟩

theorem confirmLoop_preserves (junk : Nat → Nat → ℚ) (prev : List Nat) (P : RtAve → Prop)
    (hist : List RawMatBuf) (hP : ∀ s a b, EventEffect junk hist s a b → P a → P b) :
    ∀ (l : List Nat) (st : RunState), st.t_qListRawMatBuf = hist →
      (l.foldl (confirmStep junk prev) st).fault = none → P st.self →
      P (l.foldl (confirmStep junk prev) st).self
  | [], _, _, _, h => h
  | s :: l, st, hh, hf, h => by
    rw [List.foldl_cons] at hf ⊢
    have hf1 := (confirmLoop_spec junk prev l (confirmStep junk prev st s)).2.2.2.2.1 hf
    cases hc : prev.contains s with
    | true =>
      rw [confirmStep_dup junk prev st s hc] at hf ⊢
      exact confirmLoop_preserves junk prev P hist hP l st hh hf h
    | false =>
      have hf0 : st.fault = none := by
        rcases Option.eq_none_or_eq_some st.fault with h0 | ⟨e, h0⟩
        · exact h0
        · rw [confirmStep_of_fault junk prev st s (by simp [h0])] at hf1
          exact hf1
      obtain ⟨c1, c2, c3, c4, c5, c6⟩ := confirmStep_new junk prev st s hf0 hc
      exact confirmLoop_preserves junk prev P hist hP l _ (c2.trans hh) hf
        (hP s _ _ (hh ▸ c6 hf1) h)

theorem average_of_mid_zero (junk : Nat → Nat → ℚ) (st : RunState)
    (h : st.t_qListRawMatBuf.length / 2 = 0) : average junk st = st := by
  unfold average
  simp [h]

theorem average_of_mid_pos (junk : Nat → Nat → ℚ) (st : RunState)
    (h : 0 < st.t_qListRawMatBuf.length / 2) :
    ∃ mid prev, st.t_qListRawMatBuf[st.t_qListRawMatBuf.length / 2]? = some mid
      ∧ st.t_qListRawMatBuf[st.t_qListRawMatBuf.length / 2 - 1]? = some prev
      ∧ average junk st = mid.1.foldl (confirmStep junk prev.1) st := by
  have h1 : st.t_qListRawMatBuf.length / 2 < st.t_qListRawMatBuf.length := by omega
  have h2 : st.t_qListRawMatBuf.length / 2 - 1 < st.t_qListRawMatBuf.length := by omega
  refine ⟨st.t_qListRawMatBuf[st.t_qListRawMatBuf.length / 2],
    st.t_qListRawMatBuf[st.t_qListRawMatBuf.length / 2 - 1],
    List.getElem?_eq_getElem h1, List.getElem?_eq_getElem h2, ?_⟩
  unfold average
  have hcast : ((st.t_qListRawMatBuf.length / 2 : Nat) : Int) - 1
      = ((st.t_qListRawMatBuf.length / 2 - 1 : Nat) : Int) := by omega
  simp only [h, if_true, hcast,
    qAt_natCast _ _ _ (List.getElem?_eq_getElem h1),
    qAt_natCast _ _ _ (List.getElem?_eq_getElem h2)]
  split
  · rfl
  · rename_i hn
    have : (st.t_qListRawMatBuf[st.t_qListRawMatBuf.length / 2]).1 = [] := by
      simpa using hn
    rw [this]
    rfl

theorem stepEvents_of_mid_pos (count : Nat) (hist : List RawMatBuf) (mid prev : RawMatBuf)
    (h : 0 < hist.length / 2) (hmid : hist[hist.length / 2]? = some mid)
    (hprev : hist[hist.length / 2 - 1]? = some prev) :
    stepEvents count hist = eventsOf count hist.length prev.1 mid.1 := by
  simp [stepEvents, h, hmid, hprev]

theorem average_spec (junk : Nat → Nat → ℚ) (st : RunState) (hf : st.fault = none) :
    (average junk st).t_qListRawMatBuf = st.t_qListRawMatBuf
    ∧ (average junk st).count = st.count
    ∧ (average junk st).t_nSamplesPerBuf = st.t_nSamplesPerBuf
    ∧ (average junk st).emitted = st.emitted
    ∧ (∃ X, X <+: stepEvents st.count st.t_qListRawMatBuf
        ∧ (average junk st).confirmed = st.confirmed ++ X
        ∧ ((average junk st).fault = none → X = stepEvents st.count st.t_qListRawMatBuf))
    ∧ (∀ P : RtAve → Prop,
        (∀ s a b, EventEffect junk st.t_qListRawMatBuf s a b → P a → P b) →
        (average junk st).fault = none → P st.self → P (average junk st).self) := by
  rcases Nat.eq_zero_or_pos (st.t_qListRawMatBuf.length / 2) with h | h
  · rw [average_of_mid_zero junk st h]
    refine ⟨rfl, rfl, rfl, rfl, ⟨[], ?_, by simp, fun _ => ?_⟩, fun _ _ _ hp => hp⟩
    · exact List.nil_prefix
    · simp [stepEvents, h]
  · obtain ⟨mid, prev, hmid, hprev, hav⟩ := average_of_mid_pos junk st h
    rw [hav, stepEvents_of_mid_pos st.count _ mid prev h hmid hprev]
    obtain ⟨i1, i2, i3, i4, i5, i6⟩ := confirmLoop_spec junk prev.1 mid.1 st
    exact ⟨i1, i2, i3, i4, i6 hf, fun P hP hfa hp =>
      confirmLoop_preserves junk prev.1 P _ hP mid.1 st rfl hfa hp⟩


theorem runStep_of_fault (junk : Nat → Nat → ℚ) (st : RunState) (b : MatrixXd)
    (h : st.fault.isSome = true) : runStep junk st b = st := by
  simp [runStep, h]

theorem run_of_fault (junk : Nat → Nat → ℚ) :
    ∀ (segs : List MatrixXd) (st : RunState), st.fault.isSome = true →
      segs.foldl (runStep junk) st = st
  | [], _, _ => rfl
  | b :: segs, st, h => by
    rw [List.foldl_cons, runStep_of_fault junk st b h]
    exact run_of_fault junk segs st h

theorem runStep_spec (junk : Nat → Nat → ℚ) (st : RunState) (b : MatrixXd)
    (hf : st.fault = none) :
    (runStep junk st b).count = st.count + 1
    ∧ (runStep junk st b).t_nSamplesPerBuf
        = (if st.t_nSamplesPerBuf = 0 then b.cols else st.t_nSamplesPerBuf)
    ∧ (runStep junk st b).emitted = st.emitted
    ∧ ((∃ e, detectStimuli st.self.m_qListStimChannelIdcs b = .error e
          ∧ (runStep junk st b).fault = some e
          ∧ (runStep junk st b).confirmed = st.confirmed)
      ∨ (∃ l, detectStimuli st.self.m_qListStimChannelIdcs b = .ok l
          ∧ ((windowReady (if st.t_nSamplesPerBuf = 0 then b.cols else st.t_nSamplesPerBuf)
                (st.t_qListRawMatBuf.length + 1) st.self.m_iPreStimSamples
                st.self.m_iPostStimSamples = false
              ∧ (runStep junk st b).t_qListRawMatBuf = st.t_qListRawMatBuf ++ [(l, b)]
              ∧ (runStep junk st b).confirmed = st.confirmed
              ∧ (runStep junk st b).self = st.self
              ∧ (runStep junk st b).fault = none)
            ∨ (windowReady (if st.t_nSamplesPerBuf = 0 then b.cols else st.t_nSamplesPerBuf)
                (st.t_qListRawMatBuf.length + 1) st.self.m_iPreStimSamples
                st.self.m_iPostStimSamples = true
              ∧ (∃ X, X <+: stepEvents (st.count + 1) (st.t_qListRawMatBuf ++ [(l, b)])
                  ∧ (runStep junk st b).confirmed = st.confirmed ++ X
                  ∧ ((runStep junk st b).fault = none →
                      X = stepEvents (st.count + 1) (st.t_qListRawMatBuf ++ [(l, b)])))
              ∧ ((runStep junk st b).fault = none →
                  (runStep junk st b).t_qListRawMatBuf = (st.t_qListRawMatBuf ++ [(l, b)]).tail)
              ∧ (∀ P : RtAve → Prop,
                  (∀ s a a', EventEffect junk (st.t_qListRawMatBuf ++ [(l, b)]) s a a' →
                    P a → P a') →
                  (runStep junk st b).fault = none → P st.self → P (runStep junk st b).self))))) := by
  unfold runStep
  rw [if_neg (by simp [hf])]
  dsimp only
  generalize (if st.t_nSamplesPerBuf = 0 then b.cols else st.t_nSamplesPerBuf) = tn
  cases hd : detectStimuli st.self.m_qListStimChannelIdcs b with
  | error e =>
    exact ⟨rfl, rfl, rfl, Or.inl ⟨e, rfl, rfl, rfl⟩⟩
  | ok l =>
    dsimp only
    simp only [List.length_append, List.length_singleton]
    cases hr : windowReady tn (st.t_qListRawMatBuf.length + 1) st.self.m_iPreStimSamples
        st.self.m_iPostStimSamples with
    | false =>
      simp only [Bool.false_eq_true, if_false]
      exact ⟨trivial, trivial, trivial, Or.inr ⟨l, rfl, Or.inl ⟨trivial, rfl, trivial, trivial, hf⟩⟩⟩
    | true =>
      simp only [if_true]
      obtain ⟨a1, a2, a3, a4, ⟨X, x1, x2, x3⟩, a6⟩ := average_spec junk
        { st with
          t_nSamplesPerBuf := tn
          count := st.count + 1
          t_qListRawMatBuf := st.t_qListRawMatBuf ++ [(l, b)] } hf
      simp only at a1 a2 a3 a4 x1 x2 x3 a6
      split
      · rename_i hfa
        refine ⟨a2, a3, a4, Or.inr ⟨l, rfl, Or.inr ⟨trivial, ⟨X, x1, x2, fun h => ?_⟩,
          fun h => ?_, fun P hP h => ?_⟩⟩⟩
        · rw [h] at hfa; cases hfa
        · rw [h] at hfa; cases hfa
        · rw [h] at hfa; cases hfa
      · rename_i hfa
        have hfa' : (average junk
          { st with
            t_nSamplesPerBuf := tn
            count := st.count + 1
            t_qListRawMatBuf := st.t_qListRawMatBuf ++ [(l, b)] }).fault = none := by
          simpa using hfa
        refine ⟨a2, a3, a4, Or.inr ⟨l, rfl, Or.inr ⟨trivial, ⟨X, x1, x2, fun _ => x3 hfa'⟩,
          fun _ => ?_, fun P hP _ hp => a6 P hP hfa' hp⟩⟩⟩
        simp only [a1]

theorem runStep_eval (junk : Nat → Nat → ℚ) (st : RunState) (b : MatrixXd) (l : List Nat)
    (hf : st.fault = none) (hd : detectStimuli st.self.m_qListStimChannelIdcs b = .ok l) :
    runStep junk st b =
      if windowReady (if st.t_nSamplesPerBuf = 0 then b.cols else st.t_nSamplesPerBuf)
          (st.t_qListRawMatBuf.length + 1) st.self.m_iPreStimSamples
          st.self.m_iPostStimSamples then
        (if (average junk { st with
              t_nSamplesPerBuf := if st.t_nSamplesPerBuf = 0 then b.cols else st.t_nSamplesPerBuf,
              count := st.count + 1,
              t_qListRawMatBuf := st.t_qListRawMatBuf ++ [(l, b)] }).fault.isSome then
          average junk { st with
              t_nSamplesPerBuf := if st.t_nSamplesPerBuf = 0 then b.cols else st.t_nSamplesPerBuf,
              count := st.count + 1,
              t_qListRawMatBuf := st.t_qListRawMatBuf ++ [(l, b)] }
        else { average junk { st with
              t_nSamplesPerBuf := if st.t_nSamplesPerBuf = 0 then b.cols else st.t_nSamplesPerBuf,
              count := st.count + 1,
              t_qListRawMatBuf := st.t_qListRawMatBuf ++ [(l, b)] } with
            t_qListRawMatBuf := (average junk { st with
              t_nSamplesPerBuf := if st.t_nSamplesPerBuf = 0 then b.cols else st.t_nSamplesPerBuf,
              count := st.count + 1,
              t_qListRawMatBuf := st.t_qListRawMatBuf ++ [(l, b)] }).t_qListRawMatBuf.tail })
      else { st with
              t_nSamplesPerBuf := if st.t_nSamplesPerBuf = 0 then b.cols else st.t_nSamplesPerBuf,
              count := st.count + 1,
              t_qListRawMatBuf := st.t_qListRawMatBuf ++ [(l, b)] } := by
  unfold runStep
  simp only [hf, Option.isSome_none, Bool.false_eq_true, if_false, hd, List.length_append,
    List.length_singleton]


theorem castInt_pos_iff (x : ℚ) : 0 < castInt x ↔ 1 ≤ x ∧ x < 2147483648 := by
  unfold castInt
  by_cases h : 0 ≤ x
  · simp only [if_pos h]
    constructor
    · intro hx
      split at hx
      · rename_i hr
        have h1 : (1 : Int) ≤ ⌊x⌋ := hx
        have h2 := Int.le_floor.mp h1
        have h3 : ⌊x⌋ < 2147483648 := by omega
        have h4 := Int.floor_lt.mp h3
        exact ⟨by simpa using h2, by simpa using h4⟩
      · omega
    · rintro ⟨h1, h2⟩
      have h3 : (1 : Int) ≤ ⌊x⌋ := Int.le_floor.mpr (by simpa using h1)
      have h4 : ⌊x⌋ < 2147483648 := Int.floor_lt.mpr (by simpa using h2)
      rw [if_pos ⟨by omega, by omega⟩]
      omega
  · simp only [if_neg h]
    have hneg : x < 0 := lt_of_not_ge h
    have h0 : ⌈x⌉ ≤ 0 := Int.ceil_le.mpr (by simpa using le_of_lt hneg)
    constructor
    · intro hx
      split at hx
      · omega
      · omega
    · rintro ⟨h1, _⟩
      linarith

theorem intRowMax_pos_iff (row : Nat → Int) : ∀ n : Nat,
    0 < intRowMax row n ↔ ∃ c, c ≤ n ∧ 0 < row c
  | 0 => by
    simp only [intRowMax]
    constructor
    · intro h
      exact ⟨0, le_rfl, h⟩
    · rintro ⟨c, hc, h⟩
      have : c = 0 := by omega
      subst this
      exact h
  | n + 1 => by
    simp only [intRowMax, lt_max_iff, intRowMax_pos_iff row n]
    constructor
    · rintro (⟨c, hc, h⟩ | h)
      · exact ⟨c, by omega, h⟩
      · exact ⟨n + 1, le_rfl, h⟩
    · rintro ⟨c, hc, h⟩
      rcases Nat.lt_or_ge c (n + 1) with h1 | h1
      · exact Or.inl ⟨c, by omega, h⟩
      · have : c = n + 1 := by omega
        subst this
        exact Or.inr h

theorem stimSegmentMax_pos_iff (raw : MatrixXd) (idx : Nat) (iMax : Int)
    (h : stimSegmentMax raw idx = .ok iMax) :
    0 < iMax ↔ ∃ c, c < raw.cols ∧ 1 ≤ raw.coeff idx c ∧ raw.coeff idx c < 2147483648 := by
  unfold stimSegmentMax at h
  split at h
  · rename_i hc
    cases h
    rw [intRowMax_pos_iff]
    constructor
    · rintro ⟨c, hc1, hc2⟩
      exact ⟨c, by omega, (castInt_pos_iff _).mp hc2⟩
    · rintro ⟨c, hc1, hc2⟩
      exact ⟨c, by omega, (castInt_pos_iff _).mpr hc2⟩
  · cases h

theorem detectFrom_spec (raw : MatrixXd) :
    ∀ (idcs : List Nat) (i : Nat) (acc l : List Nat), detectFrom raw idcs i acc = .ok l →
      (∀ k, k ∈ l ↔ k ∈ acc ∨ ∃ j idx, idcs[j]? = some idx ∧ k = i + j
          ∧ ∃ c, c < raw.cols ∧ 1 ≤ raw.coeff idx c ∧ raw.coeff idx c < 2147483648)
      ∧ (acc.Pairwise (· < ·) → (∀ k ∈ acc, k < i) →
          l.Pairwise (· < ·) ∧ ∀ k ∈ l, k < i + idcs.length)
  | [], i, acc, l, h => by
    simp only [detectFrom] at h
    cases h
    refine ⟨fun k => ?_, fun hp hlt => ⟨hp, fun k hk => by simpa using hlt k hk⟩⟩
    simp
  | idx :: rest, i, acc, l, h => by
    simp only [detectFrom] at h
    split at h
    · cases h
    · rename_i iMax hmax
      have hpos := stimSegmentMax_pos_iff raw idx iMax hmax
      obtain ⟨ih1, ih2⟩ := detectFrom_spec raw rest (i + 1) _ l h
      constructor
      · intro k
        rw [ih1 k]
        constructor
        · rintro (hk | ⟨j, idx', hj, hkj, hc⟩)
          · split at hk
            · rename_i hm
              rcases List.mem_append.mp hk with hk | hk
              · exact Or.inl hk
              · have : k = i := by simpa using hk
                exact Or.inr ⟨0, idx, by simp, by omega, hpos.mp hm⟩
            · exact Or.inl hk
          · exact Or.inr ⟨j + 1, idx', by simpa using hj, by omega, hc⟩
        · rintro (hk | ⟨j, idx', hj, hkj, hc⟩)
          · left
            split
            · exact List.mem_append_left _ hk
            · exact hk
          · cases j with
            | zero =>
              simp at hj
              subst hj
              left
              rw [if_pos (hpos.mpr hc)]
              simp [hkj]
            | succ j =>
              right
              exact ⟨j, idx', by simpa using hj, by omega, hc⟩
      · intro hp hlt
        have hacc : (if 0 < iMax then acc ++ [i] else acc).Pairwise (· < ·)
            ∧ ∀ k ∈ (if 0 < iMax then acc ++ [i] else acc), k < i + 1 := by
          split
          · constructor
            · rw [List.pairwise_append]
              refine ⟨hp, List.pairwise_singleton _ _, ?_⟩
              intro a ha b hb
              have : b = i := by simpa using hb
              subst this
              exact hlt a ha
            · intro k hk
              rcases List.mem_append.mp hk with hk | hk
              · exact Nat.lt_succ_of_lt (hlt k hk)
              · have : k = i := by simpa using hk
                omega
          · exact ⟨hp, fun k hk => Nat.lt_succ_of_lt (hlt k hk)⟩
        obtain ⟨r1, r2⟩ := ih2 hacc.1 hacc.2
        refine ⟨r1, fun k hk => ?_⟩
        have := r2 k hk
        simp only [List.length_cons]
        omega

theorem detectFrom_total (raw : MatrixXd) (hc : 0 < raw.cols) :
    ∀ (idcs : List Nat) (i : Nat) (acc : List Nat), (∀ idx ∈ idcs, idx < raw.rows) →
      ∃ l, detectFrom raw idcs i acc = .ok l
  | [], _, acc, _ => ⟨acc, rfl⟩
  | idx :: rest, i, acc, h => by
    simp only [detectFrom, stimSegmentMax, h idx (List.mem_cons_self _ _), hc, and_self, if_true]
    exact detectFrom_total raw hc rest (i + 1) _ (fun x hx => h x (List.mem_cons_of_mem _ hx))


/-- C8, counterexample: the only stimulus row of the block holds the sample
3000000000. It is at least 1 and its truncation toward zero is positive, but
its conversion to `int` is `INT_MIN`, so the stimulus is not in the active
set. -/
theorem large_sample_not_detected :
    (1 : ℚ) ≤ largeBuf.coeff 0 0
    ∧ (0 : Int) < ⌊largeBuf.coeff 0 0⌋
    ∧ castInt (largeBuf.coeff 0 0) = -2147483648
    ∧ detectStimuli [0] largeBuf = .ok []
    ∧ activeSet [0] largeBuf = [] := by
  refine ⟨by decide, ?_, by decide, by rfl, by decide⟩
  have h : largeBuf.coeff 0 0 = ((3000000000 : Int) : ℚ) := by
    simp [largeBuf]
  rw [h, Int.floor_intCast]
  decide

/-- C8, amended. For a block with at least one sample in which every stimulus
channel exists, the detection loop yields a list that contains stimulus index
`i` (a position in the channel list) exactly when row `StimulusChannelSet[i]`
has a sample whose conversion to a 32-bit `int` is positive, which is the same
as a sample `x` with `1 ≤ x < 2^31`. Samples below 1 and samples from `2^31` on
never activate a stimulus, and on samples from 0 up to `2^31` the conversion is
the truncation. -/
theorem detectStimuli_iff (idcs : List Nat) (raw : MatrixXd) (hc : 0 < raw.cols)
    (hrows : ∀ idx ∈ idcs, idx < raw.rows) :
    ∃ l, detectStimuli idcs raw = .ok l
      ∧ (∀ i, i ∈ l ↔ ∃ idx, idcs[i]? = some idx
            ∧ ∃ c, c < raw.cols ∧ 0 < castInt (raw.coeff idx c))
      ∧ (∀ i, i ∈ l ↔ ∃ idx, idcs[i]? = some idx
            ∧ ∃ c, c < raw.cols ∧ 1 ≤ raw.coeff idx c ∧ raw.coeff idx c < 2147483648)
      ∧ (∀ x : ℚ, x < 1 → ¬ 0 < castInt x)
      ∧ (∀ x : ℚ, 2147483648 ≤ x → ¬ 0 < castInt x)
      ∧ (∀ x : ℚ, 0 ≤ x → x < 2147483648 → castInt x = ⌊x⌋) := by
  obtain ⟨l, hl⟩ := detectFrom_total raw hc idcs 0 [] hrows
  have hspec := (detectFrom_spec raw idcs 0 [] l hl).1
  have h2 : ∀ i, i ∈ l ↔ ∃ idx, idcs[i]? = some idx
      ∧ ∃ c, c < raw.cols ∧ 1 ≤ raw.coeff idx c ∧ raw.coeff idx c < 2147483648 := by
    intro i
    rw [hspec i]
    constructor
    · rintro (h | ⟨j, idx, hj, hij, hc⟩)
      · cases h
      · have : i = j := by omega
        subst this
        exact ⟨idx, hj, hc⟩
    · rintro ⟨idx, hj, hc⟩
      exact Or.inr ⟨i, idx, hj, by omega, hc⟩
  refine ⟨l, hl, ?_, h2, ?_, ?_, ?_⟩
  · intro i
    rw [h2 i]
    simp only [castInt_pos_iff]
  · intro x hx h
    have := (castInt_pos_iff x).mp h
    linarith
  · intro x hx h
    have := (castInt_pos_iff x).mp h
    linarith
  · intro x h0 h1
    unfold castInt
    simp only [if_pos h0]
    have h3 : (0 : Int) ≤ ⌊x⌋ := Int.floor_nonneg.mpr h0
    have h4 : ⌊x⌋ < 2147483648 := Int.floor_lt.mpr (by simpa using h1)
    rw [if_pos ⟨by omega, by omega⟩]

theorem run_snoc (self : RtAve) (junk : Nat → Nat → ℚ) (segs : List MatrixXd) (b : MatrixXd) :
    self.run junk (segs ++ [b]) = runStep junk (self.run junk segs) b := by
  unfold RtAve.run
  split
  · rw [runStep_of_fault]
    rfl
  · simp [List.foldl_append]

theorem run_start_ok (self : RtAve) (junk : Nat → Nat → ℚ) (segs : List MatrixXd)
    (hf : (self.run junk segs).fault = none) : ∃ self1, self.start = .ok self1 := by
  unfold RtAve.run at hf
  split at hf
  · simp at hf
  · rename_i self1 h
    exact ⟨self1, h⟩

theorem run_nil (self self1 : RtAve) (junk : Nat → Nat → ℚ) (h : self.start = .ok self1) :
    self.run junk [] = RunState.enter self1 := by
  simp [RtAve.run, h]

theorem run_fault_mono (self : RtAve) (junk : Nat → Nat → ℚ) (segs : List MatrixXd)
    (b : MatrixXd) (hf : (self.run junk (segs ++ [b])).fault = none) :
    (self.run junk segs).fault = none := by
  rcases Option.eq_none_or_eq_some (self.run junk segs).fault with h | ⟨e, h⟩
  · exact h
  · rw [run_snoc, runStep_of_fault junk _ b (by simp [h])] at hf
    exact hf

/-- Induction over the blocks processed by a run that has not faulted. -/
theorem run_induction (self self1 : RtAve) (junk : Nat → Nat → ℚ)
    (hs : self.start = .ok self1) (P : List MatrixXd → RunState → Prop)
    (h0 : P [] (RunState.enter self1))
    (hstep : ∀ segs st b, st.fault = none → P segs st → (runStep junk st b).fault = none →
      P (segs ++ [b]) (runStep junk st b)) :
    ∀ segs, (self.run junk segs).fault = none → P segs (self.run junk segs) := by
  intro segs
  induction segs using List.reverseRecOn with
  | nil =>
    intro _
    rw [run_nil self self1 junk hs]
    exact h0
  | append_singleton segs b ih =>
    intro hf
    have hf0 := run_fault_mono self junk segs b hf
    rw [run_snoc] at hf ⊢
    exact hstep segs _ b hf0 (ih hf0) hf

theorem stimChannelLoop_config (info : FiffInfo) :
    ∀ (n i : Nat) (self self1 : RtAve), stimChannelLoop info n i self = .ok self1 →
      self1.m_iNumAverages = self.m_iNumAverages
      ∧ self1.m_iPreStimSamples = self.m_iPreStimSamples
      ∧ self1.m_iPostStimSamples = self.m_iPostStimSamples
  | 0, _, self, self1, h => by
    simp only [stimChannelLoop] at h
    cases h
    exact ⟨rfl, rfl, rfl⟩
  | n + 1, i, self, self1, h => by
    simp only [stimChannelLoop] at h
    split at h
    · cases h
    · rename_i ch _
      obtain ⟨h1, h2, h3⟩ := stimChannelLoop_config info n (i + 1) _ self1 h
      split at h1 <;> split at h2 <;> split at h3 <;> exact ⟨h1, h2, h3⟩

theorem start_config (self self1 : RtAve) (h : self.start = .ok self1) :
    self1.m_iNumAverages = self.m_iNumAverages
    ∧ self1.m_iPreStimSamples = self.m_iPreStimSamples
    ∧ self1.m_iPostStimSamples = self.m_iPostStimSamples := by
  unfold RtAve.start at h
  have := stimChannelLoop_config _ _ _ _ self1 h
  exact this

/-- Facts about every state reached without a fault: the configuration is the
one fixed at the start, `count` counts the blocks, and every history entry
carries the stimuli detected in its block. -/
theorem run_reach (self self1 : RtAve) (junk : Nat → Nat → ℚ) (hs : self.start = .ok self1)
    (segs : List MatrixXd) (hf : (self.run junk segs).fault = none) :
    (self.run junk segs).self.m_qListStimChannelIdcs = self1.m_qListStimChannelIdcs
    ∧ (self.run junk segs).self.m_iNumAverages = self.m_iNumAverages
    ∧ (self.run junk segs).self.m_iPreStimSamples = self.m_iPreStimSamples
    ∧ (self.run junk segs).self.m_iPostStimSamples = self.m_iPostStimSamples
    ∧ (self.run junk segs).count = segs.length
    ∧ (∀ e ∈ (self.run junk segs).t_qListRawMatBuf,
        detectStimuli self1.m_qListStimChannelIdcs e.2 = .ok e.1) := by
  obtain ⟨s1, s2, s3⟩ := start_config self self1 hs
  refine run_induction self self1 junk hs
    (fun segs st => st.self.m_qListStimChannelIdcs = self1.m_qListStimChannelIdcs
      ∧ st.self.m_iNumAverages = self.m_iNumAverages
      ∧ st.self.m_iPreStimSamples = self.m_iPreStimSamples
      ∧ st.self.m_iPostStimSamples = self.m_iPostStimSamples
      ∧ st.count = segs.length
      ∧ (∀ e ∈ st.t_qListRawMatBuf, detectStimuli self1.m_qListStimChannelIdcs e.2 = .ok e.1))
    ?_ ?_ segs hf
  · exact ⟨rfl, s1, s2, s3, rfl, fun e he => by cases he⟩
  · intro segs st b hf0 ⟨p1, p2, p3, p4, p5, p6⟩ hf1
    obtain ⟨r1, r2, r3, r4⟩ := runStep_spec junk st b hf0
    have hcfg : ∀ hist : List RawMatBuf, ∀ s a a', EventEffect junk hist s a a' →
        (a.m_qListStimChannelIdcs = self1.m_qListStimChannelIdcs
          ∧ a.m_iNumAverages = self.m_iNumAverages
          ∧ a.m_iPreStimSamples = self.m_iPreStimSamples
          ∧ a.m_iPostStimSamples = self.m_iPostStimSamples) →
        (a'.m_qListStimChannelIdcs = self1.m_qListStimChannelIdcs
          ∧ a'.m_iNumAverages = self.m_iNumAverages
          ∧ a'.m_iPreStimSamples = self.m_iPreStimSamples
          ∧ a'.m_iPostStimSamples = self.m_iPostStimSamples) := by
      intro hist s a a' he ⟨q1, q2, q3, q4⟩
      obtain ⟨e1, e2, e3, e4⟩ := eventEffect_config junk hist s a a' he
      exact ⟨e4.trans q1, e1.trans q2, e2.trans q3, e3.trans q4⟩
    rcases r4 with ⟨e, _, he, _⟩ | ⟨l, hl, hcase⟩
    · rw [he] at hf1
      cases hf1
    · rw [p1] at hl
      rcases hcase with ⟨_, c2, _, c4, _⟩ | ⟨_, _, c3, c4⟩
      · rw [c4, c2]
        refine ⟨p1, p2, p3, p4, by simp [r1, p5], ?_⟩
        intro e he
        rcases List.mem_append.mp he with he | he
        · exact p6 e he
        · have : e = (l, b) := by simpa using he
          subst this
          exact hl
      · obtain ⟨q1, q2, q3, q4⟩ := c4 _ (hcfg _) hf1 ⟨p1, p2, p3, p4⟩
        refine ⟨q1, q2, q3, q4, by simp [r1, p5], ?_⟩
        rw [c3 hf1]
        intro e he
        have he' := List.mem_of_mem_tail he
        rcases List.mem_append.mp he' with he | he
        · exact p6 e he
        · have : e = (l, b) := by simpa using he
          subst this
          exact hl


theorem wrap32_of_lt (n : Nat) (h : n < 4294967296) : wrap32 n = n :=
  Nat.mod_eq_of_lt h

theorem wrap32_le (n : Nat) : wrap32 n ≤ n := Nat.mod_le _ _

/-- A successful window test needs a non-empty history and a non-zero block
length, whatever the arithmetic does. -/
theorem windowReady_pos (tn hs pre post : Nat) (h : windowReady tn hs pre post = true) :
    1 ≤ hs ∧ 1 ≤ tn := by
  unfold windowReady at h
  have h1 : wrap32 (tn * hs) > wrap32 (pre + post + 2 * tn) := by simpa using h
  constructor
  · by_contra hc
    have : hs = 0 := by omega
    subst this
    simp [wrap32] at h1
  · by_contra hc
    have : tn = 0 := by omega
    subst this
    simp [wrap32] at h1

/-- Without wrap the window test is the comparison of the exact values. -/
theorem windowReady_exact (tn hs pre post : Nat) (h1 : tn * hs < 4294967296)
    (h2 : pre + post + 2 * tn < 4294967296) :
    windowReady tn hs pre post = decide (tn * hs > pre + post + 2 * tn) := by
  unfold windowReady
  rw [wrap32_of_lt _ h1, wrap32_of_lt _ h2]

theorem windowReady_size (tn hs pre post : Nat) (h2 : pre + post + 2 * tn < 4294967296)
    (h : windowReady tn hs pre post = true) : 3 ≤ hs ∧ 1 ≤ tn := by
  refine ⟨?_, (windowReady_pos tn hs pre post h).2⟩
  unfold windowReady at h
  have h1 : wrap32 (tn * hs) > wrap32 (pre + post + 2 * tn) := by simpa using h
  rw [wrap32_of_lt _ h2] at h1
  have h3 := wrap32_le (tn * hs)
  by_contra hc
  have h4 : hs ≤ 2 := by omega
  have h5 : tn * hs ≤ tn * 2 := Nat.mul_le_mul_left tn h4
  omega

theorem windowSize_mul_le (pre post L : Nat) :
    L * windowSize pre post L ≤ pre + post + 3 * L := by
  unfold windowSize
  have h4 : L * ((pre + post) / L) ≤ pre + post := Nat.mul_div_le _ _
  have h3 : L * ((pre + post) / L + 3) = L * ((pre + post) / L) + 3 * L := by ring
  omega

theorem windowReady_iff (L hs pre post : Nat) (hL : 1 ≤ L) (h1 : L * hs < 4294967296)
    (h2 : pre + post + 2 * L < 4294967296) :
    windowReady L hs pre post = true ↔ windowSize pre post L ≤ hs := by
  rw [windowReady_exact L hs pre post h1 h2]
  unfold windowSize
  simp only [gt_iff_lt, decide_eq_true_eq]
  have hdiv : ∀ c, (pre + post) / L < c ↔ pre + post < c * L := fun c =>
    Nat.div_lt_iff_lt_mul (by omega)
  have h4 : L * ((pre + post) / L) ≤ pre + post := Nat.mul_div_le _ _
  generalize (pre + post) / L = q at hdiv h4 ⊢
  constructor
  · intro h
    by_contra hc
    have h1 : hs ≤ q + 2 := by omega
    have h2 : L * hs ≤ L * (q + 2) := Nat.mul_le_mul_left L h1
    have h3 : L * (q + 2) = L * q + 2 * L := by ring
    omega
  · intro h
    have h1 : q < hs - 2 := by omega
    have h2 := (hdiv (hs - 2)).mp h1
    have h3 : (hs - 2) * L + 2 * L = L * hs := by
      have : hs - 2 + 2 = hs := by omega
      calc (hs - 2) * L + 2 * L = (hs - 2 + 2) * L := by ring
        _ = L * hs := by rw [this, Nat.mul_comm]
    omega

/-- In a configuration without wrap, the test on a history of at most
`windowSize` blocks succeeds exactly at `windowSize` blocks. -/
theorem windowReady_upto (L hs pre post : Nat) (hL : 1 ≤ L)
    (hnw : pre + post + 3 * L < 4294967296) (hhs : hs ≤ windowSize pre post L) :
    windowReady L hs pre post = true ↔ windowSize pre post L ≤ hs := by
  have hK := windowSize_mul_le pre post L
  have h1 : L * hs ≤ L * windowSize pre post L := Nat.mul_le_mul_left L hhs
  exact windowReady_iff L hs pre post hL (by omega) (by omega)


theorem detectStimuli_sorted (idcs : List Nat) (raw : MatrixXd) (l : List Nat)
    (h : detectStimuli idcs raw = .ok l) : l.Pairwise (· < ·) ∧ ∀ k ∈ l, k < idcs.length := by
  have := (detectFrom_spec raw idcs 0 [] l h).2 List.Pairwise.nil (fun k hk => by cases hk)
  simpa using this

theorem eventsOf_countP (count size : Nat) (prev cur : List Nat) (hnd : cur.Nodup) (s : Nat) :
    (eventsOf count size prev cur).countP (fun e => decide (e.stim = s))
      = if s ∈ cur ∧ s ∉ prev then 1 else 0 := by
  unfold eventsOf
  rw [List.countP_map]
  have hfun : ((fun e : ConfirmedEvent => decide (e.stim = s)) ∘
      fun s => ConfirmedEvent.mk count size (size / 2) s) = fun x => x == s := by
    funext x
    simp [BEq.beq]
  rw [hfun]
  have hcount : List.countP (fun x => x == s) (List.filter (fun s => !prev.contains s) cur)
      = List.count s (List.filter (fun s => !prev.contains s) cur) := rfl
  rw [hcount]
  have hnd' : (List.filter (fun s => !prev.contains s) cur).Nodup := hnd.filter _
  split
  · rename_i h
    exact List.count_eq_one_of_mem hnd' (List.mem_filter.mpr ⟨h.1, by simpa using h.2⟩)
  · rename_i h
    apply List.count_eq_zero_of_not_mem
    intro hm
    obtain ⟨h1, h2⟩ := List.mem_filter.mp hm
    exact h ⟨h1, by simpa using h2⟩

theorem runStep_mid_zero (junk : Nat → Nat → ℚ) (st : RunState) (b : MatrixXd) (l : List Nat)
    (hf : st.fault = none) (hd : detectStimuli st.self.m_qListStimChannelIdcs b = .ok l)
    (hr : windowReady (if st.t_nSamplesPerBuf = 0 then b.cols else st.t_nSamplesPerBuf)
          (st.t_qListRawMatBuf.length + 1) st.self.m_iPreStimSamples
          st.self.m_iPostStimSamples = true)
    (hz : (st.t_qListRawMatBuf.length + 1) / 2 = 0) :
    (runStep junk st b).fault = none
    ∧ (runStep junk st b).confirmed = st.confirmed
    ∧ (runStep junk st b).self = st.self
    ∧ (runStep junk st b).t_qListRawMatBuf = [] := by
  rw [runStep_eval junk st b l hf hd, if_pos hr]
  have hlen : (st.t_qListRawMatBuf ++ [(l, b)]).length = st.t_qListRawMatBuf.length + 1 := by
    simp
  have hav := average_of_mid_zero junk { st with
      t_nSamplesPerBuf := if st.t_nSamplesPerBuf = 0 then b.cols else st.t_nSamplesPerBuf,
      count := st.count + 1,
      t_qListRawMatBuf := st.t_qListRawMatBuf ++ [(l, b)] } (by rw [hlen]; exact hz)
  rw [hav]
  simp only [hf, Option.isSome_none, Bool.false_eq_true, if_false]
  have hnil : st.t_qListRawMatBuf = [] := List.length_eq_zero.mp (by omega)
  refine ⟨trivial, trivial, trivial, ?_⟩
  rw [hnil]
  rfl

/-- C4, counterexample: with `preStimSamples = 2^32 - 8`, `postStimSamples = 0`
and blocks of 4 samples the right-hand side of the window test wraps to 0, so
the test succeeds when the first block arrives. Stimulus 0 is in the active
set of the middle entry (the only entry, index 0) and there is no entry before
it, yet no event is confirmed at this ready step. -/
theorem ready_first_block_unconfirmed :
    windowReady 4 1 4294967288 0 = true
    ∧ activeSet (RtAve.new 4294967288 0 exampleInfo).stimChannels (pulseBuf 4 [0] 1 0) = [0]
    ∧ ((RtAve.new 4294967288 0 exampleInfo).run exampleJunk [pulseBuf 4 [0] 1 0]).confirmed = []
    ∧ ((RtAve.new 4294967288 0 exampleInfo).run exampleJunk [pulseBuf 4 [0] 1 0]).fault = none
    ∧ ((RtAve.new 4294967288 0 exampleInfo).run exampleJunk
        [pulseBuf 4 [0] 1 0]).t_qListRawMatBuf.length = 0 := by
  decide

/-- C4, amended. At a step on a live worker for which detection succeeds and
the window test holds, with `historySize` counting the new block: if the middle
index `historySize / 2` is at least 1, the middle entry and the entry before it
exist and the events confirmed at the step are exactly those of the middle
entry's stimuli that are not stimuli of the entry before it, one event each and
in the order of the middle entry's list (a prefix of that list if a fault stops
the step), and after a step without fault the history is this history without
its head; if the middle index is 0 no event is confirmed, no store changes and
the only entry is evicted. The middle index is at least 1 whenever the
right-hand side of the window test does not wrap. -/
theorem confirmation_rule (self : RtAve) (junk : Nat → Nat → ℚ) (segs : List MatrixXd)
    (b : MatrixXd) (l : List Nat)
    (hf : (self.run junk segs).fault = none)
    (hd : detectStimuli (self.run junk segs).self.m_qListStimChannelIdcs b = .ok l)
    (hready : windowReady (self.run junk (segs ++ [b])).t_nSamplesPerBuf
      ((self.run junk segs).t_qListRawMatBuf.length + 1)
      self.m_iPreStimSamples self.m_iPostStimSamples = true) :
    (self.m_iPreStimSamples + self.m_iPostStimSamples
        + 2 * (self.run junk (segs ++ [b])).t_nSamplesPerBuf < 4294967296 →
      1 ≤ ((self.run junk segs).t_qListRawMatBuf.length + 1) / 2)
    ∧ (((self.run junk segs).t_qListRawMatBuf.length + 1) / 2 = 0 →
        (self.run junk (segs ++ [b])).confirmed = (self.run junk segs).confirmed
        ∧ (self.run junk (segs ++ [b])).self = (self.run junk segs).self
        ∧ (self.run junk (segs ++ [b])).fault = none
        ∧ (self.run junk (segs ++ [b])).t_qListRawMatBuf = [])
    ∧ (1 ≤ ((self.run junk segs).t_qListRawMatBuf.length + 1) / 2 →
    ∃ mid prev,
      ((self.run junk segs).t_qListRawMatBuf ++ [(l, b)])[
          ((self.run junk segs).t_qListRawMatBuf.length + 1) / 2]? = some mid
      ∧ ((self.run junk segs).t_qListRawMatBuf ++ [(l, b)])[
          ((self.run junk segs).t_qListRawMatBuf.length + 1) / 2 - 1]? = some prev
      ∧ (∃ X,
          X <+: (mid.1.filter (fun s => !prev.1.contains s)).map
              (fun s => ConfirmedEvent.mk (segs.length + 1)
                ((self.run junk segs).t_qListRawMatBuf.length + 1)
                (((self.run junk segs).t_qListRawMatBuf.length + 1) / 2) s)
          ∧ (self.run junk (segs ++ [b])).confirmed = (self.run junk segs).confirmed ++ X
          ∧ ((self.run junk (segs ++ [b])).fault = none →
              X = (mid.1.filter (fun s => !prev.1.contains s)).map
                (fun s => ConfirmedEvent.mk (segs.length + 1)
                  ((self.run junk segs).t_qListRawMatBuf.length + 1)
                  (((self.run junk segs).t_qListRawMatBuf.length + 1) / 2) s)
              ∧ (self.run junk (segs ++ [b])).t_qListRawMatBuf
                  = ((self.run junk segs).t_qListRawMatBuf ++ [(l, b)]).tail))
      ∧ (∀ s, ((mid.1.filter (fun s => !prev.1.contains s)).map
              (fun s => ConfirmedEvent.mk (segs.length + 1)
                ((self.run junk segs).t_qListRawMatBuf.length + 1)
                (((self.run junk segs).t_qListRawMatBuf.length + 1) / 2) s)).countP
              (fun e => decide (e.stim = s))
            = if s ∈ mid.1 ∧ s ∉ prev.1 then 1 else 0)) := by
  obtain ⟨self1, hs⟩ := run_start_ok self junk segs hf
  obtain ⟨p1, p2, p3, p4, p5, p6⟩ := run_reach self self1 junk hs segs hf
  obtain ⟨r1, r2, r3, r4⟩ := runStep_spec junk (self.run junk segs) b hf
  rw [run_snoc] at hready ⊢
  rw [r2, ← p3, ← p4] at hready
  have hlen0 : ((self.run junk segs).t_qListRawMatBuf ++ [(l, b)]).length
      = (self.run junk segs).t_qListRawMatBuf.length + 1 := by simp
  refine ⟨fun hnw => ?_, fun hz => ?_, fun hsz => ?_⟩
  · rw [r2, ← p3, ← p4] at hnw
    have := (windowReady_size _ _ _ _ hnw hready).1
    omega
  · obtain ⟨z1, z2, z3, z4⟩ := runStep_mid_zero junk _ b l hf hd hready hz
    exact ⟨z2, z3, z1, z4⟩
  have hlen : ((self.run junk segs).t_qListRawMatBuf ++ [(l, b)]).length
      = (self.run junk segs).t_qListRawMatBuf.length + 1 := by simp
  have hmidpos : 0 < ((self.run junk segs).t_qListRawMatBuf ++ [(l, b)]).length / 2 := by
    rw [hlen]; omega
  have h1 : ((self.run junk segs).t_qListRawMatBuf.length + 1) / 2
      < ((self.run junk segs).t_qListRawMatBuf ++ [(l, b)]).length := by rw [hlen]; omega
  have h2 : ((self.run junk segs).t_qListRawMatBuf.length + 1) / 2 - 1
      < ((self.run junk segs).t_qListRawMatBuf ++ [(l, b)]).length := by rw [hlen]; omega
  obtain ⟨mid, hmid⟩ : ∃ mid, ((self.run junk segs).t_qListRawMatBuf ++ [(l, b)])[
      ((self.run junk segs).t_qListRawMatBuf.length + 1) / 2]? = some mid :=
    ⟨_, List.getElem?_eq_getElem h1⟩
  obtain ⟨prev, hprev⟩ : ∃ prev, ((self.run junk segs).t_qListRawMatBuf ++ [(l, b)])[
      ((self.run junk segs).t_qListRawMatBuf.length + 1) / 2 - 1]? = some prev :=
    ⟨_, List.getElem?_eq_getElem h2⟩
  have hse := stepEvents_of_mid_pos ((self.run junk segs).count + 1)
    ((self.run junk segs).t_qListRawMatBuf ++ [(l, b)]) mid prev hmidpos
    (by rw [hlen]; exact hmid) (by rw [hlen]; exact hprev)
  rw [hlen, p5] at hse
  have hmidmem : mid ∈ (self.run junk segs).t_qListRawMatBuf ++ [(l, b)] :=
    List.getElem?_mem hmid
  have hnd : mid.1.Nodup := by
    have hdet : detectStimuli self1.m_qListStimChannelIdcs mid.2 = .ok mid.1 := by
      rcases List.mem_append.mp hmidmem with h | h
      · exact p6 mid h
      · have : mid = (l, b) := by simpa using h
        subst this
        rw [← p1]
        exact hd
    have := (detectStimuli_sorted _ _ _ hdet).1
    exact this.imp (fun h => Nat.ne_of_lt h)
  refine ⟨mid, prev, hmid, hprev, ?_, fun s => eventsOf_countP _ _ _ _ hnd s⟩
  rcases r4 with ⟨e, he, _, _⟩ | ⟨l', hl', hcase⟩
  · rw [hd] at he
    cases he
  · rw [hd] at hl'
    cases hl'
    rcases hcase with ⟨c1, _⟩ | ⟨_, ⟨X, x1, x2, x3⟩, c3, _⟩
    · rw [c1] at hready
      cases hready
    · rw [p5, hse] at x1 x3
      exact ⟨X, x1, x2, fun h => ⟨x3 h, c3 h⟩⟩


theorem stimChannels_of_start (self self1 : RtAve) (hs : self.start = .ok self1) :
    self.stimChannels = self1.m_qListStimChannelIdcs := by
  simp [RtAve.stimChannels, hs]

theorem activeSet_of_ok (idcs : List Nat) (b : MatrixXd) (l : List Nat)
    (h : detectStimuli idcs b = .ok l) : activeSet idcs b = l := by
  simp [activeSet, h]

theorem entries_snoc (idcs : List Nat) (segs : List MatrixXd) (b : MatrixXd) :
    entries idcs (segs ++ [b]) = entries idcs segs ++ [(activeSet idcs b, b)] := by
  simp [entries]

theorem entries_length (idcs : List Nat) (segs : List MatrixXd) :
    (entries idcs segs).length = segs.length := by
  simp [entries]

theorem drop_snoc_keep {α : Type} (A : List α) (x : α) (k : Nat) (h : A.length < k) :
    (A ++ [x]).drop (A.length + 1 - min (A.length + 1) k)
      = A.drop (A.length - min A.length k) ++ [x] := by
  have h1 : A.length + 1 - min (A.length + 1) k = 0 := by omega
  have h2 : A.length - min A.length k = 0 := by omega
  rw [h1, h2]
  simp

theorem drop_snoc_evict {α : Type} (A : List α) (x : α) (k : Nat) (h : k ≤ A.length) :
    (A ++ [x]).drop (A.length + 1 - min (A.length + 1) k)
      = (A.drop (A.length - min A.length k) ++ [x]).tail := by
  have h1 : A.length + 1 - min (A.length + 1) k = (A.length - k) + 1 := by omega
  have h2 : A.length - min A.length k = A.length - k := by omega
  rw [h1, h2, ← List.drop_one, ← List.drop_append_of_le_length (by omega), List.drop_drop]

/-- History of a live worker fed blocks of constant width `L ≥ 1` when the
window test does not wrap: the last `min n (K-1)` entries of the stream, and
`t_nSamplesPerBuf` is `L`. -/
theorem run_hist (self self1 : RtAve) (junk : Nat → Nat → ℚ) (hs : self.start = .ok self1)
    (L : Nat) (hL : 1 ≤ L)
    (hnw : self.m_iPreStimSamples + self.m_iPostStimSamples + 3 * L < 4294967296) :
    ∀ segs : List MatrixXd, (self.run junk segs).fault = none → (∀ b ∈ segs, b.cols = L) →
      (self.run junk segs).t_nSamplesPerBuf = (if segs.length = 0 then 0 else L)
      ∧ (self.run junk segs).t_qListRawMatBuf
          = (entries self1.m_qListStimChannelIdcs segs).drop
              (segs.length - min segs.length
                (windowSize self.m_iPreStimSamples self.m_iPostStimSamples L - 1)) := by
  intro segs
  induction segs using List.reverseRecOn with
  | nil =>
    intro _ _
    rw [run_nil self self1 junk hs]
    simp [RunState.enter, entries]
  | append_singleton segs b ih =>
    intro hf hw
    have hf0 := run_fault_mono self junk segs b hf
    obtain ⟨i1, i2⟩ := ih hf0 (fun x hx => hw x (List.mem_append_left _ hx))
    have hb : b.cols = L := hw b (by simp)
    obtain ⟨p1, p2, p3, p4, p5, p6⟩ := run_reach self self1 junk hs segs hf0
    obtain ⟨r1, r2, r3, r4⟩ := runStep_spec junk (self.run junk segs) b hf0
    rw [run_snoc] at hf ⊢
    have htn : (if (self.run junk segs).t_nSamplesPerBuf = 0 then b.cols
        else (self.run junk segs).t_nSamplesPerBuf) = L := by
      rw [i1]
      split
      · simp [hb]
      · rw [if_neg (by omega)]
    have hlen : (self.run junk segs).t_qListRawMatBuf.length
        = min segs.length
            (windowSize self.m_iPreStimSamples self.m_iPostStimSamples L - 1) := by
      rw [i2, List.length_drop, entries_length]
      omega
    have hK : 3 ≤ windowSize self.m_iPreStimSamples self.m_iPostStimSamples L := by
      unfold windowSize
      exact Nat.le_add_left 3 _
    refine ⟨by rw [r2, htn]; simp, ?_⟩
    rcases r4 with ⟨e, _, he, _⟩ | ⟨l, hl, hcase⟩
    · rw [he] at hf
      cases hf
    · rw [p1] at hl
      rw [entries_snoc, activeSet_of_ok _ _ _ hl]
      rw [htn, p3, p4] at hcase
      have hel := entries_length self1.m_qListStimChannelIdcs segs
      simp only [List.length_append, List.length_singleton]
      rcases hcase with ⟨c1, c2, _⟩ | ⟨c1, _, c3, _⟩
      · have hnot : ¬ (windowSize self.m_iPreStimSamples self.m_iPostStimSamples L
            ≤ (self.run junk segs).t_qListRawMatBuf.length + 1) := by
          rw [← windowReady_upto _ _ _ _ hL hnw (by omega), c1]
          simp
        rw [c2, i2]
        have := drop_snoc_keep (entries self1.m_qListStimChannelIdcs segs) (l, b)
          (windowSize self.m_iPreStimSamples self.m_iPostStimSamples L - 1)
          (by rw [hel]; omega)
        rw [hel] at this
        exact this.symm
      · have hyes := (windowReady_upto _ _ _ _ hL hnw (by omega)).mp c1
        rw [c3 hf, i2]
        have := drop_snoc_evict (entries self1.m_qListStimChannelIdcs segs) (l, b)
          (windowSize self.m_iPreStimSamples self.m_iPostStimSamples L - 1)
          (by rw [hel]; omega)
        rw [hel] at this
        exact this.symm


/-- History of a live worker, whatever the widths of the blocks and the
outcome of the window tests: the most recent entries of the stream, in arrival
order. -/
theorem run_suffix (self self1 : RtAve) (junk : Nat → Nat → ℚ) (hs : self.start = .ok self1) :
    ∀ segs : List MatrixXd, (self.run junk segs).fault = none →
      (self.run junk segs).t_qListRawMatBuf
          = (entries self1.m_qListStimChannelIdcs segs).drop
              (segs.length - (self.run junk segs).t_qListRawMatBuf.length)
      ∧ (self.run junk segs).t_qListRawMatBuf.length ≤ segs.length := by
  intro segs
  induction segs using List.reverseRecOn with
  | nil =>
    intro _
    rw [run_nil self self1 junk hs]
    simp [RunState.enter, entries]
  | append_singleton segs b ih =>
    intro hf
    have hf0 := run_fault_mono self junk segs b hf
    obtain ⟨i1, i2⟩ := ih hf0
    obtain ⟨p1, _, _, _, _, _⟩ := run_reach self self1 junk hs segs hf0
    obtain ⟨_, _, _, r4⟩ := runStep_spec junk (self.run junk segs) b hf0
    have hel := entries_length self1.m_qListStimChannelIdcs segs
    rw [run_snoc] at hf ⊢
    rcases r4 with ⟨e, _, he, _⟩ | ⟨l, hl, hcase⟩
    · rw [he] at hf
      cases hf
    · rw [p1] at hl
      rw [entries_snoc, activeSet_of_ok _ _ _ hl]
      simp only [List.length_append, List.length_singleton]
      rcases hcase with ⟨_, c2, _⟩ | ⟨_, _, c3, _⟩
      · rw [c2]
        simp only [List.length_append, List.length_singleton]
        refine ⟨?_, by omega⟩
        have h1 : segs.length + 1 - ((self.run junk segs).t_qListRawMatBuf.length + 1)
            = segs.length - (self.run junk segs).t_qListRawMatBuf.length := by omega
        rw [h1, List.drop_append_of_le_length (by rw [hel]; omega), ← i1]
      · rw [c3 hf]
        simp only [List.length_tail, List.length_append, List.length_singleton,
          Nat.add_sub_cancel]
        refine ⟨?_, by omega⟩
        have h1 : segs.length + 1 - (self.run junk segs).t_qListRawMatBuf.length
            = (segs.length - (self.run junk segs).t_qListRawMatBuf.length) + 1 := by omega
        rw [h1, ← List.drop_drop, List.drop_append_of_le_length (by rw [hel]; omega), ← i1,
          List.drop_one]

theorem run_tn (self : RtAve) (junk : Nat → Nat → ℚ) (first : MatrixXd)
    (hL : 1 ≤ first.cols) :
    ∀ segs : List MatrixXd, segs.head? = some first → (self.run junk segs).fault = none →
      (self.run junk segs).t_nSamplesPerBuf = first.cols := by
  intro segs
  induction segs using List.reverseRecOn with
  | nil => intro h; simp at h
  | append_singleton segs b ih =>
    intro hh hf
    have hf0 := run_fault_mono self junk segs b hf
    obtain ⟨self1, hs⟩ := run_start_ok self junk segs hf0
    obtain ⟨_, r2, _, _⟩ := runStep_spec junk (self.run junk segs) b hf0
    rw [run_snoc, r2]
    cases segs with
    | nil =>
      simp at hh
      subst hh
      rw [run_nil self self1 junk hs]
      simp [RunState.enter]
    | cons a rest =>
      have := ih (by simpa using hh) hf0
      rw [this, if_neg (by omega)]

theorem sum_map_const {α : Type} (f : α → Nat) (L : Nat) :
    ∀ l : List α, (∀ e ∈ l, f e = L) → (l.map f).sum = L * l.length
  | [], _ => by simp
  | a :: l, h => by
    rw [List.map_cons, List.sum_cons, h a (List.mem_cons_self _ _),
      sum_map_const f L l (fun e he => h e (List.mem_cons_of_mem _ he)), List.length_cons]
    ring

theorem entries_cols (idcs : List Nat) (segs : List MatrixXd) (L : Nat)
    (hw : ∀ b ∈ segs, b.cols = L) : ∀ e ∈ entries idcs segs, e.2.cols = L := by
  intro e he
  unfold entries at he
  obtain ⟨b, hb, rfl⟩ := List.mem_map.mp he
  exact hw b hb

/-- C10, counterexample: with `preStimSamples = 2^32 - 10`, `postStimSamples = 0`
and blocks of 5 samples, `K = floor((pre + post) / L) + 3` is 858993460, but
the right-hand side of the window test wraps to 0 and the test succeeds from
the first block on: after one block and after two blocks the history is empty
instead of holding the last `min n (K - 1)` blocks. -/
theorem history_evicted_from_first_block :
    windowSize 4294967286 0 5 = 858993460
    ∧ windowReady 5 1 4294967286 0 = true
    ∧ ((RtAve.new 4294967286 0 exampleInfo).run exampleJunk (pulseStream 5 [] 1 1)).fault = none
    ∧ ((RtAve.new 4294967286 0 exampleInfo).run exampleJunk
        (pulseStream 5 [] 1 1)).t_qListRawMatBuf.length = 0
    ∧ ((RtAve.new 4294967286 0 exampleInfo).run exampleJunk (pulseStream 5 [] 1 2)).fault = none
    ∧ ((RtAve.new 4294967286 0 exampleInfo).run exampleJunk
        (pulseStream 5 [] 1 2)).t_qListRawMatBuf.length = 0 := by
  decide

/-- C10, amended. For a live worker fed blocks of constant width `L ≥ 1` in a
configuration in which the window test does not wrap
(`pre + post + 3 * L < 2^32`), with
`K = floor((pre + post) / L) + 3`: after `n` blocks the history is the last
`min n (K-1)` blocks of the stream in arrival order, each with the stimuli
detected in it; the block just processed is appended without eviction while
fewer than `K` blocks have arrived, and from the `K`-th block on (exactly when
the window test holds) the head is evicted at every step, so that the history
never holds more than `K` entries. -/
theorem history_fifo (self : RtAve) (junk : Nat → Nat → ℚ) (segs : List MatrixXd)
    (b : MatrixXd) (L : Nat) (hL : 1 ≤ L)
    (hnw : self.m_iPreStimSamples + self.m_iPostStimSamples + 3 * L < 4294967296)
    (hw : ∀ x ∈ segs ++ [b], x.cols = L)
    (hf : (self.run junk (segs ++ [b])).fault = none) :
    (self.run junk segs).t_qListRawMatBuf
        = (entries self.stimChannels segs).drop
            (segs.length - min segs.length
              (windowSize self.m_iPreStimSamples self.m_iPostStimSamples L - 1))
    ∧ (self.run junk (segs ++ [b])).t_qListRawMatBuf
        = (entries self.stimChannels (segs ++ [b])).drop
            (segs.length + 1 - min (segs.length + 1)
              (windowSize self.m_iPreStimSamples self.m_iPostStimSamples L - 1))
    ∧ (self.run junk (segs ++ [b])).t_qListRawMatBuf.length
        = min (segs.length + 1)
            (windowSize self.m_iPreStimSamples self.m_iPostStimSamples L - 1)
    ∧ (segs.length + 1 < windowSize self.m_iPreStimSamples self.m_iPostStimSamples L →
        (self.run junk (segs ++ [b])).t_qListRawMatBuf
          = (self.run junk segs).t_qListRawMatBuf ++ [(activeSet self.stimChannels b, b)])
    ∧ (windowSize self.m_iPreStimSamples self.m_iPostStimSamples L ≤ segs.length + 1 →
        (self.run junk (segs ++ [b])).t_qListRawMatBuf
          = ((self.run junk segs).t_qListRawMatBuf
              ++ [(activeSet self.stimChannels b, b)]).tail)
    ∧ (windowReady (self.run junk (segs ++ [b])).t_nSamplesPerBuf
          ((self.run junk segs).t_qListRawMatBuf.length + 1)
          self.m_iPreStimSamples self.m_iPostStimSamples = true
        ↔ windowSize self.m_iPreStimSamples self.m_iPostStimSamples L ≤ segs.length + 1)
    ∧ (self.run junk segs).t_qListRawMatBuf.length + 1
        ≤ windowSize self.m_iPreStimSamples self.m_iPostStimSamples L := by
  have hf0 := run_fault_mono self junk segs b hf
  obtain ⟨self1, hs⟩ := run_start_ok self junk segs hf0
  rw [stimChannels_of_start self self1 hs]
  obtain ⟨_, i2⟩ := run_hist self self1 junk hs L hL hnw segs hf0
    (fun x hx => hw x (List.mem_append_left _ hx))
  obtain ⟨j1, j2⟩ := run_hist self self1 junk hs L hL hnw (segs ++ [b]) hf hw
  have hel := entries_length self1.m_qListStimChannelIdcs segs
  have hK : 3 ≤ windowSize self.m_iPreStimSamples self.m_iPostStimSamples L := by
    unfold windowSize
    exact Nat.le_add_left 3 _
  have hlen : (self.run junk segs).t_qListRawMatBuf.length
      = min segs.length (windowSize self.m_iPreStimSamples self.m_iPostStimSamples L - 1) := by
    rw [i2, List.length_drop, hel]
    omega
  have hlen' : (self.run junk (segs ++ [b])).t_qListRawMatBuf.length
      = min (segs.length + 1)
          (windowSize self.m_iPreStimSamples self.m_iPostStimSamples L - 1) := by
    rw [j2, List.length_drop, entries_length]
    simp only [List.length_append, List.length_singleton]
    omega
  have j2' := j2
  simp only [List.length_append, List.length_singleton] at j2'
  have htn : (self.run junk (segs ++ [b])).t_nSamplesPerBuf = L := by
    rw [j1]
    simp
  refine ⟨i2, j2', hlen', ?_, ?_, ?_, by omega⟩
  · intro hlt
    rw [j2', i2, entries_snoc]
    have := drop_snoc_keep (entries self1.m_qListStimChannelIdcs segs)
      (activeSet self1.m_qListStimChannelIdcs b, b)
      (windowSize self.m_iPreStimSamples self.m_iPostStimSamples L - 1) (by rw [hel]; omega)
    rw [hel] at this
    exact this
  · intro hge
    rw [j2', i2, entries_snoc]
    have := drop_snoc_evict (entries self1.m_qListStimChannelIdcs segs)
      (activeSet self1.m_qListStimChannelIdcs b, b)
      (windowSize self.m_iPreStimSamples self.m_iPostStimSamples L - 1) (by rw [hel]; omega)
    rw [hel] at this
    exact this
  · rw [htn, windowReady_upto _ _ _ _ hL hnw (by omega), hlen]
    omega


theorem eventsOf_mem (count size : Nat) (prev cur : List Nat) (e : ConfirmedEvent)
    (h : e ∈ eventsOf count size prev cur) :
    e.count = count ∧ e.size = size ∧ e.mid = size / 2 ∧ e.stim ∈ cur ∧ e.stim ∉ prev := by
  unfold eventsOf at h
  obtain ⟨s, hs, rfl⟩ := List.mem_map.mp h
  obtain ⟨h1, h2⟩ := List.mem_filter.mp hs
  exact ⟨rfl, rfl, rfl, h1, by simpa using h2⟩

theorem stepEvents_shape (count : Nat) (hist : List RawMatBuf) :
    ∀ e ∈ stepEvents count hist,
      e.count = count ∧ e.size = hist.length ∧ e.mid = hist.length / 2 := by
  intro e he
  unfold stepEvents at he
  split at he
  · split at he
    · unfold eventsOf at he
      obtain ⟨s, _, rfl⟩ := List.mem_map.mp he
      exact ⟨rfl, rfl, rfl⟩
    · cases he
  · cases he

/-- C9, counterexample: with `preStimSamples = 2^32 - 6`, `postStimSamples = 2`
and blocks of 2 samples, `blockLength * historySize = 2` is not greater than
`pre + post + 2 * blockLength = 2^32`, yet the window is treated as ready when
the first block arrives (the right-hand side wraps to 0) and the block is
evicted at once. -/
theorem window_ready_by_wrap :
    ¬ (2 * 1 > 4294967290 + 2 + 2 * 2)
    ∧ windowReady 2 1 4294967290 2 = true
    ∧ ((RtAve.new 4294967290 2 exampleInfo).run exampleJunk (pulseStream 2 [] 1 1)).fault = none
    ∧ ((RtAve.new 4294967290 2 exampleInfo).run exampleJunk
        (pulseStream 2 [] 1 1)).t_qListRawMatBuf.length = 0 := by
  decide

/-- C9, amended. On a live worker whose first block has `L ≥ 1` columns,
`t_nSamplesPerBuf` is `L`, and the step for a new block takes the "ready"
branch if `L * historySize > pre + post + 2 * L` holds in unsigned 32-bit
arithmetic (both sides modulo `2^32`), and otherwise only appends the block;
`historySize` counts the new block. In the ready branch the events confirmed
are those of the section "Average" for the middle index `historySize / 2`
(the stimuli of the entry at that index that are not stimuli of the entry
before it), and the head of the history is evicted. When neither side reaches
`2^32` the test is the comparison of the exact values. For blocks of equal
width `L * historySize` is the number of samples held in the history. -/
theorem window_ready_rule (self : RtAve) (junk : Nat → Nat → ℚ) (segs : List MatrixXd)
    (b first : MatrixXd) (hfirst : (segs ++ [b]).head? = some first) (hL : 1 ≤ first.cols)
    (hf : (self.run junk (segs ++ [b])).fault = none) :
    (self.run junk (segs ++ [b])).t_nSamplesPerBuf = first.cols
    ∧ (wrap32 (first.cols * ((self.run junk segs).t_qListRawMatBuf.length + 1))
          > wrap32 (self.m_iPreStimSamples + self.m_iPostStimSamples + 2 * first.cols) →
        (self.run junk (segs ++ [b])).t_qListRawMatBuf
          = ((self.run junk segs).t_qListRawMatBuf
              ++ [(activeSet self.stimChannels b, b)]).tail
        ∧ (self.run junk (segs ++ [b])).confirmed = (self.run junk segs).confirmed
            ++ stepEvents (segs.length + 1)
                ((self.run junk segs).t_qListRawMatBuf ++ [(activeSet self.stimChannels b, b)])
        ∧ ∀ e ∈ stepEvents (segs.length + 1)
              ((self.run junk segs).t_qListRawMatBuf ++ [(activeSet self.stimChannels b, b)]),
            e.size = (self.run junk segs).t_qListRawMatBuf.length + 1
            ∧ e.mid = ((self.run junk segs).t_qListRawMatBuf.length + 1) / 2
            ∧ ∃ mid prev,
                ((self.run junk segs).t_qListRawMatBuf
                  ++ [(activeSet self.stimChannels b, b)])[
                    ((self.run junk segs).t_qListRawMatBuf.length + 1) / 2]? = some mid
                ∧ ((self.run junk segs).t_qListRawMatBuf
                  ++ [(activeSet self.stimChannels b, b)])[
                    ((self.run junk segs).t_qListRawMatBuf.length + 1) / 2 - 1]? = some prev
                ∧ e.stim ∈ mid.1 ∧ e.stim ∉ prev.1)
    ∧ (¬ wrap32 (first.cols * ((self.run junk segs).t_qListRawMatBuf.length + 1))
          > wrap32 (self.m_iPreStimSamples + self.m_iPostStimSamples + 2 * first.cols) →
        (self.run junk (segs ++ [b])).t_qListRawMatBuf
          = (self.run junk segs).t_qListRawMatBuf ++ [(activeSet self.stimChannels b, b)]
        ∧ (self.run junk (segs ++ [b])).confirmed = (self.run junk segs).confirmed)
    ∧ (first.cols * ((self.run junk segs).t_qListRawMatBuf.length + 1) < 4294967296 →
        self.m_iPreStimSamples + self.m_iPostStimSamples + 2 * first.cols < 4294967296 →
        (wrap32 (first.cols * ((self.run junk segs).t_qListRawMatBuf.length + 1))
            > wrap32 (self.m_iPreStimSamples + self.m_iPostStimSamples + 2 * first.cols)
          ↔ first.cols * ((self.run junk segs).t_qListRawMatBuf.length + 1)
            > self.m_iPreStimSamples + self.m_iPostStimSamples + 2 * first.cols))
    ∧ ((∀ x ∈ segs ++ [b], x.cols = first.cols) →
        first.cols * ((self.run junk segs).t_qListRawMatBuf.length + 1)
          = (((self.run junk segs).t_qListRawMatBuf
              ++ [(activeSet self.stimChannels b, b)]).map (fun e => e.2.cols)).sum) := by
  have hf0 := run_fault_mono self junk segs b hf
  obtain ⟨self1, hs⟩ := run_start_ok self junk segs hf0
  rw [stimChannels_of_start self self1 hs]
  obtain ⟨p1, p2, p3, p4, p5, p6⟩ := run_reach self self1 junk hs segs hf0
  have htn := run_tn self junk first hL (segs ++ [b]) hfirst hf
  obtain ⟨r1, r2, r3, r4⟩ := runStep_spec junk (self.run junk segs) b hf0
  rw [run_snoc] at hf htn ⊢
  rw [r2] at htn
  rw [htn, p3, p4] at r4
  refine ⟨by rw [r2, htn], ?_, ?_, ?_, ?_⟩
  · intro hready
    have hr : windowReady first.cols ((self.run junk segs).t_qListRawMatBuf.length + 1)
        self.m_iPreStimSamples self.m_iPostStimSamples = true := by
      simpa [windowReady] using hready
    rcases r4 with ⟨e, _, he, _⟩ | ⟨l, hl, hcase⟩
    · rw [he] at hf; cases hf
    · rw [p1] at hl
      rw [activeSet_of_ok _ _ _ hl]
      rcases hcase with ⟨c1, _⟩ | ⟨_, ⟨X, x1, x2, x3⟩, c3, _⟩
      · rw [hr] at c1; cases c1
      · rw [p5] at x3
        refine ⟨c3 hf, by rw [x2, x3 hf], fun e he => ?_⟩
        obtain ⟨_, h2, h3⟩ := stepEvents_shape _ _ e he
        simp only [List.length_append, List.length_singleton] at h2 h3
        refine ⟨h2, h3, ?_⟩
        unfold stepEvents at he
        simp only [List.length_append, List.length_singleton] at he
        split at he
        · split at he
          · rename_i mid prev hmid hprev
            obtain ⟨_, _, _, e4, e5⟩ := eventsOf_mem _ _ _ _ e he
            exact ⟨mid, prev, hmid, hprev, e4, e5⟩
          · cases he
        · cases he
  · intro hnot
    have hr : windowReady first.cols ((self.run junk segs).t_qListRawMatBuf.length + 1)
        self.m_iPreStimSamples self.m_iPostStimSamples = false := by
      simpa [windowReady] using hnot
    rcases r4 with ⟨e, _, he, _⟩ | ⟨l, hl, hcase⟩
    · rw [he] at hf; cases hf
    · rw [p1] at hl
      rw [activeSet_of_ok _ _ _ hl]
      rcases hcase with ⟨_, c2, c3, _⟩ | ⟨c1, _⟩
      · exact ⟨c2, c3⟩
      · rw [hr] at c1; cases c1
  · intro h1 h2
    rw [wrap32_of_lt _ h1, wrap32_of_lt _ h2]
  · intro hw
    obtain ⟨i2, _⟩ := run_suffix self self1 junk hs segs hf0
    have hcols : ∀ e ∈ (self.run junk segs).t_qListRawMatBuf
        ++ [(activeSet self1.m_qListStimChannelIdcs b, b)], e.2.cols = first.cols := by
      intro e he
      rcases List.mem_append.mp he with he | he
      · rw [i2] at he
        exact entries_cols _ segs _ (fun x hx => hw x (List.mem_append_left _ hx)) e
          (List.mem_of_mem_drop he)
      · have : e = (activeSet self1.m_qListStimChannelIdcs b, b) := by simpa using he
        subst this
        exact hw b (by simp)
    rw [sum_map_const _ _ _ hcols]
    simp

theorem holdsLast_size (n : Nat) (v : EpochVector) (h : v.HoldsLast n) : v.size ≤ n := by
  unfold EpochVector.HoldsLast at h
  unfold EpochVector.size
  rw [h, List.length_drop]
  omega

theorem holdsLast_empty (n : Nat) : EpochVector.empty.HoldsLast n := by
  simp [EpochVector.HoldsLast, EpochVector.empty]

theorem holdsLast_keep (n : Nat) (v : EpochVector) (h : v.HoldsLast n) :
    (if n < v.size then v.pop_front else v).HoldsLast n := by
  have := holdsLast_size n v h
  rw [if_neg (by omega)]
  exact h

theorem holdsLast_append (n : Nat) (v : EpochVector) (m : MatrixXd) (h : v.HoldsLast n) :
    (if n < (v.append m).size then (v.append m).pop_front else v.append m).HoldsLast n := by
  unfold EpochVector.HoldsLast at h ⊢
  have hsz : v.items.length = v.appended.length - (v.appended.length - n) := by
    rw [h, List.length_drop]
  by_cases hlt : v.appended.length < n
  · have h0 : v.appended.length - n = 0 := by omega
    rw [h0] at h
    have : ¬ n < (v.append m).size := by
      simp only [EpochVector.size, EpochVector.append, List.length_append, List.length_singleton]
      omega
    rw [if_neg this]
    simp only [EpochVector.append, List.length_append, List.length_singleton]
    have h1 : v.appended.length + 1 - n = 0 := by omega
    rw [h1, h]
    simp
  · have : n < (v.append m).size := by
      simp only [EpochVector.size, EpochVector.append, List.length_append, List.length_singleton]
      omega
    rw [if_pos this]
    simp only [EpochVector.append, EpochVector.pop_front, List.length_append,
      List.length_singleton]
    have h1 : v.appended.length + 1 - n = (v.appended.length - n) + 1 := by omega
    rw [h1, h, ← List.drop_one, ← List.drop_append_of_le_length (by omega), List.drop_drop]

theorem mem_set_cases {α : Type} (l : List α) (i : Nat) (x v : α) (h : v ∈ l.set i x) :
    v ∈ l ∨ v = x := by
  induction l generalizing i with
  | nil => simp at h
  | cons a l ih =>
    cases i with
    | zero =>
      simp only [List.set_cons_zero, List.mem_cons] at h
      rcases h with h | h
      · exact Or.inr h
      · exact Or.inl (List.mem_cons_of_mem _ h)
    | succ i =>
      simp only [List.set_cons_succ, List.mem_cons] at h
      rcases h with h | h
      · exact Or.inl (h ▸ List.mem_cons_self _ _)
      · rcases ih i h with h | h
        · exact Or.inl (List.mem_cons_of_mem _ h)
        · exact Or.inr h

theorem eventEffect_holdsLast (junk : Nat → Nat → ℚ) (hist : List RawMatBuf) (s : Nat)
    (a b : RtAve) (he : EventEffect junk hist s a b)
    (h : ∀ v, v ∈ a.m_qListQVectorPreStimAve ++ a.m_qListQVectorPostStimAve →
      v.HoldsLast a.m_iNumAverages) :
    ∀ v, v ∈ b.m_qListQVectorPreStimAve ++ b.m_qListQVectorPostStimAve →
      v.HoldsLast b.m_iNumAverages := by
  obtain ⟨e1, _, _, _, vPre, vPost, hvPre, hvPost, hcase⟩ := he
  have hPre := h vPre (List.mem_append_left _ (List.getElem?_mem hvPre))
  have hPost := h vPost (List.mem_append_right _ (List.getElem?_mem hvPost))
  rw [e1]
  intro v hv
  rcases hcase with ⟨_, c1, c2⟩ | ⟨_, mPre, wPre, mPost, wPost, _, _, c1, c2⟩
  · rw [c1, c2] at hv
    rcases List.mem_append.mp hv with hv | hv
    · rcases mem_set_cases _ _ _ _ hv with hv | hv
      · exact h v (List.mem_append_left _ hv)
      · rw [hv]; exact holdsLast_keep _ _ hPre
    · rcases mem_set_cases _ _ _ _ hv with hv | hv
      · exact h v (List.mem_append_right _ hv)
      · rw [hv]; exact holdsLast_keep _ _ hPost
  · rw [c1, c2] at hv
    rcases List.mem_append.mp hv with hv | hv
    · rcases mem_set_cases _ _ _ _ hv with hv | hv
      · exact h v (List.mem_append_left _ hv)
      · rw [hv]; exact holdsLast_append _ _ _ hPre
    · rcases mem_set_cases _ _ _ _ hv with hv | hv
      · exact h v (List.mem_append_right _ hv)
      · rw [hv]; exact holdsLast_append _ _ _ hPost

theorem stimChannelLoop_stores (info : FiffInfo) :
    ∀ (n i : Nat) (self self1 : RtAve), stimChannelLoop info n i self = .ok self1 →
      (∀ v, v ∈ self.m_qListQVectorPreStimAve ++ self.m_qListQVectorPostStimAve →
        v = EpochVector.empty) →
      ∀ v, v ∈ self1.m_qListQVectorPreStimAve ++ self1.m_qListQVectorPostStimAve →
        v = EpochVector.empty
  | 0, _, self, self1, h, hv => by
    simp only [stimChannelLoop] at h
    cases h
    exact hv
  | n + 1, i, self, self1, h, hv => by
    simp only [stimChannelLoop] at h
    split at h
    · cases h
    · rename_i ch _
      refine stimChannelLoop_stores info n (i + 1) _ self1 h ?_
      split
      · intro v hmem
        simp only [List.mem_append, List.mem_singleton] at hmem
        rcases hmem with (hmem | hmem) | (hmem | hmem)
        · exact hv v (List.mem_append_left _ hmem)
        · exact hmem
        · exact hv v (List.mem_append_right _ hmem)
        · exact hmem
      · exact hv

theorem start_stores (self self1 : RtAve) (h : self.start = .ok self1) :
    ∀ v, v ∈ self1.m_qListQVectorPreStimAve ++ self1.m_qListQVectorPostStimAve →
      v = EpochVector.empty := by
  unfold RtAve.start at h
  exact stimChannelLoop_stores _ _ _ _ self1 h (fun v hv => by simp at hv)

/-- C6. After every block processed by a live worker, and after every event
processed without fault from a state with this property, each pre-stimulus and
each post-stimulus vector holds at most `numAverages` epochs, namely the most
recent `numAverages` of the epochs appended to it, in the order of arrival. -/
theorem eviction_bound (self : RtAve) (junk : Nat → Nat → ℚ) (segs : List MatrixXd)
    (hf : (self.run junk segs).fault = none) :
    (∀ v, v ∈ (self.run junk segs).self.m_qListQVectorPreStimAve
            ++ (self.run junk segs).self.m_qListQVectorPostStimAve →
        v.items.length ≤ self.m_iNumAverages
        ∧ v.items = v.appended.drop (v.appended.length - self.m_iNumAverages))
    ∧ (∀ (st : RunState) (prev : List Nat) (s : Nat), st.fault = none →
        (∀ v, v ∈ st.self.m_qListQVectorPreStimAve ++ st.self.m_qListQVectorPostStimAve →
          v.items.length ≤ st.self.m_iNumAverages
          ∧ v.items = v.appended.drop (v.appended.length - st.self.m_iNumAverages)) →
        (confirmStep junk prev st s).fault = none →
        ∀ v, v ∈ (confirmStep junk prev st s).self.m_qListQVectorPreStimAve
              ++ (confirmStep junk prev st s).self.m_qListQVectorPostStimAve →
          v.items.length ≤ (confirmStep junk prev st s).self.m_iNumAverages
          ∧ v.items = v.appended.drop
              (v.appended.length - (confirmStep junk prev st s).self.m_iNumAverages)) := by
  constructor
  · obtain ⟨self1, hs⟩ := run_start_ok self junk segs hf
    obtain ⟨s1, _, _⟩ := start_config self self1 hs
    have hinv : ∀ v, v ∈ (self.run junk segs).self.m_qListQVectorPreStimAve
        ++ (self.run junk segs).self.m_qListQVectorPostStimAve →
        v.HoldsLast (self.run junk segs).self.m_iNumAverages := by
      refine run_induction self self1 junk hs
        (fun _ st => ∀ v, v ∈ st.self.m_qListQVectorPreStimAve
          ++ st.self.m_qListQVectorPostStimAve → v.HoldsLast st.self.m_iNumAverages)
        ?_ ?_ segs hf
      · intro v hv
        rw [start_stores self self1 hs v hv]
        exact holdsLast_empty _
      · intro segs st b hf0 hP hf1
        obtain ⟨_, _, _, r4⟩ := runStep_spec junk st b hf0
        rcases r4 with ⟨e, _, he, _⟩ | ⟨l, _, hcase⟩
        · rw [he] at hf1; cases hf1
        · rcases hcase with ⟨_, _, _, c4, _⟩ | ⟨_, _, _, c4⟩
          · rw [c4]; exact hP
          · exact c4 _ (fun s a a' he ha => eventEffect_holdsLast junk _ s a a' he ha) hf1 hP
    obtain ⟨_, p2, _⟩ := run_reach self self1 junk hs segs hf
    intro v hv
    have := hinv v hv
    rw [p2] at this
    exact ⟨holdsLast_size _ _ this, this⟩
  · intro st prev s hf0 hinv hf1 v hv
    cases hc : prev.contains s with
    | true =>
      rw [confirmStep_dup junk prev st s hc] at hv ⊢
      exact hinv v hv
    | false =>
      obtain ⟨_, _, _, _, _, c6⟩ := confirmStep_new junk prev st s hf0 hc
      have := eventEffect_holdsLast junk _ s _ _ (c6 hf1) (fun v hv => (hinv v hv).2) v hv
      exact ⟨holdsLast_size _ _ this, this⟩


theorem run_emitted (self : RtAve) (junk : Nat → Nat → ℚ) :
    ∀ segs : List MatrixXd, (self.run junk segs).emitted = [] := by
  intro segs
  induction segs using List.reverseRecOn with
  | nil =>
    unfold RtAve.run
    split <;> rfl
  | append_singleton segs b ih =>
    rw [run_snoc]
    rcases Option.eq_none_or_eq_some (self.run junk segs).fault with h | ⟨e, h⟩
    · rw [(runStep_spec junk _ b h).2.2.1, ih]
    · rw [runStep_of_fault junk _ b (by simp [h]), ih]

theorem sound_mono (idcs : List Nat) (K : Nat) (segs : List MatrixXd) (b : MatrixXd)
    (e : ConfirmedEvent) (h : e.Sound idcs K segs) : e.Sound idcs K (segs ++ [b]) := by
  obtain ⟨h1, h2, h3, h4, bj, bp, h5, h6, h7, h8, h9⟩ := h
  have hlt : ∀ (i : Nat) (x : MatrixXd), segs[i]? = some x → (segs ++ [b])[i]? = some x := by
    intro i x hx
    have hi : i < segs.length := by
      rcases Nat.lt_or_ge i segs.length with h | h
      · exact h
      · rw [List.getElem?_eq_none h] at hx; cases hx
    rw [List.getElem?_append_left hi]
    exact hx
  refine ⟨h1, h2, h3, ?_, bj, bp, hlt _ _ h5, h6, hlt _ _ h7, h8, h9⟩
  simp only [List.length_append, List.length_singleton]
  omega

theorem eventsOf_pairwise (count size : Nat) (prev cur : List Nat)
    (hs : cur.Pairwise (· < ·)) :
    (eventsOf count size prev cur).Pairwise ConfirmedEvent.Before := by
  unfold eventsOf
  rw [List.pairwise_map]
  exact (hs.filter _).imp (fun h => Or.inr ⟨rfl, h⟩)

/-- Trace invariant of a run over blocks of constant width `L ≥ 1` in a
configuration in which the window test does not wrap, valid whether or not a
fault stopped the worker. -/
theorem run_events (self self1 : RtAve) (junk : Nat → Nat → ℚ) (hs : self.start = .ok self1)
    (L : Nat) (hL : 1 ≤ L)
    (hnw : self.m_iPreStimSamples + self.m_iPostStimSamples + 3 * L < 4294967296) :
    ∀ segs : List MatrixXd, (∀ b ∈ segs, b.cols = L) →
      (∀ e ∈ (self.run junk segs).confirmed,
        e.Sound self1.m_qListStimChannelIdcs
          (windowSize self.m_iPreStimSamples self.m_iPostStimSamples L) segs)
      ∧ (self.run junk segs).confirmed.Pairwise ConfirmedEvent.Before := by
  intro segs
  induction segs using List.reverseRecOn with
  | nil =>
    intro _
    rw [run_nil self self1 junk hs]
    exact ⟨fun e he => (by cases he), List.Pairwise.nil⟩
  | append_singleton segs b ih =>
    intro hw
    have hw0 : ∀ x ∈ segs, x.cols = L := fun x hx => hw x (List.mem_append_left _ hx)
    obtain ⟨ih1, ih2⟩ := ih hw0
    have hmono : ∀ e ∈ (self.run junk segs).confirmed,
        e.Sound self1.m_qListStimChannelIdcs
          (windowSize self.m_iPreStimSamples self.m_iPostStimSamples L) (segs ++ [b]) :=
      fun e he => sound_mono _ _ _ _ _ (ih1 e he)
    rw [run_snoc]
    rcases Option.eq_none_or_eq_some (self.run junk segs).fault with hf0 | ⟨e, hf0⟩
    rotate_left
    · rw [runStep_of_fault junk _ b (by simp [hf0])]
      exact ⟨hmono, ih2⟩
    obtain ⟨p1, p2, p3, p4, p5, p6⟩ := run_reach self self1 junk hs segs hf0
    obtain ⟨r1, r2, r3, r4⟩ := runStep_spec junk (self.run junk segs) b hf0
    obtain ⟨i1, i2⟩ := run_hist self self1 junk hs L hL hnw segs hf0 hw0
    have hb : b.cols = L := hw b (by simp)
    have htn : (if (self.run junk segs).t_nSamplesPerBuf = 0 then b.cols
        else (self.run junk segs).t_nSamplesPerBuf) = L := by
      rw [i1]
      split
      · simp [hb]
      · rw [if_neg (by omega)]
    rcases r4 with ⟨e, _, _, hc⟩ | ⟨l, hl, hcase⟩
    · rw [hc]
      exact ⟨hmono, ih2⟩
    rw [p1] at hl
    rw [htn, p3, p4] at hcase
    rcases hcase with ⟨_, _, hc, _⟩ | ⟨c1, ⟨X, x1, x2, _⟩, _, _⟩
    · rw [hc]
      exact ⟨hmono, ih2⟩
    -- the ready step
    have hK3 : 3 ≤ windowSize self.m_iPreStimSamples self.m_iPostStimSamples L := by
      unfold windowSize
      exact Nat.le_add_left 3 _
    have hK := (windowReady_upto _ _ _ _ hL hnw (by
      rw [i2, List.length_drop, entries_length]
      omega)).mp c1
    generalize windowSize self.m_iPreStimSamples self.m_iPostStimSamples L = K at *
    have hel := entries_length self1.m_qListStimChannelIdcs segs
    have hlen : (self.run junk segs).t_qListRawMatBuf.length = K - 1 := by
      have : (self.run junk segs).t_qListRawMatBuf.length = min segs.length (K - 1) := by
        rw [i2, List.length_drop, hel]
        omega
      omega
    have hn : K ≤ segs.length + 1 := by
      have : (self.run junk segs).t_qListRawMatBuf.length ≤ segs.length := by
        rw [i2, List.length_drop, hel]
        omega
      omega
    have hhist : (self.run junk segs).t_qListRawMatBuf ++ [(l, b)]
        = (entries self1.m_qListStimChannelIdcs (segs ++ [b])).drop (segs.length + 1 - K) := by
      rw [entries_snoc, activeSet_of_ok _ _ _ hl, i2]
      have h1 : segs.length - min segs.length (K - 1) = segs.length + 1 - K := by omega
      rw [h1, List.drop_append_of_le_length (by rw [hel]; omega)]
    have hlen1 : ((self.run junk segs).t_qListRawMatBuf ++ [(l, b)]).length = K := by
      simp only [List.length_append, List.length_singleton]
      omega
    have hmidpos : 0 < ((self.run junk segs).t_qListRawMatBuf ++ [(l, b)]).length / 2 := by
      rw [hlen1]; omega
    have hget : ∀ i, i < K →
        ((self.run junk segs).t_qListRawMatBuf ++ [(l, b)])[i]?
          = ((segs ++ [b])[segs.length + 1 - K + i]?).map
              (fun x => (activeSet self1.m_qListStimChannelIdcs x, x)) := by
      intro i _
      rw [hhist, List.getElem?_drop]
      unfold entries
      rw [List.getElem?_map]
    have hidx : ∀ i, i < K → segs.length + 1 - K + i < (segs ++ [b]).length := by
      intro i hi
      simp only [List.length_append, List.length_singleton]
      omega
    obtain ⟨bj, hbj⟩ : ∃ bj, (segs ++ [b])[segs.length + 1 - K + K / 2]? = some bj :=
      ⟨_, List.getElem?_eq_getElem (hidx (K / 2) (by omega))⟩
    obtain ⟨bp, hbp⟩ : ∃ bp, (segs ++ [b])[segs.length + 1 - K + (K / 2 - 1)]? = some bp :=
      ⟨_, List.getElem?_eq_getElem (hidx (K / 2 - 1) (by omega))⟩
    have hmid : ((self.run junk segs).t_qListRawMatBuf ++ [(l, b)])[
        ((self.run junk segs).t_qListRawMatBuf ++ [(l, b)]).length / 2]?
          = some (activeSet self1.m_qListStimChannelIdcs bj, bj) := by
      rw [hlen1, hget (K / 2) (by omega), hbj]
      rfl
    have hprev : ((self.run junk segs).t_qListRawMatBuf ++ [(l, b)])[
        ((self.run junk segs).t_qListRawMatBuf ++ [(l, b)]).length / 2 - 1]?
          = some (activeSet self1.m_qListStimChannelIdcs bp, bp) := by
      rw [hlen1, hget (K / 2 - 1) (by omega), hbp]
      rfl
    rw [stepEvents_of_mid_pos _ _ _ _ hmidpos hmid hprev, hlen1, p5] at x1
    have hsorted : (activeSet self1.m_qListStimChannelIdcs bj).Pairwise (· < ·) := by
      have hmem : (activeSet self1.m_qListStimChannelIdcs bj, bj)
          ∈ (self.run junk segs).t_qListRawMatBuf ++ [(l, b)] := List.getElem?_mem hmid
      have hdet : detectStimuli self1.m_qListStimChannelIdcs bj
          = .ok (activeSet self1.m_qListStimChannelIdcs bj) := by
        rcases List.mem_append.mp hmem with h | h
        · exact p6 _ h
        · have h' : (activeSet self1.m_qListStimChannelIdcs bj, bj) = (l, b) := by
            simpa using h
          have h1 : bj = b := congrArg Prod.snd h'
          rw [h1, activeSet_of_ok _ _ _ hl]
          exact hl
      exact (detectStimuli_sorted _ _ _ hdet).1
    have hX : ∀ e ∈ X, e.count = segs.length + 1 ∧ e.size = K ∧ e.mid = K / 2
        ∧ e.stim ∈ activeSet self1.m_qListStimChannelIdcs bj
        ∧ e.stim ∉ activeSet self1.m_qListStimChannelIdcs bp :=
      fun e he => eventsOf_mem _ _ _ _ e (x1.subset he)
    rw [x2]
    constructor
    · intro e he
      rcases List.mem_append.mp he with he | he
      · exact hmono e he
      · obtain ⟨e1, e2, e3, e4, e5⟩ := hX e he
        have hblock : e.block = segs.length + 1 - K + K / 2 := by
          unfold ConfirmedEvent.block
          rw [e1, e2, e3]
        refine ⟨e2, e3, by omega, ?_, bj, bp, ?_, ?_, ?_, e4, e5⟩
        · simp only [List.length_append, List.length_singleton]
          omega
        · rw [hblock]; exact hbj
        · rw [hblock]; omega
        · rw [hblock]
          have : segs.length + 1 - K + K / 2 - 1 = segs.length + 1 - K + (K / 2 - 1) := by
            omega
          rw [this]
          exact hbp
    · rw [List.pairwise_append]
      refine ⟨ih2, ((eventsOf_pairwise _ _ _ _ hsorted).sublist x1.sublist), ?_⟩
      intro a ha c hc
      left
      have h1 := (ih1 a ha).2.2.2.1
      have h2 := (hX c hc).1
      omega


theorem stepEvents_mem (count : Nat) (hist : List RawMatBuf) (e : ConfirmedEvent)
    (h : e ∈ stepEvents count hist) :
    0 < hist.length / 2 ∧ e.count = count ∧ e.size = hist.length ∧ e.mid = hist.length / 2
    ∧ ∃ mid prev, hist[hist.length / 2]? = some mid ∧ hist[hist.length / 2 - 1]? = some prev
        ∧ e.stim ∈ mid.1 ∧ e.stim ∉ prev.1
        ∧ stepEvents count hist = eventsOf count hist.length prev.1 mid.1 := by
  unfold stepEvents at h ⊢
  split at h
  · rename_i hpos
    split at h
    · rename_i mid prev hmid hprev
      obtain ⟨e1, e2, e3, e4, e5⟩ := eventsOf_mem _ _ _ _ e h
      refine ⟨hpos, e1, e2, e3, mid, prev, hmid, hprev, e4, e5, ?_⟩
      simp [hpos, hmid, hprev]
    · cases h
  · cases h

/-- Trace invariant of every run, whatever the widths of the blocks and the
outcome of the window arithmetic, and whether or not a fault stopped the
worker: all events were confirmed at one and the same history size `K`, each
has its stimulus detected in the block that was in the middle and not in the
block before it, and the trace is ordered. While the worker is live and an
event has been confirmed, the history holds `K - 1` entries between steps and
the window test succeeds at every further block. -/
theorem run_trace (self self1 : RtAve) (junk : Nat → Nat → ℚ) (hs : self.start = .ok self1) :
    ∀ segs : List MatrixXd, ∃ K,
      (∀ e ∈ (self.run junk segs).confirmed, e.Sound self1.m_qListStimChannelIdcs K segs)
      ∧ (self.run junk segs).confirmed.Pairwise ConfirmedEvent.Before
      ∧ ((self.run junk segs).fault = none → (self.run junk segs).confirmed ≠ [] →
          (self.run junk segs).t_qListRawMatBuf.length + 1 = K
          ∧ windowReady (self.run junk segs).t_nSamplesPerBuf K
              self.m_iPreStimSamples self.m_iPostStimSamples = true) := by
  intro segs
  induction segs using List.reverseRecOn with
  | nil =>
    rw [run_nil self self1 junk hs]
    exact ⟨0, fun e he => (by cases he), List.Pairwise.nil, fun _ h => absurd rfl h⟩
  | append_singleton segs b ih =>
    obtain ⟨K0, ih1, ih2, ih3⟩ := ih
    have hmono : ∀ e ∈ (self.run junk segs).confirmed,
        e.Sound self1.m_qListStimChannelIdcs K0 (segs ++ [b]) :=
      fun e he => sound_mono _ _ _ _ _ (ih1 e he)
    rw [run_snoc]
    rcases Option.eq_none_or_eq_some (self.run junk segs).fault with hf0 | ⟨e, hf0⟩
    rotate_left
    · rw [runStep_of_fault junk _ b (by simp [hf0])]
      exact ⟨K0, hmono, ih2, fun h => by rw [hf0] at h; cases h⟩
    obtain ⟨p1, p2, p3, p4, p5, p6⟩ := run_reach self self1 junk hs segs hf0
    obtain ⟨r1, r2, r3, r4⟩ := runStep_spec junk (self.run junk segs) b hf0
    obtain ⟨i2, ilen⟩ := run_suffix self self1 junk hs segs hf0
    rcases r4 with ⟨e, _, hfe, hc⟩ | ⟨l, hl, hcase⟩
    · rw [hc]
      exact ⟨K0, hmono, ih2, fun h => by rw [hfe] at h; cases h⟩
    rw [p1] at hl
    rw [p3, p4] at hcase
    rcases hcase with ⟨c1, c2, hc, _, _⟩ | ⟨c1, ⟨X, x1, x2, _⟩, c3, _⟩
    · rw [hc]
      refine ⟨K0, hmono, ih2, fun _ hne => ?_⟩
      exfalso
      obtain ⟨k1, k2⟩ := ih3 hf0 hne
      have htn := (windowReady_pos _ _ _ _ k2).2
      rw [if_neg (by omega), k1, k2] at c1
      cases c1
    -- the ready step
    generalize hsz : (self.run junk segs).t_qListRawMatBuf.length + 1 = sz at c1
    have hold : ∀ e ∈ (self.run junk segs).confirmed,
        e.Sound self1.m_qListStimChannelIdcs sz (segs ++ [b]) := by
      intro e he
      have hne : (self.run junk segs).confirmed ≠ [] := List.ne_nil_of_mem he
      obtain ⟨k1, _⟩ := ih3 hf0 hne
      have : K0 = sz := by omega
      rw [← this]
      exact hmono e he
    have hel := entries_length self1.m_qListStimChannelIdcs segs
    have hlen1 : ((self.run junk segs).t_qListRawMatBuf ++ [(l, b)]).length = sz := by
      simp only [List.length_append, List.length_singleton]
      exact hsz
    have hhist : (self.run junk segs).t_qListRawMatBuf ++ [(l, b)]
        = (entries self1.m_qListStimChannelIdcs (segs ++ [b])).drop (segs.length + 1 - sz) := by
      rw [entries_snoc, activeSet_of_ok _ _ _ hl]
      have h1 : segs.length + 1 - sz
          = segs.length - (self.run junk segs).t_qListRawMatBuf.length := by omega
      rw [h1, List.drop_append_of_le_length (by rw [hel]; omega), ← i2]
    have hget : ∀ i : Nat,
        ((self.run junk segs).t_qListRawMatBuf ++ [(l, b)])[i]?
          = ((segs ++ [b])[segs.length + 1 - sz + i]?).map
              (fun x => (activeSet self1.m_qListStimChannelIdcs x, x)) := by
      intro i
      rw [hhist, List.getElem?_drop]
      unfold entries
      rw [List.getElem?_map]
    have hX : ∀ e ∈ X, e.count = segs.length + 1 ∧ e.size = sz ∧ e.mid = sz / 2 ∧ 0 < sz / 2
        ∧ ∃ bj bp, (segs ++ [b])[segs.length + 1 - sz + sz / 2]? = some bj
          ∧ (segs ++ [b])[segs.length + 1 - sz + (sz / 2 - 1)]? = some bp
          ∧ e.stim ∈ activeSet self1.m_qListStimChannelIdcs bj
          ∧ e.stim ∉ activeSet self1.m_qListStimChannelIdcs bp := by
      intro e he
      obtain ⟨e0, e1, e2, e3, mid, prev, hmid, hprev, e4, e5, _⟩ :=
        stepEvents_mem _ _ e (x1.subset he)
      rw [hlen1] at e0 e2 e3 hmid hprev
      rw [p5] at e1
      rw [hget] at hmid hprev
      obtain ⟨bj, hbj, hmj⟩ := Option.map_eq_some'.mp hmid
      obtain ⟨bp, hbp, hmp⟩ := Option.map_eq_some'.mp hprev
      rw [← hmj] at e4
      rw [← hmp] at e5
      exact ⟨e1, e2, e3, e0, bj, bp, hbj, hbp, e4, e5⟩
    have hpw : X.Pairwise ConfirmedEvent.Before := by
      cases hXe : X with
      | nil => exact List.Pairwise.nil
      | cons e0 rest =>
        have he0 : e0 ∈ X := by rw [hXe]; simp
        obtain ⟨_, _, _, _, mid, prev, hmid, _, _, _, hse⟩ :=
          stepEvents_mem _ _ e0 (x1.subset he0)
        have hmem : mid ∈ (self.run junk segs).t_qListRawMatBuf ++ [(l, b)] :=
          List.getElem?_mem hmid
        have hdet : detectStimuli self1.m_qListStimChannelIdcs mid.2 = .ok mid.1 := by
          rcases List.mem_append.mp hmem with h | h
          · exact p6 _ h
          · have h' : mid = (l, b) := by simpa using h
            rw [h']
            exact hl
        rw [← hXe]
        rw [hse] at x1
        exact (eventsOf_pairwise _ _ _ _ (detectStimuli_sorted _ _ _ hdet).1).sublist x1.sublist
    refine ⟨sz, ?_, ?_, ?_⟩
    · rw [x2]
      intro e he
      rcases List.mem_append.mp he with he | he
      · exact hold e he
      · obtain ⟨e1, e2, e3, e0, bj, bp, hbj, hbp, e4, e5⟩ := hX e he
        have hblock : e.block = segs.length + 1 - sz + sz / 2 := by
          unfold ConfirmedEvent.block
          rw [e1, e2, e3]
        refine ⟨e2, e3, by omega, ?_, bj, bp, ?_, ?_, ?_, e4, e5⟩
        · simp only [List.length_append, List.length_singleton]
          omega
        · rw [hblock]; exact hbj
        · rw [hblock]; omega
        · rw [hblock]
          have : segs.length + 1 - sz + sz / 2 - 1 = segs.length + 1 - sz + (sz / 2 - 1) := by
            omega
          rw [this]
          exact hbp
    · rw [x2, List.pairwise_append]
      refine ⟨ih2, hpw, ?_⟩
      intro a ha c hc
      left
      have h1 := (ih1 a ha).2.2.2.1
      have h2 := (hX c hc).1
      omega
    · intro hf _
      rw [c3 hf, r2]
      simp only [List.length_tail, hlen1]
      exact ⟨by omega, c1⟩

theorem run_start_error (self : RtAve) (junk : Nat → Nat → ℚ) (segs : List MatrixXd)
    (e : Fault) (h : self.start = .error e) : (self.run junk segs).confirmed = [] := by
  simp [RtAve.run, h, RunState.enter]

theorem run_zero_width (self : RtAve) (junk : Nat → Nat → ℚ) :
    ∀ segs : List MatrixXd, (∀ b ∈ segs, b.cols = 0) →
      (self.run junk segs).confirmed = []
      ∧ ((self.run junk segs).fault = none → (self.run junk segs).t_nSamplesPerBuf = 0) := by
  intro segs
  induction segs using List.reverseRecOn with
  | nil =>
    intro _
    unfold RtAve.run
    split
    · exact ⟨rfl, fun _ => rfl⟩
    · exact ⟨rfl, fun _ => rfl⟩
  | append_singleton segs b ih =>
    intro hw
    obtain ⟨ih1, ih2⟩ := ih (fun x hx => hw x (List.mem_append_left _ hx))
    have hb : b.cols = 0 := hw b (by simp)
    rw [run_snoc]
    rcases Option.eq_none_or_eq_some (self.run junk segs).fault with hf0 | ⟨e, hf0⟩
    rotate_left
    · rw [runStep_of_fault junk _ b (by simp [hf0])]
      exact ⟨ih1, ih2⟩
    obtain ⟨_, r2, _, r4⟩ := runStep_spec junk (self.run junk segs) b hf0
    have htn : (if (self.run junk segs).t_nSamplesPerBuf = 0 then b.cols
        else (self.run junk segs).t_nSamplesPerBuf) = 0 := by
      rw [ih2 hf0, hb]
      simp
    rw [htn] at r2 r4
    refine ⟨?_, fun _ => r2⟩
    rcases r4 with ⟨e, _, _, hc⟩ | ⟨l, _, hcase⟩
    · rw [hc]; exact ih1
    · rcases hcase with ⟨_, _, hc, _⟩ | ⟨c1, _⟩
      · rw [hc]; exact ih1
      · have := (windowReady_pos _ _ _ _ c1).2
        omega

/-- C5. For a stream of blocks of constant width `L`: every confirmed event
has its stimulus detected in the block that was in the middle (`e.block`) and
not in the block before it; hence no event for `s` is ever confirmed with
block `j` in the middle when `s` is detected in blocks `j-1` and `j`; and over
a range `a..c` of consecutive blocks in all of which `s` is detected, at most
one event for `s` is confirmed in the whole run. This holds whether or not a
fault stopped the worker. -/
theorem dedup_property (self : RtAve) (junk : Nat → Nat → ℚ) (segs : List MatrixXd) (L : Nat)
    (hw : ∀ b ∈ segs, b.cols = L) :
    (∀ e ∈ (self.run junk segs).confirmed, ∃ bj bp,
        segs[e.block]? = some bj ∧ 1 ≤ e.block ∧ segs[e.block - 1]? = some bp
        ∧ e.stim ∈ activeSet self.stimChannels bj ∧ e.stim ∉ activeSet self.stimChannels bp)
    ∧ (∀ s j bj bp, 1 ≤ j → segs[j]? = some bj → segs[j - 1]? = some bp →
        s ∈ activeSet self.stimChannels bj → s ∈ activeSet self.stimChannels bp →
        ∀ e ∈ (self.run junk segs).confirmed, ¬ (e.block = j ∧ e.stim = s))
    ∧ (∀ s a c,
        (∀ j, a ≤ j → j ≤ c → ∃ bj, segs[j]? = some bj ∧ s ∈ activeSet self.stimChannels bj) →
        ((self.run junk segs).confirmed.filter
          (fun e => decide (e.stim = s ∧ a ≤ e.block ∧ e.block ≤ c))).length ≤ 1) := by
  rcases Nat.eq_zero_or_pos L with hL0 | hL
  · subst hL0
    rw [(run_zero_width self junk segs hw).1]
    exact ⟨fun e he => (by cases he), fun _ _ _ _ _ _ _ _ _ e he => (by cases he),
      fun _ _ _ _ => (by simp)⟩
  cases hs : self.start with
  | error e =>
    rw [run_start_error self junk segs e hs]
    exact ⟨fun e he => (by cases he), fun _ _ _ _ _ _ _ _ _ e he => (by cases he),
      fun _ _ _ _ => (by simp)⟩
  | ok self1 =>
    rw [stimChannels_of_start self self1 hs]
    obtain ⟨K, hsound, hpw, _⟩ := run_trace self self1 junk hs segs
    have hA : ∀ e ∈ (self.run junk segs).confirmed, ∃ bj bp,
        segs[e.block]? = some bj ∧ 1 ≤ e.block ∧ segs[e.block - 1]? = some bp
        ∧ e.stim ∈ activeSet self1.m_qListStimChannelIdcs bj
        ∧ e.stim ∉ activeSet self1.m_qListStimChannelIdcs bp :=
      fun e he => (hsound e he).2.2.2.2
    refine ⟨hA, ?_, ?_⟩
    · intro s j bj bp _ _ hbp _ hsp e he ⟨hej, hes⟩
      obtain ⟨bj', bp', _, _, h3, _, h5⟩ := hA e he
      rw [hej, hbp] at h3
      cases h3
      rw [hes] at h5
      exact h5 hsp
    · intro s a c hrun
      have hfpw := hpw.sublist (List.filter_sublist
        (l := (self.run junk segs).confirmed)
        (p := fun e => decide (e.stim = s ∧ a ≤ e.block ∧ e.block ≤ c)))
      match hF : (self.run junk segs).confirmed.filter
          (fun e => decide (e.stim = s ∧ a ≤ e.block ∧ e.block ≤ c)) with
      | [] => rw [hF]; simp
      | [_] => rw [hF]; simp
      | x :: y :: rest =>
        exfalso
        rw [hF] at hfpw
        have hx : x ∈ (self.run junk segs).confirmed.filter
            (fun e => decide (e.stim = s ∧ a ≤ e.block ∧ e.block ≤ c)) := by
          rw [hF]; simp
        have hy : y ∈ (self.run junk segs).confirmed.filter
            (fun e => decide (e.stim = s ∧ a ≤ e.block ∧ e.block ≤ c)) := by
          rw [hF]; simp
        obtain ⟨hxm, hxp⟩ := List.mem_filter.mp hx
        obtain ⟨hym, hyp⟩ := List.mem_filter.mp hy
        have hxp' : x.stim = s ∧ a ≤ x.block ∧ x.block ≤ c := by simpa using hxp
        have hyp' : y.stim = s ∧ a ≤ y.block ∧ y.block ≤ c := by simpa using hyp
        have hxy : x.Before y := (List.pairwise_cons.mp hfpw).1 y (by simp)
        obtain ⟨x1, x2, x3, _, _⟩ := hsound x hxm
        obtain ⟨y1, y2, y3, _, bj, bp, _, _, y7, _, y9⟩ := hsound y hym
        have hcount : x.count < y.count := by
          rcases hxy with h | ⟨_, h⟩
          · exact h
          · omega
        have hblock : x.block < y.block := by
          unfold ConfirmedEvent.block
          rw [x1, x2, y1, y2]
          omega
        obtain ⟨bq, hbq, hsq⟩ := hrun (y.block - 1) (by omega) (by omega)
        rw [y7] at hbq
        cases hbq
        rw [hyp'.1] at y9
        exact y9 hsq


/-- C4, instance: blocks of two samples, trigger in block 2; when block 3
arrives the history has four entries, block 2 is in the middle and its
stimulus 0 is confirmed. -/
theorem confirmation_rule_witness :
    ∃ mid prev,
      ((exEngine.run exampleJunk exSegs).t_qListRawMatBuf ++ [([], exBlock)])[
          ((exEngine.run exampleJunk exSegs).t_qListRawMatBuf.length + 1) / 2]? = some mid
      ∧ ((exEngine.run exampleJunk exSegs).t_qListRawMatBuf ++ [([], exBlock)])[
          ((exEngine.run exampleJunk exSegs).t_qListRawMatBuf.length + 1) / 2 - 1]? = some prev
      ∧ (∃ X,
          X <+: (mid.1.filter (fun s => !prev.1.contains s)).map
              (fun s => ConfirmedEvent.mk (exSegs.length + 1)
                ((exEngine.run exampleJunk exSegs).t_qListRawMatBuf.length + 1)
                (((exEngine.run exampleJunk exSegs).t_qListRawMatBuf.length + 1) / 2) s)
          ∧ (exEngine.run exampleJunk (exSegs ++ [exBlock])).confirmed
              = (exEngine.run exampleJunk exSegs).confirmed ++ X
          ∧ ((exEngine.run exampleJunk (exSegs ++ [exBlock])).fault = none →
              X = (mid.1.filter (fun s => !prev.1.contains s)).map
                (fun s => ConfirmedEvent.mk (exSegs.length + 1)
                  ((exEngine.run exampleJunk exSegs).t_qListRawMatBuf.length + 1)
                  (((exEngine.run exampleJunk exSegs).t_qListRawMatBuf.length + 1) / 2) s)
              ∧ (exEngine.run exampleJunk (exSegs ++ [exBlock])).t_qListRawMatBuf
                  = ((exEngine.run exampleJunk exSegs).t_qListRawMatBuf
                      ++ [([], exBlock)]).tail))
      ∧ (∀ s, ((mid.1.filter (fun s => !prev.1.contains s)).map
              (fun s => ConfirmedEvent.mk (exSegs.length + 1)
                ((exEngine.run exampleJunk exSegs).t_qListRawMatBuf.length + 1)
                (((exEngine.run exampleJunk exSegs).t_qListRawMatBuf.length + 1) / 2) s)).countP
              (fun e => decide (e.stim = s))
            = if s ∈ mid.1 ∧ s ∉ prev.1 then 1 else 0) :=
  (confirmation_rule exEngine exampleJunk exSegs exBlock [] (by decide) (by rfl)
    (by decide)).2.2 (by decide)

/-- C4, the same instance evaluated: exactly one event, for stimulus 0, at
`count = 4`, history size 4 and middle index 2. -/
theorem confirmation_rule_example :
    (exEngine.run exampleJunk (exSegs ++ [exBlock])).confirmed = [ConfirmedEvent.mk 4 4 2 0]
    ∧ (exEngine.run exampleJunk (exSegs ++ [exBlock])).fault = none := by
  decide

/-- C5, instance: the trigger is detected in the consecutive blocks 2, 3, 4 of
a stream of nine blocks; one event is confirmed in the whole run. -/
theorem dedup_property_witness :
    (exEngine.run exampleJunk (pulseStream 2 [2, 3, 4] 1 9)).confirmed
        = [ConfirmedEvent.mk 4 4 2 0]
    ∧ (∀ e ∈ (exEngine.run exampleJunk (pulseStream 2 [2, 3, 4] 1 9)).confirmed, ∃ bj bp,
        (pulseStream 2 [2, 3, 4] 1 9)[e.block]? = some bj ∧ 1 ≤ e.block
        ∧ (pulseStream 2 [2, 3, 4] 1 9)[e.block - 1]? = some bp
        ∧ e.stim ∈ activeSet exEngine.stimChannels bj
        ∧ e.stim ∉ activeSet exEngine.stimChannels bp)
    ∧ (∀ s j bj bp, 1 ≤ j → (pulseStream 2 [2, 3, 4] 1 9)[j]? = some bj →
        (pulseStream 2 [2, 3, 4] 1 9)[j - 1]? = some bp →
        s ∈ activeSet exEngine.stimChannels bj → s ∈ activeSet exEngine.stimChannels bp →
        ∀ e ∈ (exEngine.run exampleJunk (pulseStream 2 [2, 3, 4] 1 9)).confirmed,
          ¬ (e.block = j ∧ e.stim = s))
    ∧ (∀ s a c,
        (∀ j, a ≤ j → j ≤ c → ∃ bj, (pulseStream 2 [2, 3, 4] 1 9)[j]? = some bj
          ∧ s ∈ activeSet exEngine.stimChannels bj) →
        ((exEngine.run exampleJunk (pulseStream 2 [2, 3, 4] 1 9)).confirmed.filter
          (fun e => decide (e.stim = s ∧ a ≤ e.block ∧ e.block ≤ c))).length ≤ 1) :=
  ⟨by decide,
    dedup_property exEngine exampleJunk (pulseStream 2 [2, 3, 4] 1 9) 2 (by decide)⟩

/-- C6, instance: `numAverages = 2` and three confirmed events for stimulus 0
(triggers in blocks 2, 4, 6): the pre-stimulus vector was appended the epochs
with samples 4, 8, 12 and retains those with samples 8 and 12; the
post-stimulus vector was appended 5, 9, 13 and retains 9 and 13. -/
theorem eviction_bound_witness :
    (exEngineTwo.run exampleJunk
        (pulseStream 2 [2, 4, 6] 1 10)).self.m_qListQVectorPreStimAve.map
          (fun v => (v.items.map (fun m => m.coeff 0 0), v.appended.map (fun m => m.coeff 0 0)))
        = [([8, 12], [4, 8, 12])]
    ∧ (exEngineTwo.run exampleJunk
        (pulseStream 2 [2, 4, 6] 1 10)).self.m_qListQVectorPostStimAve.map
          (fun v => (v.items.map (fun m => m.coeff 0 0), v.appended.map (fun m => m.coeff 0 0)))
        = [([9, 13], [5, 9, 13])]
    ∧ (∀ v, v ∈ (exEngineTwo.run exampleJunk
              (pulseStream 2 [2, 4, 6] 1 10)).self.m_qListQVectorPreStimAve
            ++ (exEngineTwo.run exampleJunk
              (pulseStream 2 [2, 4, 6] 1 10)).self.m_qListQVectorPostStimAve →
        v.items.length ≤ exEngineTwo.m_iNumAverages
        ∧ v.items = v.appended.drop (v.appended.length - exEngineTwo.m_iNumAverages)) :=
  ⟨by decide, by decide,
    (eviction_bound exEngineTwo exampleJunk (pulseStream 2 [2, 4, 6] 1 10) (by decide)).1⟩

/-- C8, instance: rows with samples 1/2, with samples -2 and with the samples
0 and 1; only the last one is detected. -/
theorem detectStimuli_iff_witness :
    ∃ l, detectStimuli [0, 1, 2] fractionBuf = .ok l
      ∧ (∀ i, i ∈ l ↔ ∃ idx, [0, 1, 2][i]? = some idx
            ∧ ∃ c, c < fractionBuf.cols ∧ 0 < castInt (fractionBuf.coeff idx c))
      ∧ (∀ i, i ∈ l ↔ ∃ idx, [0, 1, 2][i]? = some idx
            ∧ ∃ c, c < fractionBuf.cols ∧ 1 ≤ fractionBuf.coeff idx c
              ∧ fractionBuf.coeff idx c < 2147483648)
      ∧ (∀ x : ℚ, x < 1 → ¬ 0 < castInt x)
      ∧ (∀ x : ℚ, 2147483648 ≤ x → ¬ 0 < castInt x)
      ∧ (∀ x : ℚ, 0 ≤ x → x < 2147483648 → castInt x = ⌊x⌋) :=
  detectStimuli_iff [0, 1, 2] fractionBuf (by decide) (by decide)

/-- C9, instance: with blocks of two samples and one sample on either side of
the stimulus, the window test `2 * 4 > 1 + 1 + 2 * 2` holds when the fourth
block arrives. -/
theorem window_ready_rule_witness :
    (exEngine.run exampleJunk (exSegs ++ [exBlock])).t_nSamplesPerBuf = (pulseBuf 2 [2] 1 0).cols
    ∧ (wrap32 ((pulseBuf 2 [2] 1 0).cols * ((exEngine.run exampleJunk exSegs).t_qListRawMatBuf.length + 1))
          > wrap32 (exEngine.m_iPreStimSamples + exEngine.m_iPostStimSamples + 2 * (pulseBuf 2 [2] 1 0).cols) →
        (exEngine.run exampleJunk (exSegs ++ [exBlock])).t_qListRawMatBuf
          = ((exEngine.run exampleJunk exSegs).t_qListRawMatBuf
              ++ [(activeSet exEngine.stimChannels exBlock, exBlock)]).tail
        ∧ (exEngine.run exampleJunk (exSegs ++ [exBlock])).confirmed = (exEngine.run exampleJunk exSegs).confirmed
            ++ stepEvents (exSegs.length + 1)
                ((exEngine.run exampleJunk exSegs).t_qListRawMatBuf ++ [(activeSet exEngine.stimChannels exBlock, exBlock)])
        ∧ ∀ e ∈ stepEvents (exSegs.length + 1)
              ((exEngine.run exampleJunk exSegs).t_qListRawMatBuf ++ [(activeSet exEngine.stimChannels exBlock, exBlock)]),
            e.size = (exEngine.run exampleJunk exSegs).t_qListRawMatBuf.length + 1
            ∧ e.mid = ((exEngine.run exampleJunk exSegs).t_qListRawMatBuf.length + 1) / 2
            ∧ ∃ mid prev,
                ((exEngine.run exampleJunk exSegs).t_qListRawMatBuf
                  ++ [(activeSet exEngine.stimChannels exBlock, exBlock)])[
                    ((exEngine.run exampleJunk exSegs).t_qListRawMatBuf.length + 1) / 2]? = some mid
                ∧ ((exEngine.run exampleJunk exSegs).t_qListRawMatBuf
                  ++ [(activeSet exEngine.stimChannels exBlock, exBlock)])[
                    ((exEngine.run exampleJunk exSegs).t_qListRawMatBuf.length + 1) / 2 - 1]? = some prev
                ∧ e.stim ∈ mid.1 ∧ e.stim ∉ prev.1)
    ∧ (¬ wrap32 ((pulseBuf 2 [2] 1 0).cols * ((exEngine.run exampleJunk exSegs).t_qListRawMatBuf.length + 1))
          > wrap32 (exEngine.m_iPreStimSamples + exEngine.m_iPostStimSamples + 2 * (pulseBuf 2 [2] 1 0).cols) →
        (exEngine.run exampleJunk (exSegs ++ [exBlock])).t_qListRawMatBuf
          = (exEngine.run exampleJunk exSegs).t_qListRawMatBuf ++ [(activeSet exEngine.stimChannels exBlock, exBlock)]
        ∧ (exEngine.run exampleJunk (exSegs ++ [exBlock])).confirmed = (exEngine.run exampleJunk exSegs).confirmed)
    ∧ ((pulseBuf 2 [2] 1 0).cols * ((exEngine.run exampleJunk exSegs).t_qListRawMatBuf.length + 1) < 4294967296 →
        exEngine.m_iPreStimSamples + exEngine.m_iPostStimSamples + 2 * (pulseBuf 2 [2] 1 0).cols < 4294967296 →
        (wrap32 ((pulseBuf 2 [2] 1 0).cols * ((exEngine.run exampleJunk exSegs).t_qListRawMatBuf.length + 1))
            > wrap32 (exEngine.m_iPreStimSamples + exEngine.m_iPostStimSamples + 2 * (pulseBuf 2 [2] 1 0).cols)
          ↔ (pulseBuf 2 [2] 1 0).cols * ((exEngine.run exampleJunk exSegs).t_qListRawMatBuf.length + 1)
            > exEngine.m_iPreStimSamples + exEngine.m_iPostStimSamples + 2 * (pulseBuf 2 [2] 1 0).cols))
    ∧ ((∀ x ∈ exSegs ++ [exBlock], x.cols = (pulseBuf 2 [2] 1 0).cols) →
        (pulseBuf 2 [2] 1 0).cols * ((exEngine.run exampleJunk exSegs).t_qListRawMatBuf.length + 1)
          = (((exEngine.run exampleJunk exSegs).t_qListRawMatBuf
              ++ [(activeSet exEngine.stimChannels exBlock, exBlock)]).map (fun e => e.2.cols)).sum) :=
  window_ready_rule exEngine exampleJunk exSegs exBlock (pulseBuf 2 [2] 1 0) (by rfl)
    (by decide) (by decide)

/-- C10, instance: blocks of two samples, `K = 4`; after the fourth block the
history holds the last three blocks. -/
theorem history_fifo_witness :
    (exEngine.run exampleJunk exSegs).t_qListRawMatBuf
        = (entries exEngine.stimChannels exSegs).drop
            (exSegs.length - min exSegs.length
              (windowSize exEngine.m_iPreStimSamples exEngine.m_iPostStimSamples 2 - 1))
    ∧ (exEngine.run exampleJunk (exSegs ++ [exBlock])).t_qListRawMatBuf
        = (entries exEngine.stimChannels (exSegs ++ [exBlock])).drop
            (exSegs.length + 1 - min (exSegs.length + 1)
              (windowSize exEngine.m_iPreStimSamples exEngine.m_iPostStimSamples 2 - 1))
    ∧ (exEngine.run exampleJunk (exSegs ++ [exBlock])).t_qListRawMatBuf.length
        = min (exSegs.length + 1)
            (windowSize exEngine.m_iPreStimSamples exEngine.m_iPostStimSamples 2 - 1)
    ∧ (exSegs.length + 1 < windowSize exEngine.m_iPreStimSamples exEngine.m_iPostStimSamples 2 →
        (exEngine.run exampleJunk (exSegs ++ [exBlock])).t_qListRawMatBuf
          = (exEngine.run exampleJunk exSegs).t_qListRawMatBuf
              ++ [(activeSet exEngine.stimChannels exBlock, exBlock)])
    ∧ (windowSize exEngine.m_iPreStimSamples exEngine.m_iPostStimSamples 2 ≤ exSegs.length + 1 →
        (exEngine.run exampleJunk (exSegs ++ [exBlock])).t_qListRawMatBuf
          = ((exEngine.run exampleJunk exSegs).t_qListRawMatBuf
              ++ [(activeSet exEngine.stimChannels exBlock, exBlock)]).tail)
    ∧ (windowReady (exEngine.run exampleJunk (exSegs ++ [exBlock])).t_nSamplesPerBuf
          ((exEngine.run exampleJunk exSegs).t_qListRawMatBuf.length + 1)
          exEngine.m_iPreStimSamples exEngine.m_iPostStimSamples = true
        ↔ windowSize exEngine.m_iPreStimSamples exEngine.m_iPostStimSamples 2
            ≤ exSegs.length + 1)
    ∧ (exEngine.run exampleJunk exSegs).t_qListRawMatBuf.length + 1
        ≤ windowSize exEngine.m_iPreStimSamples exEngine.m_iPostStimSamples 2 :=
  history_fifo exEngine exampleJunk exSegs exBlock 2 (by decide) (by decide) (by decide)
    (by decide)


theorem stimChannelLoop_lists (info : FiffInfo) :
    ∀ (n i : Nat) (self self1 : RtAve), stimChannelLoop info n i self = .ok self1 →
      (0 < n → i + n ≤ info.chs.length)
      ∧ self1.m_qListStimChannelIdcs
          = self.m_qListStimChannelIdcs ++ (List.range' i n).filter info.isStim
      ∧ self1.m_qListQVectorPreStimAve
          = self.m_qListQVectorPreStimAve
            ++ List.replicate ((List.range' i n).filter info.isStim).length EpochVector.empty
      ∧ self1.m_qListQVectorPostStimAve
          = self.m_qListQVectorPostStimAve
            ++ List.replicate ((List.range' i n).filter info.isStim).length EpochVector.empty
  | 0, i, self, self1, h => by
    simp only [stimChannelLoop] at h
    cases h
    simp
  | n + 1, i, self, self1, h => by
    simp only [stimChannelLoop] at h
    split at h
    · cases h
    · rename_i ch hch
      have hget := qAt_natCast_ok _ _ _ hch
      have hi : i < info.chs.length := by
        rcases Nat.lt_or_ge i info.chs.length with h1 | h1
        · exact h1
        · rw [List.getElem?_eq_none h1] at hget; cases hget
      obtain ⟨h0, h1, h2, h3⟩ := stimChannelLoop_lists info n (i + 1) _ self1 h
      have hstim : info.isStim i = decide (ch.kind = FIFFV_STIM_CH ∧ ch.ch_name ≠ "STI 014") := by
        simp [FiffInfo.isStim, hget]
      rw [List.range'_succ, List.filter_cons]
      by_cases hc : ch.kind = FIFFV_STIM_CH ∧ ch.ch_name ≠ "STI 014"
      · rw [if_pos hc] at h1 h2 h3
        have hs : info.isStim i = true := by rw [hstim]; exact decide_eq_true hc
        rw [if_pos hs]
        refine ⟨by omega, ?_, ?_, ?_⟩
        · rw [h1]; simp
        · rw [h2]; simp [List.replicate_succ]
        · rw [h3]; simp [List.replicate_succ]
      · rw [if_neg hc] at h1 h2 h3
        have hs : ¬ (info.isStim i = true) := by rw [hstim]; simpa using hc
        rw [if_neg hs]
        exact ⟨by omega, h1, h2, h3⟩

theorem stimChannelLoop_total (info : FiffInfo) :
    ∀ (n i : Nat) (self : RtAve), i + n ≤ info.chs.length →
      ∃ self1, stimChannelLoop info n i self = .ok self1
  | 0, _, self, _ => ⟨self, rfl⟩
  | n + 1, i, self, h => by
    have hi : i < info.chs.length := by omega
    simp only [stimChannelLoop, qAt_natCast _ _ _ (List.getElem?_eq_getElem hi)]
    exact stimChannelLoop_total info n (i + 1) _ (by omega)

theorem start_lists (self self1 : RtAve) (h : self.start = .ok self1) :
    self.m_pFiffInfo.nchan.toNat ≤ self.m_pFiffInfo.chs.length
    ∧ self1.m_qListStimChannelIdcs
        = (List.range self.m_pFiffInfo.nchan.toNat).filter self.m_pFiffInfo.isStim
    ∧ self1.m_qListQVectorPreStimAve
        = List.replicate self1.m_qListStimChannelIdcs.length EpochVector.empty
    ∧ self1.m_qListQVectorPostStimAve
        = List.replicate self1.m_qListStimChannelIdcs.length EpochVector.empty := by
  unfold RtAve.start at h
  obtain ⟨h0, h1, h2, h3⟩ := stimChannelLoop_lists _ _ _ _ self1 h
  simp only [List.nil_append] at h1 h2 h3
  rw [List.range_eq_range']
  refine ⟨?_, h1, ?_, ?_⟩
  · rcases Nat.eq_zero_or_pos self.m_pFiffInfo.nchan.toNat with hz | hz
    · rw [hz]; exact Nat.zero_le _
    · have := h0 hz
      omega
  · rw [h2, h1]
  · rw [h3, h1]

/-- C13. The worker start succeeds whenever the channel description has `nchan`
channels, and the stimulus channel list it derives is the list of the indices
`i` in `0 .. nchan-1`, in increasing order, of the channels whose kind is
`FIFFV_STIM_CH` and whose name is not `STI 014`: an index is in the list
exactly if its channel is of that kind and not of that name. -/
theorem start_stimChannels (self : RtAve) :
    (self.m_pFiffInfo.nchan.toNat ≤ self.m_pFiffInfo.chs.length →
      ∃ self1, self.start = .ok self1)
    ∧ (∀ self1, self.start = .ok self1 →
        self1.m_qListStimChannelIdcs
          = (List.range self.m_pFiffInfo.nchan.toNat).filter self.m_pFiffInfo.isStim
        ∧ self1.m_qListStimChannelIdcs.Pairwise (· < ·)
        ∧ ∀ i, i ∈ self1.m_qListStimChannelIdcs ↔
            (i : Int) < self.m_pFiffInfo.nchan
            ∧ ∃ ch, self.m_pFiffInfo.chs[i]? = some ch ∧ ch.kind = FIFFV_STIM_CH
                ∧ ch.ch_name ≠ "STI 014") := by
  constructor
  · intro h
    unfold RtAve.start
    exact stimChannelLoop_total _ _ _ _ (by omega)
  · intro self1 h
    obtain ⟨h0, h1, _, _⟩ := start_lists self self1 h
    refine ⟨h1, ?_, ?_⟩
    · rw [h1]
      exact (List.pairwise_lt_range _).filter _
    · intro i
      rw [h1, List.mem_filter, List.mem_range]
      have hlt : i < self.m_pFiffInfo.nchan.toNat ↔ (i : Int) < self.m_pFiffInfo.nchan := by
        omega
      rw [hlt]
      unfold FiffInfo.isStim
      constructor
      · rintro ⟨h2, h3⟩
        refine ⟨h2, ?_⟩
        split at h3
        · rename_i ch hch
          exact ⟨ch, hch, by simpa using h3⟩
        · cases h3
      · rintro ⟨h2, ch, hch, h3, h4⟩
        refine ⟨h2, ?_⟩
        rw [hch]
        simp [h3, h4]

/-- C13, instance: of five channels, the trigger channels 2 and 4 are stimulus
channels; the trigger channel 1 named `STI 014` and the data channels are not. -/
theorem start_stimChannels_witness :
    (∃ self1, (RtAve.new 1 1 mixedInfo).start = .ok self1)
    ∧ (RtAve.new 1 1 mixedInfo).stimChannels = [2, 4]
    ∧ (∀ self1, (RtAve.new 1 1 mixedInfo).start = .ok self1 →
        self1.m_qListStimChannelIdcs
          = (List.range (RtAve.new 1 1 mixedInfo).m_pFiffInfo.nchan.toNat).filter
              (RtAve.new 1 1 mixedInfo).m_pFiffInfo.isStim
        ∧ self1.m_qListStimChannelIdcs.Pairwise (· < ·)
        ∧ ∀ i, i ∈ self1.m_qListStimChannelIdcs ↔
            (i : Int) < (RtAve.new 1 1 mixedInfo).m_pFiffInfo.nchan
            ∧ ∃ ch, (RtAve.new 1 1 mixedInfo).m_pFiffInfo.chs[i]? = some ch
                ∧ ch.kind = FIFFV_STIM_CH ∧ ch.ch_name ≠ "STI 014") :=
  ⟨(start_stimChannels (RtAve.new 1 1 mixedInfo)).1 (by decide), by decide,
    (start_stimChannels (RtAve.new 1 1 mixedInfo)).2⟩


theorem getElem?_some_lt {α : Type} (l : List α) (i : Nat) (x : α) (h : l[i]? = some x) :
    i < l.length := by
  rcases Nat.lt_or_ge i l.length with h1 | h1
  · exact h1
  · rw [List.getElem?_eq_none h1] at h; cases h

theorem assemblePreStimulus_eval (self : RtAve) (junk : Nat → Nat → ℚ)
    (hist : List RawMatBuf) (s : Nat) (m : MatrixXd) (w : List ColRange) (v : EpochVector)
    (hp : 0 < self.m_iPreStimSamples)
    (hm : preStimMatrix self.m_iPreStimSamples self.m_qListStimChannelIdcs junk hist s
      = .ok (m, w))
    (hv : self.m_qListQVectorPreStimAve[s]? = some v) :
    self.assemblePreStimulus junk hist s
      = .ok { self with
              m_qListQVectorPreStimAve := self.m_qListQVectorPreStimAve.set s (v.append m) } := by
  simp only [RtAve.assemblePreStimulus, hp, if_true, hm, storeAppend, hv]

theorem assemblePostStimulus_eval (self : RtAve) (junk : Nat → Nat → ℚ)
    (hist : List RawMatBuf) (s : Nat) (m : MatrixXd) (w : List ColRange) (v : EpochVector)
    (hp : 0 < self.m_iPreStimSamples)
    (hm : postStimMatrix self.m_iPostStimSamples self.m_qListStimChannelIdcs junk hist s
      = .ok (m, w))
    (hv : self.m_qListQVectorPostStimAve[s]? = some v) :
    self.assemblePostStimulus junk hist s
      = .ok { self with
              m_qListQVectorPostStimAve :=
                self.m_qListQVectorPostStimAve.set s (v.append m) } := by
  simp only [RtAve.assemblePostStimulus, hp, if_true, hm, storeAppend, hv]

theorem assemble_skip (self : RtAve) (junk : Nat → Nat → ℚ) (hist : List RawMatBuf) (s : Nat)
    (hp : self.m_iPreStimSamples = 0) :
    self.assemblePreStimulus junk hist s = .ok self
    ∧ self.assemblePostStimulus junk hist s = .ok self := by
  simp [RtAve.assemblePreStimulus, RtAve.assemblePostStimulus, hp]

theorem storeEvict_eval (N : Nat) (stores : List EpochVector) (i : Nat) (v : EpochVector)
    (hv : stores[i]? = some v) :
    storeEvict N stores i = .ok (if N < v.size then stores.set i v.pop_front else stores) := by
  simp only [storeEvict, hv]

theorem storeEvict_live (N : Nat) (stores : List EpochVector) (i : Nat) (v : EpochVector)
    (hv : stores[i]? = some v) : ∃ stores1, storeEvict N stores i = .ok stores1 :=
  ⟨_, storeEvict_eval N stores i v hv⟩

theorem confirmStep_live (junk : Nat → Nat → ℚ) (prev : List Nat) (st : RunState) (s : Nat)
    (m1 m2 : MatrixXd) (w1 w2 : List ColRange) (v1 v2 : EpochVector)
    (hf : st.fault = none)
    (hm1 : preStimMatrix st.self.m_iPreStimSamples st.self.m_qListStimChannelIdcs junk
      st.t_qListRawMatBuf s = .ok (m1, w1))
    (hm2 : postStimMatrix st.self.m_iPostStimSamples st.self.m_qListStimChannelIdcs junk
      st.t_qListRawMatBuf s = .ok (m2, w2))
    (hv1 : st.self.m_qListQVectorPreStimAve[s]? = some v1)
    (hv2 : st.self.m_qListQVectorPostStimAve[s]? = some v2) :
    (confirmStep junk prev st s).fault = none := by
  unfold confirmStep
  simp only [hf, Option.isSome_none, Bool.false_eq_true, if_false]
  split
  · rcases Nat.eq_zero_or_pos st.self.m_iPreStimSamples with hp | hp
    · obtain ⟨e1, e2⟩ := assemble_skip st.self junk st.t_qListRawMatBuf s hp
      simp only [e1, e2, storeEvict_eval _ _ _ _ hv1]
      obtain ⟨x, hx⟩ := storeEvict_live st.self.m_iNumAverages st.self.m_qListQVectorPostStimAve
        s v2 hv2
      simp only [hx, hf]
    · have e1 := assemblePreStimulus_eval st.self junk st.t_qListRawMatBuf s m1 w1 v1 hp hm1 hv1
      have e2 := assemblePostStimulus_eval
        { st.self with
          m_qListQVectorPreStimAve := st.self.m_qListQVectorPreStimAve.set s (v1.append m1) }
        junk st.t_qListRawMatBuf s m2 w2 v2 hp hm2 hv2
      simp only [e1, e2]
      have hlt : s < st.self.m_qListQVectorPreStimAve.length := by
        rcases Nat.lt_or_ge s st.self.m_qListQVectorPreStimAve.length with h | h
        · exact h
        · rw [List.getElem?_eq_none h] at hv1; cases hv1
      have hlt2 : s < st.self.m_qListQVectorPostStimAve.length := by
        rcases Nat.lt_or_ge s st.self.m_qListQVectorPostStimAve.length with h | h
        · exact h
        · rw [List.getElem?_eq_none h] at hv2; cases hv2
      rw [storeEvict_eval _ _ _ (v1.append m1) (List.getElem?_set_self hlt)]
      simp only []
      rw [storeEvict_eval _ _ _ (v2.append m2) (List.getElem?_set_self hlt2)]
  · exact hf

/-- The loop body for a confirmed event of stimulus `s`, evaluated when
`preStimSamples ≥ 1` and both extractions complete: the event is logged and
the two sequences of `s` receive their epoch and lose their head if they then
hold more than `numAverages` epochs; nothing else in the state changes. -/
theorem confirmStep_exact (junk : Nat → Nat → ℚ) (prev : List Nat) (st : RunState) (s : Nat)
    (m1 m2 : MatrixXd) (w1 w2 : List ColRange) (v1 v2 : EpochVector)
    (hf : st.fault = none) (hc : prev.contains s = false)
    (hp : 0 < st.self.m_iPreStimSamples)
    (hm1 : preStimMatrix st.self.m_iPreStimSamples st.self.m_qListStimChannelIdcs junk
      st.t_qListRawMatBuf s = .ok (m1, w1))
    (hm2 : postStimMatrix st.self.m_iPostStimSamples st.self.m_qListStimChannelIdcs junk
      st.t_qListRawMatBuf s = .ok (m2, w2))
    (hv1 : st.self.m_qListQVectorPreStimAve[s]? = some v1)
    (hv2 : st.self.m_qListQVectorPostStimAve[s]? = some v2) :
    confirmStep junk prev st s =
      { st with
        confirmed := st.confirmed ++
          [ConfirmedEvent.mk st.count st.t_qListRawMatBuf.length
            (st.t_qListRawMatBuf.length / 2) s]
        self := { st.self with
          m_qListQVectorPreStimAve := st.self.m_qListQVectorPreStimAve.set s
            (if st.self.m_iNumAverages < (v1.append m1).size then (v1.append m1).pop_front
             else v1.append m1)
          m_qListQVectorPostStimAve := st.self.m_qListQVectorPostStimAve.set s
            (if st.self.m_iNumAverages < (v2.append m2).size then (v2.append m2).pop_front
             else v2.append m2) } } := by
  have e1 := assemblePreStimulus_eval st.self junk st.t_qListRawMatBuf s m1 w1 v1 hp hm1 hv1
  have e2 := assemblePostStimulus_eval
    { st.self with
      m_qListQVectorPreStimAve := st.self.m_qListQVectorPreStimAve.set s (v1.append m1) }
    junk st.t_qListRawMatBuf s m2 w2 v2 hp hm2 hv2
  have hlt : s < st.self.m_qListQVectorPreStimAve.length := getElem?_some_lt _ _ _ hv1
  have hlt2 : s < st.self.m_qListQVectorPostStimAve.length := getElem?_some_lt _ _ _ hv2
  unfold confirmStep
  simp only [hf, Option.isSome_none, Bool.false_eq_true, if_false, hc, Bool.not_false, if_true,
    e1, e2]
  rw [storeEvict_eval _ _ _ (v1.append m1) (List.getElem?_set_self hlt)]
  simp only []
  rw [storeEvict_eval _ _ _ (v2.append m2) (List.getElem?_set_self hlt2)]
  simp only []
  by_cases h1 : st.self.m_iNumAverages < (v1.append m1).size
  · by_cases h2 : st.self.m_iNumAverages < (v2.append m2).size
    · simp only [if_pos h1, if_pos h2, List.set_set]
    · simp only [if_pos h1, if_neg h2, List.set_set]
  · by_cases h2 : st.self.m_iNumAverages < (v2.append m2).size
    · simp only [if_neg h1, if_pos h2, List.set_set]
    · simp only [if_neg h1, if_neg h2]

theorem scenario_detect (R ch : Nat) (v : ℚ) (data : Nat → Nat → Nat → ℚ) (j : Nat)
    (hch : ch < R) (hv : 1 ≤ v) (hv2 : v < 2147483648) :
    detectStimuli [ch] (scenarioBuf R ch v data j) = .ok (if j = 3 then [0] else []) := by
  have hs : ∃ iMax, stimSegmentMax (scenarioBuf R ch v data j) ch = .ok iMax := by
    unfold stimSegmentMax
    rw [if_pos (⟨hch, Nat.succ_pos 9⟩ :
      ch < (scenarioBuf R ch v data j).rows ∧ 0 < (scenarioBuf R ch v data j).cols)]
    exact ⟨_, rfl⟩
  obtain ⟨iMax, hmax⟩ := hs
  have hpos := stimSegmentMax_pos_iff _ _ _ hmax
  simp only [detectStimuli, detectFrom, hmax]
  by_cases hj : j = 3
  · have : 0 < iMax := hpos.mpr ⟨4, Nat.lt_of_sub_eq_succ (rfl : 10 - 4 = 5 + 1), by simp [scenarioBuf, hj, hv, hv2]⟩
    simp [this, hj]
  · have : ¬ 0 < iMax := by
      intro h
      obtain ⟨c, _, hc, _⟩ := hpos.mp h
      simp [scenarioBuf, hj] at hc
      linarith
    simp [this, hj]

theorem scenario_rowMaxPos (R ch : Nat) (v : ℚ) (data : Nat → Nat → Nat → ℚ)
    (hch : ch < R) (hv : 0 < v) :
    (scenarioBuf R ch v data 3).rowMaxPos ch = .ok 4 := by
  rw [rowMaxPos_ok _ _ hch (Nat.succ_pos 9)]
  have hn : ¬ v < 0 := not_lt.mpr hv.le
  simp [scenarioBuf, maxVisitor, hv, hn]

theorem scenario_entries (R ch : Nat) (v : ℚ) (data : Nat → Nat → Nat → ℚ) (n : Nat)
    (hch : ch < R) (hv : 1 ≤ v) (hv2 : v < 2147483648) :
    entries [ch] (scenarioStream R ch v data n)
      = (List.range n).map (scenarioEntry R ch v data) := by
  unfold entries scenarioStream
  rw [List.map_map]
  apply List.map_congr_left
  intro j _
  simp only [Function.comp, scenarioEntry,
    activeSet_of_ok _ _ _ (scenario_detect R ch v data j hch hv hv2)]

theorem drop_map_range_get {α : Type} (g : Nat → α) (n d i : Nat) (h : d + i < n) :
    (((List.range n).map g).drop d)[i]? = some (g (d + i)) := by
  simp [List.getElem?_drop, List.getElem?_map, List.getElem?_range, h]


theorem runStep_quiet (junk : Nat → Nat → ℚ) (st : RunState) (b : MatrixXd) (l : List Nat)
    (hf : st.fault = none) (hd : detectStimuli st.self.m_qListStimChannelIdcs b = .ok l)
    (hq : windowReady (if st.t_nSamplesPerBuf = 0 then b.cols else st.t_nSamplesPerBuf)
          (st.t_qListRawMatBuf.length + 1) st.self.m_iPreStimSamples
          st.self.m_iPostStimSamples = true →
        ∀ mid, (st.t_qListRawMatBuf ++ [(l, b)])[(st.t_qListRawMatBuf.length + 1) / 2]?
          = some mid → mid.1 = []) :
    (runStep junk st b).fault = none
    ∧ (runStep junk st b).confirmed = st.confirmed
    ∧ (runStep junk st b).self = st.self
    ∧ (runStep junk st b).t_qListRawMatBuf
        = (if windowReady (if st.t_nSamplesPerBuf = 0 then b.cols else st.t_nSamplesPerBuf)
            (st.t_qListRawMatBuf.length + 1) st.self.m_iPreStimSamples
            st.self.m_iPostStimSamples then (st.t_qListRawMatBuf ++ [(l, b)]).tail
          else st.t_qListRawMatBuf ++ [(l, b)]) := by
  rw [runStep_eval junk st b l hf hd]
  by_cases hr : windowReady (if st.t_nSamplesPerBuf = 0 then b.cols else st.t_nSamplesPerBuf)
          (st.t_qListRawMatBuf.length + 1) st.self.m_iPreStimSamples
          st.self.m_iPostStimSamples = true
  · rw [if_pos hr, if_pos hr]
    have hav : average junk { st with
              t_nSamplesPerBuf := if st.t_nSamplesPerBuf = 0 then b.cols else st.t_nSamplesPerBuf,
              count := st.count + 1,
              t_qListRawMatBuf := st.t_qListRawMatBuf ++ [(l, b)] }
        = { st with
              t_nSamplesPerBuf := if st.t_nSamplesPerBuf = 0 then b.cols else st.t_nSamplesPerBuf,
              count := st.count + 1,
              t_qListRawMatBuf := st.t_qListRawMatBuf ++ [(l, b)] } := by
      rcases Nat.eq_zero_or_pos ((st.t_qListRawMatBuf ++ [(l, b)]).length / 2) with hz | hz
      · exact average_of_mid_zero junk _ hz
      · obtain ⟨mid, prev, hmid, _, hav⟩ := average_of_mid_pos junk { st with
              t_nSamplesPerBuf := if st.t_nSamplesPerBuf = 0 then b.cols else st.t_nSamplesPerBuf,
              count := st.count + 1,
              t_qListRawMatBuf := st.t_qListRawMatBuf ++ [(l, b)] } hz
        rw [hav]
        have hlen : (st.t_qListRawMatBuf ++ [(l, b)]).length = st.t_qListRawMatBuf.length + 1 := by
          simp
        have : mid.1 = [] := hq hr mid (by rw [← hlen]; exact hmid)
        rw [this]
        rfl
    rw [hav]
    simp only [hf, Option.isSome_none, Bool.false_eq_true, if_false]
    exact ⟨trivial, trivial, trivial, trivial⟩
  · rw [if_neg hr, if_neg hr]
    exact ⟨hf, rfl, rfl, rfl⟩

theorem runStep_single (junk : Nat → Nat → ℚ) (st : RunState) (b : MatrixXd) (l : List Nat)
    (s : Nat) (mid prev : RawMatBuf) (m1 m2 : MatrixXd) (w1 w2 : List ColRange)
    (v1 v2 : EpochVector)
    (hf : st.fault = none) (hd : detectStimuli st.self.m_qListStimChannelIdcs b = .ok l)
    (hr : windowReady (if st.t_nSamplesPerBuf = 0 then b.cols else st.t_nSamplesPerBuf)
          (st.t_qListRawMatBuf.length + 1) st.self.m_iPreStimSamples
          st.self.m_iPostStimSamples = true)
    (hpos : 0 < (st.t_qListRawMatBuf.length + 1) / 2)
    (hmid : (st.t_qListRawMatBuf ++ [(l, b)])[(st.t_qListRawMatBuf.length + 1) / 2]? = some mid)
    (hprev : (st.t_qListRawMatBuf ++ [(l, b)])[(st.t_qListRawMatBuf.length + 1) / 2 - 1]?
      = some prev)
    (hm : mid.1 = [s]) (hp : prev.1.contains s = false)
    (hpre : 0 < st.self.m_iPreStimSamples)
    (hm1 : preStimMatrix st.self.m_iPreStimSamples st.self.m_qListStimChannelIdcs junk
      (st.t_qListRawMatBuf ++ [(l, b)]) s = .ok (m1, w1))
    (hm2 : postStimMatrix st.self.m_iPostStimSamples st.self.m_qListStimChannelIdcs junk
      (st.t_qListRawMatBuf ++ [(l, b)]) s = .ok (m2, w2))
    (hv1 : st.self.m_qListQVectorPreStimAve[s]? = some v1)
    (hv2 : st.self.m_qListQVectorPostStimAve[s]? = some v2) :
    (runStep junk st b).fault = none
    ∧ (runStep junk st b).confirmed = st.confirmed ++
        [ConfirmedEvent.mk (st.count + 1) (st.t_qListRawMatBuf.length + 1)
          ((st.t_qListRawMatBuf.length + 1) / 2) s]
    ∧ (runStep junk st b).self.m_qListQVectorPreStimAve
        = st.self.m_qListQVectorPreStimAve.set s
            (if st.self.m_iNumAverages < (v1.append m1).size then (v1.append m1).pop_front
             else v1.append m1)
    ∧ (runStep junk st b).self.m_qListQVectorPostStimAve
        = st.self.m_qListQVectorPostStimAve.set s
            (if st.self.m_iNumAverages < (v2.append m2).size then (v2.append m2).pop_front
             else v2.append m2) := by
  rw [runStep_eval junk st b l hf hd, if_pos hr]
  have hlen : (st.t_qListRawMatBuf ++ [(l, b)]).length = st.t_qListRawMatBuf.length + 1 := by
    simp
  obtain ⟨mid', prev', hmid', hprev', hav⟩ := average_of_mid_pos junk { st with
      t_nSamplesPerBuf := if st.t_nSamplesPerBuf = 0 then b.cols else st.t_nSamplesPerBuf,
      count := st.count + 1,
      t_qListRawMatBuf := st.t_qListRawMatBuf ++ [(l, b)] } (by rw [hlen]; exact hpos)
  have e1 : mid' = mid := by
    have := hmid'
    rw [hlen, hmid] at this
    exact (Option.some.inj this).symm
  have e2 : prev' = prev := by
    have := hprev'
    rw [hlen, hprev] at this
    exact (Option.some.inj this).symm
  rw [e1, e2, hm] at hav
  simp only [List.foldl_cons, List.foldl_nil] at hav
  rw [hav]
  have hlive := confirmStep_live junk prev.1 { st with
      t_nSamplesPerBuf := if st.t_nSamplesPerBuf = 0 then b.cols else st.t_nSamplesPerBuf,
      count := st.count + 1,
      t_qListRawMatBuf := st.t_qListRawMatBuf ++ [(l, b)] } s m1 m2 w1 w2 v1 v2 hf hm1 hm2 hv1 hv2
  obtain ⟨c1, _, _, _, _, c6⟩ := confirmStep_new junk prev.1 { st with
      t_nSamplesPerBuf := if st.t_nSamplesPerBuf = 0 then b.cols else st.t_nSamplesPerBuf,
      count := st.count + 1,
      t_qListRawMatBuf := st.t_qListRawMatBuf ++ [(l, b)] } s hf hp
  obtain ⟨_, _, _, _, vPre, vPost, hvPre, hvPost, hcase⟩ := c6 hlive
  simp only [hlive, Option.isSome_none, Bool.false_eq_true, if_false]
  refine ⟨trivial, ?_, ?_, ?_⟩
  · rw [c1, hlen]
  · rcases hcase with ⟨hz, _, _⟩ | ⟨_, mPre, wPre, mPost, wPost, hA, hB, hC, hD⟩
    · exact absurd hz (Nat.pos_iff_ne_zero.mp hpre)
    · have hA' := hA.symm.trans hm1
      have hx : vPre = v1 := Option.some.inj (hvPre.symm.trans hv1)
      have hy : mPre = m1 := congrArg Prod.fst (Except.ok.inj hA')
      rw [hC, hx, hy]
  · rcases hcase with ⟨hz, _, _⟩ | ⟨_, mPre, wPre, mPost, wPost, hA, hB, hC, hD⟩
    · exact absurd hz (Nat.pos_iff_ne_zero.mp hpre)
    · have hB' := hB.symm.trans hm2
      have hx : vPost = v2 := Option.some.inj (hvPost.symm.trans hv2)
      have hy : mPost = m2 := congrArg Prod.fst (Except.ok.inj hB')
      rw [hD, hx, hy]


theorem scenario_assembly (R ch : Nat) (v : ℚ) (data : Nat → Nat → Nat → ℚ)
    (junk : Nat → Nat → ℚ) (hch : ch < R) (hv : 1 ≤ v) :
    ∃ m1 w1 m2 w2,
      preStimMatrix 15 [ch] junk ((List.range 6).map (scenarioEntry R ch v data)) 0
        = .ok (m1, w1)
      ∧ postStimMatrix 15 [ch] junk ((List.range 6).map (scenarioEntry R ch v data)) 0
        = .ok (m2, w2)
      ∧ m1.rows = R ∧ m1.cols = 15 ∧ m2.rows = R ∧ m2.cols = 15
      ∧ (∀ r c, r < R → c < 15 → m1.coeff r c = scenarioSample R ch v data r (19 + c))
      ∧ (∀ r c, r < R → c < 15 → m2.coeff r c = scenarioSample R ch v data r (34 + c)) := by
  have hv0 : (0 : ℚ) < v := lt_of_lt_of_le one_pos hv
  have hw : ∀ e ∈ (List.range 6).map (scenarioEntry R ch v data), e.2.cols = 10 := by
    intro e he
    obtain ⟨j, _, rfl⟩ := List.mem_map.mp he
    rfl
  have hr : ∀ e ∈ (List.range 6).map (scenarioEntry R ch v data), e.2.rows = R := by
    intro e he
    obtain ⟨j, _, rfl⟩ := List.mem_map.mp he
    rfl
  have hlen : ((List.range 6).map (scenarioEntry R ch v data)).length = 6 := by simp
  have hget : ∀ k, k < 6 →
      ((List.range 6).map (scenarioEntry R ch v data))[k]? = some (scenarioEntry R ch v data k) := by
    intro k hk
    simp [List.getElem?_map, List.getElem?_range, hk]
  have hmid : ((List.range 6).map (scenarioEntry R ch v data))[
      ((List.range 6).map (scenarioEntry R ch v data)).length / 2]?
        = some (scenarioEntry R ch v data 3) := by
    rw [hlen]; exact hget 3 (by decide)
  have hpos := scenario_rowMaxPos R ch v data hch hv0
  obtain ⟨m1, w1, h1, h1r, h1c, h1v⟩ := preStimMatrix_spec 15 [ch] junk _ 0 10 R ch 4
    (scenarioEntry R ch v data 3) hw hr hmid rfl hpos (by rw [hlen]; decide)
  obtain ⟨m2, w2, h2, h2r, h2c, h2v⟩ := postStimMatrix_spec 15 [ch] junk _ 0 10 R ch
    (scenarioEntry R ch v data 3) (by decide) hw hr hmid rfl hch (by rw [hlen]; decide)
  have hmv : maxVisitor ((scenarioEntry R ch v data 3).2.coeff ch) (10 - 1) = 4 := by
    have := rowMaxPos_eq _ _ _ hpos
    exact this.2.2.symm
  refine ⟨m1, w1, m2, w2, h1, h2, h1r, h1c, h2r, h2c, ?_, ?_⟩
  · intro r c hr' hc
    rw [h1v r c hr' hc, hlen]
    have hg : (if 0 < 4 then 6 / 2 * 10 + 4 else (6 / 2 + 1) * 10) - 15 + c
        = ((19 + c) / 10) * 10 + (19 + c) % 10 := by
      simp only [Nat.lt_irrefl, Nat.zero_lt_succ, if_true]
      omega
    conv_lhs => rw [hg]
    rw [concatCoeff_block 10 _ hw ((19 + c) / 10) _ (hget _ (by omega)) r _
      (Nat.mod_lt _ (by decide))]
    rfl
  · intro r c hr' hc
    rw [h2v r c hr' hc, hlen, hmv]
    have hg : 6 / 2 * 10 + 4 + c = ((34 + c) / 10) * 10 + (34 + c) % 10 := by
      omega
    conv_lhs => rw [hg]
    rw [concatCoeff_block 10 _ hw ((34 + c) / 10) _ (hget _ (by omega)) r _
      (Nat.mod_lt _ (by decide))]
    rfl

theorem scenario_run (R ch : Nat) (v : ℚ) (data : Nat → Nat → Nat → ℚ) (info : FiffInfo)
    (junk : Nat → Nat → ℚ) (self1 : RtAve) (hch : ch < R) (hv : 1 ≤ v) (hv2 : v < 2147483648)
    (hs : (RtAve.new 15 15 info).start = .ok self1)
    (hi : self1.m_qListStimChannelIdcs = [ch])
    (m1 m2 : MatrixXd) (w1 w2 : List ColRange)
    (hm1 : preStimMatrix 15 [ch] junk ((List.range 6).map (scenarioEntry R ch v data)) 0
        = .ok (m1, w1))
    (hm2 : postStimMatrix 15 [ch] junk ((List.range 6).map (scenarioEntry R ch v data)) 0
        = .ok (m2, w2)) :
    ∀ n, ((RtAve.new 15 15 info).run junk (scenarioStream R ch v data n)).fault = none
      ∧ ((RtAve.new 15 15 info).run junk (scenarioStream R ch v data n)).confirmed
          = (if 6 ≤ n then [ConfirmedEvent.mk 6 6 3 0] else [])
      ∧ ((RtAve.new 15 15 info).run junk
            (scenarioStream R ch v data n)).self.m_qListQVectorPreStimAve
          = (if 6 ≤ n then [EpochVector.empty.append m1] else [EpochVector.empty])
      ∧ ((RtAve.new 15 15 info).run junk
            (scenarioStream R ch v data n)).self.m_qListQVectorPostStimAve
          = (if 6 ≤ n then [EpochVector.empty.append m2] else [EpochVector.empty]) := by
  intro n
  induction n with
  | zero =>
    obtain ⟨_, _, h3, h4⟩ := start_lists _ _ hs
    rw [hi] at h3 h4
    have : scenarioStream R ch v data 0 = [] := rfl
    rw [this, run_nil _ _ junk hs]
    exact ⟨rfl, rfl, h3, h4⟩
  | succ n ih =>
    obtain ⟨hf, hconf, hpre, hpost⟩ := ih
    have hsnoc : scenarioStream R ch v data (n + 1)
        = scenarioStream R ch v data n ++ [scenarioBuf R ch v data n] := by
      simp [scenarioStream, List.range_succ]
    have hlenS : (scenarioStream R ch v data n).length = n := by simp [scenarioStream]
    have hcols : ∀ b ∈ scenarioStream R ch v data n, b.cols = 10 := by
      intro b hb
      obtain ⟨j, _, rfl⟩ := List.mem_map.mp hb
      rfl
    obtain ⟨r1, r2, r3, r4, r5, _⟩ := run_reach _ _ junk hs _ hf
    obtain ⟨t1, t2⟩ := run_hist _ _ junk hs 10 (by decide)
      (by show 15 + 15 + 3 * 10 < 4294967296; decide) _ hf hcols
    rw [hi] at r1 t2
    rw [hlenS] at r5 t1 t2
    rw [scenario_entries R ch v data n hch hv hv2] at t2
    have hK : windowSize (RtAve.new 15 15 info).m_iPreStimSamples
        (RtAve.new 15 15 info).m_iPostStimSamples 10 - 1 = 5 := by
      show windowSize 15 15 10 - 1 = 5
      decide
    rw [hK] at t2
    have r2' : ((RtAve.new 15 15 info).run junk
        (scenarioStream R ch v data n)).self.m_iNumAverages = 4 := r2
    have r3' : ((RtAve.new 15 15 info).run junk
        (scenarioStream R ch v data n)).self.m_iPreStimSamples = 15 := r3
    have r4' : ((RtAve.new 15 15 info).run junk
        (scenarioStream R ch v data n)).self.m_iPostStimSamples = 15 := r4
    have hd := scenario_detect R ch v data n hch hv hv2
    rw [← r1] at hd
    rw [hsnoc, run_snoc]
    generalize (RtAve.new 15 15 info).run junk (scenarioStream R ch v data n) = st at *
    have htn : (if st.t_nSamplesPerBuf = 0 then (scenarioBuf R ch v data n).cols
        else st.t_nSamplesPerBuf) = 10 := by
      rw [t1]
      by_cases h0 : n = 0
      · simp only [h0, if_true]
        rfl
      · simp only [h0, if_false]
        rfl
    have hlen : st.t_qListRawMatBuf.length = min n 5 := by
      rw [t2]
      simp
      omega
    have hready : windowReady (if st.t_nSamplesPerBuf = 0 then (scenarioBuf R ch v data n).cols
        else st.t_nSamplesPerBuf) (st.t_qListRawMatBuf.length + 1) st.self.m_iPreStimSamples
          st.self.m_iPostStimSamples = true ↔ 5 ≤ n := by
      rw [htn, hlen, r3', r4', windowReady_exact _ _ _ _ (by omega) (by decide)]
      simp only [gt_iff_lt, decide_eq_true_eq]
      omega
    have hH : 5 ≤ n → st.t_qListRawMatBuf ++ [(if n = 3 then [0] else [], scenarioBuf R ch v data n)]
        = ((List.range (n + 1)).map (scenarioEntry R ch v data)).drop (n - 5) := by
      intro h5
      rw [t2, List.range_succ, List.map_append,
        List.drop_append_of_le_length (by simp)]
      have : min n 5 = 5 := by omega
      rw [this]
      rfl
    by_cases h5 : n = 5
    · subst h5
      have hH5 := hH (Nat.le_refl 5)
      simp only [Nat.sub_self, List.drop_zero] at hH5
      have hget : ∀ k, k < 6 → ((List.range 6).map (scenarioEntry R ch v data))[k]?
          = some (scenarioEntry R ch v data k) := by
        intro k hk
        simp [List.getElem?_map, List.getElem?_range, hk]
      have hl5 : st.t_qListRawMatBuf.length = 5 := hlen
      obtain ⟨a, b, c, d⟩ := runStep_single junk st (scenarioBuf R ch v data 5) _ 0
        (scenarioEntry R ch v data 3) (scenarioEntry R ch v data 2) m1 m2 w1 w2
        EpochVector.empty EpochVector.empty hf hd (hready.mpr (Nat.le_refl 5))
        (by rw [hl5]; decide) (by rw [hH5, hl5]; exact hget 3 (by decide))
        (by rw [hH5, hl5]; exact hget 2 (by decide)) rfl rfl (by rw [r3']; decide)
        (by rw [r3', r1, hH5]; exact hm1) (by rw [r4', r1, hH5]; exact hm2)
        (by rw [hpre]; rfl) (by rw [hpost]; rfl)
      rw [hl5, r5] at b
      rw [hpre, r2'] at c
      rw [hpost, r2'] at d
      refine ⟨a, ?_, ?_, ?_⟩
      · rw [b, hconf]; rfl
      · rw [c]; rfl
      · rw [d]; rfl
    · obtain ⟨a, b, c, d⟩ := runStep_quiet junk st (scenarioBuf R ch v data n) _ hf hd (by
        intro hr mid hmid
        have h5' : 5 ≤ n := hready.mp hr
        rw [hH h5', hlen] at hmid
        have hm : min n 5 = 5 := by omega
        rw [hm, drop_map_range_get _ _ _ _ (by omega)] at hmid
        have := (Option.some.inj hmid).symm
        rw [this]
        have hne : n - 5 + (5 + 1) / 2 ≠ 3 := by omega
        simp [scenarioEntry, hne])
      refine ⟨a, ?_, ?_, ?_⟩
      · rw [b, hconf]
        by_cases h6 : 6 ≤ n
        · rw [if_pos h6, if_pos (by omega)]
        · rw [if_neg h6, if_neg (by omega)]
      · rw [c, hpre]
        by_cases h6 : 6 ≤ n
        · rw [if_pos h6, if_pos (by omega)]
        · rw [if_neg h6, if_neg (by omega)]
      · rw [c, hpost]
        by_cases h6 : 6 ≤ n
        · rw [if_pos h6, if_pos (by omega)]
        · rw [if_neg h6, if_neg (by omega)]


/-- A run in which no block has a detected stimulus confirms nothing, keeps
every store as it was at the start and does not fault. -/
theorem run_undetected (self self1 : RtAve) (junk : Nat → Nat → ℚ)
    (hs : self.start = .ok self1) :
    ∀ segs : List MatrixXd,
      (∀ b ∈ segs, detectStimuli self1.m_qListStimChannelIdcs b = .ok []) →
      (self.run junk segs).fault = none ∧ (self.run junk segs).confirmed = []
      ∧ (self.run junk segs).self = self1
      ∧ ∀ e ∈ (self.run junk segs).t_qListRawMatBuf, e.1 = [] := by
  intro segs
  induction segs using List.reverseRecOn with
  | nil =>
    intro _
    rw [run_nil self self1 junk hs]
    exact ⟨rfl, rfl, rfl, fun e he => (by cases he)⟩
  | append_singleton segs b ih =>
    intro hd
    obtain ⟨i1, i2, i3, i4⟩ := ih (fun x hx => hd x (List.mem_append_left _ hx))
    have hb := hd b (by simp)
    rw [← i3] at hb
    rw [run_snoc]
    obtain ⟨q1, q2, q3, q4⟩ := runStep_quiet junk (self.run junk segs) b [] i1 hb (by
      intro _ mid hmid
      rcases List.mem_append.mp (List.getElem?_mem hmid) with h | h
      · exact i4 mid h
      · have : mid = ([], b) := by simpa using h
        rw [this])
    refine ⟨q1, q2.trans i2, q3.trans i3, ?_⟩
    intro e he
    rw [q4] at he
    have he' : e ∈ (self.run junk segs).t_qListRawMatBuf ++ [([], b)] := by
      revert he
      generalize windowReady _ _ _ _ = w
      cases w
      · exact fun he => he
      · exact fun he => List.mem_of_mem_tail he
    rcases List.mem_append.mp he' with h | h
    · exact i4 e h
    · have : e = ([], b) := by simpa using h
      rw [this]

theorem scenario_undetected (R ch : Nat) (v : ℚ) (data : Nat → Nat → Nat → ℚ) (j : Nat)
    (hch : ch < R) (hv : v < 1 ∨ 2147483648 ≤ v) :
    detectStimuli [ch] (scenarioBuf R ch v data j) = .ok [] := by
  have hs : ∃ iMax, stimSegmentMax (scenarioBuf R ch v data j) ch = .ok iMax := by
    unfold stimSegmentMax
    rw [if_pos (⟨hch, Nat.succ_pos 9⟩ :
      ch < (scenarioBuf R ch v data j).rows ∧ 0 < (scenarioBuf R ch v data j).cols)]
    exact ⟨_, rfl⟩
  obtain ⟨iMax, hmax⟩ := hs
  have hpos := stimSegmentMax_pos_iff _ _ _ hmax
  simp only [detectStimuli, detectFrom, hmax]
  have : ¬ 0 < iMax := by
    intro h
    obtain ⟨c, _, hc, hc2⟩ := hpos.mp h
    simp only [scenarioBuf, if_true] at hc hc2
    by_cases hjc : j = 3 ∧ c = 4
    · rw [if_pos hjc] at hc hc2
      rcases hv with hv | hv
      · linarith
      · linarith
    · rw [if_neg hjc] at hc
      linarith
  simp [this]

/-- C11, counterexample: the example scenario with the positive sample 1/2 at
offset 4 of block 3, and with the positive sample 3000000000 there. In both
runs over eight blocks no event is confirmed: the truncation of 1/2 is 0, and
the conversion of 3000000000 to `int` is negative. -/
theorem example_scenario_unconfirmed :
    (0 : ℚ) < 1 / 2
    ∧ ((RtAve.new 15 15 exampleInfo).run exampleJunk
        (scenarioStream 2 1 (1 / 2) scenarioRamp 8)).confirmed = []
    ∧ (0 : ℚ) < 3000000000
    ∧ ((RtAve.new 15 15 exampleInfo).run exampleJunk
        (scenarioStream 2 1 3000000000 scenarioRamp 8)).confirmed = [] := by
  have hq : ∀ v : ℚ, v < 1 ∨ 2147483648 ≤ v →
      ((RtAve.new 15 15 exampleInfo).run exampleJunk
        (scenarioStream 2 1 v scenarioRamp 8)).confirmed = [] := by
    intro v hv
    refine (run_undetected (RtAve.new 15 15 exampleInfo) (exampleEngine 15 15) exampleJunk rfl
      _ ?_).2.1
    intro b hb
    obtain ⟨j, _, rfl⟩ := List.mem_map.mp hb
    exact scenario_undetected 2 1 v scenarioRamp j (by decide) hv
  exact ⟨by norm_num, hq _ (Or.inl (by norm_num)), by norm_num, hq _ (Or.inr (by norm_num))⟩

/-- C11, amended. Example scenario: blocks of 10 samples, `preStimSamples = 15`,
`postStimSamples = 15`, one stimulus channel `ch` that is zero except for one
sample `v` with `1 ≤ v < 2^31` at offset 4 of block 3, any samples on the other
channels. For every number `n` of blocks fed, the run is fault-free and
confirms no event before the sixth block and exactly one event from the sixth
block on; that event has block 3 in the middle of the history, the sample
offset computed for block 3 is 4, and from the sixth block on the pre- and the
post-stimulus sequence of the stimulus each hold exactly one epoch, with, on
every channel, the samples 19..33 and 34..48 of the stream; before the sixth
block both sequences are empty. -/
theorem example_scenario (R ch : Nat) (v : ℚ) (data : Nat → Nat → Nat → ℚ) (info : FiffInfo)
    (junk : Nat → Nat → ℚ) (n : Nat) (hch : ch < R) (hv : 1 ≤ v) (hv2 : v < 2147483648)
    (hstim : (RtAve.new 15 15 info).stimChannels = [ch]) :
    ((RtAve.new 15 15 info).run junk (scenarioStream R ch v data n)).fault = none
    ∧ ((RtAve.new 15 15 info).run junk (scenarioStream R ch v data n)).confirmed
        = (if 6 ≤ n then [ConfirmedEvent.mk 6 6 3 0] else [])
    ∧ (ConfirmedEvent.mk 6 6 3 0).block = 3
    ∧ (scenarioBuf R ch v data 3).rowMaxPos ch = .ok 4
    ∧ (n < 6 →
        ((RtAve.new 15 15 info).run junk
            (scenarioStream R ch v data n)).self.m_qListQVectorPreStimAve.map
          (fun q => q.items) = [[]]
        ∧ ((RtAve.new 15 15 info).run junk
            (scenarioStream R ch v data n)).self.m_qListQVectorPostStimAve.map
          (fun q => q.items) = [[]])
    ∧ (6 ≤ n → ∃ mPre mPost,
        ((RtAve.new 15 15 info).run junk
            (scenarioStream R ch v data n)).self.m_qListQVectorPreStimAve.map
          (fun q => q.items) = [[mPre]]
        ∧ ((RtAve.new 15 15 info).run junk
            (scenarioStream R ch v data n)).self.m_qListQVectorPostStimAve.map
          (fun q => q.items) = [[mPost]]
        ∧ mPre.rows = R ∧ mPre.cols = 15 ∧ mPost.rows = R ∧ mPost.cols = 15
        ∧ ∀ r c, r < R → c < 15 →
            mPre.coeff r c = scenarioSample R ch v data r (19 + c)
            ∧ mPost.coeff r c = scenarioSample R ch v data r (34 + c)) := by
  have hs : ∃ self1, (RtAve.new 15 15 info).start = .ok self1
      ∧ self1.m_qListStimChannelIdcs = [ch] := by
    unfold RtAve.stimChannels at hstim
    split at hstim
    · rename_i self1 h1
      exact ⟨self1, h1, hstim⟩
    · cases hstim
  obtain ⟨self1, hs, hi⟩ := hs
  obtain ⟨m1, w1, m2, w2, hm1, hm2, a1, a2, a3, a4, a5, a6⟩ :=
    scenario_assembly R ch v data junk hch hv
  obtain ⟨b1, b2, b3, b4⟩ :=
    scenario_run R ch v data info junk self1 hch hv hv2 hs hi m1 m2 w1 w2 hm1 hm2 n
  refine ⟨b1, b2, rfl, scenario_rowMaxPos R ch v data hch (lt_of_lt_of_le one_pos hv), ?_, ?_⟩
  · intro h6
    rw [if_neg (by omega)] at b3 b4
    rw [b3, b4]
    exact ⟨rfl, rfl⟩
  · intro h6
    rw [if_pos h6] at b3 b4
    refine ⟨m1, m2, ?_, ?_, a1, a2, a3, a4, fun r c hr hc => ⟨a5 r c hr hc, a6 r c hr hc⟩⟩
    · rw [b3]; rfl
    · rw [b4]; rfl

/-- C11, instance: two channels, stimulus channel 1 with a pulse of height 1,
the running sample number on channel 0, eight blocks. -/
theorem example_scenario_witness :
    1 < 2 ∧ (1 : ℚ) ≤ 1 ∧ (1 : ℚ) < 2147483648
    ∧ (RtAve.new 15 15 exampleInfo).stimChannels = [1]
    ∧ ((RtAve.new 15 15 exampleInfo).run exampleJunk
        (scenarioStream 2 1 1 scenarioRamp 8)).fault = none
    ∧ ((RtAve.new 15 15 exampleInfo).run exampleJunk
        (scenarioStream 2 1 1 scenarioRamp 8)).confirmed
        = (if 6 ≤ 8 then [ConfirmedEvent.mk 6 6 3 0] else [])
    ∧ (ConfirmedEvent.mk 6 6 3 0).block = 3
    ∧ (scenarioBuf 2 1 1 scenarioRamp 3).rowMaxPos 1 = .ok 4
    ∧ (8 < 6 →
        ((RtAve.new 15 15 exampleInfo).run exampleJunk
            (scenarioStream 2 1 1 scenarioRamp 8)).self.m_qListQVectorPreStimAve.map
          (fun q => q.items) = [[]]
        ∧ ((RtAve.new 15 15 exampleInfo).run exampleJunk
            (scenarioStream 2 1 1 scenarioRamp 8)).self.m_qListQVectorPostStimAve.map
          (fun q => q.items) = [[]])
    ∧ (6 ≤ 8 → ∃ mPre mPost,
        ((RtAve.new 15 15 exampleInfo).run exampleJunk
            (scenarioStream 2 1 1 scenarioRamp 8)).self.m_qListQVectorPreStimAve.map
          (fun q => q.items) = [[mPre]]
        ∧ ((RtAve.new 15 15 exampleInfo).run exampleJunk
            (scenarioStream 2 1 1 scenarioRamp 8)).self.m_qListQVectorPostStimAve.map
          (fun q => q.items) = [[mPost]]
        ∧ mPre.rows = 2 ∧ mPre.cols = 15 ∧ mPost.rows = 2 ∧ mPost.cols = 15
        ∧ ∀ r c, r < 2 → c < 15 →
            mPre.coeff r c = scenarioSample 2 1 1 scenarioRamp r (19 + c)
            ∧ mPost.coeff r c = scenarioSample 2 1 1 scenarioRamp r (34 + c)) :=
  ⟨by decide, le_refl 1, by norm_num, by decide,
    example_scenario 2 1 1 scenarioRamp exampleInfo exampleJunk 8 (by decide) (le_refl 1)
      (by norm_num) (by decide)⟩

theorem appended_evict (N : Nat) (v : EpochVector) :
    (if N < v.size then v.pop_front else v).appended = v.appended := by
  split <;> rfl

/-- C12, counterexample: with `preStimSamples = 0` and `postStimSamples = 1` the
run over four blocks of two samples with a pulse in block 2 confirms one event
for stimulus 0 and faults nowhere, yet the pre-stimulus and the post-stimulus
sequence of stimulus 0 are empty and nothing was ever appended to them. -/
theorem confirmed_event_without_epochs :
    ((RtAve.new 0 1 exampleInfo).run exampleJunk (pulseStream 2 [2] 1 4)).confirmed
        = [ConfirmedEvent.mk 4 3 1 0]
    ∧ ((RtAve.new 0 1 exampleInfo).run exampleJunk (pulseStream 2 [2] 1 4)).fault = none
    ∧ ((RtAve.new 0 1 exampleInfo).run exampleJunk
        (pulseStream 2 [2] 1 4)).self.m_qListQVectorPreStimAve.map
          (fun q => q.appended.length) = [0]
    ∧ ((RtAve.new 0 1 exampleInfo).run exampleJunk
        (pulseStream 2 [2] 1 4)).self.m_qListQVectorPostStimAve.map
          (fun q => q.appended.length) = [0]
    ∧ ((RtAve.new 0 1 exampleInfo).run exampleJunk
        (pulseStream 2 [2] 1 4)).self.m_qListQVectorPreStimAve.map
          (fun q => q.items.length) = [0]
    ∧ ((RtAve.new 0 1 exampleInfo).run exampleJunk
        (pulseStream 2 [2] 1 4)).self.m_qListQVectorPostStimAve.map
          (fun q => q.items.length) = [0] := by
  decide

theorem items_evict (N : Nat) (v : EpochVector) :
    (if N < v.size then v.pop_front else v).items
      = if N < v.items.length then v.items.tail else v.items := by
  unfold EpochVector.size
  split
  · rfl
  · rfl

/-- C12, amended. An event confirmed for stimulus `s` whose extraction
completes without a fault is logged once. When `preStimSamples ≥ 1`,
`assemblePreStimulus` puts exactly one matrix, the assembled pre-epoch, at the
end of the pre-stimulus sequence of `s` and `assemblePostStimulus` puts exactly
one matrix, the assembled post-epoch, at the end of the post-stimulus sequence
of `s`; after the eviction that follows, each of the two sequences holds its
former epochs and the new one, without the oldest if that makes more than
`numAverages`. When `preStimSamples = 0`, `assemblePreStimulus` leaves the
engine as it is and the pre-stimulus sequence of `s` gains no epoch. The
sequences of every other stimulus are left unchanged. -/
theorem confirmed_event_appends (junk : Nat → Nat → ℚ) (prev : List Nat) (st : RunState)
    (s : Nat) (hf : st.fault = none) (hc : prev.contains s = false)
    (hlive : (confirmStep junk prev st s).fault = none) :
    (confirmStep junk prev st s).confirmed = st.confirmed ++
      [ConfirmedEvent.mk st.count st.t_qListRawMatBuf.length (st.t_qListRawMatBuf.length / 2) s]
    ∧ ∃ vPre vPost, st.self.m_qListQVectorPreStimAve[s]? = some vPre
      ∧ st.self.m_qListQVectorPostStimAve[s]? = some vPost
      ∧ (0 < st.self.m_iPreStimSamples → ∃ mPre wPre mPost wPost a1 a2,
          preStimMatrix st.self.m_iPreStimSamples st.self.m_qListStimChannelIdcs junk
            st.t_qListRawMatBuf s = .ok (mPre, wPre)
          ∧ postStimMatrix st.self.m_iPostStimSamples st.self.m_qListStimChannelIdcs junk
            st.t_qListRawMatBuf s = .ok (mPost, wPost)
          ∧ st.self.assemblePreStimulus junk st.t_qListRawMatBuf s = .ok a1
          ∧ (a1.m_qListQVectorPreStimAve[s]?).map (fun q => q.items)
              = some (vPre.items ++ [mPre])
          ∧ a1.m_qListQVectorPostStimAve = st.self.m_qListQVectorPostStimAve
          ∧ a1.assemblePostStimulus junk st.t_qListRawMatBuf s = .ok a2
          ∧ a2.m_qListQVectorPreStimAve = a1.m_qListQVectorPreStimAve
          ∧ (a2.m_qListQVectorPostStimAve[s]?).map (fun q => q.items)
              = some (vPost.items ++ [mPost])
          ∧ ((confirmStep junk prev st s).self.m_qListQVectorPreStimAve[s]?).map
              (fun q => q.items)
              = some (if st.self.m_iNumAverages < (vPre.items ++ [mPre]).length then
                  (vPre.items ++ [mPre]).tail else vPre.items ++ [mPre])
          ∧ ((confirmStep junk prev st s).self.m_qListQVectorPostStimAve[s]?).map
              (fun q => q.items)
              = some (if st.self.m_iNumAverages < (vPost.items ++ [mPost]).length then
                  (vPost.items ++ [mPost]).tail else vPost.items ++ [mPost])
          ∧ ((confirmStep junk prev st s).self.m_qListQVectorPreStimAve[s]?).map
              (fun q => q.appended) = some (vPre.appended ++ [mPre])
          ∧ ((confirmStep junk prev st s).self.m_qListQVectorPostStimAve[s]?).map
              (fun q => q.appended) = some (vPost.appended ++ [mPost]))
      ∧ (st.self.m_iPreStimSamples = 0 →
          st.self.assemblePreStimulus junk st.t_qListRawMatBuf s = .ok st.self
          ∧ ((confirmStep junk prev st s).self.m_qListQVectorPreStimAve[s]?).map
              (fun q => q.items)
              = some (if st.self.m_iNumAverages < vPre.items.length then vPre.items.tail
                  else vPre.items)
          ∧ ((confirmStep junk prev st s).self.m_qListQVectorPreStimAve[s]?).map
              (fun q => q.appended) = some vPre.appended)
      ∧ ∀ j, j ≠ s →
          (confirmStep junk prev st s).self.m_qListQVectorPreStimAve[j]?
            = st.self.m_qListQVectorPreStimAve[j]?
          ∧ (confirmStep junk prev st s).self.m_qListQVectorPostStimAve[j]?
            = st.self.m_qListQVectorPostStimAve[j]? := by
  obtain ⟨c1, _, _, _, _, c6⟩ := confirmStep_new junk prev st s hf hc
  obtain ⟨_, _, _, _, vPre, vPost, hvPre, hvPost, hcase⟩ := c6 hlive
  have l1 := getElem?_some_lt _ _ _ hvPre
  have l2 := getElem?_some_lt _ _ _ hvPost
  refine ⟨c1, vPre, vPost, hvPre, hvPost, ?_, ?_, ?_⟩
  · intro hp
    rcases hcase with ⟨hz, _, _⟩ | ⟨_, mPre, wPre, mPost, wPost, hA, hB, hC, hD⟩
    · omega
    · have e1 := assemblePreStimulus_eval st.self junk st.t_qListRawMatBuf s mPre wPre vPre
        hp hA hvPre
      have e2 := assemblePostStimulus_eval
        { st.self with
          m_qListQVectorPreStimAve := st.self.m_qListQVectorPreStimAve.set s (vPre.append mPre) }
        junk st.t_qListRawMatBuf s mPost wPost vPost hp hB hvPost
      refine ⟨mPre, wPre, mPost, wPost, _, _, hA, hB, e1, ?_, rfl, e2, rfl, ?_, ?_, ?_, ?_, ?_⟩
      · simp only [List.getElem?_set_self l1, Option.map_some']
        rfl
      · simp only [List.getElem?_set_self l2, Option.map_some']
        rfl
      · rw [hC, List.getElem?_set_self l1, Option.map_some', items_evict]
        rfl
      · rw [hD, List.getElem?_set_self l2, Option.map_some', items_evict]
        rfl
      · rw [hC, List.getElem?_set_self l1, Option.map_some', appended_evict]
        rfl
      · rw [hD, List.getElem?_set_self l2, Option.map_some', appended_evict]
        rfl
  · intro hz
    rcases hcase with ⟨_, hC, _⟩ | ⟨hp, _⟩
    · refine ⟨(assemble_skip st.self junk st.t_qListRawMatBuf s hz).1, ?_, ?_⟩
      · rw [hC, List.getElem?_set_self l1, Option.map_some', items_evict]
      · rw [hC, List.getElem?_set_self l1, Option.map_some', appended_evict]
    · omega
  · intro j hj
    rcases hcase with ⟨_, hC, hD⟩ | ⟨_, mPre, wPre, mPost, wPost, hA, hB, hC, hD⟩
    · rw [hC, hD]
      exact ⟨List.getElem?_set_ne (Ne.symm hj), List.getElem?_set_ne (Ne.symm hj)⟩
    · rw [hC, hD]
      exact ⟨List.getElem?_set_ne (Ne.symm hj), List.getElem?_set_ne (Ne.symm hj)⟩

/-- C12, instance: a history of five buffers of four samples with the trigger
at column 1 of the middle buffer 2, `preStimSamples = 3`, `postStimSamples = 3`. -/
theorem confirmed_event_appends_witness :
    (exampleState 3 3 4 2 1 5).fault = none ∧ ([] : List Nat).contains 0 = false
    ∧ (confirmStep exampleJunk [] (exampleState 3 3 4 2 1 5) 0).fault = none
    ∧ ((confirmStep exampleJunk [] (exampleState 3 3 4 2 1 5) 0).confirmed = (exampleState 3 3 4 2 1 5).confirmed ++
      [ConfirmedEvent.mk (exampleState 3 3 4 2 1 5).count (exampleState 3 3 4 2 1 5).t_qListRawMatBuf.length ((exampleState 3 3 4 2 1 5).t_qListRawMatBuf.length / 2) 0]
    ∧ ∃ vPre vPost, (exampleState 3 3 4 2 1 5).self.m_qListQVectorPreStimAve[0]? = some vPre
      ∧ (exampleState 3 3 4 2 1 5).self.m_qListQVectorPostStimAve[0]? = some vPost
      ∧ (0 < (exampleState 3 3 4 2 1 5).self.m_iPreStimSamples → ∃ mPre wPre mPost wPost a1 a2,
          preStimMatrix (exampleState 3 3 4 2 1 5).self.m_iPreStimSamples (exampleState 3 3 4 2 1 5).self.m_qListStimChannelIdcs exampleJunk
            (exampleState 3 3 4 2 1 5).t_qListRawMatBuf 0 = .ok (mPre, wPre)
          ∧ postStimMatrix (exampleState 3 3 4 2 1 5).self.m_iPostStimSamples (exampleState 3 3 4 2 1 5).self.m_qListStimChannelIdcs exampleJunk
            (exampleState 3 3 4 2 1 5).t_qListRawMatBuf 0 = .ok (mPost, wPost)
          ∧ (exampleState 3 3 4 2 1 5).self.assemblePreStimulus exampleJunk (exampleState 3 3 4 2 1 5).t_qListRawMatBuf 0 = .ok a1
          ∧ (a1.m_qListQVectorPreStimAve[0]?).map (fun q => q.items)
              = some (vPre.items ++ [mPre])
          ∧ a1.m_qListQVectorPostStimAve = (exampleState 3 3 4 2 1 5).self.m_qListQVectorPostStimAve
          ∧ a1.assemblePostStimulus exampleJunk (exampleState 3 3 4 2 1 5).t_qListRawMatBuf 0 = .ok a2
          ∧ a2.m_qListQVectorPreStimAve = a1.m_qListQVectorPreStimAve
          ∧ (a2.m_qListQVectorPostStimAve[0]?).map (fun q => q.items)
              = some (vPost.items ++ [mPost])
          ∧ ((confirmStep exampleJunk [] (exampleState 3 3 4 2 1 5) 0).self.m_qListQVectorPreStimAve[0]?).map
              (fun q => q.items)
              = some (if (exampleState 3 3 4 2 1 5).self.m_iNumAverages < (vPre.items ++ [mPre]).length then
                  (vPre.items ++ [mPre]).tail else vPre.items ++ [mPre])
          ∧ ((confirmStep exampleJunk [] (exampleState 3 3 4 2 1 5) 0).self.m_qListQVectorPostStimAve[0]?).map
              (fun q => q.items)
              = some (if (exampleState 3 3 4 2 1 5).self.m_iNumAverages < (vPost.items ++ [mPost]).length then
                  (vPost.items ++ [mPost]).tail else vPost.items ++ [mPost])
          ∧ ((confirmStep exampleJunk [] (exampleState 3 3 4 2 1 5) 0).self.m_qListQVectorPreStimAve[0]?).map
              (fun q => q.appended) = some (vPre.appended ++ [mPre])
          ∧ ((confirmStep exampleJunk [] (exampleState 3 3 4 2 1 5) 0).self.m_qListQVectorPostStimAve[0]?).map
              (fun q => q.appended) = some (vPost.appended ++ [mPost]))
      ∧ ((exampleState 3 3 4 2 1 5).self.m_iPreStimSamples = 0 →
          (exampleState 3 3 4 2 1 5).self.assemblePreStimulus exampleJunk (exampleState 3 3 4 2 1 5).t_qListRawMatBuf 0 = .ok (exampleState 3 3 4 2 1 5).self
          ∧ ((confirmStep exampleJunk [] (exampleState 3 3 4 2 1 5) 0).self.m_qListQVectorPreStimAve[0]?).map
              (fun q => q.items)
              = some (if (exampleState 3 3 4 2 1 5).self.m_iNumAverages < vPre.items.length then vPre.items.tail
                  else vPre.items)
          ∧ ((confirmStep exampleJunk [] (exampleState 3 3 4 2 1 5) 0).self.m_qListQVectorPreStimAve[0]?).map
              (fun q => q.appended) = some vPre.appended)
      ∧ ∀ j, j ≠ 0 →
          (confirmStep exampleJunk [] (exampleState 3 3 4 2 1 5) 0).self.m_qListQVectorPreStimAve[j]?
            = (exampleState 3 3 4 2 1 5).self.m_qListQVectorPreStimAve[j]?
          ∧ (confirmStep exampleJunk [] (exampleState 3 3 4 2 1 5) 0).self.m_qListQVectorPostStimAve[j]?
            = (exampleState 3 3 4 2 1 5).self.m_qListQVectorPostStimAve[j]?) :=
  ⟨rfl, rfl, by decide,
    confirmed_event_appends exampleJunk [] (exampleState 3 3 4 2 1 5) 0 rfl rfl (by decide)⟩

/-- C7, counterexample: eight blocks of two samples with triggers in blocks 2
and 4, one pre- and one post-stimulus sample, `numAverages = 2`. The run ends
without fault after two updates of the store of stimulus 0. The pre-stimulus
sequence then retains two epochs with the samples 4 and 8 on channel 0 and the
post-stimulus sequence two epochs with the samples 5 and 9: the epochs are
kept one by one, their means (6 and 7) are held nowhere, and no average for
stimulus 0 (or any other) has been published. -/
theorem average_not_published :
    (exEngineTwo.run exampleJunk (pulseStream 2 [2, 4] 1 8)).fault = none
    ∧ (exEngineTwo.run exampleJunk (pulseStream 2 [2, 4] 1 8)).confirmed
        = [ConfirmedEvent.mk 4 4 2 0, ConfirmedEvent.mk 6 4 2 0]
    ∧ (exEngineTwo.run exampleJunk (pulseStream 2 [2, 4] 1 8)).self.m_qListQVectorPreStimAve.map
          (fun v => v.items.map (fun m => (m.rows, m.cols, m.coeff 0 0)))
        = [[(2, 1, 4), (2, 1, 8)]]
    ∧ (exEngineTwo.run exampleJunk (pulseStream 2 [2, 4] 1 8)).self.m_qListQVectorPostStimAve.map
          (fun v => v.items.map (fun m => (m.rows, m.cols, m.coeff 0 0)))
        = [[(2, 1, 5), (2, 1, 9)]]
    ∧ (exEngineTwo.run exampleJunk (pulseStream 2 [2, 4] 1 8)).emitted.length = 0
    ∧ ¬ ∃ m, (0, m) ∈ (exEngineTwo.run exampleJunk (pulseStream 2 [2, 4] 1 8)).emitted := by
  refine ⟨by decide, by decide, by decide, by decide, by decide, ?_⟩
  rintro ⟨m, hm⟩
  have : (exEngineTwo.run exampleJunk (pulseStream 2 [2, 4] 1 8)).emitted = [] := by
    rfl
  rw [this] at hm
  cases hm

/-- C7, amended. One update of the store, that is the loop body for a
confirmed event of stimulus `s` with `preStimSamples ≥ 1` that completes
without fault, changes the state of the worker in two places besides the
trace: the pre-stimulus sequence of `s` holds its former epochs followed by the
assembled pre-epoch, without the oldest if that makes more than `numAverages`,
and likewise the post-stimulus sequence of `s`. Every matrix retained in the
two sequences is a matrix retained before or the epoch just assembled: no mean
of the retained epochs is formed or stored. The update emits nothing, and no
signal is emitted anywhere in a run. -/
theorem retained_epochs_unaveraged (junk : Nat → Nat → ℚ) (prev : List Nat) (st : RunState)
    (s : Nat) (hf : st.fault = none) (hc : prev.contains s = false)
    (hp : 0 < st.self.m_iPreStimSamples)
    (hlive : (confirmStep junk prev st s).fault = none) :
    ∃ vPre vPost mPre wPre mPost wPost,
      st.self.m_qListQVectorPreStimAve[s]? = some vPre
      ∧ st.self.m_qListQVectorPostStimAve[s]? = some vPost
      ∧ preStimMatrix st.self.m_iPreStimSamples st.self.m_qListStimChannelIdcs junk
          st.t_qListRawMatBuf s = .ok (mPre, wPre)
      ∧ postStimMatrix st.self.m_iPostStimSamples st.self.m_qListStimChannelIdcs junk
          st.t_qListRawMatBuf s = .ok (mPost, wPost)
      ∧ confirmStep junk prev st s =
          { st with
            confirmed := st.confirmed ++
              [ConfirmedEvent.mk st.count st.t_qListRawMatBuf.length
                (st.t_qListRawMatBuf.length / 2) s]
            self := { st.self with
              m_qListQVectorPreStimAve := st.self.m_qListQVectorPreStimAve.set s
                (if st.self.m_iNumAverages < (vPre.append mPre).size then
                  (vPre.append mPre).pop_front
                 else vPre.append mPre)
              m_qListQVectorPostStimAve := st.self.m_qListQVectorPostStimAve.set s
                (if st.self.m_iNumAverages < (vPost.append mPost).size then
                  (vPost.append mPost).pop_front
                 else vPost.append mPost) } }
      ∧ ((confirmStep junk prev st s).self.m_qListQVectorPreStimAve[s]?).map
            (fun q => q.items)
          = some (if st.self.m_iNumAverages < (vPre.items ++ [mPre]).length then
              (vPre.items ++ [mPre]).tail else vPre.items ++ [mPre])
      ∧ ((confirmStep junk prev st s).self.m_qListQVectorPostStimAve[s]?).map
            (fun q => q.items)
          = some (if st.self.m_iNumAverages < (vPost.items ++ [mPost]).length then
              (vPost.items ++ [mPost]).tail else vPost.items ++ [mPost])
      ∧ (∀ q m, (confirmStep junk prev st s).self.m_qListQVectorPreStimAve[s]? = some q →
          m ∈ q.items → m ∈ vPre.items ∨ m = mPre)
      ∧ (∀ q m, (confirmStep junk prev st s).self.m_qListQVectorPostStimAve[s]? = some q →
          m ∈ q.items → m ∈ vPost.items ∨ m = mPost)
      ∧ (confirmStep junk prev st s).emitted = st.emitted
      ∧ ∀ (self : RtAve) (segs : List MatrixXd), (self.run junk segs).emitted = [] := by
  obtain ⟨_, _, _, _, c5, c6⟩ := confirmStep_new junk prev st s hf hc
  obtain ⟨_, _, _, _, vPre, vPost, hvPre, hvPost, hcase⟩ := c6 hlive
  rcases hcase with ⟨hz, _, _⟩ | ⟨_, mPre, wPre, mPost, wPost, hA, hB, hC, hD⟩
  · omega
  have l1 := getElem?_some_lt _ _ _ hvPre
  have l2 := getElem?_some_lt _ _ _ hvPost
  have hex := confirmStep_exact junk prev st s mPre mPost wPre wPost vPre vPost hf hc hp hA hB
    hvPre hvPost
  have hmem : ∀ (l : List MatrixXd) (x m : MatrixXd) (N : Nat),
      m ∈ (if N < (l ++ [x]).length then (l ++ [x]).tail else l ++ [x]) → m ∈ l ∨ m = x := by
    intro l x m N hm
    have hm' : m ∈ l ++ [x] := by
      split at hm
      · exact List.mem_of_mem_tail hm
      · exact hm
    rcases List.mem_append.mp hm' with h | h
    · exact Or.inl h
    · exact Or.inr (List.mem_singleton.mp h)
  have hpre : ((confirmStep junk prev st s).self.m_qListQVectorPreStimAve[s]?).map
        (fun q => q.items)
      = some (if st.self.m_iNumAverages < (vPre.items ++ [mPre]).length then
          (vPre.items ++ [mPre]).tail else vPre.items ++ [mPre]) := by
    rw [hC, List.getElem?_set_self l1, Option.map_some', items_evict]
    rfl
  have hpost : ((confirmStep junk prev st s).self.m_qListQVectorPostStimAve[s]?).map
        (fun q => q.items)
      = some (if st.self.m_iNumAverages < (vPost.items ++ [mPost]).length then
          (vPost.items ++ [mPost]).tail else vPost.items ++ [mPost]) := by
    rw [hD, List.getElem?_set_self l2, Option.map_some', items_evict]
    rfl
  refine ⟨vPre, vPost, mPre, wPre, mPost, wPost, hvPre, hvPost, hA, hB, hex, hpre, hpost, ?_, ?_,
    c5, fun self segs => run_emitted self junk segs⟩
  · intro q m hq hm
    rw [hq, Option.map_some'] at hpre
    have := Option.some.inj hpre
    rw [this] at hm
    exact hmem _ _ _ _ hm
  · intro q m hq hm
    rw [hq, Option.map_some'] at hpost
    have := Option.some.inj hpost
    rw [this] at hm
    exact hmem _ _ _ _ hm

/-- C7, instance: a history of five buffers of four samples with the trigger
at column 1 of the middle buffer 2, `preStimSamples = 3`, `postStimSamples = 3`. -/
theorem retained_epochs_unaveraged_witness :
    (exampleState 3 3 4 2 1 5).fault = none ∧ ([] : List Nat).contains 0 = false
    ∧ 0 < (exampleState 3 3 4 2 1 5).self.m_iPreStimSamples
    ∧ (confirmStep exampleJunk [] (exampleState 3 3 4 2 1 5) 0).fault = none
    ∧ (∃ vPre vPost mPre wPre mPost wPost,
      (exampleState 3 3 4 2 1 5).self.m_qListQVectorPreStimAve[0]? = some vPre
      ∧ (exampleState 3 3 4 2 1 5).self.m_qListQVectorPostStimAve[0]? = some vPost
      ∧ preStimMatrix (exampleState 3 3 4 2 1 5).self.m_iPreStimSamples (exampleState 3 3 4 2 1 5).self.m_qListStimChannelIdcs exampleJunk
          (exampleState 3 3 4 2 1 5).t_qListRawMatBuf 0 = .ok (mPre, wPre)
      ∧ postStimMatrix (exampleState 3 3 4 2 1 5).self.m_iPostStimSamples (exampleState 3 3 4 2 1 5).self.m_qListStimChannelIdcs exampleJunk
          (exampleState 3 3 4 2 1 5).t_qListRawMatBuf 0 = .ok (mPost, wPost)
      ∧ confirmStep exampleJunk [] (exampleState 3 3 4 2 1 5) 0 =
          { (exampleState 3 3 4 2 1 5) with
            confirmed := (exampleState 3 3 4 2 1 5).confirmed ++
              [ConfirmedEvent.mk (exampleState 3 3 4 2 1 5).count (exampleState 3 3 4 2 1 5).t_qListRawMatBuf.length
                ((exampleState 3 3 4 2 1 5).t_qListRawMatBuf.length / 2) 0]
            self := { (exampleState 3 3 4 2 1 5).self with
              m_qListQVectorPreStimAve := (exampleState 3 3 4 2 1 5).self.m_qListQVectorPreStimAve.set 0
                (if (exampleState 3 3 4 2 1 5).self.m_iNumAverages < (vPre.append mPre).size then
                  (vPre.append mPre).pop_front
                 else vPre.append mPre)
              m_qListQVectorPostStimAve := (exampleState 3 3 4 2 1 5).self.m_qListQVectorPostStimAve.set 0
                (if (exampleState 3 3 4 2 1 5).self.m_iNumAverages < (vPost.append mPost).size then
                  (vPost.append mPost).pop_front
                 else vPost.append mPost) } }
      ∧ ((confirmStep exampleJunk [] (exampleState 3 3 4 2 1 5) 0).self.m_qListQVectorPreStimAve[0]?).map
            (fun q => q.items)
          = some (if (exampleState 3 3 4 2 1 5).self.m_iNumAverages < (vPre.items ++ [mPre]).length then
              (vPre.items ++ [mPre]).tail else vPre.items ++ [mPre])
      ∧ ((confirmStep exampleJunk [] (exampleState 3 3 4 2 1 5) 0).self.m_qListQVectorPostStimAve[0]?).map
            (fun q => q.items)
          = some (if (exampleState 3 3 4 2 1 5).self.m_iNumAverages < (vPost.items ++ [mPost]).length then
              (vPost.items ++ [mPost]).tail else vPost.items ++ [mPost])
      ∧ (∀ q m, (confirmStep exampleJunk [] (exampleState 3 3 4 2 1 5) 0).self.m_qListQVectorPreStimAve[0]? = some q →
          m ∈ q.items → m ∈ vPre.items ∨ m = mPre)
      ∧ (∀ q m, (confirmStep exampleJunk [] (exampleState 3 3 4 2 1 5) 0).self.m_qListQVectorPostStimAve[0]? = some q →
          m ∈ q.items → m ∈ vPost.items ∨ m = mPost)
      ∧ (confirmStep exampleJunk [] (exampleState 3 3 4 2 1 5) 0).emitted = (exampleState 3 3 4 2 1 5).emitted
      ∧ ∀ (self : RtAve) (segs : List MatrixXd), (self.run exampleJunk segs).emitted = []) :=
  ⟨rfl, rfl, by decide, by decide,
    retained_epochs_unaveraged exampleJunk [] (exampleState 3 3 4 2 1 5) 0 rfl rfl (by decide)
      (by decide)⟩

/-- C18. For a history of blocks of equal width `L` and equal height `R`, a
stimulus whose channel row has its arg-max at column `pos ≥ 1` of the middle
block, and `preStimSamples - pos ≤ midIndex * L` (natural subtraction, so that
both `pos ≤ preStimSamples` and `pos > preStimSamples` are covered), the matrix
built by `assemblePreStimulus` has `preStimSamples` columns and equals, column
for column, the `preStimSamples` consecutive columns of the concatenated
history that end at global column `midIndex * L + pos - 1`; its last column is
column `pos - 1` of the middle block; and the method appends exactly this
matrix to the pre-stimulus store. -/
theorem assemblePreStimulus_epoch (self : RtAve) (junk : Nat → Nat → ℚ)
    (hist : List RawMatBuf) (stim L R rowIdx pos : Nat) (mid : RawMatBuf)
    (hw : ∀ e ∈ hist, e.2.cols = L) (hr : ∀ e ∈ hist, e.2.rows = R)
    (hmid : hist[hist.length / 2]? = some mid)
    (hrow : self.m_qListStimChannelIdcs[stim]? = some rowIdx)
    (hpos : mid.2.rowMaxPos rowIdx = .ok pos) (hp : 1 ≤ pos)
    (hroom : self.m_iPreStimSamples - pos ≤ hist.length / 2 * L) :
    ∃ m w,
      preStimMatrix self.m_iPreStimSamples self.m_qListStimChannelIdcs junk hist stim
        = .ok (m, w)
      ∧ m.rows = R ∧ m.cols = self.m_iPreStimSamples
      ∧ (∀ r c, r < R → c < self.m_iPreStimSamples →
          m.coeff r c
            = concatCoeff hist r (hist.length / 2 * L + pos - self.m_iPreStimSamples + c))
      ∧ (1 ≤ self.m_iPreStimSamples → ∀ r, r < R →
          m.coeff r (self.m_iPreStimSamples - 1)
            = concatCoeff hist r (hist.length / 2 * L + pos - 1)
          ∧ m.coeff r (self.m_iPreStimSamples - 1) = mid.2.coeff r (pos - 1))
      ∧ (0 < self.m_iPreStimSamples → ∀ v, self.m_qListQVectorPreStimAve[stim]? = some v →
          self.assemblePreStimulus junk hist stim
            = .ok { self with
                    m_qListQVectorPreStimAve :=
                      self.m_qListQVectorPreStimAve.set stim (v.append m) }) := by
  have hmem : mid ∈ hist := List.getElem?_mem hmid
  obtain ⟨hp1, hp2, hp3⟩ := rowMaxPos_eq _ _ _ hpos
  rw [hw mid hmem] at hp2 hp3
  have hle : pos ≤ L - 1 := hp3 ▸ maxVisitor_le _ _
  have hp0 : 0 < pos := hp
  have hroom' : self.m_iPreStimSamples
      ≤ (if 0 < pos then hist.length / 2 * L + pos else (hist.length / 2 + 1) * L) := by
    rw [if_pos hp0]
    omega
  obtain ⟨m, w, hm, hmr, hmc, hco⟩ := preStimMatrix_spec self.m_iPreStimSamples
    self.m_qListStimChannelIdcs junk hist stim L R rowIdx pos mid hw hr hmid hrow hpos hroom'
  rw [if_pos hp0] at hco
  refine ⟨m, w, hm, hmr, hmc, hco, ?_, ?_⟩
  · intro h1 r hrR
    have h := hco r (self.m_iPreStimSamples - 1) hrR (by omega)
    have hg : hist.length / 2 * L + pos - self.m_iPreStimSamples + (self.m_iPreStimSamples - 1)
        = hist.length / 2 * L + pos - 1 := by omega
    have hg2 : hist.length / 2 * L + pos - 1 = hist.length / 2 * L + (pos - 1) := by omega
    rw [hg] at h
    refine ⟨h, ?_⟩
    rw [h, hg2]
    exact concatCoeff_block L hist hw _ mid hmid r (pos - 1) (by omega)
  · intro hpre v hv
    exact assemblePreStimulus_eval self junk hist stim m w v hpre hm hv

/-- C18, instance with `pos ≤ preStimSamples`: five blocks of width 4, trigger
at column 1 of the middle block (block 2), three pre-stimulus samples, which
are the samples 6, 7, 8. -/
theorem assemblePreStimulus_epoch_witness :
    1 ≤ 1 ∧ 3 - 1 ≤ (exampleHist 4 2 1 5).length / 2 * 4
    ∧ ∃ m w,
      preStimMatrix 3 [1] exampleJunk (exampleHist 4 2 1 5) 0 = .ok (m, w)
      ∧ m.rows = 2 ∧ m.cols = 3
      ∧ (∀ r c, r < 2 → c < 3 →
          m.coeff r c
            = concatCoeff (exampleHist 4 2 1 5) r ((exampleHist 4 2 1 5).length / 2 * 4 + 1 - 3 + c))
      ∧ (1 ≤ 3 → ∀ r, r < 2 →
          m.coeff r (3 - 1)
            = concatCoeff (exampleHist 4 2 1 5) r ((exampleHist 4 2 1 5).length / 2 * 4 + 1 - 1)
          ∧ m.coeff r (3 - 1) = (rampBuf 4 2 1 2).coeff r (1 - 1))
      ∧ (0 < 3 → ∀ v, (exampleEngine 3 6).m_qListQVectorPreStimAve[0]? = some v →
          (exampleEngine 3 6).assemblePreStimulus exampleJunk (exampleHist 4 2 1 5) 0
            = .ok { exampleEngine 3 6 with
                    m_qListQVectorPreStimAve :=
                      (exampleEngine 3 6).m_qListQVectorPreStimAve.set 0 (v.append m) }) :=
  ⟨by decide, by decide,
    assemblePreStimulus_epoch (exampleEngine 3 6) exampleJunk (exampleHist 4 2 1 5) 0 4 2 1 1
      ([0], rampBuf 4 2 1 2) (by decide) (by decide) (by rfl) (by rfl) (by rfl) (by decide)
      (by decide)⟩

/-- C18, evaluated in both cases: with the trigger at column 1 and three
pre-stimulus samples the epoch is the samples 6, 7, 8 (two blocks are read);
with the trigger at column 3 and two pre-stimulus samples it is the samples
9, 10 of the middle block alone. -/
theorem assemblePreStimulus_epoch_example :
    (List.range 3).map (resultCoeff (preStimMatrix 3 [1] exampleJunk (exampleHist 4 2 1 5) 0) 0)
        = [some 6, some 7, some 8]
    ∧ (List.range 2).map
          (resultCoeff (preStimMatrix 2 [1] exampleJunk (exampleHist 4 2 3 5) 0) 0)
        = [some 9, some 10] := by
  decide


/-- C14, at two failing inputs, blocks of two samples with a trigger at column 1
of block 3 and a window of seven blocks (middle index 3). With
`preStimSamples = 8`, `postStimSamples = 1` the pre-stimulus assembly needs
eight samples before sample 7 and walks past block 0: the worker reads the
history at index -1, which is a list index fault, and nothing is appended.
With `preStimSamples = 1`, `postStimSamples = 8` the post-stimulus assembly
needs eight samples from sample 7 on and walks past block 6: the worker reads
the history at index 7, a list index fault, and the pre-epoch of the same
event stays appended to the pre-stimulus store. -/
theorem assembly_walks_off_history :
    ((RtAve.new 8 1 exampleInfo).run exampleJunk (pulseStream 2 [3] 1 7)).fault
        = some Fault.listIndex
    ∧ ((RtAve.new 8 1 exampleInfo).run exampleJunk (pulseStream 2 [3] 1 7)).confirmed
        = [ConfirmedEvent.mk 7 7 3 0]
    ∧ ((RtAve.new 8 1 exampleInfo).run exampleJunk
        (pulseStream 2 [3] 1 7)).self.m_qListQVectorPreStimAve.map
          (fun q => q.appended.length) = [0]
    ∧ ((RtAve.new 8 1 exampleInfo).run exampleJunk
        (pulseStream 2 [3] 1 7)).self.m_qListQVectorPostStimAve.map
          (fun q => q.appended.length) = [0]
    ∧ ((RtAve.new 1 8 exampleInfo).run exampleJunk (pulseStream 2 [3] 1 7)).fault
        = some Fault.listIndex
    ∧ ((RtAve.new 1 8 exampleInfo).run exampleJunk (pulseStream 2 [3] 1 7)).confirmed
        = [ConfirmedEvent.mk 7 7 3 0]
    ∧ ((RtAve.new 1 8 exampleInfo).run exampleJunk
        (pulseStream 2 [3] 1 7)).self.m_qListQVectorPreStimAve.map
          (fun q => q.appended.length) = [1]
    ∧ ((RtAve.new 1 8 exampleInfo).run exampleJunk
        (pulseStream 2 [3] 1 7)).self.m_qListQVectorPostStimAve.map
          (fun q => q.appended.length) = [0] := by
  decide

/-- C19, counterexample: the trigger row of the middle block holds the samples
-5, 1, 0, 0. The sample of largest absolute value is at column 0, but the
offset the assemblers compute is column 1, the position of the largest value:
the post-epoch starts at sample 9 of the stream and the pre-epoch ends with
sample 8. -/
theorem sampleOffset_not_magnitude :
    (signedBuf 2).rowMaxPos 1 = .ok 1
    ∧ |(signedBuf 2).coeff 1 1| < |(signedBuf 2).coeff 1 0|
    ∧ (List.range 2).map (resultCoeff (postStimMatrix 2 [1] exampleJunk signedHist 0) 0)
        = [some 9, some 10]
    ∧ (List.range 2).map (resultCoeff (preStimMatrix 2 [1] exampleJunk signedHist 0) 0)
        = [some 7, some 8] := by
  refine ⟨by rfl, ?_, by decide, by decide⟩
  show |(1 : ℚ)| < |(-5 : ℚ)|
  norm_num

/-- C20, counterexample: in the example configuration the window test fails
for a history of five blocks; after five blocks of ten samples with a trigger
in block 2, the middle one, all five are still in the history and no event is
confirmed. -/
theorem window_not_ready_at_five :
    windowReady 10 5 15 15 = false
    ∧ ((RtAve.new 15 15 exampleInfo).run exampleJunk
        (pulseStream 10 [2] 4 5)).t_qListRawMatBuf.length = 5
    ∧ ((RtAve.new 15 15 exampleInfo).run exampleJunk (pulseStream 10 [2] 4 5)).confirmed = []
    ∧ ((RtAve.new 15 15 exampleInfo).run exampleJunk (pulseStream 10 [2] 4 5)).fault = none := by
  decide

theorem maxVisitor_spec (row : Nat → ℚ) :
    ∀ n, (∀ c, c ≤ n → row c ≤ row (maxVisitor row n))
      ∧ (∀ c, c < maxVisitor row n → row c < row (maxVisitor row n))
  | 0 => by
    refine ⟨fun c hc => ?_, fun c hc => ?_⟩
    · have : c = 0 := by omega
      rw [this]
      exact le_refl _
    · simp [maxVisitor] at hc
  | n + 1 => by
    obtain ⟨ih1, ih2⟩ := maxVisitor_spec row n
    simp only [maxVisitor]
    split
    · rename_i hlt
      refine ⟨fun c hc => ?_, fun c hc => ?_⟩
      · rcases Nat.lt_or_ge c (n + 1) with h | h
        · exact le_of_lt (lt_of_le_of_lt (ih1 c (by omega)) hlt)
        · have : c = n + 1 := by omega
          rw [this]
      · exact lt_of_le_of_lt (ih1 c (by omega)) hlt
    · rename_i hlt
      refine ⟨fun c hc => ?_, ih2⟩
      rcases Nat.lt_or_ge c (n + 1) with h | h
      · exact ih1 c (by omega)
      · have : c = n + 1 := by omega
        rw [this]
        exact not_lt.mp hlt

/-- C19, amended. The sample offset `pos` computed for the middle block is the
position of the largest value (signed, not the largest absolute value) in the
row of the stimulus channel, the first position if the largest value occurs
more than once. Both assemblers compute it from the same row; for `pos ≥ 1`
and enough history on both sides the last column of the pre-epoch is column
`pos - 1` of the middle block and the first column of the post-epoch is its
column `pos`. -/
theorem sampleOffset_argmax (pre post : Nat) (idcs : List Nat) (junk : Nat → Nat → ℚ)
    (hist : List RawMatBuf) (stim L R rowIdx pos : Nat) (mid : RawMatBuf)
    (hw : ∀ e ∈ hist, e.2.cols = L) (hr : ∀ e ∈ hist, e.2.rows = R)
    (hmid : hist[hist.length / 2]? = some mid) (hrow : idcs[stim]? = some rowIdx)
    (hpos : mid.2.rowMaxPos rowIdx = .ok pos) :
    pos < L
    ∧ (∀ c, c < L → mid.2.coeff rowIdx c ≤ mid.2.coeff rowIdx pos)
    ∧ (∀ c, c < pos → mid.2.coeff rowIdx c < mid.2.coeff rowIdx pos)
    ∧ (1 ≤ pos → 1 ≤ pre → 1 ≤ post → pre - pos ≤ hist.length / 2 * L →
        post ≤ (hist.length - 1 - hist.length / 2) * L →
        ∃ mPre wPre mPost wPost,
          preStimMatrix pre idcs junk hist stim = .ok (mPre, wPre)
          ∧ postStimMatrix post idcs junk hist stim = .ok (mPost, wPost)
          ∧ ∀ r, r < R → mPre.coeff r (pre - 1) = mid.2.coeff r (pos - 1)
              ∧ mPost.coeff r 0 = mid.2.coeff r pos) := by
  have hmem : mid ∈ hist := List.getElem?_mem hmid
  obtain ⟨hp1, hp2, hp3⟩ := rowMaxPos_eq _ _ _ hpos
  rw [hw mid hmem] at hp2 hp3
  rw [hr mid hmem] at hp1
  have hle : pos ≤ L - 1 := hp3 ▸ maxVisitor_le _ _
  obtain ⟨s1, s2⟩ := maxVisitor_spec (mid.2.coeff rowIdx) (L - 1)
  rw [← hp3] at s1 s2
  refine ⟨by omega, fun c hc => s1 c (by omega), s2, ?_⟩
  intro h1 h2 h3 h4 h5
  have hp0 : 0 < pos := h1
  obtain ⟨m1, w1, e1, _, _, c1⟩ := preStimMatrix_spec pre idcs junk hist stim L R rowIdx pos mid
    hw hr hmid hrow hpos (by rw [if_pos hp0]; omega)
  obtain ⟨m2, w2, e2, _, _, c2⟩ := postStimMatrix_spec post idcs junk hist stim L R rowIdx mid
    hp2 hw hr hmid hrow hp1 h5
  rw [if_pos hp0] at c1
  rw [← hp3] at c2
  refine ⟨m1, w1, m2, w2, e1, e2, fun r hrR => ⟨?_, ?_⟩⟩
  · rw [c1 r (pre - 1) hrR (by omega)]
    have hg : hist.length / 2 * L + pos - pre + (pre - 1) = hist.length / 2 * L + (pos - 1) := by
      omega
    rw [hg]
    exact concatCoeff_block L hist hw _ mid hmid r (pos - 1) (by omega)
  · rw [c2 r 0 hrR (by omega), Nat.add_zero]
    exact concatCoeff_block L hist hw _ mid hmid r pos (by omega)

/-- C19, instance: the history with the trigger row -5, 1, 0, 0 in the middle
block, two pre- and two post-stimulus samples; the offset is 1. -/
theorem sampleOffset_argmax_witness :
    (∀ e ∈ signedHist, e.2.cols = 4) ∧ (∀ e ∈ signedHist, e.2.rows = 2)
    ∧ signedHist[signedHist.length / 2]? = some ([0], signedBuf 2)
    ∧ [1][0]? = some 1 ∧ (signedBuf 2).rowMaxPos 1 = .ok 1
    ∧ 1 < 4
    ∧ (∀ c, c < 4 → (signedBuf 2).coeff 1 c ≤ (signedBuf 2).coeff 1 1)
    ∧ (∀ c, c < 1 → (signedBuf 2).coeff 1 c < (signedBuf 2).coeff 1 1)
    ∧ (1 ≤ 1 → 1 ≤ 2 → 1 ≤ 2 → 2 - 1 ≤ signedHist.length / 2 * 4 →
        2 ≤ (signedHist.length - 1 - signedHist.length / 2) * 4 →
        ∃ mPre wPre mPost wPost,
          preStimMatrix 2 [1] exampleJunk signedHist 0 = .ok (mPre, wPre)
          ∧ postStimMatrix 2 [1] exampleJunk signedHist 0 = .ok (mPost, wPost)
          ∧ ∀ r, r < 2 → mPre.coeff r (2 - 1) = (signedBuf 2).coeff r (1 - 1)
              ∧ mPost.coeff r 0 = (signedBuf 2).coeff r 1) :=
  ⟨by decide, by decide, by rfl, by rfl, by rfl,
    sampleOffset_argmax 2 2 [1] exampleJunk signedHist 0 4 2 1 1 ([0], signedBuf 2)
      (by decide) (by decide) (by rfl) (by rfl) (by rfl)⟩

theorem scenario_example_run (n : Nat) :
    ((RtAve.new 15 15 exampleInfo).run exampleJunk (scenarioStream 2 1 1 scenarioRamp n)).confirmed
      = (if 6 ≤ n then [ConfirmedEvent.mk 6 6 3 0] else []) := by
  obtain ⟨self1, hs⟩ := stimChannelLoop_total exampleInfo 2 0
    { RtAve.new 15 15 exampleInfo with
      m_bIsRunning := true
      m_qListStimChannelIdcs := []
      m_qListQVectorPreStimAve := []
      m_qListQVectorPostStimAve := [] } (by decide)
  have hs' : (RtAve.new 15 15 exampleInfo).start = .ok self1 := hs
  have hi : self1.m_qListStimChannelIdcs = [1] := by
    rw [(start_lists _ _ hs').2.1]
    decide
  obtain ⟨m1, w1, m2, w2, hm1, hm2, _⟩ :=
    scenario_assembly 2 1 1 scenarioRamp exampleJunk (by decide) (le_refl 1)
  exact (scenario_run 2 1 1 scenarioRamp exampleInfo exampleJunk self1 (by decide) (le_refl 1)
    (by norm_num) hs' hi m1 m2 w1 w2 hm1 hm2 n).2.1

/-- C20, amended. In the example configuration (blocks of 10 samples,
`preStimSamples = 15`, `postStimSamples = 15`, threshold 50) the window test
succeeds exactly for a history of at least 6 blocks (for every history size
whose sample count `10 * historySize` is below `2^32`). In every run over blocks
of 10 samples each event is confirmed with 6 blocks in the history, the middle
index 3, and not before the sixth block has arrived; while the run is
fault-free the history keeps at most 5 blocks between steps, and the window
test on the history with the next block succeeds exactly from the sixth block
on. In the example scenario the trigger of block 3 is confirmed when the sixth
block arrives. -/
theorem example_window_ready_at_six (info : FiffInfo) (junk : Nat → Nat → ℚ)
    (segs : List MatrixXd) (hw : ∀ b ∈ segs, b.cols = 10) :
    (∀ hs, 10 * hs < 4294967296 → (windowReady 10 hs 15 15 = true ↔ 6 ≤ hs))
    ∧ (∀ e ∈ ((RtAve.new 15 15 info).run junk segs).confirmed,
        e.size = 6 ∧ e.mid = 3 ∧ 6 ≤ e.count)
    ∧ (segs.length < 6 → ((RtAve.new 15 15 info).run junk segs).confirmed = [])
    ∧ (((RtAve.new 15 15 info).run junk segs).fault = none →
        ((RtAve.new 15 15 info).run junk segs).t_qListRawMatBuf.length = min segs.length 5)
    ∧ (((RtAve.new 15 15 info).run junk segs).fault = none →
        (windowReady 10 (((RtAve.new 15 15 info).run junk segs).t_qListRawMatBuf.length + 1)
            15 15 = true ↔ 6 ≤ segs.length + 1))
    ∧ ((RtAve.new 15 15 exampleInfo).run exampleJunk
        (scenarioStream 2 1 1 scenarioRamp 6)).confirmed = [ConfirmedEvent.mk 6 6 3 0] := by
  have hK6 : windowSize (RtAve.new 15 15 info).m_iPreStimSamples
      (RtAve.new 15 15 info).m_iPostStimSamples 10 = 6 := by
    show windowSize 15 15 10 = 6
    decide
  have hev : ∀ e ∈ ((RtAve.new 15 15 info).run junk segs).confirmed,
      e.size = 6 ∧ e.mid = 3 ∧ 6 ≤ e.count ∧ e.count ≤ segs.length := by
    intro e he
    rcases hst : (RtAve.new 15 15 info).start with err | self1
    · rw [run_start_error _ junk segs err hst] at he
      cases he
    · obtain ⟨h1, h2, h3, h4, _⟩ :=
        (run_events _ _ junk hst 10 (by decide)
          (by show 15 + 15 + 3 * 10 < 4294967296; decide) segs hw).1 e he
      rw [hK6] at h1 h2 h3
      exact ⟨h1, h2, h3, h4⟩
  have hlen : ((RtAve.new 15 15 info).run junk segs).fault = none →
      ((RtAve.new 15 15 info).run junk segs).t_qListRawMatBuf.length = min segs.length 5 := by
    intro hf
    obtain ⟨self1, hst⟩ := run_start_ok _ junk segs hf
    obtain ⟨_, t2⟩ := run_hist _ _ junk hst 10 (by decide)
      (by show 15 + 15 + 3 * 10 < 4294967296; decide) segs hf hw
    rw [t2]
    have hK : windowSize (RtAve.new 15 15 info).m_iPreStimSamples
        (RtAve.new 15 15 info).m_iPostStimSamples 10 - 1 = 5 := by
      show windowSize 15 15 10 - 1 = 5
      decide
    rw [hK]
    simp [entries]
    omega
  refine ⟨fun hs hlt => ?_, fun e he => ⟨(hev e he).1, (hev e he).2.1, (hev e he).2.2.1⟩, ?_, hlen,
    ?_, scenario_example_run 6⟩
  · rw [windowReady_exact 10 hs 15 15 hlt (by decide)]
    simp only [gt_iff_lt, decide_eq_true_eq]
    omega
  · intro hlt
    apply List.eq_nil_iff_forall_not_mem.mpr
    intro e he
    obtain ⟨_, _, h3, h4⟩ := hev e he
    omega
  · intro hf
    rw [hlen hf, windowReady_exact 10 _ 15 15 (by omega) (by decide)]
    simp only [gt_iff_lt, decide_eq_true_eq]
    omega

/-- C20, instance: the first four blocks of the example stream. -/
theorem example_window_ready_at_six_witness :
    (∀ b ∈ pulseStream 10 [3] 4 4, b.cols = 10)
    ∧ (∀ hs, 10 * hs < 4294967296 → (windowReady 10 hs 15 15 = true ↔ 6 ≤ hs))
    ∧ (∀ e ∈ ((RtAve.new 15 15 exampleInfo).run exampleJunk (pulseStream 10 [3] 4 4)).confirmed,
        e.size = 6 ∧ e.mid = 3 ∧ 6 ≤ e.count)
    ∧ ((pulseStream 10 [3] 4 4).length < 6 →
        ((RtAve.new 15 15 exampleInfo).run exampleJunk (pulseStream 10 [3] 4 4)).confirmed = [])
    ∧ (((RtAve.new 15 15 exampleInfo).run exampleJunk (pulseStream 10 [3] 4 4)).fault = none →
        ((RtAve.new 15 15 exampleInfo).run exampleJunk
          (pulseStream 10 [3] 4 4)).t_qListRawMatBuf.length
            = min (pulseStream 10 [3] 4 4).length 5)
    ∧ (((RtAve.new 15 15 exampleInfo).run exampleJunk (pulseStream 10 [3] 4 4)).fault = none →
        (windowReady 10 (((RtAve.new 15 15 exampleInfo).run exampleJunk
            (pulseStream 10 [3] 4 4)).t_qListRawMatBuf.length + 1) 15 15 = true
          ↔ 6 ≤ (pulseStream 10 [3] 4 4).length + 1))
    ∧ ((RtAve.new 15 15 exampleInfo).run exampleJunk
        (scenarioStream 2 1 1 scenarioRamp 6)).confirmed = [ConfirmedEvent.mk 6 6 3 0] :=
  ⟨by decide, example_window_ready_at_six exampleInfo exampleJunk (pulseStream 10 [3] 4 4)
    (by decide)⟩


theorem run_without_channels (self self1 : RtAve) (junk : Nat → Nat → ℚ)
    (hs : self.start = .ok self1) (he : self1.m_qListStimChannelIdcs = []) :
    ∀ segs : List MatrixXd,
      (self.run junk segs).fault = none ∧ (self.run junk segs).confirmed = []
      ∧ (self.run junk segs).self = self1
      ∧ ∀ e ∈ (self.run junk segs).t_qListRawMatBuf, e.1 = [] := by
  intro segs
  induction segs using List.reverseRecOn with
  | nil =>
    rw [run_nil _ _ junk hs]
    exact ⟨rfl, rfl, rfl, fun e h => by cases h⟩
  | append_singleton segs b ih =>
    obtain ⟨hf, hc, hself, hent⟩ := ih
    rw [run_snoc]
    have hd : detectStimuli (self.run junk segs).self.m_qListStimChannelIdcs b = .ok [] := by
      rw [hself, he]
      rfl
    obtain ⟨a1, a2, a3, a4⟩ := runStep_quiet junk _ b [] hf hd (by
      intro _ mid hmid
      rcases List.mem_append.mp (List.getElem?_mem hmid) with h | h
      · exact hent mid h
      · rw [List.mem_singleton.mp h])
    refine ⟨a1, a2.trans hc, a3.trans hself, ?_⟩
    intro e hmem
    rw [a4] at hmem
    have hsub : e ∈ (self.run junk segs).t_qListRawMatBuf ++ [([], b)] := by
      revert hmem
      generalize windowReady _ _ _ _ = w
      intro hmem
      cases w
      · exact hmem
      · exact List.mem_of_mem_tail hmem
    rcases List.mem_append.mp hsub with h | h
    · exact hent e h
    · rw [List.mem_singleton.mp h]

/-- C15. If the stimulus channel list derived at the start is empty, then for
every stream of blocks the worker runs without a fault, confirms no event,
every history entry has an empty list of stimuli (as has every block that
could arrive), the engine is left as it was after the start, with no
epoch store at all, and each further block is pushed to the history, which
drops its oldest entry exactly when the window test succeeds. -/
theorem no_stimulus_channels (self self1 : RtAve) (junk : Nat → Nat → ℚ)
    (segs : List MatrixXd) (hs : self.start = .ok self1)
    (he : self1.m_qListStimChannelIdcs = []) :
    (self.run junk segs).fault = none
    ∧ (self.run junk segs).confirmed = []
    ∧ (∀ e ∈ (self.run junk segs).t_qListRawMatBuf, e.1 = [])
    ∧ (∀ b, detectStimuli self1.m_qListStimChannelIdcs b = .ok [])
    ∧ (self.run junk segs).self = self1
    ∧ self1.m_qListQVectorPreStimAve = [] ∧ self1.m_qListQVectorPostStimAve = []
    ∧ ∀ b, (self.run junk (segs ++ [b])).t_qListRawMatBuf
        = (if windowReady
              (if (self.run junk segs).t_nSamplesPerBuf = 0 then b.cols
                else (self.run junk segs).t_nSamplesPerBuf)
              ((self.run junk segs).t_qListRawMatBuf.length + 1)
              self.m_iPreStimSamples self.m_iPostStimSamples then
            ((self.run junk segs).t_qListRawMatBuf ++ [([], b)]).tail
          else (self.run junk segs).t_qListRawMatBuf ++ [([], b)]) := by
  obtain ⟨hf, hc, hself, hent⟩ := run_without_channels self self1 junk hs he segs
  obtain ⟨_, _, h3, h4⟩ := start_lists self self1 hs
  obtain ⟨_, c2, c3⟩ := start_config self self1 hs
  rw [he] at h3 h4
  have hdet : ∀ b, detectStimuli self1.m_qListStimChannelIdcs b = .ok [] := by
    intro b
    rw [he]
    rfl
  refine ⟨hf, hc, hent, hdet, hself, h3, h4, ?_⟩
  intro b
  rw [run_snoc]
  have hd : detectStimuli (self.run junk segs).self.m_qListStimChannelIdcs b = .ok [] := by
    rw [hself]
    exact hdet b
  obtain ⟨_, _, _, a4⟩ := runStep_quiet junk _ b [] hf hd (by
    intro _ mid hmid
    rcases List.mem_append.mp (List.getElem?_mem hmid) with h | h
    · exact hent mid h
    · rw [List.mem_singleton.mp h])
  rw [a4, hself, c2, c3]

/-- C15, instance: the only trigger channel is `STI 014`, so no stimulus
channel is derived; four blocks with trigger pulses are fed. -/
theorem no_stimulus_channels_witness :
    (RtAve.new 1 1 plainInfo).start = .ok plainStarted
    ∧ plainStarted.m_qListStimChannelIdcs = []
    ∧ (((RtAve.new 1 1 plainInfo).run exampleJunk (pulseStream 2 [1] 1 4)).fault = none
    ∧ ((RtAve.new 1 1 plainInfo).run exampleJunk (pulseStream 2 [1] 1 4)).confirmed = []
    ∧ (∀ e ∈ ((RtAve.new 1 1 plainInfo).run exampleJunk (pulseStream 2 [1] 1 4)).t_qListRawMatBuf, e.1 = [])
    ∧ (∀ b, detectStimuli plainStarted.m_qListStimChannelIdcs b = .ok [])
    ∧ ((RtAve.new 1 1 plainInfo).run exampleJunk (pulseStream 2 [1] 1 4)).self = plainStarted
    ∧ plainStarted.m_qListQVectorPreStimAve = [] ∧ plainStarted.m_qListQVectorPostStimAve = []
    ∧ ∀ b, ((RtAve.new 1 1 plainInfo).run exampleJunk ((pulseStream 2 [1] 1 4) ++ [b])).t_qListRawMatBuf
        = (if windowReady
              (if ((RtAve.new 1 1 plainInfo).run exampleJunk (pulseStream 2 [1] 1 4)).t_nSamplesPerBuf = 0 then b.cols
                else ((RtAve.new 1 1 plainInfo).run exampleJunk (pulseStream 2 [1] 1 4)).t_nSamplesPerBuf)
              (((RtAve.new 1 1 plainInfo).run exampleJunk (pulseStream 2 [1] 1 4)).t_qListRawMatBuf.length + 1)
              (RtAve.new 1 1 plainInfo).m_iPreStimSamples (RtAve.new 1 1 plainInfo).m_iPostStimSamples then
            (((RtAve.new 1 1 plainInfo).run exampleJunk (pulseStream 2 [1] 1 4)).t_qListRawMatBuf ++ [([], b)]).tail
          else ((RtAve.new 1 1 plainInfo).run exampleJunk (pulseStream 2 [1] 1 4)).t_qListRawMatBuf ++ [([], b)])) :=
  ⟨rfl, rfl,
    no_stimulus_channels (RtAve.new 1 1 plainInfo) plainStarted exampleJunk
      (pulseStream 2 [1] 1 4) rfl rfl⟩

/-- C16. The ingestion buffer is created by the first call of `append` with
the shape of its segment, which it then holds. A later segment of the same
shape is enqueued behind the others; a later segment whose row count or column
count differs is not enqueued: the call ends with `ShapeMismatch`, which
reaches the caller of `append`, and a sequence of calls breaks off there. -/
theorem append_shape (first : MatrixXd) :
    (∃ buf, RtAve.append none first = .ok buf ∧ buf.rows = first.rows
      ∧ buf.cols = first.cols ∧ buf.queue = [first])
    ∧ (∀ buf m, m.rows = buf.rows → m.cols = buf.cols →
        RtAve.append (some buf) m = .ok { buf with queue := buf.queue ++ [m] })
    ∧ (∀ buf m, (m.rows ≠ buf.rows ∨ m.cols ≠ buf.cols) →
        RtAve.append (some buf) m = .error .shapeMismatch)
    ∧ (∀ (good : List MatrixXd) (bad : MatrixXd) (later : List MatrixXd),
        (∀ m ∈ good, m.rows = first.rows ∧ m.cols = first.cols) →
        (bad.rows ≠ first.rows ∨ bad.cols ≠ first.cols) →
        appendAll none (first :: good ++ bad :: later) = .error .shapeMismatch
        ∧ ∃ buf, appendAll none (first :: good) = .ok (some buf)
            ∧ buf.rows = first.rows ∧ buf.cols = first.cols
            ∧ buf.queue = first :: good) := by
  have hfirst : RtAve.append none first
      = .ok { CircularMatrixBuffer.new 128 first.rows first.cols with queue := [first] } := by
    simp [RtAve.append, CircularMatrixBuffer.push, CircularMatrixBuffer.new]
  have hgood : ∀ (buf : CircularMatrixBuffer) (m : MatrixXd), m.rows = buf.rows →
      m.cols = buf.cols →
      RtAve.append (some buf) m = .ok { buf with queue := buf.queue ++ [m] } := by
    intro buf m h1 h2
    simp [RtAve.append, CircularMatrixBuffer.push, h1, h2]
  have hbad : ∀ (buf : CircularMatrixBuffer) (m : MatrixXd),
      (m.rows ≠ buf.rows ∨ m.cols ≠ buf.cols) →
      RtAve.append (some buf) m = .error .shapeMismatch := by
    intro buf m h
    have : ¬ (m.rows = buf.rows ∧ m.cols = buf.cols) := by
      rintro ⟨h1, h2⟩
      rcases h with h | h
      · exact h h1
      · exact h h2
    simp only [RtAve.append, CircularMatrixBuffer.push, if_neg this]
  have hall : ∀ (good : List MatrixXd) (buf : CircularMatrixBuffer) (rest : List MatrixXd),
      (∀ m ∈ good, m.rows = buf.rows ∧ m.cols = buf.cols) →
      appendAll (some buf) (good ++ rest)
        = appendAll (some { buf with queue := buf.queue ++ good }) rest := by
    intro good
    induction good with
    | nil => intro buf rest _; simp
    | cons m good ih =>
      intro buf rest h
      have hm := h m (List.mem_cons_self _ _)
      rw [List.cons_append, appendAll, hgood buf m hm.1 hm.2]
      simp only []
      have hrec := ih { buf with queue := buf.queue ++ [m] } rest
        (fun x hx => h x (List.mem_cons_of_mem _ hx))
      rw [hrec]
      simp
  refine ⟨⟨_, hfirst, rfl, rfl, rfl⟩, hgood, hbad, ?_⟩
  intro good bad later hg hb
  constructor
  · rw [List.cons_append, appendAll, hfirst]
    simp only []
    rw [hall good _ _ hg, appendAll, hbad _ bad hb]
  · have := hall good { CircularMatrixBuffer.new 128 first.rows first.cols with
        queue := [first] } [] hg
    rw [List.append_nil] at this
    rw [appendAll, hfirst]
    simp only []
    rw [this]
    exact ⟨_, rfl, rfl, rfl, rfl⟩

/-- C16, instance: a first block of 2 channels and 4 samples, a second of the
same shape, then a block of 2 channels and 3 samples, then another block. -/
theorem append_shape_witness :
    (∀ m ∈ [zeroBuf 2 4], m.rows = (zeroBuf 2 4).rows ∧ m.cols = (zeroBuf 2 4).cols)
    ∧ ((zeroBuf 2 3).rows ≠ (zeroBuf 2 4).rows ∨ (zeroBuf 2 3).cols ≠ (zeroBuf 2 4).cols)
    ∧ appendAll none (zeroBuf 2 4 :: [zeroBuf 2 4] ++ zeroBuf 2 3 :: [zeroBuf 2 4])
        = .error .shapeMismatch
    ∧ ∃ buf, appendAll none (zeroBuf 2 4 :: [zeroBuf 2 4]) = .ok (some buf)
        ∧ buf.rows = (zeroBuf 2 4).rows ∧ buf.cols = (zeroBuf 2 4).cols
        ∧ buf.queue = zeroBuf 2 4 :: [zeroBuf 2 4] :=
  ⟨by decide, by decide,
    (append_shape (zeroBuf 2 4)).2.2.2 [zeroBuf 2 4] (zeroBuf 2 3) [zeroBuf 2 4] (by decide)
      (by decide)⟩

/-- C17, at the failing input: the worker is suspended in `pop()` on an empty
buffer and no block is pushed any more. `stop` clears `m_bIsRunning` and
waits for the worker; it performs no operation on the buffer, so the worker
cannot move and the call never returns, however long it waits. Had the buffer
been released, or were the worker at the head of its loop, the same call would
return with the worker finished. -/
theorem stop_leaves_worker_suspended :
    (∀ fuel, RtAve.stop (fuel + 1) suspendedWorker
        = .never { suspendedWorker with m_bIsRunning := false })
    ∧ workerStep { suspendedWorker with m_bIsRunning := false } = none
    ∧ (∀ fuel, RtAve.stop (fuel + 3)
          { suspendedWorker with
            m_pRawMatrixBuffer := some { CircularMatrixBuffer.new 128 2 4 with released := true } }
        = .returned
          { m_bIsRunning := false,
            m_pRawMatrixBuffer := some { CircularMatrixBuffer.new 128 2 4 with released := true },
            worker := .finished })
    ∧ (∀ fuel, RtAve.stop (fuel + 2) { suspendedWorker with worker := .loopHead }
        = .returned { suspendedWorker with m_bIsRunning := false, worker := .finished }) := by
  refine ⟨fun fuel => rfl, rfl, fun fuel => rfl, fun fuel => rfl⟩


theorem qAt_past_end {α : Type} (l : List α) (i : Nat) (h : l.length ≤ i) :
    qAt l (i : Int) = .error Fault.listIndex := by
  simp [qAt, List.getElem?_eq_none h]

theorem qAt_negative {α : Type} (l : List α) (i : Int) (h : i < 0) :
    qAt l i = .error Fault.listIndex := by
  have : ¬ (0 ≤ i) := by omega
  simp [qAt, this]

theorem postStimLoop_walks_off (post R L : Nat) (hist : List RawMatBuf)
    (hw : ∀ e ∈ hist, e.2.cols = L) (hr : ∀ e ∈ hist, R ≤ e.2.rows) :
    ∀ (fuel n cur : Nat) (mat : MatrixXd) (w : List ColRange),
      hist.length + 1 ≤ fuel + cur → cur ≤ hist.length →
      n + (hist.length - cur) * L < post →
      mat.rows = R → mat.cols = post →
      postStimLoop post R L hist fuel (n : Int) (cur : Int) mat w = .error Fault.listIndex := by
  intro fuel
  induction fuel with
  | zero =>
    intro n cur mat w hf hcl hs hmr hmc
    omega
  | succ fuel ih =>
    intro n cur mat w hf hcl hs hmr hmc
    rw [postStimLoop]
    have hlt : n < post := by omega
    have hlt' : (n : Int) < (post : Int) := by exact_mod_cast hlt
    rw [if_pos hlt']
    rcases Nat.lt_or_ge cur hist.length with h3 | h3
    · obtain ⟨buf, hbuf⟩ : ∃ buf, hist[cur]? = some buf := ⟨hist[cur], by simp [h3]⟩
      have hmem : buf ∈ hist := List.getElem?_mem hbuf
      have hbc := hw buf hmem
      have hbr := hr buf hmem
      rw [qAt_natCast hist cur buf hbuf]
      have hsplit : (hist.length - cur) * L = (hist.length - (cur + 1)) * L + L := by
        have : hist.length - cur = (hist.length - (cur + 1)) + 1 := by omega
        rw [this, Nat.succ_mul]
      have hfull : (L : Int) ≤ (post : Int) - (n : Int) := by omega
      simp only [hfull, if_true]
      have ha := assignBlock_ok mat n R L buf.2 0 (by omega) (by omega) (by omega) hbr
      simp only [Nat.cast_zero] at ha
      rw [ha]
      have := ih (n + L) (cur + 1)
        { mat with
          coeff := fun r c =>
            if r < R ∧ n ≤ c ∧ c < n + L then buf.2.coeff r (0 + (c - n)) else mat.coeff r c }
        (w ++ [⟨(n : Int), (L : Int)⟩]) (by omega) (by omega) (by omega) hmr hmc
      simpa using this
    · have hq := qAt_past_end hist cur h3
      simp only [hq]
      split <;> rfl

theorem postStimMatrix_walks_off (post : Nat) (idcs : List Nat) (junk : Nat → Nat → ℚ)
    (hist : List RawMatBuf) (stim L R rowIdx : Nat) (mid : RawMatBuf)
    (hL : 1 ≤ L) (hw : ∀ e ∈ hist, e.2.cols = L) (hr : ∀ e ∈ hist, e.2.rows = R)
    (hmid : hist[hist.length / 2]? = some mid) (hrow : idcs[stim]? = some rowIdx)
    (hrowlt : rowIdx < R)
    (hshort : hist.length * L
      < hist.length / 2 * L + maxVisitor (mid.2.coeff rowIdx) (L - 1) + post) :
    postStimMatrix post idcs junk hist stim = .error Fault.listIndex := by
  have hmem : mid ∈ hist := List.getElem?_mem hmid
  have hmc : mid.2.cols = L := hw mid hmem
  have hmr : mid.2.rows = R := hr mid hmem
  have hr' : ∀ e ∈ hist, R ≤ e.2.rows := fun e he => le_of_eq (hr e he).symm
  have hlen : hist.length / 2 < hist.length := getElem?_some_lt _ _ _ hmid
  obtain ⟨pos, hposdef⟩ : ∃ pos, pos = maxVisitor (mid.2.coeff rowIdx) (L - 1) := ⟨_, rfl⟩
  have hposle : pos ≤ L - 1 := hposdef ▸ maxVisitor_le _ _
  rw [← hposdef] at hshort
  have hmul : (hist.length - (hist.length / 2 + 1)) * L + (hist.length / 2 + 1) * L
      = hist.length * L := by
    rw [← Nat.add_mul]
    congr 1
    omega
  have hmul0 : (hist.length - hist.length / 2) * L + hist.length / 2 * L
      = hist.length * L := by
    rw [← Nat.add_mul]
    congr 1
    omega
  have hsucc : (hist.length / 2 + 1) * L = hist.length / 2 * L + L := Nat.succ_mul _ L
  unfold postStimMatrix
  simp only [qAt_natCast hist _ mid hmid, qAt_natCast idcs stim rowIdx hrow]
  rw [rowMaxPos_ok mid.2 rowIdx (by omega) (by omega), hmc, hmr, ← hposdef]
  dsimp only
  by_cases hp : 0 < pos
  · rw [if_pos hp]
    have hcast : (L : Int) - (pos : Int) = ((L - pos : Nat) : Int) := by omega
    have hsz : (L : Int) - (pos : Int) ≤ (post : Int) := by omega
    simp only [hsz, if_true]
    have ha := assignBlock_ok (MatrixXd.uninit R post junk) 0 R (L - pos) mid.2 pos
      (by simp [MatrixXd.uninit]; omega) (by simp [MatrixXd.uninit]) (by omega) (by omega)
    simp only [Nat.cast_zero, ← hcast] at ha
    rw [ha]
    have hloop := postStimLoop_walks_off post R L hist hw hr'
      (hist.length + 1) (L - pos) (hist.length / 2 + 1)
      { MatrixXd.uninit R post junk with
        coeff := fun r c =>
          if r < R ∧ 0 ≤ c ∧ c < 0 + (L - pos) then mid.2.coeff r (pos + (c - 0))
          else (MatrixXd.uninit R post junk).coeff r c }
      [⟨0, (L : Int) - (pos : Int)⟩] (by omega) (by omega) (by omega) rfl rfl
    simpa [hcast] using hloop
  · rw [if_neg hp]
    have hp0 : pos = 0 := by omega
    have hloop := postStimLoop_walks_off post R L hist hw hr'
      (hist.length + 1) 0 (hist.length / 2) (MatrixXd.uninit R post junk) []
      (by omega) (by omega) (by omega) rfl rfl
    simpa using hloop

theorem preStimLoop_walks_off (pre R L : Nat) (hist : List RawMatBuf)
    (hw : ∀ e ∈ hist, e.2.cols = L) (hr : ∀ e ∈ hist, R ≤ e.2.rows) :
    ∀ (fuel n k : Nat) (mat : MatrixXd) (w : List ColRange),
      k + 1 ≤ fuel → k ≤ hist.length → n ≤ pre → k * L < n →
      mat.rows = R → mat.cols = pre →
      preStimLoop R L hist fuel (n : Int) ((k : Int) - 1) mat w = .error Fault.listIndex := by
  intro fuel
  induction fuel with
  | zero =>
    intro n k mat w hf
    omega
  | succ fuel ih =>
    intro n k mat w hf hkl hn hs hmr hmc
    rw [preStimLoop]
    have hpos : 0 < n := by omega
    have hpos' : (0 : Int) < (n : Int) := by exact_mod_cast hpos
    rw [if_pos hpos']
    rcases Nat.eq_zero_or_pos k with hk0 | hk1
    · subst hk0
      have hq := qAt_negative hist ((0 : Nat) - 1 : Int) (by omega)
      simp only [Nat.cast_zero] at hq ⊢
      simp only [hq]
      split <;> rfl
    · have hlt : k - 1 < hist.length := by omega
      obtain ⟨buf, hbuf⟩ : ∃ buf, hist[k - 1]? = some buf := ⟨hist[k - 1], by simp [hlt]⟩
      have hmem : buf ∈ hist := List.getElem?_mem hbuf
      have hbc := hw buf hmem
      have hbr := hr buf hmem
      have hcur : (k : Int) - 1 = ((k - 1 : Nat) : Int) := by omega
      have hcur' : ((k - 1 : Nat) : Int) - 1 = (k : Int) - 1 - 1 := by omega
      rw [hcur, qAt_natCast hist (k - 1) buf hbuf]
      have hkL : k * L = (k - 1) * L + L := by
        have : k = (k - 1) + 1 := by omega
        calc k * L = ((k - 1) + 1) * L := by rw [← this]
          _ = (k - 1) * L + L := Nat.succ_mul _ _
      dsimp only
      have hfull : (0 : Int) ≤ (n : Int) - (L : Int) := by omega
      rw [if_pos hfull]
      have hcast : (n : Int) - (L : Int) = ((n - L : Nat) : Int) := by omega
      have ha := assignBlock_ok mat (n - L) R L buf.2 0 (by omega) (by omega) (by omega) hbr
      simp only [Nat.cast_zero, ← hcast] at ha
      rw [ha]
      have := ih (n - L) (k - 1)
        { mat with
          coeff := fun r c =>
            if r < R ∧ n - L ≤ c ∧ c < n - L + L then buf.2.coeff r (0 + (c - (n - L)))
            else mat.coeff r c }
        (w ++ [⟨(n : Int) - (L : Int), (L : Int)⟩]) (by omega) (by omega) (by omega)
        (by omega) hmr hmc
      rw [hcur', hcast] at this ⊢
      exact this

theorem preStimMatrix_walks_off (pre : Nat) (idcs : List Nat) (junk : Nat → Nat → ℚ)
    (hist : List RawMatBuf) (stim L R rowIdx pos : Nat) (mid : RawMatBuf)
    (hw : ∀ e ∈ hist, e.2.cols = L) (hr : ∀ e ∈ hist, e.2.rows = R)
    (hmid : hist[hist.length / 2]? = some mid) (hrow : idcs[stim]? = some rowIdx)
    (hpos : mid.2.rowMaxPos rowIdx = .ok pos)
    (hshort : (if 0 < pos then hist.length / 2 * L + pos else (hist.length / 2 + 1) * L) < pre) :
    preStimMatrix pre idcs junk hist stim = .error Fault.listIndex := by
  have hmem : mid ∈ hist := List.getElem?_mem hmid
  have hmc : mid.2.cols = L := hw mid hmem
  have hmr : mid.2.rows = R := hr mid hmem
  have hr' : ∀ e ∈ hist, R ≤ e.2.rows := fun e he => le_of_eq (hr e he).symm
  have hlen : hist.length / 2 < hist.length := getElem?_some_lt _ _ _ hmid
  obtain ⟨hp1, hp2, hp3⟩ := rowMaxPos_eq _ _ _ hpos
  rw [hmc] at hp2 hp3
  have hposle : pos ≤ L - 1 := hp3 ▸ maxVisitor_le _ _
  have hsucc : (hist.length / 2 + 1) * L = hist.length / 2 * L + L := Nat.succ_mul _ L
  unfold preStimMatrix
  simp only [qAt_natCast hist _ mid hmid, qAt_natCast idcs stim rowIdx hrow]
  rw [hpos, hmc, hmr]
  dsimp only
  by_cases hp : 0 < pos
  · rw [if_pos hp] at hshort
    rw [if_pos hp]
    have hst : (0 : Int) ≤ (pre : Int) - (pos : Int) := by omega
    rw [if_pos hst]
    have hcast : (pre : Int) - (pos : Int) = ((pre - pos : Nat) : Int) := by omega
    have ha := assignBlock_ok (MatrixXd.uninit R pre junk) (pre - pos) R pos mid.2 0
      (by simp [MatrixXd.uninit]; omega) (by simp [MatrixXd.uninit]) (by omega) (by omega)
    simp only [Nat.cast_zero, ← hcast] at ha
    rw [ha]
    have hloop := preStimLoop_walks_off pre R L hist hw hr'
      (hist.length + 1) (pre - pos) (hist.length / 2)
      { MatrixXd.uninit R pre junk with
        coeff := fun r c =>
          if r < R ∧ pre - pos ≤ c ∧ c < pre - pos + pos then
            mid.2.coeff r (0 + (c - (pre - pos)))
          else (MatrixXd.uninit R pre junk).coeff r c }
      [⟨(pre : Int) - (pos : Int), (pos : Int)⟩] (by omega) (by omega) (by omega)
      (by omega) rfl rfl
    rw [hcast] at hloop ⊢
    exact hloop
  · rw [if_neg hp] at hshort
    rw [if_neg hp]
    have hloop := preStimLoop_walks_off pre R L hist hw hr'
      (hist.length + 1) pre (hist.length / 2 + 1) (MatrixXd.uninit R pre junk) []
      (by omega) (by omega) le_rfl (by omega) rfl rfl
    simpa using hloop

/-- C14, in general. For an event confirmed over a history of blocks of equal
width `L` and height `R`, with `preStimSamples ≥ 1` and the arg-max of the
stimulus row at column `pos` of the middle block: if the pre-stimulus assembly
would walk past the first block, the worker ends with a list index fault and
the engine is unchanged; if the pre-stimulus assembly has room and the
post-stimulus assembly would walk past the last block, the worker ends with a
list index fault after the pre-epoch has been appended to the pre-stimulus
store. -/
theorem confirmStep_short_history (junk : Nat → Nat → ℚ) (prev : List Nat) (st : RunState)
    (s L R rowIdx pos : Nat) (mid : RawMatBuf) (vPre : EpochVector)
    (hf : st.fault = none) (hc : prev.contains s = false)
    (hw : ∀ e ∈ st.t_qListRawMatBuf, e.2.cols = L)
    (hr : ∀ e ∈ st.t_qListRawMatBuf, e.2.rows = R)
    (hmid : st.t_qListRawMatBuf[st.t_qListRawMatBuf.length / 2]? = some mid)
    (hrow : st.self.m_qListStimChannelIdcs[s]? = some rowIdx)
    (hpos : mid.2.rowMaxPos rowIdx = .ok pos)
    (hpre : 0 < st.self.m_iPreStimSamples)
    (hv : st.self.m_qListQVectorPreStimAve[s]? = some vPre) :
    ((if 0 < pos then st.t_qListRawMatBuf.length / 2 * L + pos
        else (st.t_qListRawMatBuf.length / 2 + 1) * L) < st.self.m_iPreStimSamples →
      (confirmStep junk prev st s).fault = some Fault.listIndex
      ∧ (confirmStep junk prev st s).self = st.self)
    ∧ (st.self.m_iPreStimSamples
          ≤ (if 0 < pos then st.t_qListRawMatBuf.length / 2 * L + pos
              else (st.t_qListRawMatBuf.length / 2 + 1) * L) →
        st.t_qListRawMatBuf.length * L
          < st.t_qListRawMatBuf.length / 2 * L + pos + st.self.m_iPostStimSamples →
        (confirmStep junk prev st s).fault = some Fault.listIndex
        ∧ ∃ mPre wPre,
            preStimMatrix st.self.m_iPreStimSamples st.self.m_qListStimChannelIdcs junk
              st.t_qListRawMatBuf s = .ok (mPre, wPre)
            ∧ (confirmStep junk prev st s).self.m_qListQVectorPreStimAve
                = st.self.m_qListQVectorPreStimAve.set s (vPre.append mPre)
            ∧ (confirmStep junk prev st s).self.m_qListQVectorPostStimAve
                = st.self.m_qListQVectorPostStimAve) := by
  have hmem : mid ∈ st.t_qListRawMatBuf := List.getElem?_mem hmid
  obtain ⟨hp1, hp2, hp3⟩ := rowMaxPos_eq _ _ _ hpos
  rw [hw mid hmem] at hp2 hp3
  rw [hr mid hmem] at hp1
  constructor
  · intro hshort
    have hE := preStimMatrix_walks_off st.self.m_iPreStimSamples st.self.m_qListStimChannelIdcs
      junk st.t_qListRawMatBuf s L R rowIdx pos mid hw hr hmid hrow hpos hshort
    unfold confirmStep
    simp only [hf, Option.isSome_none, Bool.false_eq_true, if_false, hc, Bool.not_false,
      if_true, RtAve.assemblePreStimulus, hpre, hE]
    exact ⟨trivial, trivial⟩
  · intro hroom hshort
    obtain ⟨m, w, hm, _, _, _⟩ := preStimMatrix_spec st.self.m_iPreStimSamples
      st.self.m_qListStimChannelIdcs junk st.t_qListRawMatBuf s L R rowIdx pos mid hw hr hmid
      hrow hpos hroom
    rw [hp3] at hshort
    have hE := postStimMatrix_walks_off st.self.m_iPostStimSamples
      st.self.m_qListStimChannelIdcs junk st.t_qListRawMatBuf s L R rowIdx mid hp2 hw hr hmid
      hrow hp1 hshort
    have e1 := assemblePreStimulus_eval st.self junk st.t_qListRawMatBuf s m w vPre hpre hm hv
    unfold confirmStep
    simp only [hf, Option.isSome_none, Bool.false_eq_true, if_false, hc, Bool.not_false,
      if_true, e1, RtAve.assemblePostStimulus, hpre, hE]
    exact ⟨trivial, m, w, hm, rfl, trivial⟩


/-- C25. For a history of blocks of equal width `L` and equal height `R` and a
stimulus whose channel row has its arg-max at column 0 of the middle block,
`assemblePreStimulus` does not step back: with `preStimSamples ≤ (midIndex + 1) * L`
the matrix it builds has `preStimSamples` columns and equals, column for
column, the `preStimSamples` consecutive columns of the concatenated history
that end at global column `(midIndex + 1) * L - 1`; its last column is the
last column of the middle block itself; and the method appends exactly this
matrix to the pre-stimulus store. -/
theorem assemblePreStimulus_no_step_back (self : RtAve) (junk : Nat → Nat → ℚ)
    (hist : List RawMatBuf) (stim L R rowIdx : Nat) (mid : RawMatBuf)
    (hw : ∀ e ∈ hist, e.2.cols = L) (hr : ∀ e ∈ hist, e.2.rows = R)
    (hmid : hist[hist.length / 2]? = some mid)
    (hrow : self.m_qListStimChannelIdcs[stim]? = some rowIdx)
    (hpos : mid.2.rowMaxPos rowIdx = .ok 0)
    (hroom : self.m_iPreStimSamples ≤ (hist.length / 2 + 1) * L) :
    ∃ m w,
      preStimMatrix self.m_iPreStimSamples self.m_qListStimChannelIdcs junk hist stim
        = .ok (m, w)
      ∧ m.rows = R ∧ m.cols = self.m_iPreStimSamples
      ∧ (∀ r c, r < R → c < self.m_iPreStimSamples →
          m.coeff r c
            = concatCoeff hist r ((hist.length / 2 + 1) * L - self.m_iPreStimSamples + c))
      ∧ (1 ≤ self.m_iPreStimSamples → ∀ r, r < R →
          m.coeff r (self.m_iPreStimSamples - 1)
            = concatCoeff hist r ((hist.length / 2 + 1) * L - 1)
          ∧ m.coeff r (self.m_iPreStimSamples - 1) = mid.2.coeff r (L - 1))
      ∧ (0 < self.m_iPreStimSamples → ∀ v, self.m_qListQVectorPreStimAve[stim]? = some v →
          self.assemblePreStimulus junk hist stim
            = .ok { self with
                    m_qListQVectorPreStimAve :=
                      self.m_qListQVectorPreStimAve.set stim (v.append m) }) := by
  have hmem : mid ∈ hist := List.getElem?_mem hmid
  obtain ⟨hp1, hp2, hp3⟩ := rowMaxPos_eq _ _ _ hpos
  rw [hw mid hmem] at hp2
  have hroom' : self.m_iPreStimSamples
      ≤ (if 0 < 0 then hist.length / 2 * L + 0 else (hist.length / 2 + 1) * L) := by
    rw [if_neg (Nat.lt_irrefl 0)]
    exact hroom
  obtain ⟨m, w, hm, hmr, hmc, hco⟩ := preStimMatrix_spec self.m_iPreStimSamples
    self.m_qListStimChannelIdcs junk hist stim L R rowIdx 0 mid hw hr hmid hrow hpos hroom'
  rw [if_neg (Nat.lt_irrefl 0)] at hco
  have hsucc : (hist.length / 2 + 1) * L = hist.length / 2 * L + L := Nat.succ_mul _ L
  refine ⟨m, w, hm, hmr, hmc, hco, ?_, ?_⟩
  · intro h1 r hrR
    have h := hco r (self.m_iPreStimSamples - 1) hrR (by omega)
    have hg : (hist.length / 2 + 1) * L - self.m_iPreStimSamples + (self.m_iPreStimSamples - 1)
        = (hist.length / 2 + 1) * L - 1 := by omega
    have hg2 : (hist.length / 2 + 1) * L - 1 = hist.length / 2 * L + (L - 1) := by omega
    rw [hg] at h
    refine ⟨h, ?_⟩
    rw [h, hg2]
    exact concatCoeff_block L hist hw _ mid hmid r (L - 1) (by omega)
  · intro hpre v hv
    exact assemblePreStimulus_eval self junk hist stim m w v hpre hm hv

/-- C25, instance: five blocks of width 4, trigger at column 0 of the middle
block (block 2), six pre-stimulus samples: the epoch is the samples 6..11 and
ends with sample 11, the last column of block 2. -/
theorem assemblePreStimulus_no_step_back_witness :
    6 ≤ ((exampleHist 4 2 0 5).length / 2 + 1) * 4
    ∧ ∃ m w,
      preStimMatrix 6 [1] exampleJunk (exampleHist 4 2 0 5) 0 = .ok (m, w)
      ∧ m.rows = 2 ∧ m.cols = 6
      ∧ (∀ r c, r < 2 → c < 6 →
          m.coeff r c
            = concatCoeff (exampleHist 4 2 0 5) r
                (((exampleHist 4 2 0 5).length / 2 + 1) * 4 - 6 + c))
      ∧ (1 ≤ 6 → ∀ r, r < 2 →
          m.coeff r (6 - 1)
            = concatCoeff (exampleHist 4 2 0 5) r (((exampleHist 4 2 0 5).length / 2 + 1) * 4 - 1)
          ∧ m.coeff r (6 - 1) = (rampBuf 4 2 0 2).coeff r (4 - 1))
      ∧ (0 < 6 → ∀ v, (exampleEngine 6 2).m_qListQVectorPreStimAve[0]? = some v →
          (exampleEngine 6 2).assemblePreStimulus exampleJunk (exampleHist 4 2 0 5) 0
            = .ok { exampleEngine 6 2 with
                    m_qListQVectorPreStimAve :=
                      (exampleEngine 6 2).m_qListQVectorPreStimAve.set 0 (v.append m) }) :=
  ⟨by decide,
    assemblePreStimulus_no_step_back (exampleEngine 6 2) exampleJunk (exampleHist 4 2 0 5) 0 4 2 1
      ([0], rampBuf 4 2 0 2) (by decide) (by decide) (by rfl) (by rfl) (by rfl) (by decide)⟩

/-- C28, counterexample: with `preStimSamples = 0`, `postStimSamples = 2^32 - 8`
and blocks of 4 samples the right-hand side of the window test wraps to 0 and
the test succeeds with one entry in the history: `historySize` is 1, the middle
index is 0, the middle entry has neither predecessor nor successor, and the
guard `t_iMidIdx > 0` suppresses the event of the stimulus that is active in
it. With `postStimSamples = 2^32 - 4` the test succeeds with two entries, where
the middle index 1 is the last index. -/
theorem ready_without_neighbours :
    windowReady 4 1 0 4294967288 = true ∧ 1 / 2 = 0
    ∧ activeSet (RtAve.new 0 4294967288 exampleInfo).stimChannels (pulseBuf 4 [0] 1 0) = [0]
    ∧ ((RtAve.new 0 4294967288 exampleInfo).run exampleJunk [pulseBuf 4 [0] 1 0]).confirmed = []
    ∧ ((RtAve.new 0 4294967288 exampleInfo).run exampleJunk [pulseBuf 4 [0] 1 0]).fault = none
    ∧ windowReady 4 1 0 4294967292 = false ∧ windowReady 4 2 0 4294967292 = true
    ∧ ¬ (2 / 2 ≤ 2 - 2) := by
  decide

/-- C28, amended. Whenever the window test succeeds and its right-hand side
does not wrap (`pre + post + 2 * blockLength < 2^32`), the block length is at
least 1, the history holds at least 3 entries and
`1 ≤ midIndex ≤ historySize - 2`; in
a history of that size the entries `midIndex - 1`, `midIndex` and
`midIndex + 1` exist, the lookup of entry `midIndex - 1` succeeds, and the
section "Average" runs its loop over all stimuli of the middle entry (the
guard `t_iMidIdx > 0` holds). -/
theorem ready_middle_has_neighbours (tn hs pre post : Nat)
    (hnw : pre + post + 2 * tn < 4294967296)
    (h : windowReady tn hs pre post = true) :
    1 ≤ tn ∧ 3 ≤ hs ∧ 1 ≤ hs / 2 ∧ hs / 2 ≤ hs - 2
    ∧ (∀ hist : List RawMatBuf, hist.length = hs →
        ∃ prev mid next, hist[hs / 2 - 1]? = some prev ∧ hist[hs / 2]? = some mid
          ∧ hist[hs / 2 + 1]? = some next
          ∧ qAt hist (((hs / 2 : Nat) : Int) - 1) = .ok prev
          ∧ qAt hist ((hs / 2 : Nat) : Int) = .ok mid)
    ∧ (∀ (junk : Nat → Nat → ℚ) (st : RunState), st.t_qListRawMatBuf.length = hs →
        ∃ mid prev, st.t_qListRawMatBuf[hs / 2]? = some mid
          ∧ st.t_qListRawMatBuf[hs / 2 - 1]? = some prev
          ∧ average junk st = mid.1.foldl (confirmStep junk prev.1) st) := by
  obtain ⟨h3, h1⟩ := windowReady_size tn hs pre post hnw h
  have hm1 : 1 ≤ hs / 2 := by omega
  have hm2 : hs / 2 ≤ hs - 2 := by omega
  refine ⟨h1, h3, hm1, hm2, ?_, ?_⟩
  · intro hist hl
    have l1 : hs / 2 - 1 < hist.length := by omega
    have l2 : hs / 2 < hist.length := by omega
    have l3 : hs / 2 + 1 < hist.length := by omega
    obtain ⟨prev, e1⟩ : ∃ x, hist[hs / 2 - 1]? = some x :=
      ⟨hist[hs / 2 - 1], List.getElem?_eq_getElem l1⟩
    obtain ⟨mid, e2⟩ : ∃ x, hist[hs / 2]? = some x := ⟨hist[hs / 2], List.getElem?_eq_getElem l2⟩
    obtain ⟨next, e3⟩ : ∃ x, hist[hs / 2 + 1]? = some x :=
      ⟨hist[hs / 2 + 1], List.getElem?_eq_getElem l3⟩
    refine ⟨prev, mid, next, e1, e2, e3, ?_, qAt_natCast _ _ _ e2⟩
    have hc : ((hs / 2 : Nat) : Int) - 1 = ((hs / 2 - 1 : Nat) : Int) := by omega
    rw [hc]
    exact qAt_natCast _ _ _ e1
  · intro junk st hl
    have := average_of_mid_pos junk st (by rw [hl]; exact hm1)
    rw [hl] at this
    exact this

/-- C28, instance: blocks of 2 samples, no pre-stimulus and one post-stimulus
sample; the window test succeeds for a history of 3 entries. -/
theorem ready_middle_has_neighbours_witness :
    0 + 1 + 2 * 2 < 4294967296 ∧ windowReady 2 3 0 1 = true
    ∧ 1 ≤ 2 ∧ 3 ≤ 3 ∧ 1 ≤ 3 / 2 ∧ 3 / 2 ≤ 3 - 2
    ∧ (∀ hist : List RawMatBuf, hist.length = 3 →
        ∃ prev mid next, hist[3 / 2 - 1]? = some prev ∧ hist[3 / 2]? = some mid
          ∧ hist[3 / 2 + 1]? = some next
          ∧ qAt hist (((3 / 2 : Nat) : Int) - 1) = .ok prev
          ∧ qAt hist ((3 / 2 : Nat) : Int) = .ok mid)
    ∧ (∀ (junk : Nat → Nat → ℚ) (st : RunState), st.t_qListRawMatBuf.length = 3 →
        ∃ mid prev, st.t_qListRawMatBuf[3 / 2]? = some mid
          ∧ st.t_qListRawMatBuf[3 / 2 - 1]? = some prev
          ∧ average junk st = mid.1.foldl (confirmStep junk prev.1) st) :=
  ⟨by decide, by decide, ready_middle_has_neighbours 2 3 0 1 (by decide) (by decide)⟩


theorem detectFrom_ok_rows (raw : MatrixXd) :
    ∀ (idcs : List Nat) (i : Nat) (acc l : List Nat), detectFrom raw idcs i acc = .ok l →
      ∀ idx ∈ idcs, idx < raw.rows ∧ 0 < raw.cols
  | [], _, _, _, _ => fun idx h => by cases h
  | idx :: rest, i, acc, l, h => by
    simp only [detectFrom] at h
    split at h
    · cases h
    · rename_i iMax hmax
      have hrow : idx < raw.rows ∧ 0 < raw.cols := by
        unfold stimSegmentMax at hmax
        split at hmax
        · rename_i hc
          exact hc
        · cases hmax
      intro x hx
      rcases List.mem_cons.mp hx with hx | hx
      · rw [hx]; exact hrow
      · exact detectFrom_ok_rows raw rest (i + 1) _ l h x hx

theorem activeSet_mem (idcs : List Nat) (b : MatrixXd) (s : Nat) (h : s ∈ activeSet idcs b) :
    ∃ idx, idcs[s]? = some idx ∧ idx < b.rows ∧ 0 < b.cols
      ∧ ∃ c, c < b.cols ∧ 1 ≤ b.coeff idx c ∧ b.coeff idx c < 2147483648 := by
  unfold activeSet at h
  split at h
  · rename_i l hl
    obtain ⟨hspec, _⟩ := detectFrom_spec b idcs 0 [] l hl
    rcases (hspec s).mp h with h0 | ⟨j, idx, hj, hsj, hc⟩
    · cases h0
    · have : s = j := by omega
      subst this
      obtain ⟨h1, h2⟩ := detectFrom_ok_rows b idcs 0 [] l hl idx (List.getElem?_mem hj)
      exact ⟨idx, hj, h1, h2, hc⟩
  · cases h

/-- C30. In a run over blocks of constant width `L ≥ 1`, for every confirmed
event the stimulus channel row of the middle block has its arg-max (the first
position of the largest value, which is the sample offset the assemblers
compute) at a sample that is at least 1: the row was detected through a
sample whose truncation is positive, and the largest value is not below it. -/
theorem confirmed_offset_on_trigger (self self1 : RtAve) (junk : Nat → Nat → ℚ)
    (hs : self.start = .ok self1) (L : Nat) (hL : 1 ≤ L) (segs : List MatrixXd)
    (hw : ∀ b ∈ segs, b.cols = L) :
    ∀ e ∈ (self.run junk segs).confirmed, ∃ bj rowIdx pos,
      segs[e.block]? = some bj ∧ self1.m_qListStimChannelIdcs[e.stim]? = some rowIdx
      ∧ bj.rowMaxPos rowIdx = .ok pos ∧ pos < L
      ∧ 1 ≤ bj.coeff rowIdx pos
      ∧ (∀ c, c < L → bj.coeff rowIdx c ≤ bj.coeff rowIdx pos)
      ∧ (∀ c, c < pos → bj.coeff rowIdx c < bj.coeff rowIdx pos)
      ∧ ∃ c, c < L ∧ 0 < castInt (bj.coeff rowIdx c) := by
  intro e he
  obtain ⟨K, hsound, _, _⟩ := run_trace self self1 junk hs segs
  obtain ⟨_, _, _, _, bj, bp, hbj, _, _, hact, _⟩ := hsound e he
  obtain ⟨idx, hidx, hrows, hcols, c, hc, hval, hval2⟩ := activeSet_mem _ _ _ hact
  have hbL : bj.cols = L := hw bj (List.getElem?_mem hbj)
  obtain ⟨s1, s2⟩ := maxVisitor_spec (bj.coeff idx) (bj.cols - 1)
  have hle := maxVisitor_le (bj.coeff idx) (bj.cols - 1)
  have hlt : maxVisitor (bj.coeff idx) (bj.cols - 1) < L := by
    have hsub : bj.cols - 1 < L := by
      rw [hbL]
      exact Nat.sub_lt hL Nat.one_pos
    exact Nat.lt_of_le_of_lt hle hsub
  refine ⟨bj, idx, maxVisitor (bj.coeff idx) (bj.cols - 1), hbj, hidx,
    rowMaxPos_ok bj idx hrows hcols, hlt, ?_, ?_, s2, ?_⟩
  · exact le_trans hval (s1 c (by omega))
  · intro c' hc'
    exact s1 c' (by omega)
  · exact ⟨c, by omega, (castInt_pos_iff _).mpr ⟨hval, hval2⟩⟩

/-- C30, instance: the run of the example engine over four blocks of two
samples with the trigger in block 2. -/
theorem confirmed_offset_on_trigger_witness :
    exEngine.start = .ok (exampleEngine 1 1) ∧ 1 ≤ 2
    ∧ (∀ b ∈ exSegs ++ [exBlock], b.cols = 2)
    ∧ ∀ e ∈ (exEngine.run exampleJunk (exSegs ++ [exBlock])).confirmed, ∃ bj rowIdx pos,
      (exSegs ++ [exBlock])[e.block]? = some bj
      ∧ (exampleEngine 1 1).m_qListStimChannelIdcs[e.stim]? = some rowIdx
      ∧ bj.rowMaxPos rowIdx = .ok pos ∧ pos < 2
      ∧ 1 ≤ bj.coeff rowIdx pos
      ∧ (∀ c, c < 2 → bj.coeff rowIdx c ≤ bj.coeff rowIdx pos)
      ∧ (∀ c, c < pos → bj.coeff rowIdx c < bj.coeff rowIdx pos)
      ∧ ∃ c, c < 2 ∧ 0 < castInt (bj.coeff rowIdx c) :=
  ⟨rfl, by decide, by decide,
    confirmed_offset_on_trigger exEngine (exampleEngine 1 1) exampleJunk rfl 2 (by decide)
      (exSegs ++ [exBlock]) (by decide)⟩


theorem ready_history (self self1 : RtAve) (junk : Nat → Nat → ℚ) (hs : self.start = .ok self1)
    (L : Nat) (hL : 1 ≤ L)
    (hnw : self.m_iPreStimSamples + self.m_iPostStimSamples + 3 * L < 4294967296)
    (segs : List MatrixXd) (b : MatrixXd)
    (hw : ∀ x ∈ segs ++ [b], x.cols = L) (hf : (self.run junk segs).fault = none) :
    (if (self.run junk segs).t_nSamplesPerBuf = 0 then b.cols
        else (self.run junk segs).t_nSamplesPerBuf) = L
    ∧ (windowReady L ((self.run junk segs).t_qListRawMatBuf.length + 1)
          self.m_iPreStimSamples self.m_iPostStimSamples = true
        ↔ windowSize self.m_iPreStimSamples self.m_iPostStimSamples L ≤ segs.length + 1)
    ∧ (windowSize self.m_iPreStimSamples self.m_iPostStimSamples L ≤ segs.length + 1 →
        (self.run junk segs).t_qListRawMatBuf
            ++ [(activeSet self1.m_qListStimChannelIdcs b, b)]
          = (entries self1.m_qListStimChannelIdcs (segs ++ [b])).drop
              (segs.length + 1 - windowSize self.m_iPreStimSamples self.m_iPostStimSamples L)
        ∧ ((self.run junk segs).t_qListRawMatBuf
            ++ [(activeSet self1.m_qListStimChannelIdcs b, b)]).length
          = windowSize self.m_iPreStimSamples self.m_iPostStimSamples L) := by
  have hw0 : ∀ x ∈ segs, x.cols = L := fun x hx => hw x (List.mem_append_left _ hx)
  have hb : b.cols = L := hw b (by simp)
  obtain ⟨t1, t2⟩ := run_hist self self1 junk hs L hL hnw segs hf hw0
  have hK3 : 3 ≤ windowSize self.m_iPreStimSamples self.m_iPostStimSamples L :=
    Nat.le_add_left 3 _
  have hnw' := fun hsz => windowReady_upto L hsz self.m_iPreStimSamples
    self.m_iPostStimSamples hL hnw
  obtain ⟨K, hKd⟩ : ∃ K, K = windowSize self.m_iPreStimSamples self.m_iPostStimSamples L :=
    ⟨_, rfl⟩
  rw [← hKd] at hK3 t2 hnw' ⊢
  have hlen : (self.run junk segs).t_qListRawMatBuf.length = min segs.length (K - 1) := by
    rw [t2, List.length_drop, entries_length]
    omega
  refine ⟨?_, ?_, ?_⟩
  · rw [t1]
    by_cases h0 : segs.length = 0
    · rw [if_pos h0, if_pos rfl, hb]
    · rw [if_neg h0, if_neg (by omega)]
  · rw [hnw' _ (by omega), hlen]
    constructor
    · intro h
      omega
    · intro h
      omega
  · intro hK
    have hd : segs.length - min segs.length (K - 1) = segs.length + 1 - K := by omega
    constructor
    · rw [t2, hd, entries_snoc, List.drop_append_of_le_length (by rw [entries_length]; omega)]
    · rw [List.length_append, hlen]
      simp
      omega

/-- C27, counterexample: with `preStimSamples = 0`, `postStimSamples = 2^32 - 4`
and blocks of 4 samples, `floor(K / 2)` is 536870913, but the right-hand side
of the window test wraps to 4 and the test succeeds with two entries: block 1
is the middle entry when it has just been appended, and its stimulus is
confirmed. -/
theorem early_block_confirmed_by_wrap :
    windowSize 0 4294967292 4 / 2 = 536870913
    ∧ windowReady 4 2 0 4294967292 = true
    ∧ ((RtAve.new 0 4294967292 exampleInfo).run exampleJunk (pulseStream 4 [1] 1 2)).confirmed
        = [ConfirmedEvent.mk 2 2 1 0]
    ∧ (ConfirmedEvent.mk 2 2 1 0).block = 1
    ∧ ((RtAve.new 0 4294967292 exampleInfo).run exampleJunk (pulseStream 4 [1] 1 2)).fault
        = none := by
  decide

/-- C27, amended. In a fault-free run over blocks of constant width `L ≥ 1` in
a configuration in which the window test does not wrap
(`pre + post + 3 * L < 2^32`), with
`K = floor((preStimSamples + postStimSamples) / L) + 3`: the step that appends
the block with stream index `n` is ready exactly if `K ≤ n + 1`, and then the
middle entry of the history is the block with stream index `n + 1 - K + K / 2`.
So block `j` is the middle entry at that step exactly if `j ≥ K / 2` and
`n = j + K - 1 - K / 2`, hence at one step only, and a block `j < K / 2` is
never the middle entry. Every confirmed event has a middle block of index at
least `K / 2` in which its stimulus is detected, and it is confirmed when
`count = block + K - K / 2`; a stimulus detected only in blocks of index below
`K / 2` is never confirmed. -/
theorem middle_entry_schedule (self self1 : RtAve) (junk : Nat → Nat → ℚ)
    (hs : self.start = .ok self1) (L : Nat) (hL : 1 ≤ L)
    (hnw : self.m_iPreStimSamples + self.m_iPostStimSamples + 3 * L < 4294967296)
    (segs : List MatrixXd) (b : MatrixXd)
    (hw : ∀ x ∈ segs ++ [b], x.cols = L)
    (hf : (self.run junk (segs ++ [b])).fault = none) :
    (windowReady L ((self.run junk segs).t_qListRawMatBuf.length + 1)
          self.m_iPreStimSamples self.m_iPostStimSamples = true
        ↔ windowSize self.m_iPreStimSamples self.m_iPostStimSamples L ≤ segs.length + 1)
    ∧ (windowSize self.m_iPreStimSamples self.m_iPostStimSamples L ≤ segs.length + 1 →
        ∃ bj, (segs ++ [b])[segs.length + 1
              - windowSize self.m_iPreStimSamples self.m_iPostStimSamples L
              + windowSize self.m_iPreStimSamples self.m_iPostStimSamples L / 2]? = some bj
          ∧ ((self.run junk segs).t_qListRawMatBuf
              ++ [(activeSet self1.m_qListStimChannelIdcs b, b)])[
                ((self.run junk segs).t_qListRawMatBuf.length + 1) / 2]?
            = some (activeSet self1.m_qListStimChannelIdcs bj, bj))
    ∧ (∀ j, (windowSize self.m_iPreStimSamples self.m_iPostStimSamples L ≤ segs.length + 1
          ∧ segs.length + 1 - windowSize self.m_iPreStimSamples self.m_iPostStimSamples L
              + windowSize self.m_iPreStimSamples self.m_iPostStimSamples L / 2 = j)
        ↔ (windowSize self.m_iPreStimSamples self.m_iPostStimSamples L / 2 ≤ j
          ∧ segs.length = j + (windowSize self.m_iPreStimSamples self.m_iPostStimSamples L - 1
              - windowSize self.m_iPreStimSamples self.m_iPostStimSamples L / 2)))
    ∧ (∀ e ∈ (self.run junk (segs ++ [b])).confirmed,
        windowSize self.m_iPreStimSamples self.m_iPostStimSamples L / 2 ≤ e.block
        ∧ e.count = e.block + (windowSize self.m_iPreStimSamples self.m_iPostStimSamples L
            - windowSize self.m_iPreStimSamples self.m_iPostStimSamples L / 2)
        ∧ ∃ bj, (segs ++ [b])[e.block]? = some bj
            ∧ e.stim ∈ activeSet self1.m_qListStimChannelIdcs bj)
    ∧ (∀ s, (∀ j bj, (segs ++ [b])[j]? = some bj →
          s ∈ activeSet self1.m_qListStimChannelIdcs bj →
          j < windowSize self.m_iPreStimSamples self.m_iPostStimSamples L / 2) →
        ∀ e ∈ (self.run junk (segs ++ [b])).confirmed, e.stim ≠ s) := by
  have hf0 := run_fault_mono self junk segs b hf
  obtain ⟨_, h2, h3⟩ := ready_history self self1 junk hs L hL hnw segs b hw hf0
  have hK3 : 3 ≤ windowSize self.m_iPreStimSamples self.m_iPostStimSamples L :=
    Nat.le_add_left 3 _
  have hev : ∀ e ∈ (self.run junk (segs ++ [b])).confirmed,
      windowSize self.m_iPreStimSamples self.m_iPostStimSamples L / 2 ≤ e.block
      ∧ e.count = e.block + (windowSize self.m_iPreStimSamples self.m_iPostStimSamples L
          - windowSize self.m_iPreStimSamples self.m_iPostStimSamples L / 2)
      ∧ ∃ bj, (segs ++ [b])[e.block]? = some bj
          ∧ e.stim ∈ activeSet self1.m_qListStimChannelIdcs bj := by
    intro e he
    obtain ⟨e1, e2, e3, _, bj, _, hbj, _, _, hact, _⟩ :=
      (run_events self self1 junk hs L hL hnw (segs ++ [b]) hw).1 e he
    have hblock : e.block = e.count - e.size + e.mid := rfl
    rw [e1, e2] at hblock
    refine ⟨by omega, by omega, bj, hbj, hact⟩
  obtain ⟨K, hKd⟩ : ∃ K, K = windowSize self.m_iPreStimSamples self.m_iPostStimSamples L :=
    ⟨_, rfl⟩
  rw [← hKd] at h2 h3 hK3 hev ⊢
  refine ⟨h2, ?_, ?_, hev, ?_⟩
  · intro hK
    obtain ⟨hdrop, hlen⟩ := h3 hK
    have hlen' : (self.run junk segs).t_qListRawMatBuf.length + 1 = K := by
      rw [← hlen, List.length_append]
      rfl
    have hidx : segs.length + 1 - K + K / 2 < (segs ++ [b]).length := by
      rw [List.length_append]
      simp
      omega
    refine ⟨(segs ++ [b])[segs.length + 1 - K + K / 2], List.getElem?_eq_getElem hidx, ?_⟩
    rw [hlen', hdrop, List.getElem?_drop, entries, List.getElem?_map,
      List.getElem?_eq_getElem hidx]
    rfl
  · intro j
    constructor
    · intro h
      omega
    · intro h
      omega
  · intro s hs' e he hes
    obtain ⟨h1, _, bj, hbj, hact⟩ := hev e he
    rw [hes] at hact
    have := hs' e.block bj hbj hact
    omega

/-- C27, instance: the example engine (K = 4) over blocks 0..3 of two samples
with the trigger in block 2; block 2 is the middle entry when block 3 has been
appended. -/
theorem middle_entry_schedule_witness :
    exEngine.start = .ok (exampleEngine 1 1) ∧ 1 ≤ 2
    ∧ exEngine.m_iPreStimSamples + exEngine.m_iPostStimSamples + 3 * 2 < 4294967296
    ∧ (∀ x ∈ exSegs ++ [exBlock], x.cols = 2)
    ∧ (exEngine.run exampleJunk (exSegs ++ [exBlock])).fault = none
    ∧ (windowSize exEngine.m_iPreStimSamples exEngine.m_iPostStimSamples 2 ≤ exSegs.length + 1 →
        ∃ bj, (exSegs ++ [exBlock])[exSegs.length + 1
              - windowSize exEngine.m_iPreStimSamples exEngine.m_iPostStimSamples 2
              + windowSize exEngine.m_iPreStimSamples exEngine.m_iPostStimSamples 2 / 2]? = some bj
          ∧ ((exEngine.run exampleJunk exSegs).t_qListRawMatBuf
              ++ [(activeSet (exampleEngine 1 1).m_qListStimChannelIdcs exBlock, exBlock)])[
                ((exEngine.run exampleJunk exSegs).t_qListRawMatBuf.length + 1) / 2]?
            = some (activeSet (exampleEngine 1 1).m_qListStimChannelIdcs bj, bj))
    ∧ (∀ e ∈ (exEngine.run exampleJunk (exSegs ++ [exBlock])).confirmed,
        windowSize exEngine.m_iPreStimSamples exEngine.m_iPostStimSamples 2 / 2 ≤ e.block
        ∧ e.count = e.block + (windowSize exEngine.m_iPreStimSamples exEngine.m_iPostStimSamples 2
            - windowSize exEngine.m_iPreStimSamples exEngine.m_iPostStimSamples 2 / 2)
        ∧ ∃ bj, (exSegs ++ [exBlock])[e.block]? = some bj
            ∧ e.stim ∈ activeSet (exampleEngine 1 1).m_qListStimChannelIdcs bj) :=
  ⟨rfl, by decide, by decide, by decide, by decide,
    (middle_entry_schedule exEngine (exampleEngine 1 1) exampleJunk rfl 2 (by decide)
      (by decide) exSegs exBlock (by decide) (by decide)).2.1,
    (middle_entry_schedule exEngine (exampleEngine 1 1) exampleJunk rfl 2 (by decide)
      (by decide) exSegs exBlock (by decide) (by decide)).2.2.2.1⟩


theorem confirmLoop_dup (junk : Nat → Nat → ℚ) (prev : List Nat) :
    ∀ (l : List Nat) (st : RunState), (∀ s ∈ l, prev.contains s = true) →
      l.foldl (confirmStep junk prev) st = st
  | [], _, _ => rfl
  | s :: l, st, h => by
    rw [List.foldl_cons, confirmStep_dup junk prev st s (h s (List.mem_cons_self _ _))]
    exact confirmLoop_dup junk prev l st (fun x hx => h x (List.mem_cons_of_mem _ hx))

theorem average_no_event (junk : Nat → Nat → ℚ) (st : RunState)
    (h : ∀ mid prev, st.t_qListRawMatBuf[st.t_qListRawMatBuf.length / 2]? = some mid →
      st.t_qListRawMatBuf[st.t_qListRawMatBuf.length / 2 - 1]? = some prev →
      ∀ s ∈ mid.1, s ∈ prev.1) :
    average junk st = st := by
  rcases Nat.eq_zero_or_pos (st.t_qListRawMatBuf.length / 2) with hz | hz
  · exact average_of_mid_zero junk st hz
  · obtain ⟨mid, prev, hmid, hprev, hav⟩ := average_of_mid_pos junk st hz
    rw [hav]
    apply confirmLoop_dup
    intro s hs
    have := h mid prev hmid hprev s hs
    simpa using this

/-- C23. A processed block for which the window is not ready, or the middle
entry has no stimuli, or every stimulus of the middle entry is also in the
entry before it, confirms no event, raises no fault and leaves the engine,
with every pre- and post-stimulus sequence, unchanged; the loop continues:
the block with its stimuli is appended to the history and, if the window is
ready, the oldest entry is removed. -/
theorem block_without_event (junk : Nat → Nat → ℚ) (st : RunState) (b : MatrixXd)
    (l : List Nat) (hf : st.fault = none)
    (hd : detectStimuli st.self.m_qListStimChannelIdcs b = .ok l)
    (hcase :
      windowReady (if st.t_nSamplesPerBuf = 0 then b.cols else st.t_nSamplesPerBuf)
          (st.t_qListRawMatBuf.length + 1) st.self.m_iPreStimSamples
          st.self.m_iPostStimSamples = false
      ∨ (∀ mid, (st.t_qListRawMatBuf ++ [(l, b)])[(st.t_qListRawMatBuf.length + 1) / 2]?
            = some mid → mid.1 = [])
      ∨ (∀ mid prev,
          (st.t_qListRawMatBuf ++ [(l, b)])[(st.t_qListRawMatBuf.length + 1) / 2]? = some mid →
          (st.t_qListRawMatBuf ++ [(l, b)])[(st.t_qListRawMatBuf.length + 1) / 2 - 1]?
            = some prev →
          ∀ s ∈ mid.1, s ∈ prev.1)) :
    (runStep junk st b).fault = none
    ∧ (runStep junk st b).confirmed = st.confirmed
    ∧ (runStep junk st b).self = st.self
    ∧ (runStep junk st b).count = st.count + 1
    ∧ (runStep junk st b).t_qListRawMatBuf
        = (if windowReady (if st.t_nSamplesPerBuf = 0 then b.cols else st.t_nSamplesPerBuf)
            (st.t_qListRawMatBuf.length + 1) st.self.m_iPreStimSamples
            st.self.m_iPostStimSamples then (st.t_qListRawMatBuf ++ [(l, b)]).tail
          else st.t_qListRawMatBuf ++ [(l, b)]) := by
  rw [runStep_eval junk st b l hf hd]
  by_cases hr : windowReady (if st.t_nSamplesPerBuf = 0 then b.cols else st.t_nSamplesPerBuf)
          (st.t_qListRawMatBuf.length + 1) st.self.m_iPreStimSamples
          st.self.m_iPostStimSamples = true
  · rw [if_pos hr, if_pos hr]
    have hlen : (st.t_qListRawMatBuf ++ [(l, b)]).length = st.t_qListRawMatBuf.length + 1 := by
      simp
    have hav : average junk { st with
              t_nSamplesPerBuf := if st.t_nSamplesPerBuf = 0 then b.cols else st.t_nSamplesPerBuf,
              count := st.count + 1,
              t_qListRawMatBuf := st.t_qListRawMatBuf ++ [(l, b)] }
        = { st with
              t_nSamplesPerBuf := if st.t_nSamplesPerBuf = 0 then b.cols else st.t_nSamplesPerBuf,
              count := st.count + 1,
              t_qListRawMatBuf := st.t_qListRawMatBuf ++ [(l, b)] } := by
      apply average_no_event
      intro mid prev hmid hprev s hs
      have hmid' : (st.t_qListRawMatBuf ++ [(l, b)])[(st.t_qListRawMatBuf.length + 1) / 2]?
          = some mid := by rw [← hlen]; exact hmid
      have hprev' : (st.t_qListRawMatBuf ++ [(l, b)])[(st.t_qListRawMatBuf.length + 1) / 2 - 1]?
          = some prev := by rw [← hlen]; exact hprev
      rcases hcase with h | h | h
      · rw [h] at hr; cases hr
      · rw [h mid hmid'] at hs; cases hs
      · exact h mid prev hmid' hprev' s hs
    rw [hav]
    simp only [hf, Option.isSome_none, Bool.false_eq_true, if_false]
    exact ⟨trivial, trivial, trivial, trivial, trivial⟩
  · rw [if_neg hr, if_neg hr]
    exact ⟨hf, rfl, rfl, rfl, rfl⟩

/-- C23, instance: the third block of the example stream arrives while the
window (of four blocks) is not ready. -/
theorem block_without_event_witness :
    (exEngine.run exampleJunk (pulseStream 2 [2] 1 2)).fault = none
    ∧ detectStimuli (exEngine.run exampleJunk (pulseStream 2 [2] 1 2)).self.m_qListStimChannelIdcs
        (pulseBuf 2 [2] 1 2) = .ok [0]
    ∧ (runStep exampleJunk (exEngine.run exampleJunk (pulseStream 2 [2] 1 2))
        (pulseBuf 2 [2] 1 2)).fault = none
    ∧ (runStep exampleJunk (exEngine.run exampleJunk (pulseStream 2 [2] 1 2))
        (pulseBuf 2 [2] 1 2)).confirmed
        = (exEngine.run exampleJunk (pulseStream 2 [2] 1 2)).confirmed
    ∧ (runStep exampleJunk (exEngine.run exampleJunk (pulseStream 2 [2] 1 2))
        (pulseBuf 2 [2] 1 2)).self = (exEngine.run exampleJunk (pulseStream 2 [2] 1 2)).self
    ∧ (runStep exampleJunk (exEngine.run exampleJunk (pulseStream 2 [2] 1 2))
        (pulseBuf 2 [2] 1 2)).count
        = (exEngine.run exampleJunk (pulseStream 2 [2] 1 2)).count + 1
    ∧ (runStep exampleJunk (exEngine.run exampleJunk (pulseStream 2 [2] 1 2))
        (pulseBuf 2 [2] 1 2)).t_qListRawMatBuf
        = (if windowReady
              (if (exEngine.run exampleJunk (pulseStream 2 [2] 1 2)).t_nSamplesPerBuf = 0 then
                (pulseBuf 2 [2] 1 2).cols
               else (exEngine.run exampleJunk (pulseStream 2 [2] 1 2)).t_nSamplesPerBuf)
              ((exEngine.run exampleJunk (pulseStream 2 [2] 1 2)).t_qListRawMatBuf.length + 1)
              (exEngine.run exampleJunk (pulseStream 2 [2] 1 2)).self.m_iPreStimSamples
              (exEngine.run exampleJunk (pulseStream 2 [2] 1 2)).self.m_iPostStimSamples then
            ((exEngine.run exampleJunk (pulseStream 2 [2] 1 2)).t_qListRawMatBuf
              ++ [([0], pulseBuf 2 [2] 1 2)]).tail
          else (exEngine.run exampleJunk (pulseStream 2 [2] 1 2)).t_qListRawMatBuf
              ++ [([0], pulseBuf 2 [2] 1 2)]) :=
  ⟨by decide, by rfl,
    block_without_event exampleJunk (exEngine.run exampleJunk (pulseStream 2 [2] 1 2))
      (pulseBuf 2 [2] 1 2) [0] (by decide) (by rfl) (Or.inl (by decide))⟩


/-- C22, counterexample: with `preStimSamples = 2^31`,
`postStimSamples = 2^31 - 8` and blocks of 4 samples the right-hand side of the
window test wraps to 0, so the window is ready when the first block arrives,
with one entry in the history and middle index 0. Stimulus 0 is in the active
set of that entry, yet no event is confirmed, both sequences of stimulus 0
stay empty, and the entry is evicted. -/
theorem mid_zero_confirms_nothing :
    windowReady 4 1 2147483648 2147483640 = true
    ∧ 1 / 2 = 0
    ∧ activeSet (RtAve.new 2147483648 2147483640 exampleInfo).stimChannels
        (pulseBuf 4 [0] 1 0) = [0]
    ∧ ((RtAve.new 2147483648 2147483640 exampleInfo).run exampleJunk
        [pulseBuf 4 [0] 1 0]).confirmed = []
    ∧ ((RtAve.new 2147483648 2147483640 exampleInfo).run exampleJunk
        [pulseBuf 4 [0] 1 0]).fault = none
    ∧ ((RtAve.new 2147483648 2147483640 exampleInfo).run exampleJunk
        [pulseBuf 4 [0] 1 0]).self.m_qListQVectorPreStimAve.map (fun q => q.items.length) = [0]
    ∧ ((RtAve.new 2147483648 2147483640 exampleInfo).run exampleJunk
        [pulseBuf 4 [0] 1 0]).self.m_qListQVectorPostStimAve.map (fun q => q.items.length) = [0]
    ∧ ((RtAve.new 2147483648 2147483640 exampleInfo).run exampleJunk
        [pulseBuf 4 [0] 1 0]).t_qListRawMatBuf.length = 0 := by
  decide

/-- C22, amended. At a step of a live worker at which the window test succeeds
and the middle index is 0, the section "Average" is skipped by its guard
`t_iMidIdx > 0`: the step confirms no event for any stimulus of the middle
entry, leaves the engine with all its sequences as it is, and evicts the only
entry, so that the state after the step is the state before it with `count`
advanced, `t_nSamplesPerBuf` set and an empty history. This case needs a
window test whose right-hand side wraps: when `pre + post + 2 * blockLength`
is below `2^32`, a successful test implies at least 3 history entries and a
middle index of at least 1. -/
theorem mid_zero_skips_average (junk : Nat → Nat → ℚ) (st : RunState) (b : MatrixXd)
    (l : List Nat) (hf : st.fault = none)
    (hd : detectStimuli st.self.m_qListStimChannelIdcs b = .ok l)
    (hr : windowReady (if st.t_nSamplesPerBuf = 0 then b.cols else st.t_nSamplesPerBuf)
          (st.t_qListRawMatBuf.length + 1) st.self.m_iPreStimSamples
          st.self.m_iPostStimSamples = true)
    (hz : (st.t_qListRawMatBuf.length + 1) / 2 = 0) :
    average junk { st with
        t_nSamplesPerBuf := if st.t_nSamplesPerBuf = 0 then b.cols else st.t_nSamplesPerBuf,
        count := st.count + 1,
        t_qListRawMatBuf := st.t_qListRawMatBuf ++ [(l, b)] }
      = { st with
        t_nSamplesPerBuf := if st.t_nSamplesPerBuf = 0 then b.cols else st.t_nSamplesPerBuf,
        count := st.count + 1,
        t_qListRawMatBuf := st.t_qListRawMatBuf ++ [(l, b)] }
    ∧ runStep junk st b
      = { st with
        t_nSamplesPerBuf := if st.t_nSamplesPerBuf = 0 then b.cols else st.t_nSamplesPerBuf,
        count := st.count + 1,
        t_qListRawMatBuf := [] }
    ∧ (runStep junk st b).confirmed = st.confirmed
    ∧ (runStep junk st b).self = st.self
    ∧ (∀ tn hs pre post, pre + post + 2 * tn < 4294967296 →
        windowReady tn hs pre post = true → 3 ≤ hs ∧ 1 ≤ hs / 2) := by
  have hlen : (st.t_qListRawMatBuf ++ [(l, b)]).length = st.t_qListRawMatBuf.length + 1 := by
    simp
  have hav := average_of_mid_zero junk { st with
      t_nSamplesPerBuf := if st.t_nSamplesPerBuf = 0 then b.cols else st.t_nSamplesPerBuf,
      count := st.count + 1,
      t_qListRawMatBuf := st.t_qListRawMatBuf ++ [(l, b)] } (by rw [hlen]; exact hz)
  have hnil : st.t_qListRawMatBuf = [] := List.length_eq_zero.mp (by omega)
  have hstep : runStep junk st b
      = { st with
        t_nSamplesPerBuf := if st.t_nSamplesPerBuf = 0 then b.cols else st.t_nSamplesPerBuf,
        count := st.count + 1,
        t_qListRawMatBuf := [] } := by
    rw [runStep_eval junk st b l hf hd, if_pos hr, hav]
    simp only [hf, Option.isSome_none, Bool.false_eq_true, if_false]
    rw [hnil]
    rfl
  refine ⟨hav, hstep, by rw [hstep], by rw [hstep], ?_⟩
  intro tn hs pre post hnw hready
  have := (windowReady_size _ _ _ _ hnw hready).1
  exact ⟨this, by omega⟩

/-- C22, instance: the first block of four samples arrives at the engine with
`preStimSamples = 2^32 - 8` and `postStimSamples = 0`. -/
theorem mid_zero_skips_average_witness :
    (runStep exampleJunk (RunState.enter (exampleEngine 4294967288 0)) (pulseBuf 4 [0] 1 0)).confirmed
        = (RunState.enter (exampleEngine 4294967288 0)).confirmed
    ∧ (runStep exampleJunk (RunState.enter (exampleEngine 4294967288 0)) (pulseBuf 4 [0] 1 0)).self
        = (RunState.enter (exampleEngine 4294967288 0)).self
    ∧ (∀ tn hs pre post, pre + post + 2 * tn < 4294967296 →
        windowReady tn hs pre post = true → 3 ≤ hs ∧ 1 ≤ hs / 2) :=
  (mid_zero_skips_average exampleJunk (RunState.enter (exampleEngine 4294967288 0))
    (pulseBuf 4 [0] 1 0) [0] rfl (by rfl) (by decide) (by decide)).2.2

theorem confirmStep_skip (junk : Nat → Nat → ℚ) (prev : List Nat) (st : RunState) (s : Nat)
    (vPre vPost : EpochVector) (hf : st.fault = none) (hc : prev.contains s = false)
    (hp : st.self.m_iPreStimSamples = 0)
    (hv1 : st.self.m_qListQVectorPreStimAve[s]? = some vPre)
    (hv2 : st.self.m_qListQVectorPostStimAve[s]? = some vPost) :
    (confirmStep junk prev st s).fault = none
    ∧ (confirmStep junk prev st s).self.m_qListQVectorPreStimAve
        = (if st.self.m_iNumAverages < vPre.size then
            st.self.m_qListQVectorPreStimAve.set s vPre.pop_front
          else st.self.m_qListQVectorPreStimAve)
    ∧ (confirmStep junk prev st s).self.m_qListQVectorPostStimAve
        = (if st.self.m_iNumAverages < vPost.size then
            st.self.m_qListQVectorPostStimAve.set s vPost.pop_front
          else st.self.m_qListQVectorPostStimAve)
    ∧ (vPre.size ≤ st.self.m_iNumAverages → vPost.size ≤ st.self.m_iNumAverages →
        (confirmStep junk prev st s).self = st.self) := by
  obtain ⟨e1, e2⟩ := assemble_skip st.self junk st.t_qListRawMatBuf s hp
  unfold confirmStep
  simp only [hf, Option.isSome_none, Bool.false_eq_true, if_false, hc, Bool.not_false, if_true,
    e1, e2, storeEvict_eval _ _ _ _ hv1, storeEvict_eval _ _ _ _ hv2]
  refine ⟨trivial, trivial, trivial, ?_⟩
  intro h1 h2
  rw [if_neg (by omega), if_neg (by omega)]

theorem appended_after_evict (N : Nat) (stores : List EpochVector) (s : Nat) (v : EpochVector)
    (hv : stores[s]? = some v) (j : Nat) :
    ((if N < v.size then stores.set s v.pop_front else stores)[j]?).map (fun q : EpochVector => q.appended)
      = (stores[j]?).map (fun q : EpochVector => q.appended) := by
  split
  · by_cases hj : j = s
    · subst hj
      rw [List.getElem?_set_self (getElem?_some_lt _ _ _ hv), hv]
      rfl
    · rw [List.getElem?_set_ne (Ne.symm hj)]
  · rfl

theorem run_skip_stores (self self1 : RtAve) (junk : Nat → Nat → ℚ)
    (hs : self.start = .ok self1) (hp : self.m_iPreStimSamples = 0) :
    ∀ segs, (self.run junk segs).fault = none →
      (self.run junk segs).self.m_qListQVectorPreStimAve = self1.m_qListQVectorPreStimAve
      ∧ (self.run junk segs).self.m_qListQVectorPostStimAve = self1.m_qListQVectorPostStimAve := by
  have hempty := start_stores self self1 hs
  obtain ⟨_, c2, _⟩ := start_config self self1 hs
  have key := run_induction self self1 junk hs
    (fun _ st => st.self.m_iPreStimSamples = 0
      ∧ st.self.m_qListQVectorPreStimAve = self1.m_qListQVectorPreStimAve
      ∧ st.self.m_qListQVectorPostStimAve = self1.m_qListQVectorPostStimAve)
    ⟨by rw [← hp, ← c2]; rfl, rfl, rfl⟩
    (by
      intro segs st b hf hP hf'
      obtain ⟨_, _, _, hcases⟩ := runStep_spec junk st b hf
      rcases hcases with ⟨e, _, he, _⟩ | ⟨l, _, hcase⟩
      · rw [he] at hf'; cases hf'
      · rcases hcase with ⟨_, _, _, hself, _⟩ | ⟨_, _, _, hpres⟩
        · rw [hself]; exact hP
        · refine hpres (fun a => a.m_iPreStimSamples = 0
            ∧ a.m_qListQVectorPreStimAve = self1.m_qListQVectorPreStimAve
            ∧ a.m_qListQVectorPostStimAve = self1.m_qListQVectorPostStimAve) ?_ hf' hP
          intro s a a' heff ⟨hz, h1, h2⟩
          obtain ⟨_, hpre', _, _, vPre, vPost, hvPre, hvPost, hcase⟩ := heff
          rcases hcase with ⟨_, hC, hD⟩ | ⟨hpos, _⟩
          · have e1 : vPre = EpochVector.empty := hempty vPre (by
              rw [h1] at hvPre
              exact List.mem_append_left _ (List.getElem?_mem hvPre))
            have e2 : vPost = EpochVector.empty := hempty vPost (by
              rw [h2] at hvPost
              exact List.mem_append_right _ (List.getElem?_mem hvPost))
            have s1 : ¬ a.m_iNumAverages < vPre.size := by rw [e1]; exact Nat.not_lt_zero _
            have s2 : ¬ a.m_iNumAverages < vPost.size := by rw [e2]; exact Nat.not_lt_zero _
            rw [if_neg s1, set_getElem?_same _ _ _ hvPre] at hC
            rw [if_neg s2, set_getElem?_same _ _ _ hvPost] at hD
            exact ⟨by rw [hpre', hz], hC.trans h1, hD.trans h2⟩
          · omega)
  intro segs hf
  exact (key segs hf).2

/-- C26. The body run for a confirmed event of stimulus `s` skips both
assemblers when `preStimSamples = 0`, whatever `postStimSamples` is: both calls
return the engine as it is, the body raises no fault, no sequence of any
stimulus gains an epoch, and the engine is unchanged if the two sequences of
`s` hold at most `numAverages` epochs; in a whole run with `preStimSamples = 0`
both store lists stay as they were after the start. When `preStimSamples ≥ 1`
and `postStimSamples = 0`, a confirmed event whose extraction completes puts a
matrix with zero columns at the end of the post-stimulus sequence of `s`. -/
theorem post_guarded_by_pre (junk : Nat → Nat → ℚ) (prev : List Nat) (st : RunState) (s : Nat)
    (vPre vPost : EpochVector) (hf : st.fault = none) (hc : prev.contains s = false)
    (hv1 : st.self.m_qListQVectorPreStimAve[s]? = some vPre)
    (hv2 : st.self.m_qListQVectorPostStimAve[s]? = some vPost) :
    (st.self.m_iPreStimSamples = 0 →
      st.self.assemblePreStimulus junk st.t_qListRawMatBuf s = .ok st.self
      ∧ st.self.assemblePostStimulus junk st.t_qListRawMatBuf s = .ok st.self
      ∧ (confirmStep junk prev st s).fault = none
      ∧ (confirmStep junk prev st s).confirmed = st.confirmed ++
          [ConfirmedEvent.mk st.count st.t_qListRawMatBuf.length
            (st.t_qListRawMatBuf.length / 2) s]
      ∧ (confirmStep junk prev st s).self.m_qListQVectorPreStimAve
          = (if st.self.m_iNumAverages < vPre.size then
              st.self.m_qListQVectorPreStimAve.set s vPre.pop_front
            else st.self.m_qListQVectorPreStimAve)
      ∧ (confirmStep junk prev st s).self.m_qListQVectorPostStimAve
          = (if st.self.m_iNumAverages < vPost.size then
              st.self.m_qListQVectorPostStimAve.set s vPost.pop_front
            else st.self.m_qListQVectorPostStimAve)
      ∧ (∀ j : Nat,
          ((confirmStep junk prev st s).self.m_qListQVectorPreStimAve[j]?).map
              (fun q : EpochVector => q.appended)
            = (st.self.m_qListQVectorPreStimAve[j]?).map (fun q : EpochVector => q.appended)
          ∧ ((confirmStep junk prev st s).self.m_qListQVectorPostStimAve[j]?).map
              (fun q : EpochVector => q.appended)
            = (st.self.m_qListQVectorPostStimAve[j]?).map (fun q : EpochVector => q.appended))
      ∧ (vPre.size ≤ st.self.m_iNumAverages → vPost.size ≤ st.self.m_iNumAverages →
          (confirmStep junk prev st s).self = st.self))
    ∧ (0 < st.self.m_iPreStimSamples → st.self.m_iPostStimSamples = 0 →
        (confirmStep junk prev st s).fault = none →
        ∃ mPost wPost a1 a2,
          postStimMatrix 0 st.self.m_qListStimChannelIdcs junk st.t_qListRawMatBuf s
            = .ok (mPost, wPost)
          ∧ mPost.cols = 0
          ∧ st.self.assemblePreStimulus junk st.t_qListRawMatBuf s = .ok a1
          ∧ a1.m_qListQVectorPostStimAve = st.self.m_qListQVectorPostStimAve
          ∧ a1.assemblePostStimulus junk st.t_qListRawMatBuf s = .ok a2
          ∧ (a2.m_qListQVectorPostStimAve[s]?).map (fun q : EpochVector => q.items)
              = some (vPost.items ++ [mPost])
          ∧ ((confirmStep junk prev st s).self.m_qListQVectorPostStimAve[s]?).map
              (fun q : EpochVector => q.items)
              = some (if st.self.m_iNumAverages < (vPost.items ++ [mPost]).length then
                  (vPost.items ++ [mPost]).tail else vPost.items ++ [mPost])
          ∧ ((confirmStep junk prev st s).self.m_qListQVectorPostStimAve[s]?).map
              (fun q : EpochVector => q.appended) = some (vPost.appended ++ [mPost]))
    ∧ (∀ (self self1 : RtAve) (segs : List MatrixXd), self.start = .ok self1 →
        self.m_iPreStimSamples = 0 → (self.run junk segs).fault = none →
        (self.run junk segs).self.m_qListQVectorPreStimAve = self1.m_qListQVectorPreStimAve
        ∧ (self.run junk segs).self.m_qListQVectorPostStimAve
            = self1.m_qListQVectorPostStimAve) := by
  refine ⟨?_, ?_, ?_⟩
  · intro hp
    obtain ⟨a1, a2, a3, a4⟩ := confirmStep_skip junk prev st s vPre vPost hf hc hp hv1 hv2
    obtain ⟨k1, k2⟩ := assemble_skip st.self junk st.t_qListRawMatBuf s hp
    refine ⟨k1, k2, a1, (confirmStep_new junk prev st s hf hc).1, a2, a3, ?_, a4⟩
    intro j
    rw [a2, a3]
    exact ⟨appended_after_evict _ _ _ _ hv1 j, appended_after_evict _ _ _ _ hv2 j⟩
  · intro hp hpost hlive
    obtain ⟨_, _, _, _, _, c6⟩ := confirmStep_new junk prev st s hf hc
    obtain ⟨_, _, _, _, vPre', vPost', hvPre', hvPost', hcase⟩ := c6 hlive
    rcases hcase with ⟨hz, _, _⟩ | ⟨_, mPre, wPre, mPost, wPost, hA, hB, _, hD⟩
    · omega
    · have hB0 := hB
      rw [hpost] at hB0
      obtain ⟨_, _, _, _, hcols⟩ := postStimMatrix_written _ _ _ _ _ _ _ hB0
      have hx : vPost' = vPost := Option.some.inj (hvPost'.symm.trans hv2)
      have hy : vPre' = vPre := Option.some.inj (hvPre'.symm.trans hv1)
      have l2 := getElem?_some_lt _ _ _ hv2
      have e1 := assemblePreStimulus_eval st.self junk st.t_qListRawMatBuf s mPre wPre vPre
        hp hA hv1
      have e2 := assemblePostStimulus_eval
        { st.self with
          m_qListQVectorPreStimAve := st.self.m_qListQVectorPreStimAve.set s (vPre.append mPre) }
        junk st.t_qListRawMatBuf s mPost wPost vPost hp hB hv2
      refine ⟨mPost, wPost, _, _, hB0, hcols, e1, rfl, e2, ?_, ?_, ?_⟩
      · simp only [List.getElem?_set_self l2, Option.map_some']
        rfl
      · rw [hD, List.getElem?_set_self l2, Option.map_some', items_evict, hx]
        rfl
      · rw [hD, List.getElem?_set_self l2, Option.map_some', appended_evict, hx]
        rfl
  · intro self self1 segs hs hp hlive
    exact run_skip_stores self self1 junk hs hp segs hlive

/-- C26, instances on a history of five buffers of four samples with the
trigger at column 1 of the middle buffer: `preStimSamples = 0`,
`postStimSamples = 3` for the first part, `preStimSamples = 3`,
`postStimSamples = 0` for the second, and the run over four blocks of two
samples with `preStimSamples = 0`, `postStimSamples = 1` for the third. -/
theorem post_guarded_by_pre_witness :
    ((exampleState 0 3 4 2 1 5).self.assemblePreStimulus exampleJunk (exampleState 0 3 4 2 1 5).t_qListRawMatBuf 0 = .ok (exampleState 0 3 4 2 1 5).self
      ∧ (exampleState 0 3 4 2 1 5).self.assemblePostStimulus exampleJunk (exampleState 0 3 4 2 1 5).t_qListRawMatBuf 0 = .ok (exampleState 0 3 4 2 1 5).self
      ∧ (confirmStep exampleJunk [] (exampleState 0 3 4 2 1 5) 0).fault = none
      ∧ (confirmStep exampleJunk [] (exampleState 0 3 4 2 1 5) 0).confirmed = (exampleState 0 3 4 2 1 5).confirmed ++
          [ConfirmedEvent.mk (exampleState 0 3 4 2 1 5).count (exampleState 0 3 4 2 1 5).t_qListRawMatBuf.length
            ((exampleState 0 3 4 2 1 5).t_qListRawMatBuf.length / 2) 0]
      ∧ (confirmStep exampleJunk [] (exampleState 0 3 4 2 1 5) 0).self.m_qListQVectorPreStimAve
          = (if (exampleState 0 3 4 2 1 5).self.m_iNumAverages < EpochVector.empty.size then
              (exampleState 0 3 4 2 1 5).self.m_qListQVectorPreStimAve.set 0 EpochVector.empty.pop_front
            else (exampleState 0 3 4 2 1 5).self.m_qListQVectorPreStimAve)
      ∧ (confirmStep exampleJunk [] (exampleState 0 3 4 2 1 5) 0).self.m_qListQVectorPostStimAve
          = (if (exampleState 0 3 4 2 1 5).self.m_iNumAverages < EpochVector.empty.size then
              (exampleState 0 3 4 2 1 5).self.m_qListQVectorPostStimAve.set 0 EpochVector.empty.pop_front
            else (exampleState 0 3 4 2 1 5).self.m_qListQVectorPostStimAve)
      ∧ (∀ j : Nat,
          ((confirmStep exampleJunk [] (exampleState 0 3 4 2 1 5) 0).self.m_qListQVectorPreStimAve[j]?).map
              (fun q : EpochVector => q.appended)
            = ((exampleState 0 3 4 2 1 5).self.m_qListQVectorPreStimAve[j]?).map (fun q : EpochVector => q.appended)
          ∧ ((confirmStep exampleJunk [] (exampleState 0 3 4 2 1 5) 0).self.m_qListQVectorPostStimAve[j]?).map
              (fun q : EpochVector => q.appended)
            = ((exampleState 0 3 4 2 1 5).self.m_qListQVectorPostStimAve[j]?).map (fun q : EpochVector => q.appended))
      ∧ (EpochVector.empty.size ≤ (exampleState 0 3 4 2 1 5).self.m_iNumAverages → EpochVector.empty.size ≤ (exampleState 0 3 4 2 1 5).self.m_iNumAverages →
          (confirmStep exampleJunk [] (exampleState 0 3 4 2 1 5) 0).self = (exampleState 0 3 4 2 1 5).self))
    ∧ (∃ mPost wPost a1 a2,
          postStimMatrix 0 (exampleState 3 0 4 2 1 5).self.m_qListStimChannelIdcs exampleJunk (exampleState 3 0 4 2 1 5).t_qListRawMatBuf 0
            = .ok (mPost, wPost)
          ∧ mPost.cols = 0
          ∧ (exampleState 3 0 4 2 1 5).self.assemblePreStimulus exampleJunk (exampleState 3 0 4 2 1 5).t_qListRawMatBuf 0 = .ok a1
          ∧ a1.m_qListQVectorPostStimAve = (exampleState 3 0 4 2 1 5).self.m_qListQVectorPostStimAve
          ∧ a1.assemblePostStimulus exampleJunk (exampleState 3 0 4 2 1 5).t_qListRawMatBuf 0 = .ok a2
          ∧ (a2.m_qListQVectorPostStimAve[0]?).map (fun q : EpochVector => q.items)
              = some (EpochVector.empty.items ++ [mPost])
          ∧ ((confirmStep exampleJunk [] (exampleState 3 0 4 2 1 5) 0).self.m_qListQVectorPostStimAve[0]?).map
              (fun q : EpochVector => q.items)
              = some (if (exampleState 3 0 4 2 1 5).self.m_iNumAverages < (EpochVector.empty.items ++ [mPost]).length then
                  (EpochVector.empty.items ++ [mPost]).tail else EpochVector.empty.items ++ [mPost])
          ∧ ((confirmStep exampleJunk [] (exampleState 3 0 4 2 1 5) 0).self.m_qListQVectorPostStimAve[0]?).map
              (fun q : EpochVector => q.appended) = some (EpochVector.empty.appended ++ [mPost]))
    ∧ (((RtAve.new 0 1 exampleInfo).run exampleJunk
          (pulseStream 2 [2] 1 4)).self.m_qListQVectorPreStimAve
        = (exampleEngine 0 1).m_qListQVectorPreStimAve
      ∧ ((RtAve.new 0 1 exampleInfo).run exampleJunk
          (pulseStream 2 [2] 1 4)).self.m_qListQVectorPostStimAve
        = (exampleEngine 0 1).m_qListQVectorPostStimAve) :=
  ⟨(post_guarded_by_pre exampleJunk [] (exampleState 0 3 4 2 1 5) 0 EpochVector.empty
      EpochVector.empty rfl rfl rfl rfl).1 rfl,
    (post_guarded_by_pre exampleJunk [] (exampleState 3 0 4 2 1 5) 0 EpochVector.empty
      EpochVector.empty rfl rfl rfl rfl).2.1 (by decide) rfl (by decide),
    (post_guarded_by_pre exampleJunk [] (exampleState 0 3 4 2 1 5) 0 EpochVector.empty
      EpochVector.empty rfl rfl rfl rfl).2.2 (RtAve.new 0 1 exampleInfo) (exampleEngine 0 1)
      (pulseStream 2 [2] 1 4) rfl rfl (by decide)⟩

theorem sameLists_refl (a : RtAve) : a.SameLists a := ⟨rfl, rfl, rfl, rfl, rfl, rfl⟩

theorem sameLists_trans (a b c : RtAve) (h1 : a.SameLists b) (h2 : b.SameLists c) :
    a.SameLists c := by
  unfold RtAve.SameLists at h1 h2 ⊢
  have hidcs := h2.1.trans h1.1
  have hpre := h2.2.1.trans h1.2.1
  have hpost := h2.2.2.1.trans h1.2.2.1
  have hnum := h2.2.2.2.1.trans h1.2.2.2.1
  have hps := h2.2.2.2.2.1.trans h1.2.2.2.2.1
  have hqs := h2.2.2.2.2.2.trans h1.2.2.2.2.2
  exact ⟨hidcs, hpre, hpost, hnum, hps, hqs⟩

theorem assemblePreStimulus_lists (self self1 : RtAve) (junk : Nat → Nat → ℚ)
    (hist : List RawMatBuf) (s : Nat) (h : self.assemblePreStimulus junk hist s = .ok self1) :
    self.SameLists self1 := by
  rcases assemblePreStimulus_ok self self1 junk hist s h with ⟨_, he⟩ | ⟨_, m, w, v, _, _, he⟩
  · rw [he]; exact sameLists_refl self
  · rw [he]
    exact ⟨rfl, by simp, rfl, rfl, rfl, rfl⟩

theorem assemblePostStimulus_lists (self self1 : RtAve) (junk : Nat → Nat → ℚ)
    (hist : List RawMatBuf) (s : Nat) (h : self.assemblePostStimulus junk hist s = .ok self1) :
    self.SameLists self1 := by
  rcases assemblePostStimulus_ok self self1 junk hist s h with ⟨_, he⟩ | ⟨_, m, w, v, _, _, he⟩
  · rw [he]; exact sameLists_refl self
  · rw [he]
    exact ⟨rfl, rfl, by simp, rfl, rfl, rfl⟩

theorem storeEvict_length (N : Nat) (stores stores1 : List EpochVector) (i : Nat)
    (h : storeEvict N stores i = .ok stores1) : stores1.length = stores.length := by
  obtain ⟨v, _, he⟩ := storeEvict_ok N stores stores1 i h
  rw [he]
  simp

theorem confirmStep_lists (junk : Nat → Nat → ℚ) (prev : List Nat) (st : RunState) (s : Nat) :
    st.self.SameLists (confirmStep junk prev st s).self
    ∧ (confirmStep junk prev st s).t_qListRawMatBuf = st.t_qListRawMatBuf
    ∧ ((confirmStep junk prev st s).confirmed = st.confirmed
      ∨ (confirmStep junk prev st s).confirmed = st.confirmed ++
          [ConfirmedEvent.mk st.count st.t_qListRawMatBuf.length
            (st.t_qListRawMatBuf.length / 2) s]) := by
  unfold confirmStep
  split
  · exact ⟨sameLists_refl _, rfl, Or.inl rfl⟩
  · split
    · simp only []
      split
      · exact ⟨sameLists_refl _, rfl, Or.inr rfl⟩
      · rename_i self1 h1
        have l1 := assemblePreStimulus_lists _ _ _ _ _ h1
        split
        · exact ⟨l1, rfl, Or.inr rfl⟩
        · rename_i self2 h2
          have l2 := sameLists_trans _ _ _ l1 (assemblePostStimulus_lists _ _ _ _ _ h2)
          split
          · exact ⟨l2, rfl, Or.inr rfl⟩
          · rename_i preStores h3
            have e3 := storeEvict_length _ _ _ _ h3
            obtain ⟨b1, b2, b3, b4, b5, b6⟩ := l2
            split
            · exact ⟨⟨b1, e3.trans b2, b3, b4, b5, b6⟩, rfl, Or.inr rfl⟩
            · rename_i postStores h4
              have e4 := storeEvict_length _ _ _ _ h4
              exact ⟨⟨b1, e3.trans b2, e4.trans b3, b4, b5, b6⟩, rfl, Or.inr rfl⟩
    · exact ⟨sameLists_refl _, rfl, Or.inl rfl⟩

theorem confirmLoop_lists (junk : Nat → Nat → ℚ) (prev : List Nat) :
    ∀ (l : List Nat) (st : RunState),
      st.self.SameLists (l.foldl (confirmStep junk prev) st).self
      ∧ ∀ e ∈ (l.foldl (confirmStep junk prev) st).confirmed,
          e ∈ st.confirmed ∨ e.stim ∈ l
  | [], st => ⟨sameLists_refl _, fun e he => Or.inl he⟩
  | s :: l, st => by
    rw [List.foldl_cons]
    obtain ⟨a1, a2, a3⟩ := confirmStep_lists junk prev st s
    obtain ⟨b1, b2⟩ := confirmLoop_lists junk prev l (confirmStep junk prev st s)
    refine ⟨sameLists_trans _ _ _ a1 b1, ?_⟩
    intro e he
    rcases b2 e he with h | h
    · rcases a3 with h3 | h3
      · rw [h3] at h; exact Or.inl h
      · rw [h3] at h
        rcases List.mem_append.mp h with h | h
        · exact Or.inl h
        · rw [List.mem_singleton.mp h]
          exact Or.inr (List.mem_cons_self _ _)
    · exact Or.inr (List.mem_cons_of_mem _ h)

theorem average_lists (junk : Nat → Nat → ℚ) (st : RunState) :
    st.self.SameLists (average junk st).self
    ∧ (average junk st).t_qListRawMatBuf = st.t_qListRawMatBuf
    ∧ ∀ e ∈ (average junk st).confirmed,
        e ∈ st.confirmed ∨ ∃ mid ∈ st.t_qListRawMatBuf, e.stim ∈ mid.1 := by
  rcases Nat.eq_zero_or_pos (st.t_qListRawMatBuf.length / 2) with hz | hz
  · rw [average_of_mid_zero junk st hz]
    exact ⟨sameLists_refl _, rfl, fun e he => Or.inl he⟩
  · obtain ⟨mid, prev, hmid, _, hav⟩ := average_of_mid_pos junk st hz
    rw [hav]
    obtain ⟨b1, b2⟩ := confirmLoop_lists junk prev.1 mid.1 st
    refine ⟨b1, (confirmLoop_spec junk prev.1 mid.1 st).1, ?_⟩
    intro e he
    rcases b2 e he with h | h
    · exact Or.inl h
    · exact Or.inr ⟨mid, List.getElem?_mem hmid, h⟩

theorem runStep_lists (junk : Nat → Nat → ℚ) (st : RunState) (b : MatrixXd) :
    st.self.SameLists (runStep junk st b).self
    ∧ (∀ x ∈ (runStep junk st b).t_qListRawMatBuf,
        x ∈ st.t_qListRawMatBuf ∨ detectStimuli st.self.m_qListStimChannelIdcs x.2 = .ok x.1)
    ∧ ∀ e ∈ (runStep junk st b).confirmed,
        e ∈ st.confirmed ∨ ∃ mid, e.stim ∈ mid.1
          ∧ (mid ∈ st.t_qListRawMatBuf
            ∨ detectStimuli st.self.m_qListStimChannelIdcs mid.2 = .ok mid.1) := by
  rcases Option.eq_none_or_eq_some st.fault with hf | ⟨e, hf⟩
  case inr =>
    rw [runStep_of_fault junk st b (by simp [hf])]
    exact ⟨sameLists_refl _, fun x hx => Or.inl hx, fun e he => Or.inl he⟩
  rcases hd : detectStimuli st.self.m_qListStimChannelIdcs b with err | l
  · have : runStep junk st b = { st with
        t_nSamplesPerBuf := if st.t_nSamplesPerBuf = 0 then b.cols else st.t_nSamplesPerBuf,
        count := st.count + 1, fault := some err } := by
      unfold runStep
      simp only [hf, Option.isSome_none, Bool.false_eq_true, if_false, hd]
    rw [this]
    exact ⟨sameLists_refl _, fun x hx => Or.inl hx, fun e he => Or.inl he⟩
  · rw [runStep_eval junk st b l hf hd]
    have hnew : ∀ x ∈ st.t_qListRawMatBuf ++ [(l, b)],
        x ∈ st.t_qListRawMatBuf ∨ detectStimuli st.self.m_qListStimChannelIdcs x.2 = .ok x.1 := by
      intro x hx
      rcases List.mem_append.mp hx with h | h
      · exact Or.inl h
      · rw [List.mem_singleton.mp h]
        exact Or.inr hd
    obtain ⟨a1, a2, a3⟩ := average_lists junk { st with
        t_nSamplesPerBuf := if st.t_nSamplesPerBuf = 0 then b.cols else st.t_nSamplesPerBuf,
        count := st.count + 1,
        t_qListRawMatBuf := st.t_qListRawMatBuf ++ [(l, b)] }
    generalize average junk { st with
        t_nSamplesPerBuf := if st.t_nSamplesPerBuf = 0 then b.cols else st.t_nSamplesPerBuf,
        count := st.count + 1,
        t_qListRawMatBuf := st.t_qListRawMatBuf ++ [(l, b)] } = A at a1 a2 a3 ⊢
    have a1' : st.self.SameLists A.self := a1
    have a2' : A.t_qListRawMatBuf = st.t_qListRawMatBuf ++ [(l, b)] := a2
    have hev : ∀ e ∈ A.confirmed,
        e ∈ st.confirmed ∨ ∃ mid, e.stim ∈ mid.1
          ∧ (mid ∈ st.t_qListRawMatBuf
            ∨ detectStimuli st.self.m_qListStimChannelIdcs mid.2 = .ok mid.1) := by
      intro e he
      rcases a3 e he with h | ⟨mid, hmid, hs⟩
      · exact Or.inl h
      · exact Or.inr ⟨mid, hs, hnew mid hmid⟩
    by_cases hr : windowReady (if st.t_nSamplesPerBuf = 0 then b.cols else st.t_nSamplesPerBuf)
        (st.t_qListRawMatBuf.length + 1) st.self.m_iPreStimSamples
        st.self.m_iPostStimSamples = true
    · rw [if_pos hr]
      by_cases hA : A.fault.isSome = true
      · rw [if_pos hA]
        refine ⟨a1', ?_, hev⟩
        intro x hx
        rw [a2'] at hx
        exact hnew x hx
      · rw [if_neg hA]
        refine ⟨a1', ?_, hev⟩
        intro x hx
        have hx' : x ∈ A.t_qListRawMatBuf.tail := hx
        rw [a2'] at hx'
        exact hnew x (List.mem_of_mem_tail hx')
    · rw [if_neg hr]
      exact ⟨sameLists_refl _, hnew, fun e he => Or.inl he⟩

theorem run_lists (self self1 : RtAve) (junk : Nat → Nat → ℚ) (hs : self.start = .ok self1) :
    ∀ segs : List MatrixXd,
      self1.SameLists (self.run junk segs).self
      ∧ (∀ x ∈ (self.run junk segs).t_qListRawMatBuf,
          detectStimuli self1.m_qListStimChannelIdcs x.2 = .ok x.1)
      ∧ ∀ e ∈ (self.run junk segs).confirmed, e.stim < self1.m_qListStimChannelIdcs.length := by
  intro segs
  induction segs using List.reverseRecOn with
  | nil =>
    rw [run_nil _ _ junk hs]
    exact ⟨sameLists_refl _, fun x hx => (by cases hx), fun e he => (by cases he)⟩
  | append_singleton segs b ih =>
    obtain ⟨i1, i2, i3⟩ := ih
    rw [run_snoc]
    obtain ⟨a1, a2, a3⟩ := runStep_lists junk (self.run junk segs) b
    have hid : (self.run junk segs).self.m_qListStimChannelIdcs
        = self1.m_qListStimChannelIdcs := i1.1
    rw [hid] at a2 a3
    refine ⟨sameLists_trans _ _ _ i1 a1, ?_, ?_⟩
    · intro x hx
      rcases a2 x hx with h | h
      · exact i2 x h
      · exact h
    · intro e he
      rcases a3 e he with h | ⟨mid, hs', h | h⟩
      · exact i3 e h
      · exact (detectStimuli_sorted _ _ _ (i2 mid h)).2 _ hs'
      · exact (detectStimuli_sorted _ _ _ h).2 _ hs'

/-- C29. The start of the worker discards whatever the three lists held and
rebuilds them: afterwards there is one empty pre-stimulus sequence and one
empty post-stimulus sequence per stimulus channel. In every state of every
run (faulted or not) the channel list is the one built at the start and both
store lists have its length; the stimuli of every history entry, and of any
block that is detected without a fault, form a strictly increasing list of
indices below that length; and for every confirmed event the lookups of the
stimulus channel and of the two sequences by its stimulus index are in range. -/
theorem lists_stay_aligned (self self1 : RtAve) (junk : Nat → Nat → ℚ) (segs : List MatrixXd)
    (hs : self.start = .ok self1) :
    (∀ X Y Z, ({ self with
          m_qListStimChannelIdcs := X
          m_qListQVectorPreStimAve := Y
          m_qListQVectorPostStimAve := Z } : RtAve).start = self.start)
    ∧ self1.m_qListQVectorPreStimAve
        = List.replicate self1.m_qListStimChannelIdcs.length EpochVector.empty
    ∧ self1.m_qListQVectorPostStimAve
        = List.replicate self1.m_qListStimChannelIdcs.length EpochVector.empty
    ∧ (self.run junk segs).self.m_qListStimChannelIdcs = self1.m_qListStimChannelIdcs
    ∧ (self.run junk segs).self.m_qListQVectorPreStimAve.length
        = self1.m_qListStimChannelIdcs.length
    ∧ (self.run junk segs).self.m_qListQVectorPostStimAve.length
        = self1.m_qListStimChannelIdcs.length
    ∧ (∀ x ∈ (self.run junk segs).t_qListRawMatBuf,
        x.1.Pairwise (· < ·) ∧ ∀ k ∈ x.1, k < self1.m_qListStimChannelIdcs.length)
    ∧ (∀ (b : MatrixXd) (l : List Nat), detectStimuli self1.m_qListStimChannelIdcs b = .ok l →
        l.Pairwise (· < ·) ∧ ∀ k ∈ l, k < self1.m_qListStimChannelIdcs.length)
    ∧ (∀ e ∈ (self.run junk segs).confirmed,
        e.stim < self1.m_qListStimChannelIdcs.length
        ∧ ∃ idx vPre vPost,
            (self.run junk segs).self.m_qListStimChannelIdcs[e.stim]? = some idx
            ∧ (self.run junk segs).self.m_qListQVectorPreStimAve[e.stim]? = some vPre
            ∧ (self.run junk segs).self.m_qListQVectorPostStimAve[e.stim]? = some vPost) := by
  obtain ⟨_, _, h3, h4⟩ := start_lists self self1 hs
  obtain ⟨⟨a1, a2, a3, _⟩, i2, i3⟩ := run_lists self self1 junk hs segs
  have hn1 : self1.m_qListQVectorPreStimAve.length = self1.m_qListStimChannelIdcs.length := by
    rw [h3]; simp
  have hn2 : self1.m_qListQVectorPostStimAve.length = self1.m_qListStimChannelIdcs.length := by
    rw [h4]; simp
  refine ⟨fun X Y Z => rfl, h3, h4, a1, a2.trans hn1, a3.trans hn2, ?_, ?_, ?_⟩
  · intro x hx
    exact detectStimuli_sorted _ _ _ (i2 x hx)
  · intro b l hl
    exact detectStimuli_sorted _ _ _ hl
  · intro e he
    have hlt := i3 e he
    have l0 : e.stim < (self.run junk segs).self.m_qListStimChannelIdcs.length := by
      rw [a1]; exact hlt
    have l1 : e.stim < (self.run junk segs).self.m_qListQVectorPreStimAve.length := by
      rw [a2, hn1]; exact hlt
    have l2 : e.stim < (self.run junk segs).self.m_qListQVectorPostStimAve.length := by
      rw [a3, hn2]; exact hlt
    exact ⟨hlt, _, _, _, List.getElem?_eq_getElem l0, List.getElem?_eq_getElem l1,
      List.getElem?_eq_getElem l2⟩

/-- C29, instance: the example engine over the four blocks of the example
stream. -/
theorem lists_stay_aligned_witness :
    exEngine.start = .ok (exampleEngine 1 1)
    ∧ (∀ X Y Z, ({ exEngine with
          m_qListStimChannelIdcs := X
          m_qListQVectorPreStimAve := Y
          m_qListQVectorPostStimAve := Z } : RtAve).start = exEngine.start)
    ∧ (exampleEngine 1 1).m_qListQVectorPreStimAve
        = List.replicate (exampleEngine 1 1).m_qListStimChannelIdcs.length EpochVector.empty
    ∧ (exampleEngine 1 1).m_qListQVectorPostStimAve
        = List.replicate (exampleEngine 1 1).m_qListStimChannelIdcs.length EpochVector.empty
    ∧ (exEngine.run exampleJunk (exSegs ++ [exBlock])).self.m_qListStimChannelIdcs = (exampleEngine 1 1).m_qListStimChannelIdcs
    ∧ (exEngine.run exampleJunk (exSegs ++ [exBlock])).self.m_qListQVectorPreStimAve.length
        = (exampleEngine 1 1).m_qListStimChannelIdcs.length
    ∧ (exEngine.run exampleJunk (exSegs ++ [exBlock])).self.m_qListQVectorPostStimAve.length
        = (exampleEngine 1 1).m_qListStimChannelIdcs.length
    ∧ (∀ x ∈ (exEngine.run exampleJunk (exSegs ++ [exBlock])).t_qListRawMatBuf,
        x.1.Pairwise (· < ·) ∧ ∀ k ∈ x.1, k < (exampleEngine 1 1).m_qListStimChannelIdcs.length)
    ∧ (∀ (b : MatrixXd) (l : List Nat), detectStimuli (exampleEngine 1 1).m_qListStimChannelIdcs b = .ok l →
        l.Pairwise (· < ·) ∧ ∀ k ∈ l, k < (exampleEngine 1 1).m_qListStimChannelIdcs.length)
    ∧ (∀ e ∈ (exEngine.run exampleJunk (exSegs ++ [exBlock])).confirmed,
        e.stim < (exampleEngine 1 1).m_qListStimChannelIdcs.length
        ∧ ∃ idx vPre vPost,
            (exEngine.run exampleJunk (exSegs ++ [exBlock])).self.m_qListStimChannelIdcs[e.stim]? = some idx
            ∧ (exEngine.run exampleJunk (exSegs ++ [exBlock])).self.m_qListQVectorPreStimAve[e.stim]? = some vPre
            ∧ (exEngine.run exampleJunk (exSegs ++ [exBlock])).self.m_qListQVectorPostStimAve[e.stim]? = some vPost) :=
  ⟨rfl, lists_stay_aligned exEngine (exampleEngine 1 1) exampleJunk (exSegs ++ [exBlock]) rfl⟩

theorem confirmStep_room_live (junk : Nat → Nat → ℚ) (prev : List Nat) (st : RunState)
    (s L R : Nat) (mid : RawMatBuf) (hL : 1 ≤ L)
    (hw : ∀ e ∈ st.t_qListRawMatBuf, e.2.cols = L)
    (hr : ∀ e ∈ st.t_qListRawMatBuf, e.2.rows = R)
    (hmid : st.t_qListRawMatBuf[st.t_qListRawMatBuf.length / 2]? = some mid)
    (hidx : ∀ idx ∈ st.self.m_qListStimChannelIdcs, idx < R)
    (hn1 : st.self.m_qListQVectorPreStimAve.length = st.self.m_qListStimChannelIdcs.length)
    (hn2 : st.self.m_qListQVectorPostStimAve.length = st.self.m_qListStimChannelIdcs.length)
    (hroom : st.self.m_iPreStimSamples = 0
      ∨ (st.self.m_iPreStimSamples ≤ st.t_qListRawMatBuf.length / 2 * L
        ∧ st.self.m_iPostStimSamples
            ≤ (st.t_qListRawMatBuf.length - 1 - st.t_qListRawMatBuf.length / 2) * L))
    (hs : s < st.self.m_qListStimChannelIdcs.length) (hf : st.fault = none) :
    (confirmStep junk prev st s).fault = none := by
  cases hc : prev.contains s with
  | true => rw [confirmStep_dup junk prev st s hc]; exact hf
  | false =>
    obtain ⟨v1, hv1⟩ : ∃ v, st.self.m_qListQVectorPreStimAve[s]? = some v :=
      ⟨st.self.m_qListQVectorPreStimAve[s], List.getElem?_eq_getElem (by omega)⟩
    obtain ⟨v2, hv2⟩ : ∃ v, st.self.m_qListQVectorPostStimAve[s]? = some v :=
      ⟨st.self.m_qListQVectorPostStimAve[s], List.getElem?_eq_getElem (by omega)⟩
    rcases hroom with hz | ⟨hr1, hr2⟩
    · exact (confirmStep_skip junk prev st s v1 v2 hf hc hz hv1 hv2).1
    · obtain ⟨rowIdx, hrow⟩ : ∃ x, st.self.m_qListStimChannelIdcs[s]? = some x :=
        ⟨st.self.m_qListStimChannelIdcs[s], List.getElem?_eq_getElem hs⟩
      have hrlt : rowIdx < R := hidx rowIdx (List.getElem?_mem hrow)
      have hmem : mid ∈ st.t_qListRawMatBuf := List.getElem?_mem hmid
      have hpos := rowMaxPos_ok mid.2 rowIdx (by rw [hr mid hmem]; exact hrlt)
        (by rw [hw mid hmem]; exact hL)
      have hsucc : (st.t_qListRawMatBuf.length / 2 + 1) * L
          = st.t_qListRawMatBuf.length / 2 * L + L := Nat.succ_mul _ L
      obtain ⟨m1, w1, hm1, _⟩ := preStimMatrix_spec st.self.m_iPreStimSamples
        st.self.m_qListStimChannelIdcs junk st.t_qListRawMatBuf s L R rowIdx _ mid hw hr hmid
        hrow hpos (by split <;> omega)
      obtain ⟨m2, w2, hm2, _⟩ := postStimMatrix_spec st.self.m_iPostStimSamples
        st.self.m_qListStimChannelIdcs junk st.t_qListRawMatBuf s L R rowIdx mid hL hw hr hmid
        hrow hrlt hr2
      exact confirmStep_live junk prev st s m1 m2 w1 w2 v1 v2 hf hm1 hm2 hv1 hv2

theorem confirmLoop_room_live (junk : Nat → Nat → ℚ) (prev : List Nat)
    (hist : List RawMatBuf) (L R : Nat) (mid : RawMatBuf) (hL : 1 ≤ L)
    (hw : ∀ e ∈ hist, e.2.cols = L) (hr : ∀ e ∈ hist, e.2.rows = R)
    (hmid : hist[hist.length / 2]? = some mid) :
    ∀ (l : List Nat) (st : RunState), st.t_qListRawMatBuf = hist →
      (∀ idx ∈ st.self.m_qListStimChannelIdcs, idx < R) →
      st.self.m_qListQVectorPreStimAve.length = st.self.m_qListStimChannelIdcs.length →
      st.self.m_qListQVectorPostStimAve.length = st.self.m_qListStimChannelIdcs.length →
      (st.self.m_iPreStimSamples = 0
        ∨ (st.self.m_iPreStimSamples ≤ hist.length / 2 * L
          ∧ st.self.m_iPostStimSamples ≤ (hist.length - 1 - hist.length / 2) * L)) →
      (∀ s ∈ l, s < st.self.m_qListStimChannelIdcs.length) → st.fault = none →
      (l.foldl (confirmStep junk prev) st).fault = none
  | [], _, _, _, _, _, _, _, hf => hf
  | s :: l, st, hh, hidx, hn1, hn2, hroom, hl, hf => by
    rw [List.foldl_cons]
    have hlive := confirmStep_room_live junk prev st s L R mid hL (by rw [hh]; exact hw)
      (by rw [hh]; exact hr) (by rw [hh]; exact hmid) hidx hn1 hn2 (by rw [hh]; exact hroom)
      (hl s (List.mem_cons_self _ _)) hf
    obtain ⟨⟨a1, a2, a3, _, a5, a6⟩, a7, _⟩ := confirmStep_lists junk prev st s
    exact confirmLoop_room_live junk prev hist L R mid hL hw hr hmid l _ (a7.trans hh)
      (by rw [a1]; exact hidx) (by rw [a2, a1]; exact hn1) (by rw [a3, a1]; exact hn2)
      (by rw [a5, a6]; exact hroom)
      (by rw [a1]; exact fun x hx => hl x (List.mem_cons_of_mem _ hx)) hlive

theorem run_room_live (self self1 : RtAve) (junk : Nat → Nat → ℚ) (hs : self.start = .ok self1)
    (L R : Nat) (hL : 1 ≤ L)
    (hnw : self.m_iPreStimSamples + self.m_iPostStimSamples + 3 * L < 4294967296)
    (hidx : ∀ idx ∈ self1.m_qListStimChannelIdcs, idx < R)
    (hroom : self.m_iPreStimSamples = 0
      ∨ (self.m_iPreStimSamples
            ≤ windowSize self.m_iPreStimSamples self.m_iPostStimSamples L / 2 * L
        ∧ self.m_iPostStimSamples
            ≤ (windowSize self.m_iPreStimSamples self.m_iPostStimSamples L - 1
                - windowSize self.m_iPreStimSamples self.m_iPostStimSamples L / 2) * L)) :
    ∀ segs : List MatrixXd, (∀ b ∈ segs, b.cols = L ∧ b.rows = R) →
      (self.run junk segs).fault = none := by
  intro segs
  induction segs using List.reverseRecOn with
  | nil =>
    intro _
    rw [run_nil _ _ junk hs]
    rfl
  | append_singleton segs b ih =>
    intro hall
    have hall0 : ∀ x ∈ segs, x.cols = L ∧ x.rows = R :=
      fun x hx => hall x (List.mem_append_left _ hx)
    have hb := hall b (by simp)
    have hf0 := ih hall0
    obtain ⟨⟨i1, i2, i3, _, i5, i6⟩, j2, _⟩ := run_lists self self1 junk hs segs
    obtain ⟨_, _, h3, h4⟩ := start_lists self self1 hs
    obtain ⟨_, c2, c3⟩ := start_config self self1 hs
    have hn1 : self1.m_qListQVectorPreStimAve.length = self1.m_qListStimChannelIdcs.length := by
      rw [h3]; simp
    have hn2 : self1.m_qListQVectorPostStimAve.length = self1.m_qListStimChannelIdcs.length := by
      rw [h4]; simp
    obtain ⟨l, hl⟩ := detectFrom_total b (by omega) self1.m_qListStimChannelIdcs 0 []
      (fun idx h => by rw [hb.2]; exact hidx idx h)
    have hd : detectStimuli (self.run junk segs).self.m_qListStimChannelIdcs b = .ok l := by
      rw [i1]; exact hl
    have hact : activeSet self1.m_qListStimChannelIdcs b = l := activeSet_of_ok _ _ _ hl
    obtain ⟨k1, k2, k3⟩ := ready_history self self1 junk hs L hL hnw segs b
      (fun x hx => (hall x hx).1) hf0
    rw [hact] at k3
    rw [run_snoc, runStep_eval junk _ b l hf0 hd, k1, i5, i6, c2, c3]
    by_cases hr : windowReady L ((self.run junk segs).t_qListRawMatBuf.length + 1)
        self.m_iPreStimSamples self.m_iPostStimSamples = true
    · rw [if_pos hr]
      obtain ⟨hdrop, hlen⟩ := k3 (k2.mp hr)
      have hK3 : 3 ≤ windowSize self.m_iPreStimSamples self.m_iPostStimSamples L :=
        Nat.le_add_left 3 _
      have hmem : ∀ x ∈ (self.run junk segs).t_qListRawMatBuf ++ [(l, b)],
          x.2.cols = L ∧ x.2.rows = R := by
        intro x hx
        rw [hdrop] at hx
        have hx' := List.mem_of_mem_drop hx
        unfold entries at hx'
        obtain ⟨b', hb', rfl⟩ := List.mem_map.mp hx'
        exact hall b' hb'
      obtain ⟨mid, prev, hmid, _, hav⟩ := average_of_mid_pos junk { self.run junk segs with
          t_nSamplesPerBuf := L, count := (self.run junk segs).count + 1,
          t_qListRawMatBuf := (self.run junk segs).t_qListRawMatBuf ++ [(l, b)] }
        (by
          have : ((self.run junk segs).t_qListRawMatBuf ++ [(l, b)]).length / 2 ≥ 1 := by
            rw [hlen]; omega
          exact this)
      have hmidmem : mid ∈ (self.run junk segs).t_qListRawMatBuf ++ [(l, b)] :=
        List.getElem?_mem hmid
      have hmidlt : ∀ s ∈ mid.1, s < self1.m_qListStimChannelIdcs.length := by
        rcases List.mem_append.mp hmidmem with h | h
        · exact (detectStimuli_sorted _ _ _ (j2 mid h)).2
        · rw [List.mem_singleton.mp h]
          exact (detectStimuli_sorted _ _ _ hl).2
      have hlive := confirmLoop_room_live junk prev.1
        ((self.run junk segs).t_qListRawMatBuf ++ [(l, b)]) L R mid hL
        (fun x hx => (hmem x hx).1) (fun x hx => (hmem x hx).2) hmid mid.1
        { self.run junk segs with
          t_nSamplesPerBuf := L, count := (self.run junk segs).count + 1,
          t_qListRawMatBuf := (self.run junk segs).t_qListRawMatBuf ++ [(l, b)] } rfl
        (by
          show ∀ idx ∈ (self.run junk segs).self.m_qListStimChannelIdcs, idx < R
          rw [i1]; exact hidx)
        (by
          show (self.run junk segs).self.m_qListQVectorPreStimAve.length
            = (self.run junk segs).self.m_qListStimChannelIdcs.length
          rw [i2, i1]; exact hn1)
        (by
          show (self.run junk segs).self.m_qListQVectorPostStimAve.length
            = (self.run junk segs).self.m_qListStimChannelIdcs.length
          rw [i3, i1]; exact hn2)
        (by
          show (self.run junk segs).self.m_iPreStimSamples = 0 ∨ _
          rw [i5, i6, c2, c3, hlen]
          exact hroom)
        (by
          show ∀ s ∈ mid.1, s < (self.run junk segs).self.m_qListStimChannelIdcs.length
          rw [i1]; exact hmidlt)
        hf0
      rw [← hav] at hlive
      rw [if_neg (by rw [hlive]; simp)]
      exact hlive
    · rw [if_neg hr]
      exact hf0

theorem assembly_room_complete (pre post : Nat) (idcs : List Nat) (junk : Nat → Nat → ℚ)
    (hist : List RawMatBuf) (stim L R rowIdx : Nat) (mid : RawMatBuf) (hL : 1 ≤ L)
    (hw : ∀ e ∈ hist, e.2.cols = L) (hr : ∀ e ∈ hist, e.2.rows = R)
    (hmid : hist[hist.length / 2]? = some mid) (hrow : idcs[stim]? = some rowIdx)
    (hrowlt : rowIdx < R) (h1 : pre ≤ hist.length / 2 * L)
    (h2 : post ≤ (hist.length - 1 - hist.length / 2) * L) :
    ∃ pos m1 w1 m2 w2, mid.2.rowMaxPos rowIdx = .ok pos ∧ pos < L
      ∧ preStimMatrix pre idcs junk hist stim = .ok (m1, w1)
      ∧ postStimMatrix post idcs junk hist stim = .ok (m2, w2)
      ∧ m1.cols = pre ∧ m2.cols = post := by
  have hmem : mid ∈ hist := List.getElem?_mem hmid
  have hpos := rowMaxPos_ok mid.2 rowIdx (by rw [hr mid hmem]; exact hrowlt)
    (by rw [hw mid hmem]; exact hL)
  have hle := maxVisitor_le (mid.2.coeff rowIdx) (mid.2.cols - 1)
  have hcols := hw mid hmem
  have hsucc : (hist.length / 2 + 1) * L = hist.length / 2 * L + L := Nat.succ_mul _ L
  obtain ⟨m1, w1, hm1, _, c1, _⟩ := preStimMatrix_spec pre idcs junk hist stim L R rowIdx _ mid
    hw hr hmid hrow hpos (by split <;> omega)
  obtain ⟨m2, w2, hm2, _, c2, _⟩ := postStimMatrix_spec post idcs junk hist stim L R rowIdx mid
    hL hw hr hmid hrow hrowlt h2
  exact ⟨_, m1, w1, m2, w2, hpos, by omega, hm1, hm2, c1, c2⟩

theorem symmetric_room (p L : Nat) (hL : 1 ≤ L) :
    p < windowSize p p L / 2 * L
    ∧ p < (windowSize p p L - 1 - windowSize p p L / 2) * L := by
  unfold windowSize
  have hdm := Nat.div_add_mod (p + p) L
  have hml := Nat.mod_lt (p + p) hL
  obtain ⟨q, hq⟩ : ∃ q, q = (p + p) / L := ⟨_, rfl⟩
  rw [← hq] at hdm ⊢
  have e1 : q + 2 ≤ 2 * ((q + 3) / 2) := by omega
  have e2 : q + 1 ≤ 2 * (q + 3 - 1 - (q + 3) / 2) := by omega
  have m1 := Nat.mul_le_mul_right L e1
  have m2 := Nat.mul_le_mul_right L e2
  have x1 : (q + 2) * L = L * q + 2 * L := by ring
  have x2 : (q + 1) * L = L * q + L := by ring
  have x3 : 2 * ((q + 3) / 2) * L = 2 * ((q + 3) / 2 * L) := by ring
  have x4 : 2 * (q + 3 - 1 - (q + 3) / 2) * L = 2 * ((q + 3 - 1 - (q + 3) / 2) * L) := by ring
  rw [x1, x3] at m1
  rw [x2, x4] at m2
  constructor <;> omega

/-- C24, counterexample: symmetric epochs with `p = 2^31 - 2` and blocks of 4
samples. `floor(2p / L) + 3` is 1073741826, but the right-hand side of the
window test wraps to 4 and the test succeeds with two entries in the history.
The trigger in block 1 is confirmed at that step and the pre-stimulus assembly
walks past block 0: the run ends with a list index fault. -/
theorem symmetric_window_wraps :
    windowSize 2147483646 2147483646 4 = 1073741826
    ∧ windowReady 4 2 2147483646 2147483646 = true
    ∧ ((RtAve.new 2147483646 2147483646 exampleInfo).run exampleJunk
        (pulseStream 4 [1] 1 2)).confirmed = [ConfirmedEvent.mk 2 2 1 0]
    ∧ ((RtAve.new 2147483646 2147483646 exampleInfo).run exampleJunk
        (pulseStream 4 [1] 1 2)).fault = some Fault.listIndex := by
  decide

/-- C24, amended. For symmetric epochs `preStimSamples = postStimSamples = p`
(any `p`, in particular `p ≥ 1`) and block length `L ≥ 1` such that the window
test does not wrap (`2 * p + 3 * L < 2^32`), with `K = floor(2p / L) + 3`: the
`midIndex` blocks before the middle block and the `K - 1 - midIndex` blocks
after it each hold more than `p` samples. Hence over every history of `K`
blocks of width `L` and every stimulus row, whatever its arg-max position (0
included, where both loops start at the middle block), both assemblers
complete, which in the embedding means that every block index they read is
within `0 .. K - 1`; and a run over blocks of one shape in which every stimulus
channel exists has `K` entries in the history at every ready step and never
faults. -/
theorem symmetric_window_safe (p L : Nat) (hL : 1 ≤ L) (hnw : p + p + 3 * L < 4294967296) :
    p < windowSize p p L / 2 * L
    ∧ p < (windowSize p p L - 1 - windowSize p p L / 2) * L
    ∧ (∀ (idcs : List Nat) (junk : Nat → Nat → ℚ) (hist : List RawMatBuf)
        (stim R rowIdx : Nat) (mid : RawMatBuf),
        hist.length = windowSize p p L → (∀ e ∈ hist, e.2.cols = L) →
        (∀ e ∈ hist, e.2.rows = R) → hist[hist.length / 2]? = some mid →
        idcs[stim]? = some rowIdx → rowIdx < R →
        ∃ pos m1 w1 m2 w2, mid.2.rowMaxPos rowIdx = .ok pos ∧ pos < L
          ∧ preStimMatrix p idcs junk hist stim = .ok (m1, w1)
          ∧ postStimMatrix p idcs junk hist stim = .ok (m2, w2)
          ∧ m1.cols = p ∧ m2.cols = p)
    ∧ (∀ (self self1 : RtAve) (junk : Nat → Nat → ℚ) (R : Nat) (segs : List MatrixXd)
        (b : MatrixXd),
        self.m_iPreStimSamples = p → self.m_iPostStimSamples = p →
        self.start = .ok self1 → (∀ idx ∈ self1.m_qListStimChannelIdcs, idx < R) →
        (∀ x ∈ segs ++ [b], x.cols = L ∧ x.rows = R) →
        (self.run junk (segs ++ [b])).fault = none
        ∧ (windowReady (self.run junk (segs ++ [b])).t_nSamplesPerBuf
              ((self.run junk segs).t_qListRawMatBuf.length + 1) p p = true →
            (self.run junk segs).t_qListRawMatBuf.length + 1 = windowSize p p L)) := by
  obtain ⟨r1, r2⟩ := symmetric_room p L hL
  refine ⟨r1, r2, ?_, ?_⟩
  · intro idcs junk hist stim R rowIdx mid hlen hw hr hmid hrow hrowlt
    exact assembly_room_complete p p idcs junk hist stim L R rowIdx mid hL hw hr hmid hrow
      hrowlt (by rw [hlen]; exact le_of_lt r1) (by rw [hlen]; exact le_of_lt r2)
  · intro self self1 junk R segs b e1 e2 hs hidx hall
    have hnw' : self.m_iPreStimSamples + self.m_iPostStimSamples + 3 * L < 4294967296 := by
      rw [e1, e2]; exact hnw
    have hlive := run_room_live self self1 junk hs L R hL hnw' hidx
      (Or.inr (by rw [e1, e2]; exact ⟨le_of_lt r1, le_of_lt r2⟩))
    have hf0 := hlive segs (fun x hx => hall x (List.mem_append_left _ hx))
    refine ⟨hlive (segs ++ [b]) hall, ?_⟩
    intro hr
    obtain ⟨k1, k2, k3⟩ := ready_history self self1 junk hs L hL hnw' segs b
      (fun x hx => (hall x hx).1) hf0
    rw [run_snoc, (runStep_spec junk _ b hf0).2.1, k1] at hr
    rw [e1, e2] at k2 k3
    have := (k3 (k2.mp hr)).2
    simpa using this

/-- C24, instance: one pre- and one post-stimulus sample, blocks of two
samples (a window of four blocks). -/
theorem symmetric_window_safe_witness :
    1 ≤ 2 ∧ 1 + 1 + 3 * 2 < 4294967296
    ∧ 1 < windowSize 1 1 2 / 2 * 2
    ∧ 1 < (windowSize 1 1 2 - 1 - windowSize 1 1 2 / 2) * 2
    ∧ (∀ (idcs : List Nat) (junk : Nat → Nat → ℚ) (hist : List RawMatBuf)
        (stim R rowIdx : Nat) (mid : RawMatBuf),
        hist.length = windowSize 1 1 2 → (∀ e ∈ hist, e.2.cols = 2) →
        (∀ e ∈ hist, e.2.rows = R) → hist[hist.length / 2]? = some mid →
        idcs[stim]? = some rowIdx → rowIdx < R →
        ∃ pos m1 w1 m2 w2, mid.2.rowMaxPos rowIdx = .ok pos ∧ pos < 2
          ∧ preStimMatrix 1 idcs junk hist stim = .ok (m1, w1)
          ∧ postStimMatrix 1 idcs junk hist stim = .ok (m2, w2)
          ∧ m1.cols = 1 ∧ m2.cols = 1)
    ∧ (exEngine.run exampleJunk (exSegs ++ [exBlock])).fault = none
    ∧ (windowReady (exEngine.run exampleJunk (exSegs ++ [exBlock])).t_nSamplesPerBuf
          ((exEngine.run exampleJunk exSegs).t_qListRawMatBuf.length + 1) 1 1 = true →
        (exEngine.run exampleJunk exSegs).t_qListRawMatBuf.length + 1 = windowSize 1 1 2) :=
  ⟨by decide, by decide, (symmetric_window_safe 1 2 (by decide) (by decide)).1,
    (symmetric_window_safe 1 2 (by decide) (by decide)).2.1,
    (symmetric_window_safe 1 2 (by decide) (by decide)).2.2.1,
    (symmetric_window_safe 1 2 (by decide) (by decide)).2.2.2 exEngine (exampleEngine 1 1)
      exampleJunk 2 exSegs exBlock rfl rfl rfl (by decide) (by decide)⟩

/-- C21, counterexample: blocks of two samples with a trigger at column 1 of
the middle block of the ready window. With `preStimSamples = 8`,
`postStimSamples = 0` (window of 7 blocks, middle index 3) the pre-stimulus
assembly walks past block 0; with `preStimSamples = 1`, `postStimSamples = 9`
(window of 8 blocks, middle index 4) the post-stimulus assembly walks past
block 7. Both runs end with a list index fault at the first ready step. -/
theorem asymmetric_window_walks_off :
    windowReady 2 7 8 0 = true
    ∧ ((RtAve.new 8 0 exampleInfo).run exampleJunk (pulseStream 2 [3] 1 7)).fault
        = some Fault.listIndex
    ∧ ((RtAve.new 8 0 exampleInfo).run exampleJunk (pulseStream 2 [3] 1 7)).confirmed
        = [ConfirmedEvent.mk 7 7 3 0]
    ∧ windowReady 2 8 1 9 = true
    ∧ ((RtAve.new 1 9 exampleInfo).run exampleJunk (pulseStream 2 [4] 1 8)).fault
        = some Fault.listIndex
    ∧ ((RtAve.new 1 9 exampleInfo).run exampleJunk (pulseStream 2 [4] 1 8)).confirmed
        = [ConfirmedEvent.mk 8 8 4 0] := by
  decide

/-- C21, amended. For block length `L ≥ 1` in a configuration in which the
window test does not wrap (`pre + post + 3 * L < 2^32`), with
`K = floor((preStimSamples + postStimSamples) / L) + 3` the history size at
every ready step and `midIndex = K / 2`: if the blocks before the middle block
hold at least `preStimSamples` samples and the blocks after it at least
`postStimSamples` samples, then over every history of `K` blocks of width `L`
both assemblers complete for every stimulus row and every arg-max position,
and a run over blocks of one shape in which every stimulus channel exists
never faults. -/
theorem balanced_window_sufficient (pre post L : Nat) (hL : 1 ≤ L)
    (hnw : pre + post + 3 * L < 4294967296)
    (hb1 : pre ≤ windowSize pre post L / 2 * L)
    (hb2 : post ≤ (windowSize pre post L - 1 - windowSize pre post L / 2) * L) :
    (∀ (idcs : List Nat) (junk : Nat → Nat → ℚ) (hist : List RawMatBuf)
        (stim R rowIdx : Nat) (mid : RawMatBuf),
        hist.length = windowSize pre post L → (∀ e ∈ hist, e.2.cols = L) →
        (∀ e ∈ hist, e.2.rows = R) → hist[hist.length / 2]? = some mid →
        idcs[stim]? = some rowIdx → rowIdx < R →
        ∃ pos m1 w1 m2 w2, mid.2.rowMaxPos rowIdx = .ok pos ∧ pos < L
          ∧ preStimMatrix pre idcs junk hist stim = .ok (m1, w1)
          ∧ postStimMatrix post idcs junk hist stim = .ok (m2, w2)
          ∧ m1.cols = pre ∧ m2.cols = post)
    ∧ (∀ (self self1 : RtAve) (junk : Nat → Nat → ℚ) (R : Nat) (segs : List MatrixXd)
        (b : MatrixXd),
        self.m_iPreStimSamples = pre → self.m_iPostStimSamples = post →
        self.start = .ok self1 → (∀ idx ∈ self1.m_qListStimChannelIdcs, idx < R) →
        (∀ x ∈ segs ++ [b], x.cols = L ∧ x.rows = R) →
        (self.run junk (segs ++ [b])).fault = none
        ∧ (windowReady L ((self.run junk segs).t_qListRawMatBuf.length + 1) pre post = true →
            ((self.run junk segs).t_qListRawMatBuf
              ++ [(activeSet self1.m_qListStimChannelIdcs b, b)]).length
              = windowSize pre post L)) := by
  refine ⟨?_, ?_⟩
  · intro idcs junk hist stim R rowIdx mid hlen hw hr hmid hrow hrowlt
    exact assembly_room_complete pre post idcs junk hist stim L R rowIdx mid hL hw hr hmid hrow
      hrowlt (by rw [hlen]; exact hb1) (by rw [hlen]; exact hb2)
  · intro self self1 junk R segs b e1 e2 hs hidx hall
    have hnw' : self.m_iPreStimSamples + self.m_iPostStimSamples + 3 * L < 4294967296 := by
      rw [e1, e2]; exact hnw
    have hlive := run_room_live self self1 junk hs L R hL hnw' hidx
      (Or.inr (by rw [e1, e2]; exact ⟨hb1, hb2⟩))
    refine ⟨hlive (segs ++ [b]) hall, ?_⟩
    intro hr
    obtain ⟨_, k2, k3⟩ := ready_history self self1 junk hs L hL hnw' segs b
      (fun x hx => (hall x hx).1) (hlive segs (fun x hx => hall x (List.mem_append_left _ hx)))
    rw [e1, e2] at k2 k3
    exact (k3 (k2.mp hr)).2

/-- C21, instance: two pre- and three post-stimulus samples, blocks of two
samples (a window of five blocks, middle index 2). -/
theorem balanced_window_sufficient_witness :
    1 ≤ 2 ∧ 2 + 3 + 3 * 2 < 4294967296 ∧ 2 ≤ windowSize 2 3 2 / 2 * 2
    ∧ 3 ≤ (windowSize 2 3 2 - 1 - windowSize 2 3 2 / 2) * 2
    ∧ (∀ (idcs : List Nat) (junk : Nat → Nat → ℚ) (hist : List RawMatBuf)
        (stim R rowIdx : Nat) (mid : RawMatBuf),
        hist.length = windowSize 2 3 2 → (∀ e ∈ hist, e.2.cols = 2) →
        (∀ e ∈ hist, e.2.rows = R) → hist[hist.length / 2]? = some mid →
        idcs[stim]? = some rowIdx → rowIdx < R →
        ∃ pos m1 w1 m2 w2, mid.2.rowMaxPos rowIdx = .ok pos ∧ pos < 2
          ∧ preStimMatrix 2 idcs junk hist stim = .ok (m1, w1)
          ∧ postStimMatrix 3 idcs junk hist stim = .ok (m2, w2)
          ∧ m1.cols = 2 ∧ m2.cols = 3)
    ∧ ((RtAve.new 2 3 exampleInfo).run exampleJunk
        (pulseStream 2 [2] 1 4 ++ [pulseBuf 2 [2] 1 4])).fault = none :=
  ⟨by decide, by decide, by decide, by decide,
    (balanced_window_sufficient 2 3 2 (by decide) (by decide) (by decide) (by decide)).1,
    ((balanced_window_sufficient 2 3 2 (by decide) (by decide) (by decide) (by decide)).2
      (RtAve.new 2 3 exampleInfo) (exampleEngine 2 3) exampleJunk 2 (pulseStream 2 [2] 1 4)
      (pulseBuf 2 [2] 1 4) rfl rfl rfl (by decide) (by decide)).1⟩

end RTINVLIB
